import Mathlib

/-! # Ghoul: the shader preprocessor, OpenGL versions, texture units and fonts

A shallow embedding of `ghoul::opengl::ShaderPreprocessor`
(`src/opengl/shaderpreprocessor.cpp`) and theorems about it, followed by the version
comparison of `src/systemcapabilities/openglcapabilitiescomponent.cpp`, the unit
bookkeeping of `src/opengl/textureunit.cpp` and `operator==` of `src/font/font.cpp`.

* `std::string` is `List Char`; positions are `Nat`, and `std::string::npos` is
  `2 ^ 64 - 1` where the source does arithmetic on it (`tokenizeFor`).
* `std::vector` is a list whose last element is `back()`.
* `std::map<std::string, std::vector<std::string>>` (the alias table, never iterated by
  the source) is a function `Str → Option (List Str)`; `std::map<std::string,
  std::string>` and `std::set<std::string>` (both iterated) are lists kept in strictly
  ascending key order.
* An `std::ifstream` is the bytes of the file, the get position and the two state bits
  `eofbit`, `failbit` (C++11 stream semantics).
* The Dictionary, the file system and the initial line number of an `Input` are not
  defined by the translated file; they are parameters (`Dictionary`, `FileSys`,
  `ShaderPreprocessor.initialLineNumber`).
* `includeFile` and `parseLine` call each other without bound (a file may include itself),
  so the embedding takes fuel; `Res.outOfFuel` is not a result of the program.
* An `int` is an `Int`; the `unsigned int` that `packVersion` returns is taken modulo
  `2 ^ 32`. A `float` is the rational number it holds.
-/

namespace Ghoul

/-- A `std::string`. -/
abbrev Str := List Char

/-- The double quote character. -/
def dquote : Char := '\x22'

/-- The character that starts a directive or a substitution. -/
def hashChar : Char := '#'

/-- The opening brace. -/
def lbrace : Char := '\x7b'

/-- The closing brace. -/
def rbrace : Char := '\x7d'

/-- The whitespace set `" \n\r\t"` of `trim`, `parseInclude` and `tokenizeFor`. -/
def ws : Str := [' ', '\n', '\r', '\t']

/-- The value `std::string::npos` (`size_t(-1)` on a 64 bit target). -/
def npos : Nat := 2 ^ 64 - 1

/-- Addition of `size_t` values. -/
def sizeAdd (a b : Nat) : Nat := (a + b) % 2 ^ 64

/-- The `size_t` a `find` family function returns: the index, or `npos`. -/
def optPos (o : Option Nat) : Nat := o.getD npos

/-- The call `s.find(pat)`: index of the first occurrence of `pat` in `s`. -/
def strFind (pat : Str) : Str → Option Nat
  | [] => if pat.isPrefixOf [] then some 0 else none
  | c :: cs =>
    if pat.isPrefixOf (c :: cs) then some 0 else (strFind pat cs).map (· + 1)

/-- The call `s.find_first_of(set)`. -/
def findFirstOf (set : Str) : Str → Option Nat
  | [] => none
  | c :: cs => if c ∈ set then some 0 else (findFirstOf set cs).map (· + 1)

/-- The call `s.find_first_not_of(set)`. -/
def findFirstNotOf (set : Str) : Str → Option Nat
  | [] => none
  | c :: cs => if c ∈ set then (findFirstNotOf set cs).map (· + 1) else some 0

/-- The call `s.find_last_not_of(set)`. -/
def findLastNotOf (set : Str) : Str → Option Nat
  | [] => none
  | c :: cs =>
    match findLastNotOf set cs with
    | some i => some (i + 1)
    | none => if c ∈ set then none else some 0

/-- The call `s.find_first_of(set, pos)`. -/
def findFirstOfFrom (set : Str) (s : Str) (pos : Nat) : Option Nat :=
  (findFirstOf set (s.drop pos)).map (· + pos)

/-- The call `s.find_first_not_of(set, pos)`. -/
def findFirstNotOfFrom (set : Str) (s : Str) (pos : Nat) : Option Nat :=
  (findFirstNotOf set (s.drop pos)).map (· + pos)

/-- The call `s.substr(pos, len)` where `pos <= s.size()` is known. -/
def substr (s : Str) (pos len : Nat) : Str := (s.drop pos).take len

/-- The call `s.substr(pos)`, which throws `std::out_of_range` (here `none`) when
`pos > s.size()`. -/
def substrFrom (s : Str) (pos : Nat) : Option Str :=
  if s.length < pos then none else some (s.drop pos)

/-- The `count` characters `substr(pos, count)` takes from the characters at `pos` on:
all of them when `count` is `npos`. -/
def takeCount (count : Nat) (s : Str) : Str :=
  if count = npos then s else s.take count

/-- Decimal rendering of a number by `operator<<`. -/
def natStr (n : Nat) : Str := Nat.toDigits 10 n

/-- The function `isString` of the source: longer than one character and delimited by
double quotes. -/
def isString (str : Str) : Bool :=
  decide (str.length > 1) && (str.head? == some dquote) && (str.getLast? == some dquote)

/-- The function `trim` with both optional outputs: `(before, result, after)`. When the
string has no non-whitespace character, `startPos = 0` and `endPos = length`, so the
string is returned whole. -/
def trimParts (str : Str) : Str × Str × Str :=
  let startPos := (findFirstNotOf ws str).getD 0
  let endPos := match findLastNotOf ws str with
    | none => str.length
    | some e => e + 1
  let length := endPos - startPos
  (str.take startPos, substr str startPos length, str.drop endPos)

/-- The value `trim(str)`. -/
def trim (str : Str) : Str := (trimParts str).2.1

/-- Order of `std::string` keys in `std::map` and `std::set`. -/
def strLt : Str → Str → Bool
  | [], [] => false
  | [], _ :: _ => true
  | _ :: _, [] => false
  | a :: as, b :: bs =>
    if a.toNat < b.toNat then true
    else if b.toNat < a.toNat then false
    else strLt as bs

/-- The call `scope.insert(key)` on a `std::set<std::string>`. -/
def setInsert (key : Str) : List Str → List Str
  | [] => [key]
  | x :: xs =>
    if key = x then x :: xs
    else if strLt key x then key :: x :: xs
    else x :: setInsert key xs

/-- The assignment `table[key] = value` on a `std::map<std::string, std::string>`. -/
def mapAssign (key value : Str) : List (Str × Str) → List (Str × Str)
  | [] => [(key, value)]
  | (k, v) :: rest =>
    if key = k then (k, value) :: rest
    else if strLt key k then (key, value) :: (k, v) :: rest
    else (k, v) :: mapAssign key value rest

/-- What the preprocessor asks of `ghoul::Dictionary`. -/
structure Dictionary where
  /-- The call `hasKey(path)`. -/
  hasKey : Str → Bool
  /-- The call `hasValue<std::string>(path)`. -/
  hasValueString : Str → Bool
  /-- The string `getValue(path, out)` stores in `out` when it succeeds. -/
  getValueString : Str → Str
  /-- The list `value<Dictionary>(path).keys()`. -/
  valueKeys : Str → List Str

/-- What the preprocessor asks of the file system and of `ghoul::filesystem::File`. -/
structure FileSys where
  /-- The macro `absPath`. -/
  absPath : Str → Str
  /-- The call `FileSys.fileExists(path)`. -/
  fileExists : Str → Bool
  /-- The bytes `std::ifstream(path)` reads; `none` when `is_open()` is false. -/
  openStream : Str → Option Str
  /-- The call `File(path).directoryName()`. -/
  directoryName : Str → Str
  /-- The call `File(path).filename()`. -/
  filename : Str → Str
  /-- The call `File(path).path()`. -/
  filePath : Str → Str
  /-- The constant `FileSystem::PathSeparator`. -/
  pathSeparator : Char

/-- The members of a `ShaderPreprocessor` that `process` reads, with the parameters of the
embedding. -/
structure ShaderPreprocessor where
  /-- The member `_shaderPath`. -/
  shaderPath : Str
  /-- The member `_dictionary`. -/
  dictionary : Dictionary
  /-- The member `_includePaths`. -/
  includePaths : List Str
  /-- The file system. -/
  fs : FileSys
  /-- The line number a new `Input` starts with. -/
  initialLineNumber : Nat

/-- One open stream: `ShaderPreprocessor::Input`. -/
structure Input where
  /-- The path `file` was constructed from. -/
  path : Str
  /-- The bytes behind `stream`. -/
  content : Str
  /-- The get position of `stream`. -/
  pos : Nat
  /-- The state bit `eofbit` of `stream`. -/
  eofbit : Bool
  /-- The state bit `failbit` of `stream`. -/
  failbit : Bool
  /-- The member `indentation`. -/
  indentation : Str
  /-- The member `lineNumber`. -/
  lineNumber : Nat
deriving DecidableEq, Repr

/-- One open loop: `ShaderPreprocessor::ForStatement`. -/
structure ForStatement where
  /-- Index in `env.inputs` of the Input that holds the `#for`. -/
  inputIndex : Nat
  /-- Line number of the Input right after the `#for` line was read. -/
  lineNumber : Nat
  /-- Result of `tellg()` right after the `#for` line was read. -/
  streamPos : Int
  /-- Name of the key variable. -/
  keyName : Str
  /-- Name of the value variable. -/
  valueName : Str
  /-- The resolved dictionary path. -/
  dictionaryRef : Str
  /-- Index of the current key, `-1` for a loop without keys. -/
  keyIndex : Int
deriving DecidableEq, Repr

/-- The alias table `std::map<std::string, std::vector<std::string>>`. -/
abbrev Aliases := Str → Option (List Str)

/-- The processing context `ShaderPreprocessor::Env`, with the two pieces of state that
live outside it in the source: the messages passed to `LERROR` and the member
`_trackedFiles`. -/
structure Env where
  /-- The text written to `env.output`. -/
  output : Str
  /-- The member `inputs`. -/
  inputs : List Input
  /-- The member `scopes`. -/
  scopes : List (List Str)
  /-- The member `forStatements`. -/
  forStatements : List ForStatement
  /-- The member `aliases`. -/
  aliases : Aliases
  /-- The member `line`. -/
  line : Str
  /-- The member `indentation`. -/
  indentation : Str
  /-- The member `success`. -/
  success : Bool
  /-- The messages logged with `LERROR`, oldest first. -/
  log : List Str
  /-- The keys of `_trackedFiles`. -/
  trackedFiles : List Str

/-- Modelled from the spec: the header that declares `Env` and its constructor is absent;
the context starts with empty stacks, an empty alias table, empty output and the success
flag set. -/
def Env.initial (tracked : List Str) : Env :=
  { output := [], inputs := [], scopes := [], forStatements := [],
    aliases := fun _ => none, line := [], indentation := [], success := true,
    log := [], trackedFiles := tracked }

/-- Result of a function of the embedding that may run out of fuel or leave `process`
abnormally (an uncaught `std::out_of_range`, or `back()` of an empty vector). -/
inductive Res (α : Type) where
  | ok (a : α)
  | crash
  | outOfFuel
deriving DecidableEq

/-- The assignment `aliases[key] = st`. -/
def aliasesSet (al : Aliases) (key : Str) (st : List Str) : Aliases :=
  fun k => if k = key then some st else al k

/-- The call `aliases.erase(key)`. -/
def aliasesErase (al : Aliases) (key : Str) : Aliases :=
  fun k => if k = key then none else al k

/-- Replace `back()` of a vector. -/
def setBack {α : Type} (xs : List α) (x : α) : List α := xs.dropLast ++ [x]

/-- The statement `LERROR(msg)`. -/
def logError (env : Env) (msg : Str) : Env := { env with log := env.log ++ [msg] }

/-- The function `debugString`. -/
def debugString (sp : ShaderPreprocessor) (env : Env) : Str :=
  match env.inputs.getLast? with
  | some input => sp.fs.filePath input.path ++ ":".toList ++ natStr input.lineNumber
  | none => []

/-- The literal `#include`. -/
def includeString : Str := "#include".toList

/-- The literal `#for`. -/
def forString : Str := "#for".toList

/-- The literal `in`. -/
def inString : Str := "in".toList

/-- The literal `#endfor`. -/
def endForString : Str := "#endfor".toList

/-- The literal that opens a substitution. -/
def openString : Str := [hashChar, lbrace]

/-- What `std::getline` extracts from the remaining bytes: the line, the number of bytes
consumed (the newline included) and whether the end of the bytes was hit. -/
def splitLine : Str → Str × Nat × Bool
  | [] => ([], 0, true)
  | c :: cs =>
    if c = '\n' then ([], 1, false)
    else
      let r := splitLine cs
      (c :: r.1, r.2.1 + 1, r.2.2)

/-- The call `std::getline(*input.stream, line)`: whether it succeeded, the new value of
`line` and the new stream state. A stream that is not `good()` fails at once; at the end
of the bytes nothing is extracted, which sets `eofbit` and `failbit`. -/
def getline (input : Input) (line : Str) : Bool × Str × Input :=
  if input.eofbit || input.failbit then (false, line, { input with failbit := true })
  else if input.content.length ≤ input.pos then
    (false, [], { input with eofbit := true, failbit := true })
  else
    let r := splitLine (input.content.drop input.pos)
    (true, r.1, { input with pos := input.pos + r.2.1, eofbit := r.2.2 })

/-- The call `input.stream->tellg()`: `-1` (and `failbit`) on a stream that is not
`good()`. -/
def tellg (input : Input) : Int × Input :=
  if input.eofbit || input.failbit then (-1, { input with failbit := true })
  else ((input.pos : Int), input)

/-- The call `input.stream->seekg(p)` (C++11): clears `eofbit`, then repositions unless
the stream has failed. -/
def seekg (input : Input) (p : Int) : Input :=
  if input.failbit then { input with eofbit := false }
  else if p < 0 then { input with eofbit := false, failbit := true }
  else { input with eofbit := false, pos := p.toNat }

/-- The function `addLineNumber`. -/
def addLineNumber (sp : ShaderPreprocessor) (env : Env) : Res Env :=
  match env.inputs.getLast? with
  | none => .crash
  | some input =>
    .ok { env with output := env.output ++ "#line ".toList ++ natStr input.lineNumber
                      ++ " ".toList ++ sp.fs.filename input.path ++ "\n".toList }

/-- The function `isInsideEmptyForStatement`. -/
def isInsideEmptyForStatement (env : Env) : Bool :=
  match env.forStatements.getLast? with
  | some f => decide (f.keyIndex = -1)
  | none => false

/-- The function `resolveAlias`: the returned flag and the value of `out`. -/
def resolveAlias (sp : ShaderPreprocessor) (inp : Str) (env : Env) : Bool × Str :=
  let parts : Str × Str := match strFind ".".toList inp with
    | some firstDotPos => (inp.take firstDotPos, inp.drop firstDotPos)
    | none => (inp, [])
  let beforeDot : Str := match env.aliases parts.1 with
    | some st => (match st.getLast? with
      | some v => v
      | none => parts.1)
    | none => parts.1
  let out := beforeDot ++ parts.2
  (((parts.2 == []) && isString beforeDot) || sp.dictionary.hasKey out, out)

/-- The function `substitute`: the returned flag, the value of `out` (which the caller
passes in empty) and the environment after logging. -/
def substitute (sp : ShaderPreprocessor) (inp : Str) (env : Env) : Bool × Str × Env :=
  let r := resolveAlias sp inp env
  if !r.1 then
    (false, [], logError env ("Substitution error. Could not resolve variable \x27".toList
      ++ inp ++ "\x27. ".toList ++ debugString sp env))
  else if isString r.2 then (true, substr r.2 1 (r.2.length - 2), env)
  else if sp.dictionary.hasValueString r.2 then (true, sp.dictionary.getValueString r.2, env)
  else
    (false, [], logError env ("Substitution error. \x27".toList ++ inp
      ++ "\x27 was resolved to \x27".toList ++ r.2
      ++ "\x27 which is not of type string. ".toList ++ debugString sp env))

/-- The loop of `substituteLine`, with `line` and `processed` as loop state. Every
iteration removes at least three characters from `line`, so `line.length + 1` units of
fuel are never used up (`substituteLoop_canonical`). -/
def substituteLoop (sp : ShaderPreprocessor) :
    Nat → Str → Str → Env → Bool × Env
  | 0, line, processed, env => (true, { env with line := processed ++ line })
  | fuel + 1, line, processed, env =>
    match strFind openString line with
    | none => (true, { env with line := processed ++ line })
    | some beginOffset =>
      match strFind [rbrace] (line.drop beginOffset) with
      | none =>
        (false, logError { env with line := line }
          ("Parse error. Could not parse line. ".toList ++ debugString sp env))
      | some endOffset =>
        let inp := substr line (beginOffset + 2) (endOffset - 2)
        let r := substitute sp inp { env with line := line }
        substituteLoop sp fuel (line.drop (beginOffset + endOffset + 1))
          (processed ++ line.take beginOffset ++ r.2.1) r.2.2

/-- The function `substituteLine`. The flag returned by `substitute` is not used. -/
def substituteLine (sp : ShaderPreprocessor) (env : Env) : Bool × Env :=
  substituteLoop sp (env.line.length + 1) env.line [] env

/-- The loop of `pushScope` over the entries of the map, in key order. -/
def pushScopeLoop : List (Str × Str) → List Str → Aliases → List Str × Aliases
  | [], scope, al => (scope, al)
  | (key, value) :: rest, scope, al =>
    let al1 : Aliases := match al key with
      | none => aliasesSet al key []
      | some _ => al
    let al2 := aliasesSet al1 key ((al1 key).getD [] ++ [value])
    pushScopeLoop rest (setInsert key scope) al2

/-- The function `pushScope`; it always returns true. -/
def pushScope (map : List (Str × Str)) (env : Env) : Env :=
  let r := pushScopeLoop map [] env.aliases
  { env with aliases := r.2, scopes := env.scopes ++ [r.1] }

/-- The loop of `popScope` over the names of the scope, in key order: `false` as soon as a
name has no entry in the alias table. The test `size() < 0` of the source never holds. -/
def popScopeLoop : List Str → Aliases → Bool × Aliases
  | [], al => (true, al)
  | key :: rest, al =>
    match al key with
    | none => (false, al)
    | some st =>
      let st1 := st.dropLast
      if st1.length = 0 then popScopeLoop rest (aliasesErase al key)
      else popScopeLoop rest (aliasesSet al key st1)

/-- The function `popScope`. -/
def popScope (env : Env) : Bool × Env :=
  match env.scopes.getLast? with
  | none => (false, env)
  | some scope =>
    let r := popScopeLoop scope env.aliases
    if r.1 then (true, { env with aliases := r.2, scopes := env.scopes.dropLast })
    else (false, { env with aliases := r.2 })

/-- Outcome of `tokenizeFor`. -/
inductive Tokens where
  /-- The line does not start with `#for` or is too short: `false`, nothing logged. -/
  | notFor
  /-- The token `in` is missing: `false` after `LERROR`. -/
  | expectedIn
  /-- The three names: `true`. -/
  | tokens (keyName valueName dictionaryName : Str)
deriving DecidableEq, Repr

/-- The function `tokenizeFor`, `none` when one of its `substr` calls throws
`std::out_of_range`. Offsets are `size_t`: a failed search is `npos` and additions wrap. -/
def tokenizeFor (line : Str) : Option Tokens :=
  if line.length < forString.length + inString.length
      ∨ substr line 0 forString.length ≠ forString then some .notFor
  else do
    let firstWsPos := forString.length
    let keyOffset := optPos (findFirstNotOf ws (← substrFrom line firstWsPos))
    let keyPos := sizeAdd firstWsPos keyOffset
    let commaOffset := optPos (findFirstOf ",".toList (← substrFrom line keyPos))
    let commaPos := sizeAdd keyPos commaOffset
    let keyName := trim (takeCount commaOffset (← substrFrom line keyPos))
    let valueOffset := optPos (findFirstNotOf ws (← substrFrom line (sizeAdd commaPos 1)))
    let valuePos := sizeAdd (sizeAdd commaPos 1) valueOffset
    let wsBeforeInOffset := optPos (findFirstOf ws (← substrFrom line valuePos))
    let wsBeforeInPos := sizeAdd valuePos wsBeforeInOffset
    let valueName := trim (takeCount wsBeforeInOffset (← substrFrom line valuePos))
    let inOffset := optPos (findFirstNotOf ws (← substrFrom line wsBeforeInPos))
    let inPos := sizeAdd wsBeforeInPos inOffset
    let atIn ← substrFrom line inPos
    if atIn.length < inString.length + 1 ∨ atIn.take inString.length ≠ inString then
      some .expectedIn
    else do
      let wsBeforeDictionaryPos := sizeAdd inPos inString.length
      let dictionaryOffset :=
        optPos (findFirstNotOf ws (← substrFrom line wsBeforeDictionaryPos))
      let dictionaryPos := sizeAdd wsBeforeDictionaryPos dictionaryOffset
      let endOffset := optPos (findFirstOf ws (← substrFrom line dictionaryPos))
      let dictionaryName := trim (takeCount endOffset (← substrFrom line dictionaryPos))
      some (.tokens keyName valueName dictionaryName)

/-- The function `parseFor`: whether the line was consumed, and the new environment. -/
def parseFor (sp : ShaderPreprocessor) (env : Env) : Res (Bool × Env) :=
  match tokenizeFor env.line with
  | none => .crash
  | some .notFor => .ok (false, env)
  | some .expectedIn =>
    .ok (false, logError env
      ("Parse error. Expected \x27in\x27 in #for statement. ".toList ++ debugString sp env))
  | some (.tokens keyName valueName dictionaryName) =>
    let r := resolveAlias sp dictionaryName env
    if !r.1 then
      .ok (true, { logError env ("Substitution error. Could not resolve variable \x27".toList
        ++ dictionaryName ++ "\x27. ".toList ++ debugString sp env) with success := false })
    else
      let dictionaryRef := r.2
      let keys := sp.dictionary.valueKeys dictionaryRef
      match env.inputs.getLast? with
      | none => .crash
      | some input =>
        let table : List (Str × Str) := match keys.head? with
          | some key0 =>
            mapAssign valueName (dictionaryRef ++ ".".toList ++ key0)
              (mapAssign keyName ([dquote] ++ key0 ++ [dquote]) [])
          | none => []
        let keyIndex : Int := if keys.length > 0 then 0 else -1
        let out : Str := match keys.head? with
          | some key0 =>
            "//# For loop over ".toList ++ dictionaryRef ++ "\n".toList
              ++ "//# Key ".toList ++ key0 ++ " in ".toList ++ dictionaryRef ++ "\n".toList
          | none => "//# Empty for loop\n".toList
        let env1 := pushScope table { env with output := env.output ++ out }
        let t := tellg input
        let forStatement : ForStatement :=
          { inputIndex := env.inputs.length - 1, lineNumber := input.lineNumber,
            streamPos := t.1, keyName := keyName, valueName := valueName,
            dictionaryRef := dictionaryRef, keyIndex := keyIndex }
        .ok (true, { env1 with inputs := setBack env1.inputs t.2,
                               forStatements := env1.forStatements ++ [forStatement] })

/-- The function `parseEndFor`: whether the line was consumed, and the new environment.
The comparison `keyIndex < keys.size()` is unsigned; `keyIndex` is not negative after the
increment. After `pop_back` the source still reads `dictionaryRef` through the reference
to the popped element; the embedding reads the popped record. -/
def parseEndFor (sp : ShaderPreprocessor) (env : Env) : Res (Bool × Env) :=
  if env.line.length > 6 ∧ substr env.line 0 endForString.length = endForString then
    match env.forStatements.getLast? with
    | none =>
      .ok (true, { logError env
        ("Parse error. Unexpected #endfor. No corresponing #for was found.".toList
          ++ debugString sp env) with success := false })
    | some forStatement =>
      if forStatement.inputIndex ≠ env.inputs.length - 1 then
        match env.inputs.get? forStatement.inputIndex with
        | none => .crash
        | some forInput =>
          .ok (true, { logError env
            ("Parse error. Unexpected #endfor. Last seen #for was in ".toList
              ++ sp.fs.filePath forInput.path ++ ":".toList ++ natStr forStatement.lineNumber
              ++ ". ".toList ++ debugString sp env) with success := false })
      else
        let p := popScope env
        let env1 := if p.1 then p.2 else logError p.2
          ("Preprocessor internal error. Failed to pop scope from stack. ".toList
            ++ debugString sp p.2)
        let keyIndex := forStatement.keyIndex + 1
        let keys := sp.dictionary.valueKeys forStatement.dictionaryRef
        match env1.inputs.getLast? with
        | none => .crash
        | some input =>
          if 0 ≤ keyIndex ∧ keyIndex.toNat < keys.length then
            let key := keys.getD keyIndex.toNat []
            let table := mapAssign forStatement.valueName
              (forStatement.dictionaryRef ++ ".".toList ++ key)
              (mapAssign forStatement.keyName ([dquote] ++ key ++ [dquote]) [])
            let env2 := pushScope table env1
            let input1 := { seekg input forStatement.streamPos with
                            lineNumber := forStatement.lineNumber }
            .ok (true, { env2 with
              output := env2.output ++ "//# Key ".toList ++ key ++ " in ".toList
                ++ forStatement.dictionaryRef ++ "\n".toList,
              inputs := setBack env2.inputs input1,
              forStatements :=
                setBack env2.forStatements { forStatement with keyIndex := keyIndex } })
          else
            .ok (true, { env1 with
              forStatements := env1.forStatements.dropLast,
              output := env1.output ++ "//# Terminated loop over ".toList
                ++ forStatement.dictionaryRef ++ "\n".toList })
  else .ok (false, env)

/-- The search of `parseInclude` through `_includePaths`: the first path under which the
file exists. -/
def searchIncludePaths (sp : ShaderPreprocessor) (rel : Str) : List Str → Option Str
  | [] => none
  | includePath :: rest =>
    if sp.fs.fileExists (includePath ++ [sp.fs.pathSeparator] ++ rel) then
      some (includePath ++ [sp.fs.pathSeparator] ++ rel)
    else searchIncludePaths sp rel rest

/-- The file name a quoted include resolves to, if any: next to the including file first,
then through the include paths. -/
def resolveQuoted (sp : ShaderPreprocessor) (input : Input) (rel : Str) : Option Str :=
  let includeFilename := sp.fs.directoryName input.path ++ [sp.fs.pathSeparator] ++ rel
  if sp.fs.fileExists includeFilename then some includeFilename
  else searchIncludePaths sp rel sp.includePaths

/-- Mark the environment as failed after logging `msg`. -/
def failWith (env : Env) (msg : Str) : Env := { logError env msg with success := false }

/-- What `parseInclude` returns after it has called `includeFile`: the line is consumed,
whatever flag `includeFile` returned. -/
def consumed (r : Res (Bool × Env)) : Res (Bool × Env) :=
  match r with
  | .ok r => .ok (true, r.2)
  | .crash => .crash
  | .outOfFuel => .outOfFuel

/-- The function `parseInclude`, given `includeFile`. The flag `includeFile` returns is
not used. -/
def parseInclude (sp : ShaderPreprocessor) (includeFile : Str → Env → Res (Bool × Env))
    (env : Env) : Res (Bool × Env) :=
  let line := env.line
  if line.length > 11 ∧ substr line 0 includeString.length = includeString then
    match findFirstNotOfFrom ws line includeString.length with
    | none =>
      .ok (true, failWith env
        ("Parse error. Expected file path. ".toList ++ debugString sp env))
    | some p1 =>
      if line.get? p1 = some dquote then
        match findFirstOfFrom [dquote] line (p1 + 1) with
        | none => .ok (true, env)
        | some p2 =>
          match env.inputs.getLast? with
          | none => .crash
          | some input =>
            match resolveQuoted sp input (substr line (p1 + 1) (p2 - p1 - 1)) with
            | some includeFilename => consumed (includeFile includeFilename env)
            | none =>
              .ok (true, failWith env
                ("Could not resolve file path for include file \x27".toList
                  ++ substr line (p1 + 1) (p2 - p1 - 1) ++ "\x27".toList))
      else if line.get? p1 = some '<' then
        match findFirstOfFrom ">".toList line (p1 + 1) with
        | none =>
          .ok (true, failWith env
            ("Parse error. Expected >. ".toList ++ debugString sp env))
        | some p2 =>
          consumed (includeFile (sp.fs.absPath (substr line (p1 + 1) (p2 - p1 - 1))) env)
      else
        .ok (true, failWith env
          ("Parse error. Expected ".toList ++ [dquote] ++ " or <. ".toList
            ++ debugString sp env))
  else .ok (false, env)

/-- The function `trackPath`: a path is entered only when it is already a key of
`_trackedFiles`, where `emplace` leaves the map as it is; the result is always true. -/
def trackPath (env : Env) (path : Str) : Bool × Env :=
  if path ∈ env.trackedFiles then
    (true, { env with trackedFiles :=
      if path ∈ env.trackedFiles then env.trackedFiles else setInsert path env.trackedFiles })
  else (true, env)

/-- The function `clearTrackedPaths`. -/
def clearTrackedPaths (env : Env) : Env := { env with trackedFiles := [] }

/-- The part of `parseLine` after the line has been read, counted and trimmed: `input` is
the `Input` the line was read from and `env` holds the trimmed line and its indentation. -/
def dispatchLine (sp : ShaderPreprocessor) (includeFile : Str → Env → Res (Bool × Env))
    (input : Input) (env : Env) : Res (Bool × Env) :=
  match parseEndFor sp env with
  | .crash => .crash
  | .outOfFuel => .outOfFuel
  | .ok e =>
    if isInsideEmptyForStatement e.2 then .ok (true, e.2)
    else
      let s := substituteLine sp e.2
      if !s.1 then .ok (false, s.2)
      else if e.1 then .ok (true, s.2)
      else
        match parseInclude sp includeFile s.2 with
        | .crash => .crash
        | .outOfFuel => .outOfFuel
        | .ok i =>
          if i.1 then .ok (true, i.2)
          else
            match parseFor sp i.2 with
            | .crash => .crash
            | .outOfFuel => .outOfFuel
            | .ok f =>
              if f.1 then .ok (true, f.2)
              else
                .ok (true, { f.2 with output := f.2.output ++ input.indentation
                  ++ f.2.indentation ++ f.2.line ++ "\n".toList })

/-- The environment of `parseLine` after `getline` returned the line `l` and left the
stream as `input`: the line counter is incremented, the line is trimmed and its leading
whitespace is stored in `env.indentation`. -/
def Env.afterRead (env : Env) (input : Input) (l : Str) : Env :=
  { env with
    line := (trimParts l).2.1, indentation := (trimParts l).1,
    inputs := setBack env.inputs { input with lineNumber := input.lineNumber + 1 } }

/-- The function `parseLine`, given `includeFile`: the returned flag and the new
environment. -/
def parseLine (sp : ShaderPreprocessor) (includeFile : Str → Env → Res (Bool × Env))
    (env : Env) : Res (Bool × Env) :=
  match env.inputs.getLast? with
  | none => .crash
  | some input =>
    let g := getline input env.line
    if !g.1 then .ok (false, { env with line := g.2.1, inputs := setBack env.inputs g.2.2 })
    else dispatchLine sp includeFile input (env.afterRead g.2.2 g.2.1)

/-- The loop `while (parseLine(env)) { if (!env.success) return false; }` of
`includeFile`: `false` when the body returned, `true` when the loop ended. -/
def parseLines (sp : ShaderPreprocessor) (step : Env → Res (Bool × Env)) (path : Str) :
    Nat → Env → Res (Bool × Env)
  | 0, _ => .outOfFuel
  | fuel + 1, env =>
    match step env with
    | .crash => .crash
    | .outOfFuel => .outOfFuel
    | .ok r =>
      if !r.1 then .ok (true, r.2)
      else if !r.2.success then
        match r.2.inputs.getLast? with
        | none => .crash
        | some input =>
          .ok (false, logError r.2 ("Parse error. Could not parse line. ".toList ++ path
            ++ ":".toList ++ natStr input.lineNumber))
      else parseLines sp step path fuel r.2

/-- The function `includeFile`: the returned flag and the new environment. One unit of
fuel is spent per nested call and per line read. -/
def includeFile (sp : ShaderPreprocessor) : Nat → Str → Env → Res (Bool × Env)
  | 0, _, _ => .outOfFuel
  | fuel + 1, path, env =>
    let tr := trackPath env path
    if !tr.1 then
      .ok (false, logError tr.2 ("Could not track path. Does file exist? ".toList ++ path))
    else
      match sp.fs.openStream path with
      | none => .ok (false, logError tr.2 ("Could not open file. ".toList ++ path))
      | some content =>
        let prevIndentation : Str := match tr.2.inputs.getLast? with
          | some parent => parent.indentation
          | none => []
        let input : Input :=
          { path := path, content := content, pos := 0, eofbit := false, failbit := false,
            indentation := prevIndentation ++ tr.2.indentation,
            lineNumber := sp.initialLineNumber }
        match addLineNumber sp { tr.2 with inputs := tr.2.inputs ++ [input] } with
        | .crash => .crash
        | .outOfFuel => .outOfFuel
        | .ok env1 =>
          match parseLines sp (parseLine sp (includeFile sp fuel)) path fuel env1 with
          | .crash => .crash
          | .outOfFuel => .outOfFuel
          | .ok r =>
            if !r.1 then .ok (false, r.2)
            else
              let env2 := r.2
              match env2.forStatements.getLast? with
              | some forStatement =>
                if forStatement.inputIndex ≥ env2.inputs.length - 1 then
                  match env2.inputs.get? forStatement.inputIndex with
                  | none => .crash
                  | some forInput =>
                    .ok (false, logError env2
                      ("Parse error. Unexpected end of file. Still processing #for loop from ".toList
                        ++ sp.fs.filePath forInput.path ++ ":".toList
                        ++ natStr forStatement.lineNumber ++ ". ".toList
                        ++ debugString sp env2))
                else
                  let env3 := { env2 with inputs := env2.inputs.dropLast }
                  if env3.inputs.length > 0 then
                    match addLineNumber sp env3 with
                    | .ok env4 => .ok (true, env4)
                    | .crash => .crash
                    | .outOfFuel => .outOfFuel
                  else .ok (true, env3)
              | none =>
                let env3 := { env2 with inputs := env2.inputs.dropLast }
                if env3.inputs.length > 0 then
                  match addLineNumber sp env3 with
                  | .ok env4 => .ok (true, env4)
                  | .crash => .crash
                  | .outOfFuel => .outOfFuel
                else .ok (true, env3)

/-- The body of `process` up to the final environment. `tracked` is the content of
`_trackedFiles` before the call. -/
def processEnv (sp : ShaderPreprocessor) (tracked : List Str) (fuel : Nat) : Res Env :=
  match includeFile sp fuel (sp.fs.absPath sp.shaderPath)
      (clearTrackedPaths (Env.initial tracked)) with
  | .crash => .crash
  | .outOfFuel => .outOfFuel
  | .ok r =>
    let env1 := if r.2.forStatements.length > 0 then
        failWith r.2 (("Parse error. Unexpected end of file. In the middle of expanding "
          ++ "#for statement. ").toList ++ debugString sp r.2)
      else r.2
    let env2 := if env1.scopes.length > 0 then
        failWith env1 ("Parse error. Unexpected end of file. ".toList ++ debugString sp env1)
      else env1
    .ok env2

/-- The function `process`: the returned flag and the text stored in `output`. -/
def process (sp : ShaderPreprocessor) (tracked : List Str) (fuel : Nat) : Res (Bool × Str) :=
  match processEnv sp tracked fuel with
  | .ok env => .ok (env.success, env.output)
  | .crash => .crash
  | .outOfFuel => .outOfFuel

/-- The alias table entry on top of the stack bound to `head`, or `head` itself when it is
not a bound alias. -/
def topBinding (env : Env) (head : Str) : Str :=
  match env.aliases head with
  | some st => st.getLast?.getD head
  | none => head

/-- Alias resolution as the specification words it: split the name at the first dot into
`head` and `rest` (the dot included), replace `head` by its top binding, concatenate, and
succeed when `rest` is empty and the new head is a quoted literal or when the dictionary
has a key at the resulting path. -/
def resolveAliasSpec (sp : ShaderPreprocessor) (name : Str) (env : Env) : Bool × Str :=
  let head := name.takeWhile (fun c => c != '.')
  let rest := name.dropWhile (fun c => c != '.')
  let newHead := topBinding env head
  (decide ((rest = [] ∧ isString newHead = true)
      ∨ sp.dictionary.hasKey (newHead ++ rest) = true), newHead ++ rest)

/-- A `std::map<std::string, std::string>` in iteration order: keys strictly ascending. -/
def IsMap (m : List (Str × Str)) : Prop :=
  m.Pairwise (fun a b => strLt a.1 b.1 = true)

instance (m : List (Str × Str)) : Decidable (IsMap m) := by
  unfold IsMap; infer_instance

/-- The alias table after pushing the single binding `key ↦ value`. -/
def aliasesPush (al : Aliases) (key value : Str) : Aliases :=
  aliasesSet al key ((al key).getD [] ++ [value])

/-! ### A concrete file system and dictionary for examples -/

/-- The directory part of a path: everything before the last `/`. -/
def demoDirectoryName (path : Str) : Str :=
  ((path.reverse.dropWhile (fun c => c != '/')).drop 1).reverse

/-- The last component of a path. -/
def demoFilename (path : Str) : Str :=
  (path.reverse.takeWhile (fun c => c != '/')).reverse

/-- Lookup in an association list of strings. -/
def demoLookup {α : Type} (table : List (String × α)) (key : Str) : Option α :=
  (table.find? (fun e => e.1.toList == key)).map Prod.snd

/-- A file system that holds exactly the listed files (path and content); paths are
absolute already and the separator is `/`. -/
def demoFileSys (files : List (String × String)) : FileSys :=
  { absPath := fun p => p
    fileExists := fun p => (demoLookup files p).isSome
    openStream := fun p => (demoLookup files p).map String.toList
    directoryName := demoDirectoryName
    filename := demoFilename
    filePath := fun p => p
    pathSeparator := '/' }

/-- A dictionary given by the key lists of its nested dictionaries and by its string
values, both indexed by full path. Every listed path is a key. -/
def demoDictionary (dicts : List (String × List String)) (strings : List (String × String)) :
    Dictionary :=
  { hasKey := fun p => (demoLookup dicts p).isSome || (demoLookup strings p).isSome
    hasValueString := fun p => (demoLookup strings p).isSome
    getValueString := fun p => ((demoLookup strings p).map String.toList).getD []
    valueKeys := fun p => ((demoLookup dicts p).map (fun ks => ks.map String.toList)).getD [] }

/-- A preprocessor for the root file `/s/root.glsl` over the given files and dictionary,
with include path `/inc` and line numbers starting at 1. -/
def demoPreprocessor (files : List (String × String)) (dictionary : Dictionary) :
    ShaderPreprocessor :=
  { shaderPath := "/s/root.glsl".toList, dictionary := dictionary,
    includePaths := ["/inc".toList], fs := demoFileSys files, initialLineNumber := 1 }

/-- An environment in which `color` is bound to the path `mat.diffuse`. -/
def demoAliasEnv : Env :=
  { Env.initial [] with
    aliases := aliasesSet (fun _ => none) "color".toList ["mat.diffuse".toList] }

/-- A dictionary with the string `red` at `mat.diffuse`. -/
def demoColorDictionary : Dictionary :=
  demoDictionary [("mat", ["diffuse"])] [("mat.diffuse", "red")]

/-- An environment where `k` already has an outer binding. -/
def demoOuterEnv : Env :=
  { Env.initial [] with
    aliases := aliasesSet (fun _ => none) "k".toList ["outer".toList],
    scopes := [["k".toList]] }

/-- The empty dictionary. -/
def emptyDictionary : Dictionary := demoDictionary [] []

/-- An environment that has just read the line `#include "common.glsl"` of the root file. -/
def demoIncludeEnv : Env :=
  { Env.initial [] with
    line := includeString ++ " ".toList ++ [dquote] ++ "common.glsl".toList ++ [dquote],
    inputs := [{ path := "/s/root.glsl".toList, content := [], pos := 0, eofbit := false,
                 failbit := false, indentation := [], lineNumber := 2 }] }

/-- A stand-in for `includeFile` that records the path it is called with. -/
def recordInclude (path : Str) (env : Env) : Res (Bool × Env) := .ok (true, logError env path)

/-! ### Auxiliary predicates for the proofs -/

/-- The stream is `good()` and the bytes from the get position on are `rest`. -/
def Input.At (input : Input) (rest : Str) : Prop :=
  input.eofbit = false ∧ input.failbit = false ∧ input.pos ≤ input.content.length
    ∧ input.content.drop input.pos = rest


/-- The trimmed line starts with one of the literals `#endfor`, `#include`, `#for`. -/
def isDirective (line : Str) : Bool :=
  endForString.isPrefixOf line || includeString.isPrefixOf line || forString.isPrefixOf line

/-- The lines `std::getline` yields for the bytes of a file: a final newline ends the last
line and does not start another one. -/
def fileLines : Str → List Str
  | [] => []
  | c :: cs =>
    if c = '\n' then [] :: fileLines cs
    else
      match fileLines cs with
      | [] => [[c]]
      | l :: ls => (c :: l) :: ls

/-- The bytes of a file whose lines all end with a newline. -/
def joinLines : List Str → Str
  | [] => []
  | l :: ls => l ++ '\n' :: joinLines ls

/-- What `parseLine` writes for a plain line `l` read from an `Input` with indentation
`indent`: the indentation of the file, the leading whitespace of the line, the trimmed
line and a newline. -/
def renderLine (indent l : Str) : Str :=
  indent ++ (trimParts l).1 ++ (trimParts l).2.1 ++ ['\n']

/-- The text written for a sequence of plain lines. -/
def renderLines (indent : Str) : List Str → Str
  | [] => []
  | l :: ls => renderLine indent l ++ renderLines indent ls

/-- A line that `parseLine` copies to the output: after trimming it starts with none of
the directive literals and holds no `#{`. -/
def isPlainLine (l : Str) : Bool :=
  !isDirective (trim l) && (strFind openString (trim l)).isNone

/-- The fields of the environment that reading plain or skipped lines leaves alone. -/
structure Env.Frame (e e1 : Env) : Prop where
  scopes : e1.scopes = e.scopes
  forStatements : e1.forStatements = e.forStatements
  aliases : e1.aliases = e.aliases
  success : e1.success = e.success
  log : e1.log = e.log
  trackedFiles : e1.trackedFiles = e.trackedFiles

/-- The same stream `bytes` bytes and `lines` lines further on. -/
structure Input.Moved (i i1 : Input) (bytes lines : Nat) : Prop where
  path : i1.path = i.path
  content : i1.content = i.content
  indentation : i1.indentation = i.indentation
  pos : i1.pos = i.pos + bytes
  lineNumber : i1.lineNumber = i.lineNumber + lines

/-- The environment of `includeFile` once the new `Input` is pushed and its line marker is
written: the state in which the line loop starts. -/
def Env.enter (sp : ShaderPreprocessor) (env : Env) (path content : Str) : Env :=
  { env with
    inputs := env.inputs ++ [{
      path := path, content := content, pos := 0, eofbit := false, failbit := false,
      indentation := (match env.inputs.getLast? with
        | some parent => parent.indentation
        | none => []) ++ env.indentation,
      lineNumber := sp.initialLineNumber }],
    output := env.output ++ "#line ".toList ++ natStr sp.initialLineNumber ++ " ".toList
      ++ sp.fs.filename path ++ "\n".toList }

/-- The line marker written for the file `path` at line `n`. -/
def lineMarker (sp : ShaderPreprocessor) (n : Nat) (path : Str) : Str :=
  "#line ".toList ++ natStr n ++ " ".toList ++ sp.fs.filename path ++ "\n".toList

/-- The line `#for k, v in <ref>`. -/
def forLine (ref : Str) : Str := "#for k, v in ".toList ++ ref

/-- The line `#{k}: #{v}`. -/
def bodyLine : Str := "#\x7bk\x7d: #\x7bv\x7d".toList

/-- The bindings a loop over `ref` with variables `k` and `v` introduces for `key`. -/
def loopTable (ref key : Str) : List (Str × Str) :=
  [("k".toList, [dquote] ++ key ++ [dquote]), ("v".toList, ref ++ ".".toList ++ key)]

/-- The record `parseFor` pushes for `#for k, v in <ref>` read from `input`, the last of
`ins ++ [input]`. -/
def loopStatement (ins : List Input) (input : Input) (ref : Str) (keyIndex : Int) :
    ForStatement :=
  { inputIndex := ins.length, lineNumber := input.lineNumber, streamPos := input.pos,
    keyName := "k".toList, valueName := "v".toList, dictionaryRef := ref,
    keyIndex := keyIndex }

/-- A dictionary reference that can be written after `in`: not empty, one token, without
`#{`. -/
def isReference (ref : Str) : Bool :=
  !ref.isEmpty && ref.all (fun c => decide (c ∉ ws)) && (strFind openString ref).isNone

/-- The marker `//# Key <key> in <ref>`. -/
def keyMarker (ref key : Str) : Str :=
  "//# Key ".toList ++ key ++ " in ".toList ++ ref ++ "\n".toList

/-- The string the dictionary holds at `<ref>.<key>`. -/
def valueAt (sp : ShaderPreprocessor) (ref key : Str) : Str :=
  sp.dictionary.getValueString (ref ++ ".".toList ++ key)

/-- The body line `<key>: <value>` as it is written for one key, behind the indentation
of the file. -/
def bodyOutput (sp : ShaderPreprocessor) (indent ref key : Str) : Str :=
  indent ++ key ++ ": ".toList ++ valueAt sp ref key ++ "\n".toList

/-- The text written for the given keys, one after the other: for each key its marker and
its body line. -/
def loopOutput (sp : ShaderPreprocessor) (indent ref : Str) : List Str → Str
  | [] => []
  | key :: keys => keyMarker ref key ++ bodyOutput sp indent ref key
      ++ loopOutput sp indent ref keys

/-- Every key of the loop leads to a string: `<ref>.<key>` is a key of the dictionary and
holds a string, the path is not itself quoted text, and the line `<key>: <value>` is not a
directive. -/
def HoldsStrings (sp : ShaderPreprocessor) (ref : Str) (keys : List Str) : Prop :=
  ∀ key ∈ keys,
    sp.dictionary.hasKey (ref ++ ".".toList ++ key) = true
      ∧ sp.dictionary.hasValueString (ref ++ ".".toList ++ key) = true
      ∧ isString (ref ++ ".".toList ++ key) = false
      ∧ isDirective (key ++ ": ".toList ++ valueAt sp ref key) = false

/-- The state of a loop over `ref` at the start of the iteration with index `index` for
`key`: the stream is at the start of the body (`inputB`), and the loop record, the scope
and the bindings of this iteration lie on top of those of `env0`. -/
structure LoopState (env0 : Env) (ins : List Input) (inputB : Input) (ref : Str)
    (index : Nat) (key : Str) (e : Env) : Prop where
  inputs : e.inputs = ins ++ [inputB]
  forStatements : e.forStatements
    = env0.forStatements ++ [{ loopStatement ins inputB ref 0 with keyIndex := index }]
  scopes : e.scopes = env0.scopes ++ [(pushScopeLoop (loopTable ref key) [] env0.aliases).1]
  aliases : e.aliases = (pushScopeLoop (loopTable ref key) [] env0.aliases).2
  success : e.success = true
  log : e.log = env0.log
  trackedFiles : e.trackedFiles = env0.trackedFiles

instance (sp : ShaderPreprocessor) (ref : Str) (keys : List Str) :
    Decidable (HoldsStrings sp ref keys) := by
  unfold HoldsStrings; infer_instance

/-- A stream every further `getline` fails on. -/
def Input.dead (i : Input) : Bool := i.eofbit || i.failbit

/-- No line of any file, read from any position, makes `substituteLine` stop at a `#{`
without a closing brace. -/
def SubstitutionsClosed (sp : ShaderPreprocessor) : Prop :=
  ∀ path content, sp.fs.openStream path = some content → ∀ (pos : Nat) (env : Env),
    (substituteLine sp
      { env with line := (trimParts (splitLine (content.drop pos)).1).2.1 }).1 = true

/-- Every `Input` on the stack reads the bytes of a file of the file system. -/
def FromFs (sp : ShaderPreprocessor) (e : Env) : Prop :=
  ∀ i ∈ e.inputs, ∃ p, sp.fs.openStream p = some i.content

/-- The output only grew. -/
def Grows (e e1 : Env) : Prop := ∃ d, e1.output = e.output ++ d

/-- At most the `Input` on top of the stack changed, and it still reads the same bytes. -/
def TopTouched (e e1 : Env) : Prop :=
  e1.inputs = e.inputs
    ∨ ∃ base c c1, e.inputs = base ++ [c] ∧ e1.inputs = base ++ [c1]
        ∧ c1.content = c.content

/-- Inputs were left on the stack above `base` by an `includeFile` that gave up on an
unterminated `#for`: the topmost stream is used up and the innermost open loop belongs to
it. -/
def DirtyOver (base : List Input) (e : Env) : Prop :=
  ∃ extra, extra ≠ [] ∧ e.inputs = base ++ extra
    ∧ (∃ top, e.inputs.getLast? = some top ∧ top.dead = true)
    ∧ ∃ fs, e.forStatements.getLast? = some fs ∧ e.inputs.length - 1 ≤ fs.inputIndex

/-- What the proofs ask of the function `parseInclude` calls: when it returns true the
stack of inputs is as before; when it returns false the stack is as before, or the run has
failed, or it left used-up inputs behind with an open loop. -/
def IncSpec (sp : ShaderPreprocessor) (inc : Str → Env → Res (Bool × Env)) : Prop :=
  ∀ path env b env1, FromFs sp env → inc path env = .ok (b, env1) →
    FromFs sp env1 ∧ Grows env env1
      ∧ (b = true → env1.inputs = env.inputs)
      ∧ (b = false → env1.inputs = env.inputs ∨ env1.success = false
          ∨ DirtyOver env.inputs env1)

/-- The state of the line loop of an `includeFile` that runs above the stack `base` after
a nested `includeFile` left used-up inputs behind. -/
def DirtyL (base : List Input) (e : Env) : Prop := ∃ c, DirtyOver (base ++ [c]) e

/-- The root file with the lines `a`, `#include "c.glsl"`, `b`, and the file `c.glsl`
next to it. -/
def demoIncludeFiles : List (String × String) :=
  [("/s/root.glsl", "a\n#include \x22c.glsl\x22\nb\n"), ("/s/c.glsl", "x\n")]

/-- A preprocessor over the two files above. -/
def demoIncludePreprocessor : ShaderPreprocessor :=
  demoPreprocessor demoIncludeFiles emptyDictionary

/-- The environment in which `parseInclude` calls `includeFile` for the second line of the
root file above: two lines are read, the line counter is 3. -/
def demoParentEnv : Env :=
  { Env.initial [] with
    output := "#line 1 root.glsl\na\n".toList
    line := "#include \x22c.glsl\x22".toList
    inputs := [{ path := "/s/root.glsl".toList,
                 content := "a\n#include \x22c.glsl\x22\nb\n".toList, pos := 20,
                 eofbit := false, failbit := false, indentation := [], lineNumber := 3 }] }

/-- The environment after `c.glsl` is included from `demoParentEnv`. -/
def demoIncludedEnv : Env :=
  match includeFile demoIncludePreprocessor 3 "/s/c.glsl".toList demoParentEnv with
  | .ok r => r.2
  | _ => demoParentEnv

/-- The line `#include "<rel>"`. -/
def includeLine (rel : Str) : Str :=
  includeString ++ " ".toList ++ [dquote] ++ rel ++ [dquote]

/-- A dictionary with the nested dictionary `D` (keys `a`, `b`, holding strings), the
nested dictionary `E` without keys, and the string `red` at `mat.diffuse`. -/
def demoLoopDictionary : Dictionary :=
  demoDictionary [("D", ["a", "b"]), ("E", []), ("mat", ["diffuse"])]
    [("D.a", "sa"), ("D.b", "sb"), ("mat.diffuse", "red")]

/-- The dictionary above, where `value<Dictionary>(path).keys()` is `keys` for every path:
the header that declares `value` is absent, so what it returns for a path that holds a
string is left open. -/
def demoKeysDictionary (keys : List Str) : Dictionary :=
  { demoLoopDictionary with valueKeys := fun _ => keys }

/-- An environment that has just read the line `#for k, v in mat.diffuse` of the root
file. -/
def demoForEnv : Env :=
  { Env.initial [] with
    line := "#for k, v in mat.diffuse".toList,
    inputs := [{ path := "/s/root.glsl".toList, content := "#for k, v in mat.diffuse\n".toList,
                 pos := 25, eofbit := false, failbit := false, indentation := [],
                 lineNumber := 2 }] }

/-- The keys of `_trackedFiles` once `process` has returned. -/
def trackedAfter (sp : ShaderPreprocessor) (tracked : List Str) (fuel : Nat) :
    Res (List Str) :=
  match processEnv sp tracked fuel with
  | .ok env => .ok env.trackedFiles
  | .crash => .crash
  | .outOfFuel => .outOfFuel

/-- A `std::set<std::string>` in iteration order: strictly ascending. -/
def IsSet (s : List Str) : Prop := s.Pairwise (fun a b => strLt a b = true)

/-- The invariant of the alias table. Every open scope is a set of names; no name is bound
to an empty stack; and the stack bound to a name (none when the name is not a key) has one
binding for each open scope that contains the name. A name is therefore a key exactly when
some open scope contains it. -/
def AliasInv (env : Env) : Prop :=
  (∀ s ∈ env.scopes, IsSet s)
    ∧ ∀ name, env.aliases name ≠ some []
        ∧ ((env.aliases name).getD []).length
            = env.scopes.countP (fun s => decide (name ∈ s))

/-- The stream after `getline` has read a line of `n` characters and its newline, with the
line counter incremented. -/
def Input.advance (input : Input) (n : Nat) : Input :=
  { input with pos := input.pos + n + 1, lineNumber := input.lineNumber + 1 }

/-- The environment in which `parseInclude` runs for the line `#include "rel"` that stands
behind the whitespace `w` in the stream `input`, on top of the stack `ins`. -/
def Env.atInclude (env : Env) (ins : List Input) (input : Input) (w rel : Str) : Env :=
  { env with
    line := includeLine rel, indentation := w,
    inputs := ins ++ [input.advance (w ++ includeLine rel).length] }

/-- The path of `rel` in the directory of the file at `path`. -/
def siblingPath (sp : ShaderPreprocessor) (path rel : Str) : Str :=
  sp.fs.directoryName path ++ [sp.fs.pathSeparator] ++ rel

/-- The `Input` that `includeFile` pushes for the file at `path`. -/
def Input.fresh (sp : ShaderPreprocessor) (path content indentation : Str) : Input :=
  { path := path, content := content, pos := 0, eofbit := false, failbit := false,
    indentation := indentation, lineNumber := sp.initialLineNumber }

/-- A root file that includes `c.glsl` behind two spaces; `c.glsl` includes `d.glsl` behind
a tab; `d.glsl` holds the lines `p` and `q`, the latter behind two spaces. -/
def demoNestedFiles : List (String × String) :=
  [("/s/root.glsl", "a\n  #include \x22c.glsl\x22\nb\n"),
    ("/s/c.glsl", "x\n\t#include \x22d.glsl\x22\n y\n"),
    ("/s/d.glsl", "p\n  q\n")]

/-- An environment that has just read `line` as the first line of the root file. -/
def demoLineEnv (line : String) : Env :=
  { Env.initial [] with
    line := line.toList,
    inputs := [{ path := "/s/root.glsl".toList, content := (line ++ "\n").toList,
                 pos := line.length + 1, eofbit := false, failbit := false,
                 indentation := [], lineNumber := 2 }] }

/-- The stream of `demoLineEnv`. -/
def demoLineInput (line : String) : Input :=
  { path := "/s/root.glsl".toList, content := (line ++ "\n").toList,
    pos := line.length + 1, eofbit := false, failbit := false,
    indentation := [], lineNumber := 2 }

/-- A dictionary in which `k` is the string `#endfor`. -/
def demoEndForDictionary : Dictionary := demoDictionary [] [("k", "#endfor")]

/-- A line without its trailing whitespace. -/
def stripTrailingWs (l : Str) : Str :=
  (l.reverse.dropWhile (fun c => decide (c ∈ ws))).reverse

/-- A line as a file without directives is copied: without its trailing whitespace, its
leading whitespace preserved; a line that holds only whitespace is kept as it is. -/
def keptLine (l : Str) : Str :=
  if l.all (fun c => decide (c ∈ ws)) then l else stripTrailingWs l

/-- The kept lines, each followed by a newline. -/
def keptLines : List Str → Str
  | [] => []
  | l :: ls => keptLine l ++ '\n' :: keptLines ls

/-- The map `parseEndFor` builds for the next key of a loop: the key variable bound to the
quoted key, then the value variable bound to `<ref>.<key>`. -/
def endForTable (fs : ForStatement) (key : Str) : List (Str × Str) :=
  mapAssign fs.valueName (fs.dictionaryRef ++ ".".toList ++ key)
    (mapAssign fs.keyName ([dquote] ++ key ++ [dquote]) [])

/-- The stream of the root file `#for k, v in D`, `x`, `#endfor` at the position `pos`,
with the line counter `lineNumber`. -/
def demoLoopInput (pos lineNumber : Nat) : Input :=
  { path := "/s/root.glsl".toList, content := "#for k, v in D\nx\n#endfor\n".toList,
    pos := pos, eofbit := false, failbit := false, indentation := [],
    lineNumber := lineNumber }

/-- The environment after `parseFor` has handled the first line of the root file
`#for k, v in D`, `x`, `#endfor` and the line `#endfor` has been read. -/
def demoEndForEnv : Env :=
  match parseFor (demoPreprocessor [] demoLoopDictionary)
      { demoLineEnv "#for k, v in D" with inputs := [demoLoopInput 15 2] } with
  | .ok r => { r.2 with line := "#endfor".toList, inputs := [demoLoopInput 25 4] }
  | _ => demoLineEnv "#endfor"

/-- The record of the loop that is open in `demoEndForEnv`. -/
def demoForStatement : ForStatement :=
  { inputIndex := 0, lineNumber := 2, streamPos := 15, keyName := "k".toList,
    valueName := "v".toList, dictionaryRef := "D".toList, keyIndex := 0 }

/-- The three stacks of two environments are the same: scopes, alias table and
ForStatements. -/
def SameStacks (e e1 : Env) : Prop :=
  e1.scopes = e.scopes ∧ e1.aliases = e.aliases ∧ e1.forStatements = e.forStatements

/-- The invariant of the stacks: the invariant of the alias table, and as many open scopes
as open loops. -/
def StackInv (env : Env) : Prop :=
  AliasInv env ∧ env.scopes.length = env.forStatements.length

/-! ### Termination of the line loop -/

/-- Stands for `includeFile` in a run that never gets to call it. -/
def noInclude : Str → Env → Res (Bool × Env) := fun _ _ => .crash

/-- The state of the line loop `n` lines after the state `e`, as long as every line is
consumed with `success` set and none of them calls `includeFile`. -/
def stateAfter (sp : ShaderPreprocessor) : Nat → Env → Option Env
  | 0, e => some e
  | n + 1, e =>
    match parseLine sp noInclude e with
    | .ok r => if r.1 && r.2.success then stateAfter sp n r.2 else none
    | .crash => none
    | .outOfFuel => none

/-- The line that `parseLine` reads next in the state `e`, trimmed and substituted as
`parseLine` does it in that state; none when the stream yields no further line. -/
def substitutedLine (sp : ShaderPreprocessor) (e : Env) : Option Str :=
  match e.inputs.getLast? with
  | none => none
  | some input =>
    let g := getline input e.line
    if !g.1 then none else some (substituteLine sp (e.afterRead g.2.2 g.2.1)).2.line

/-- The line read next in the state `e` does not start with `#include` once it is trimmed
and substituted. -/
def lineIncludeFree (sp : ShaderPreprocessor) (e : Env) : Bool :=
  match substitutedLine sp e with
  | some l => !includeString.isPrefixOf l
  | none => true

/-- No line that the line loop started in `e0` reads starts with `#include` once it is
trimmed and substituted in the state in which it is read. -/
def IncludeFreeRun (sp : ShaderPreprocessor) (e0 : Env) : Prop :=
  ∀ n e, stateAfter sp n e0 = some e → lineIncludeFree sp e = true

/-- The offset `pos` is the start of a line of `content`. -/
def AtLine (content : Str) (pos : Nat) : Prop :=
  pos ≤ content.length ∧ ∃ pre : List Str, (∀ l ∈ pre, '\n' ∉ l) ∧ content.take pos = joinLines pre

/-- The line loop started in `e` gets to `e1`, whatever `includeFile` is: the lines between
the two states include nothing. -/
def Reaches (sp : ShaderPreprocessor) (path : Str) (e e1 : Env) : Prop :=
  ∃ n, ∀ (inc : Str → Env → Res (Bool × Env)) (fuel : Nat),
    parseLines sp (parseLine sp inc) path (fuel + n) e
      = parseLines sp (parseLine sp inc) path fuel e1

/-- The line loop started in `e` returns, given enough fuel. -/
def Stops (sp : ShaderPreprocessor) (path : Str) (e : Env) : Prop :=
  ∃ n, ∀ (inc : Str → Env → Res (Bool × Env)) (fuel : Nat), n ≤ fuel →
    parseLines sp (parseLine sp inc) path fuel e ≠ .outOfFuel

/-- The `Input` on top of the stack reads `content`, and is at the start of a line while
its stream is good. -/
def Loaded (content : Str) (ins : List Input) (e : Env) : Prop :=
  ∃ input, e.inputs = ins ++ [input] ∧ input.content = content
    ∧ (input.dead = false → AtLine content input.pos)

/-- The number of bytes the `Input` on top of the stack has left, plus one; zero when its
stream is not good. -/
def bytesLeft (e : Env) : Nat :=
  match e.inputs.getLast? with
  | some input => if input.dead then 0 else input.content.length + 1 - input.pos
  | none => 0

/-- The number of keys the loop has not started yet. -/
def keysLeft (sp : ShaderPreprocessor) (fs : ForStatement) : Nat :=
  (sp.dictionary.valueKeys fs.dictionaryRef).length - (fs.keyIndex + 1).toNat

/-- A dictionary whose string `x` is an include directive for the root file. -/
def demoSelfIncludeDictionary : Dictionary :=
  demoDictionary [] [("x", "#include \x22root.glsl\x22")]

/-- A root file whose only line is the substitution `#\x7bx\x7d`. -/
def demoSelfIncludeFiles : List (String × String) := [("/s/root.glsl", "#\x7bx\x7d\n")]

/-- A root file with a loop whose body line holds two substitutions, and no include. -/
def demoLoopFiles : List (String × String) :=
  [("/s/root.glsl", "#for k, v in D\n#\x7bk\x7d: #\x7bv\x7d\n#endfor\n")]

/-- The preprocessor over the file and dictionary above. -/
def demoSelfIncludePreprocessor : ShaderPreprocessor :=
  demoPreprocessor demoSelfIncludeFiles demoSelfIncludeDictionary

/-- What a line that includes nothing does to the `Input` stack and the ForStatement
stack: nothing; or `#for` pushes a loop that records the stream position; or `#endfor`
starts the next key of the innermost loop and rewinds the stream; or `#endfor` closes the
innermost loop. -/
def LineEffect (sp : ShaderPreprocessor) (e e1 : Env) : Prop :=
  ∃ ins input, e.inputs = ins ++ [input] ∧
    ((e1.inputs = e.inputs ∧ e1.forStatements = e.forStatements)
    ∨ (∃ fs, e1.inputs = ins ++ [(tellg input).2]
        ∧ e1.forStatements = e.forStatements ++ [fs]
        ∧ fs.streamPos = (tellg input).1 ∧ -1 ≤ fs.keyIndex)
    ∨ (∃ fss fs, e.forStatements = fss ++ [fs] ∧ 0 ≤ fs.keyIndex + 1
        ∧ (fs.keyIndex + 1).toNat < (sp.dictionary.valueKeys fs.dictionaryRef).length
        ∧ e1.forStatements = fss ++ [{ fs with keyIndex := fs.keyIndex + 1 }]
        ∧ e1.inputs
            = ins ++ [{ seekg input fs.streamPos with lineNumber := fs.lineNumber }])
    ∨ (∃ fss fs, e.forStatements = fss ++ [fs] ∧ e1.forStatements = fss
        ∧ e1.inputs = e.inputs))

/-- The result ends the line loop, or is a successful line with the effect `P`. -/
def StepResult (P : Env → Prop) : Res (Bool × Env) → Prop
  | .crash => True
  | .outOfFuel => False
  | .ok r => r.1 = false ∨ r.2.success = false ∨ (r.1 = true ∧ r.2.success = true ∧ P r.2)

/-- The `Input` on top of the stack reads `content` and, while its stream is good, is at the
position recorded in the loop. -/
def Rewound (content : Str) (ins : List Input) (fs : ForStatement) (e : Env) : Prop :=
  ∃ input, e.inputs = ins ++ [input] ∧ input.content = content
    ∧ (input.dead = false → (input.pos : Int) = fs.streamPos)

/-- The state after a line that includes nothing, next to the state before it. Either the
stream has moved on to the start of a later line (or is at its end), and the ForStatement
stack is as before, or has the loop of a `#for` pushed, or has its innermost loop closed;
or the innermost loop has started its next key and the stream is back at the position
recorded in it. -/
def NextState (sp : ShaderPreprocessor) (content : Str) (ins : List Input) (e e1 : Env) :
    Prop :=
  (Loaded content ins e1 ∧ bytesLeft e1 < bytesLeft e
    ∧ (e1.forStatements = e.forStatements
      ∨ (∃ fs, e1.forStatements = e.forStatements ++ [fs] ∧ -1 ≤ fs.keyIndex
          ∧ Rewound content ins fs e1)
      ∨ (∃ fs, e.forStatements = e1.forStatements ++ [fs])))
  ∨ (∃ fss fs, e.forStatements = fss ++ [fs] ∧ 0 ≤ fs.keyIndex + 1
      ∧ (fs.keyIndex + 1).toNat < (sp.dictionary.valueKeys fs.dictionaryRef).length
      ∧ e1.forStatements = fss ++ [{ fs with keyIndex := fs.keyIndex + 1 }]
      ∧ Rewound content ins fs e1)

/-- The line loop started in `e` returns, or gets to the `#endfor` that acts on the
innermost loop open in `e`: it closes the loop, with the stream further on, or starts the
next key of the loop, with the stream back at the recorded position. -/
def LoopExit (sp : ShaderPreprocessor) (path content : Str) (ins : List Input) (e : Env) :
    Prop :=
  Stops sp path e
    ∨ ∃ e1 fss fs, e.forStatements = fss ++ [fs] ∧ Reaches sp path e e1
        ∧ IncludeFreeRun sp e1
        ∧ ((Loaded content ins e1 ∧ bytesLeft e1 < bytesLeft e ∧ e1.forStatements = fss)
          ∨ (0 ≤ fs.keyIndex + 1
              ∧ (fs.keyIndex + 1).toNat < (sp.dictionary.valueKeys fs.dictionaryRef).length
              ∧ e1.forStatements = fss ++ [{ fs with keyIndex := fs.keyIndex + 1 }]
              ∧ Rewound content ins fs e1))

/-! ### Nested loops -/

/-- The line that opens the inner loop over the value variable of the outer loop. -/
def innerForLine : Str := "#for k2, v2 in v".toList

/-- The marker `//# For loop over <ref>`. -/
def openMarker (ref : Str) : Str := "//# For loop over ".toList ++ ref ++ "\n".toList

/-- The marker `//# Terminated loop over <ref>`. -/
def closeMarker (ref : Str) : Str := "//# Terminated loop over ".toList ++ ref ++ "\n".toList

/-- The marker `//# Empty for loop`. -/
def emptyMarker : Str := "//# Empty for loop\n".toList

/-- The record `parseFor` pushes for a `#for` line with the given variable names, read from
`input`, the last of `ins ++ [input]`. -/
def forStatementAt (ins : List Input) (input : Input) (keyName valueName ref : Str)
    (keyIndex : Int) : ForStatement :=
  { inputIndex := ins.length, lineNumber := input.lineNumber, streamPos := input.pos,
    keyName := keyName, valueName := valueName, dictionaryRef := ref, keyIndex := keyIndex }

/-- The same file, wherever its stream is. -/
structure Input.SameFile (i i1 : Input) : Prop where
  path : i1.path = i.path
  content : i1.content = i.content
  indentation : i1.indentation = i.indentation

/-- The state at the start of the pass for the key number `index` of the loop `fs0`, opened
in `env0` and read from `inputB` on: the stream is at the start of the body, the loop is on
top of the loops of `env0` at that key index, and the scope of the key is on top of the
scopes of `env0`. -/
structure IterState (env0 : Env) (ins : List Input) (inputB : Input) (fs0 : ForStatement)
    (index : Nat) (key : Str) (e : Env) : Prop where
  inputs : e.inputs = ins ++ [inputB]
  forStatements : e.forStatements
    = env0.forStatements ++ [{ fs0 with keyIndex := (index : Int) }]
  scopes : e.scopes = env0.scopes ++ [(pushScopeLoop (endForTable fs0 key) [] env0.aliases).1]
  aliases : e.aliases = (pushScopeLoop (endForTable fs0 key) [] env0.aliases).2
  success : e.success = true

/-- The text written for the keys after the first one: for each key its marker and what
its pass writes. -/
def iterOutput (ref : Str) (bodyOut : Str → Str) : List Str → Str
  | [] => []
  | key :: keys => keyMarker ref key ++ bodyOut key ++ iterOutput ref bodyOut keys

/-- The text written for a loop over `ref` with the given keys, when the pass for a key
writes `bodyOut key`: the two markers of an empty loop, or the opening marker, for each key
its marker and its pass, and the closing marker. -/
def loopText (ref : Str) (bodyOut : Str → Str) : List Str → Str
  | [] => emptyMarker ++ closeMarker ref
  | key :: keys => openMarker ref ++ keyMarker ref key ++ bodyOut key
      ++ iterOutput ref bodyOut keys ++ closeMarker ref

/-- The text written for an outer loop over `ref` whose body is an inner loop over the
value variable, with the plain lines `body` as its body: for every key `ki` of `ref`, in
order, the text of a loop over `<ref>.<ki>` that writes `body` for each of its keys. -/
def nestedOutput (sp : ShaderPreprocessor) (indent ref : Str) (body : List Str) : Str :=
  loopText ref
    (fun ki => loopText (ref ++ ".".toList ++ ki) (fun _ => renderLines indent body)
      (sp.dictionary.valueKeys (ref ++ ".".toList ++ ki)))
    (sp.dictionary.valueKeys ref)

/-- A dictionary with the nested dictionary `D` (keys `a`, `b`) whose values are the nested
dictionaries `D.a` (keys `p`, `q`) and `D.b` (no keys). -/
def demoNestedLoopDictionary : Dictionary :=
  demoDictionary [("D", ["a", "b"]), ("D.a", ["p", "q"]), ("D.b", [])] []

/-- A root file with an outer loop over `D` and an inner loop over its value variable. -/
def demoNestedLoopFiles : List (String × String) :=
  [("/s/root.glsl", "#for k, v in D\n#for k2, v2 in v\nx\n#endfor\n#endfor\n")]

/-! ### OpenGL versions (`src/systemcapabilities/openglcapabilitiescomponent.cpp`) -/

/-- The class `OpenGLCapabilitiesComponent::Version`: three `int` members. -/
structure Version where
  /-- The member `_major`. -/
  major : Int
  /-- The member `_minor`. -/
  minor : Int
  /-- The member `_release`. -/
  release : Int
deriving DecidableEq, Repr

/-- The function `packVersion`: the sum is computed in `int` and returned as
`unsigned int` (32 bits), which reduces it modulo `2 ^ 32`. Overflow of the `int`
arithmetic itself is undefined in the source; the embedding computes the exact sum. -/
def packVersion (major minor release : Int) : Nat :=
  ((major * 1000 * 1000 + minor * 1000 + release) % 2 ^ 32).toNat

/-- The operator `Version::operator==`. -/
def Version.eq (a rhs : Version) : Bool :=
  decide (a.major = rhs.major) && decide (a.minor = rhs.minor)
    && decide (a.release = rhs.release)

/-- The operator `Version::operator!=`. -/
def Version.ne (a rhs : Version) : Bool := !(a.eq rhs)

/-- The operator `Version::operator<`. -/
def Version.lt (a rhs : Version) : Bool :=
  decide (packVersion a.major a.minor a.release
    < packVersion rhs.major rhs.minor rhs.release)

/-- The operator `Version::operator<=`. -/
def Version.le (a rhs : Version) : Bool :=
  decide (packVersion a.major a.minor a.release
    ≤ packVersion rhs.major rhs.minor rhs.release)

/-- The operator `Version::operator>`. -/
def Version.gt (a rhs : Version) : Bool :=
  decide (packVersion a.major a.minor a.release
    > packVersion rhs.major rhs.minor rhs.release)

/-- The operator `Version::operator>=`. -/
def Version.ge (a rhs : Version) : Bool :=
  decide (packVersion a.major a.minor a.release
    ≥ packVersion rhs.major rhs.minor rhs.release)

/-- The lexicographic order on `(major, minor, release)`, strict. -/
def Version.lexLt (a b : Version) : Prop :=
  a.major < b.major
    ∨ (a.major = b.major ∧ (a.minor < b.minor
      ∨ (a.minor = b.minor ∧ a.release < b.release)))

/-- The lexicographic order on `(major, minor, release)`. -/
def Version.lexLe (a b : Version) : Prop := a.lexLt b ∨ a = b

/-- A version whose fields lie in the ranges `packVersion` is made for. -/
def Version.InRange (a : Version) : Prop :=
  0 ≤ a.major ∧ a.major < 256 ∧ 0 ≤ a.minor ∧ a.minor < 1000
    ∧ 0 ≤ a.release ∧ a.release < 1000

/-! ### Texture units (`src/opengl/textureunit.cpp`) -/

/-- The record `TextureUnit::Context` of one OpenGL context. -/
structure Context where
  /-- The member `totalActive`. -/
  totalActive : Int
  /-- The member `maxTexUnits`. -/
  maxTexUnits : Nat
  /-- The member `busyUnits`, a `std::vector<bool>`. -/
  busyUnits : List Bool
deriving DecidableEq, Repr

/-- The members of one `TextureUnit` object. -/
structure TextureUnit where
  /-- The member `_number`. -/
  number : Nat
  /-- The member `_glEnum`. -/
  glEnum : Nat
  /-- The member `_assigned`. -/
  assigned : Bool
deriving DecidableEq, Repr

/-- How a member function ends: it returns, it throws (the state at the throw is kept), or
it runs into undefined behaviour (`operator[]` beyond the end of a vector). -/
inductive Outcome (α : Type) where
  | ok (a : α)
  | thrown (a : α)
  | undefined
deriving DecidableEq, Repr

/-- The members of a `TextureUnit` after its constructor. -/
def TextureUnit.new : TextureUnit := { number := 0, glEnum := 0, assigned := false }

/-- The function `TextureUnit::initialize` on the record of the current context; `cap` is
`OpenGLCap.maxTextureUnits()` when the system capabilities are initialized. -/
def initContext (c : Context) (cap : Option Nat) : Context :=
  let max := match cap with
    | some m => m
    | none => 8
  { c with maxTexUnits := max, busyUnits := List.replicate max false }

/-- The loop of `assignUnit` from index `i` on, with `n` indices left below
`maxTexUnits`: the first unit that is not busy is taken. -/
def assignLoop (texture0 : Nat) (c : Context) (u : TextureUnit) :
    Nat → Nat → Outcome (Context × TextureUnit)
  | _, 0 => .ok (c, u)
  | i, n + 1 =>
    match c.busyUnits.get? i with
    | none => .undefined
    | some true => assignLoop texture0 c u (i + 1) n
    | some false =>
      .ok ({ c with busyUnits := c.busyUnits.set i true, totalActive := c.totalActive + 1 },
        { u with number := i, glEnum := texture0 + i })

/-- The function `TextureUnit::assignUnit` on the record of the current context;
`texture0` is the enumerator `GL_TEXTURE0`. -/
def assignUnit (texture0 : Nat) (c : Context) (u : TextureUnit) :
    Outcome (Context × TextureUnit) :=
  if c.totalActive ≥ (c.maxTexUnits : Int) then .thrown (c, u)
  else assignLoop texture0 c { u with assigned := true } 0 c.maxTexUnits

/-- The function `TextureUnit::unitNumber` (and likewise `glEnum` and `activate`) up to
the assignment: a unit is assigned when the object has none. -/
def unitNumber (texture0 : Nat) (c : Context) (u : TextureUnit) :
    Outcome (Context × TextureUnit) :=
  if !u.assigned then assignUnit texture0 c u else .ok (c, u)

/-- The function `TextureUnit::deactivate`; `busyUnits.at` throws beyond the end of the
vector, after `_assigned` has been cleared. -/
def deactivate (c : Context) (u : TextureUnit) : Outcome (Context × TextureUnit) :=
  if u.assigned then
    if u.number < c.busyUnits.length then
      .ok ({ c with busyUnits := c.busyUnits.set u.number false,
                    totalActive := c.totalActive - 1 },
        { u with assigned := false })
    else .thrown (c, { u with assigned := false })
  else .ok (c, u)

/-- One context with the `TextureUnit` objects that live in it. -/
structure Units where
  /-- The record of the context. -/
  ctx : Context
  /-- The objects. -/
  units : List TextureUnit
deriving DecidableEq, Repr

/-- A call on the object with index `i`. -/
inductive UnitCall where
  /-- A call of `unitNumber`, `glEnum` or `activate`. -/
  | assign (i : Nat)
  /-- A call of `deactivate`. -/
  | deactivate (i : Nat)
deriving DecidableEq, Repr

/-- The state after a call, whether it returned or threw; `none` for undefined behaviour.
A call on an index without an object changes nothing. -/
def Units.call (texture0 : Nat) (w : Units) : UnitCall → Option Units
  | .assign i =>
    match w.units.get? i with
    | none => some w
    | some u =>
      match unitNumber texture0 w.ctx u with
      | .ok r => some { ctx := r.1, units := w.units.set i r.2 }
      | .thrown r => some { ctx := r.1, units := w.units.set i r.2 }
      | .undefined => none
  | .deactivate i =>
    match w.units.get? i with
    | none => some w
    | some u =>
      match deactivate w.ctx u with
      | .ok r => some { ctx := r.1, units := w.units.set i r.2 }
      | .thrown r => some { ctx := r.1, units := w.units.set i r.2 }
      | .undefined => none

/-- The state after a sequence of calls. -/
def Units.run (texture0 : Nat) (w : Units) : List UnitCall → Option Units
  | [] => some w
  | c :: cs =>
    match w.call texture0 c with
    | none => none
    | some w1 => w1.run texture0 cs

/-- An initialized context in which `n` objects have been constructed. -/
def Units.start (c : Context) (cap : Option Nat) (n : Nat) : Units :=
  { ctx := initContext c cap, units := List.replicate n TextureUnit.new }

/-- The invariant of a context and its objects. -/
structure UnitsInv (w : Units) : Prop where
  /-- The vector `busyUnits` has `maxTexUnits` entries. -/
  size : w.ctx.busyUnits.length = w.ctx.maxTexUnits
  /-- The counter `totalActive` is the number of busy entries. -/
  busy : w.ctx.totalActive = (w.ctx.busyUnits.countP (fun b => b) : Int)
  /-- The counter `totalActive` is the number of assigned objects. -/
  assigned : w.ctx.totalActive = (w.units.countP (fun u => u.assigned) : Int)
  /-- The counter `totalActive` does not exceed `maxTexUnits`. -/
  bound : w.ctx.totalActive ≤ (w.ctx.maxTexUnits : Int)
  /-- The unit of an assigned object is busy. -/
  held : ∀ i u, w.units.get? i = some u → u.assigned = true →
    w.ctx.busyUnits.get? u.number = some true
  /-- No two assigned objects hold the same unit. -/
  distinct : ∀ i j ui uj, w.units.get? i = some ui → w.units.get? j = some uj →
    ui.assigned = true → uj.assigned = true → ui.number = uj.number → i = j

/-! ### Fonts (`src/font/font.cpp`) -/

/-- The members of `ghoul::fontrendering::Font` that `operator==` reads. A `float` is the
rational number it holds; the glyphs are the addresses in `_glyphs`, and `atlas` is the
address of the object the reference `_atlas` is bound to. -/
structure Font where
  /-- The member `_name`. -/
  name : Str
  /-- The member `_pointSize`. -/
  pointSize : ℚ
  /-- The member `_glyphs`, a vector of pointers. -/
  glyphs : List Nat
  /-- The address `&_atlas`. -/
  atlas : Nat
  /-- The member `_autoHinting`. -/
  autoHinting : Bool
  /-- The member `_outline`. -/
  outline : Bool
  /-- The member `_outlineThickness`. -/
  outlineThickness : ℚ
  /-- The member `_lcdFiltering`. -/
  lcdFiltering : Bool
  /-- The member `_kerning`. -/
  kerning : Bool
  /-- The member `_lcdWeights`. -/
  lcdWeights : List Nat
  /-- The member `_height`. -/
  height : ℚ
  /-- The member `_linegap`. -/
  linegap : ℚ
  /-- The member `_ascender`. -/
  ascender : ℚ
  /-- The member `_decender`. -/
  decender : ℚ
deriving DecidableEq

/-- The operator `Font::operator==`, which is not `const`: the value it returns and the
left operand afterwards. The conjunction is evaluated left to right and stops at the first
false operand. Its eleventh operand is the assignment `_height = rhs._height`, whose value
is the assigned `float` converted to `bool`: true exactly when it is not zero. -/
def Font.opEq (a rhs : Font) : Bool × Font :=
  if a.name = rhs.name ∧ a.pointSize = rhs.pointSize ∧ a.glyphs = rhs.glyphs
      ∧ a.atlas = rhs.atlas ∧ a.autoHinting = rhs.autoHinting ∧ a.outline = rhs.outline
      ∧ a.outlineThickness = rhs.outlineThickness ∧ a.lcdFiltering = rhs.lcdFiltering
      ∧ a.kerning = rhs.kerning ∧ a.lcdWeights = rhs.lcdWeights then
    let a1 : Font := { a with height := rhs.height }
    (decide (a1.height ≠ 0) && decide (a1.linegap = rhs.linegap)
      && decide (a1.ascender = rhs.ascender) && decide (a1.decender = rhs.decender), a1)
  else (false, a)

/-- The members of a font as the constructor leaves them for the file `name`, the point
size 12 and the atlas at address 1, without attributes: the height is `0.f`. -/
def demoFont : Font :=
  { name := "font.ttf".toList, pointSize := 12, glyphs := [], atlas := 1,
    autoHinting := true, outline := false, outlineThickness := 15 / 100,
    lcdFiltering := true, kerning := true, lcdWeights := [16, 64, 112, 64, 16],
    height := 0, linegap := 0, ascender := 0, decender := 0 }

/-! # Theorems -/


/-! ## Vectors -/

@[simp] theorem getLast?_snoc {α : Type} (xs : List α) (x : α) :
    (xs ++ [x]).getLast? = some x :=
  List.getLast?_eq_some_iff.mpr ⟨xs, rfl⟩

@[simp] theorem setBack_snoc {α : Type} (xs : List α) (x y : α) :
    setBack (xs ++ [x]) y = xs ++ [y] := by
  simp [setBack]

@[simp] theorem length_snoc_sub_one {α : Type} (xs : List α) (x : α) :
    (xs ++ [x]).length - 1 = xs.length := by
  simp

/-! ## String lemmas -/

theorem isPrefixOf_open_cons (c : Char) (cs : Str) :
    openString.isPrefixOf (c :: cs) = (decide (c = '#') && decide (cs.head? = some '\x7b')) := by
  cases cs with
  | nil => simp [openString, hashChar, lbrace, List.isPrefixOf]
  | cons d ds =>
    simp only [openString, hashChar, lbrace, List.isPrefixOf, List.head?_cons, Bool.and_true,
      Option.some.injEq, beq_iff_eq]
    have e1 : ('#' == c) = decide (c = '#') := by
      by_cases h : c = '#'
      · subst h; simp
      · have : ¬ '#' = c := fun e => h e.symm
        simp [h, this]
    have e2 : ('\x7b' == d) = decide (d = '\x7b') := by
      by_cases h : d = '\x7b'
      · subst h; simp
      · have : ¬ '\x7b' = d := fun e => h e.symm
        simp [h, this]
    rw [e1, e2]

theorem strFind_open_append (pre rest : Str) (h : strFind openString pre = none) :
    strFind openString (pre ++ openString ++ rest) = some pre.length := by
  induction pre with
  | nil => simp [strFind, openString, List.isPrefixOf]
  | cons c cs ih =>
    have hc : openString.isPrefixOf (c :: cs) = false := by
      by_contra hp
      simp only [Bool.not_eq_false] at hp
      simp [strFind, hp] at h
    have hcs : strFind openString cs = none := by
      simpa [strFind, hc] using h
    have hp2 : openString.isPrefixOf (c :: (cs ++ openString ++ rest)) = false := by
      rw [isPrefixOf_open_cons] at hc ⊢
      cases cs with
      | nil => simp [openString, hashChar, lbrace]
      | cons d ds => simpa using hc
    simp only [List.cons_append, List.append_assoc] at hp2 ⊢
    simp only [strFind, hp2]
    have := ih hcs
    simp only [List.append_assoc] at this
    simp [this]

theorem strFind_single_append (c : Char) (name post : Str) (h : c ∉ name) :
    strFind [c] (name ++ c :: post) = some name.length := by
  induction name with
  | nil => simp [strFind, List.isPrefixOf]
  | cons d ds ih =>
    have hd : c ≠ d := fun e => h (by simp [e])
    have hds : c ∉ ds := fun e => h (by simp [e])
    simp [strFind, List.isPrefixOf, hd, ih hds]

theorem strFind_single_none (c : Char) (s : Str) (h : c ∉ s) : strFind [c] s = none := by
  induction s with
  | nil => simp [strFind, List.isPrefixOf]
  | cons d ds ih =>
    have hd : c ≠ d := fun e => h (by simp [e])
    have hds : c ∉ ds := fun e => h (by simp [e])
    simp [strFind, List.isPrefixOf, hd, ih hds]



/-! ## Substitution -/

theorem resolveAlias_congr (sp : ShaderPreprocessor) (inp : Str) (env1 env2 : Env)
    (h : env1.aliases = env2.aliases) : resolveAlias sp inp env1 = resolveAlias sp inp env2 := by
  simp [resolveAlias, h]

theorem substitute_fst (sp : ShaderPreprocessor) (inp : Str) (env : Env) :
    (substitute sp inp env).1 = ((resolveAlias sp inp env).1
      && (isString (resolveAlias sp inp env).2
          || sp.dictionary.hasValueString (resolveAlias sp inp env).2)) := by
  cases h1 : (resolveAlias sp inp env).1 <;> cases h2 : isString (resolveAlias sp inp env).2 <;>
    cases h3 : sp.dictionary.hasValueString (resolveAlias sp inp env).2 <;>
    simp [substitute, h1, h2, h3]

theorem substitute_out (sp : ShaderPreprocessor) (inp : Str) (env : Env) :
    (substitute sp inp env).2.1 =
      if (resolveAlias sp inp env).1 then
        if isString (resolveAlias sp inp env).2 then
          substr (resolveAlias sp inp env).2 1 ((resolveAlias sp inp env).2.length - 2)
        else if sp.dictionary.hasValueString (resolveAlias sp inp env).2 then
          sp.dictionary.getValueString (resolveAlias sp inp env).2
        else []
      else [] := by
  cases h1 : (resolveAlias sp inp env).1 <;> cases h2 : isString (resolveAlias sp inp env).2 <;>
    cases h3 : sp.dictionary.hasValueString (resolveAlias sp inp env).2 <;>
    simp [substitute, h1, h2, h3]

theorem substitute_env (sp : ShaderPreprocessor) (inp : Str) (env : Env) :
    ∃ log, (substitute sp inp env).2.2 = { env with log := log } := by
  cases h1 : (resolveAlias sp inp env).1 <;> cases h2 : isString (resolveAlias sp inp env).2 <;>
    cases h3 : sp.dictionary.hasValueString (resolveAlias sp inp env).2 <;>
    simp [substitute, h1, h2, h3, logError] <;> exact ⟨_, rfl⟩

theorem substitute_congr (sp : ShaderPreprocessor) (inp : Str) (env1 env2 : Env)
    (h : env1.aliases = env2.aliases) :
    (substitute sp inp env1).1 = (substitute sp inp env2).1
      ∧ (substitute sp inp env1).2.1 = (substitute sp inp env2).2.1 := by
  rw [substitute_fst, substitute_fst, substitute_out, substitute_out,
    resolveAlias_congr sp inp env1 env2 h]
  exact ⟨rfl, rfl⟩

theorem substitute_aliases (sp : ShaderPreprocessor) (inp : Str) (env : Env) :
    (substitute sp inp env).2.2.aliases = env.aliases := by
  obtain ⟨log, h⟩ := substitute_env sp inp env
  rw [h]

theorem strFind_open_ne_nil {line : Str} {b : Nat} (h : strFind openString line = some b) :
    line ≠ [] := by
  intro e
  subst e
  simp [strFind, openString, List.isPrefixOf] at h

/-- The loop of `substituteLine` does not depend on the amount of fuel once it exceeds the
length of the line, and the text already processed is only a prefix of the result. -/
theorem substituteLoop_canonical (sp : ShaderPreprocessor) :
    ∀ (n : Nat) (line : Str), line.length < n →
    ∀ (f : Nat) (p : Str) (env env0 : Env), line.length < f → env.aliases = env0.aliases →
      (substituteLoop sp f line p env).1 = (substituteLoop sp (line.length + 1) line [] env0).1
      ∧ ((substituteLoop sp (line.length + 1) line [] env0).1 = true →
          (substituteLoop sp f line p env).2.line
            = p ++ (substituteLoop sp (line.length + 1) line [] env0).2.line) := by
  intro n
  induction n with
  | zero => intro line h; omega
  | succ n ih =>
    intro line hn f p env env0 hf hal
    obtain ⟨f1, rfl⟩ : ∃ f1, f = f1 + 1 := ⟨f - 1, by omega⟩
    simp only [substituteLoop]
    cases hb : strFind openString line with
    | none => simp
    | some b =>
      dsimp only
      cases he : strFind [rbrace] (List.drop b line) with
      | none => simp
      | some e =>
        dsimp only
        have hne := strFind_open_ne_nil hb
        have hlen : 0 < line.length := List.length_pos.mpr hne
        have hdrop : (List.drop (b + e + 1) line).length < line.length := by
          simp only [List.length_drop]; omega
        have hsub := substitute_congr sp (substr line (b + 2) (e - 2))
          { env with line := line } { env0 with line := line } (by simpa using hal)
        have hal1 : (substitute sp (substr line (b + 2) (e - 2)) { env with line := line }).2.2.aliases
            = (substitute sp (substr line (b + 2) (e - 2)) { env0 with line := line }).2.2.aliases := by
          rw [substitute_aliases, substitute_aliases]; simpa using hal
        have h1 := ih (List.drop (b + e + 1) line) (by omega) f1
          (p ++ List.take b line
            ++ (substitute sp (substr line (b + 2) (e - 2)) { env with line := line }).2.1)
          (substitute sp (substr line (b + 2) (e - 2)) { env with line := line }).2.2
          (substitute sp (substr line (b + 2) (e - 2)) { env0 with line := line }).2.2
          (by omega) hal1
        have h2 := ih (List.drop (b + e + 1) line) (by omega) line.length
          ([] ++ List.take b line
            ++ (substitute sp (substr line (b + 2) (e - 2)) { env0 with line := line }).2.1)
          (substitute sp (substr line (b + 2) (e - 2)) { env0 with line := line }).2.2
          (substitute sp (substr line (b + 2) (e - 2)) { env0 with line := line }).2.2
          (by omega) rfl
        refine ⟨h1.1.trans h2.1.symm, ?_⟩
        intro ht
        rw [h2.1] at ht
        rw [h1.2 ht, h2.2 ht, hsub.2]
        simp



theorem strFind_rbrace_open (name post : Str) (h : rbrace ∉ name) :
    strFind [rbrace] (openString ++ name ++ [rbrace] ++ post) = some (name.length + 2) := by
  have := strFind_single_append rbrace name post h
  simp only [openString, hashChar, lbrace, List.cons_append, List.nil_append, List.append_assoc,
    strFind, List.isPrefixOf]
  simp only [List.singleton_append] at this ⊢
  simp [rbrace] at this ⊢
  simp [this]

theorem isString_iff (s : Str) :
    isString s = true ↔ ∃ mid, s = [dquote] ++ mid ++ [dquote] := by
  constructor
  · intro h
    simp only [isString, Bool.and_eq_true, decide_eq_true_eq, beq_iff_eq] at h
    obtain ⟨⟨hlen, hh⟩, hl⟩ := h
    obtain ⟨ys, rfl⟩ := List.getLast?_eq_some_iff.mp hl
    cases ys with
    | nil => simp at hlen
    | cons c cs =>
      simp only [List.cons_append, List.head?_cons, Option.some.injEq] at hh
      subst hh
      exact ⟨cs, by simp⟩
  · rintro ⟨mid, rfl⟩
    have : (dquote :: (mid ++ [dquote])).getLast? = some dquote := by
      rw [← List.cons_append, List.getLast?_append]; simp
    simp [isString, this]

theorem substr_unquote (mid : Str) :
    substr ([dquote] ++ mid ++ [dquote]) 1 (([dquote] ++ mid ++ [dquote]).length - 2) = mid := by
  simp [substr]

theorem isString_unquote (s : Str) (h : isString s = true) :
    s = [dquote] ++ substr s 1 (s.length - 2) ++ [dquote] := by
  obtain ⟨mid, rfl⟩ := (isString_iff s).mp h
  rw [substr_unquote]

theorem substituteLine_step (sp : ShaderPreprocessor) (env : Env) (pre name post : Str)
    (hpre : strFind openString pre = none) (hname : rbrace ∉ name) :
    (substituteLine sp { env with line := pre ++ openString ++ name ++ [rbrace] ++ post }).1
        = (substituteLine sp { env with line := post }).1
      ∧ ((substituteLine sp { env with line := post }).1 = true →
          (substituteLine sp { env with line := pre ++ openString ++ name ++ [rbrace] ++ post }).2.line
            = pre ++ (substitute sp name env).2.1
                ++ (substituteLine sp { env with line := post }).2.line) := by
  have hb : strFind openString (pre ++ openString ++ name ++ [rbrace] ++ post) = some pre.length := by
    have := strFind_open_append pre (name ++ [rbrace] ++ post) hpre
    simpa [List.append_assoc] using this
  have hd : List.drop pre.length (pre ++ openString ++ name ++ [rbrace] ++ post)
      = openString ++ name ++ [rbrace] ++ post := by
    simp [List.append_assoc]
  have he := strFind_rbrace_open name post hname
  have hinp : substr (pre ++ openString ++ name ++ [rbrace] ++ post) (pre.length + 2) (name.length + 2 - 2)
      = name := by
    simp [substr, List.append_assoc, openString, List.drop_append]
  have hrest : List.drop (pre.length + (name.length + 2) + 1)
      (pre ++ openString ++ name ++ [rbrace] ++ post) = post := by
    have : pre.length + (name.length + 2) + 1
        = (pre ++ openString ++ name ++ [rbrace]).length := by
      simp [openString]; omega
    rw [this, List.drop_left]
  have htake : List.take pre.length (pre ++ openString ++ name ++ [rbrace] ++ post) = pre := by
    simp [List.append_assoc]
  simp only [substituteLine]
  rw [substituteLoop, hb]
  dsimp only
  rw [hd, he]
  dsimp only
  rw [hinp, hrest, htake]
  have hs := substitute_congr sp name
    { env with line := pre ++ openString ++ name ++ [rbrace] ++ post } env rfl
  have hc := substituteLoop_canonical sp (post.length + 1) post (Nat.lt_succ_self _)
    (pre ++ openString ++ name ++ [rbrace] ++ post).length
    ([] ++ pre ++ (substitute sp name
      { env with line := pre ++ openString ++ name ++ [rbrace] ++ post }).2.1)
    (substitute sp name { env with line := pre ++ openString ++ name ++ [rbrace] ++ post }).2.2
    { env with line := post }
    (by simp [openString]; omega)
    (by rw [substitute_aliases])
  refine ⟨hc.1, ?_⟩
  intro ht
  rw [hc.2 ht, hs.2]
  simp



/-! ## Alias resolution -/

theorem strFind_dot (s : Str) :
    (match strFind ".".toList s with
      | some i => (s.take i, s.drop i)
      | none => (s, []))
      = (s.takeWhile (fun c => c != '.'), s.dropWhile (fun c => c != '.')) := by
  induction s with
  | nil => simp [strFind, List.isPrefixOf]
  | cons c cs ih =>
    by_cases hc : c = '.'
    · subst hc
      simp [strFind, List.isPrefixOf, List.takeWhile, List.dropWhile]
    · have h1 : ('.' == c) = false := by
        simp only [beq_eq_false_iff_ne, ne_eq]
        exact fun e => hc e.symm
      have h2 : (c != '.') = true := by simp [hc]
      simp only [String.toList, strFind, List.isPrefixOf, h1, Bool.false_and, Bool.false_eq_true,
        if_false, List.takeWhile, List.dropWhile, h2]
      simp only [String.toList] at ih
      cases hf : strFind ['.'] cs with
      | none =>
        have hf2 : strFind ".".data cs = none := hf
        rw [hf2] at ih
        simp only [Prod.mk.injEq] at ih
        simp [hf2, ← ih.1, ← ih.2]
      | some i =>
        have hf2 : strFind ".".data cs = some i := hf
        rw [hf2] at ih
        simp only [Prod.mk.injEq] at ih
        simp [hf2, ← ih.1, ← ih.2]



theorem resolveAlias_eq_spec (sp : ShaderPreprocessor) (name : Str) (env : Env) :
    resolveAlias sp name env = resolveAliasSpec sp name env := by
  unfold resolveAlias resolveAliasSpec topBinding
  rw [strFind_dot]
  dsimp only
  have hb : (match env.aliases (List.takeWhile (fun c => c != '.') name) with
      | some st => (match st.getLast? with
        | some v => v
        | none => List.takeWhile (fun c => c != '.') name)
      | none => List.takeWhile (fun c => c != '.') name)
      = (match env.aliases (List.takeWhile (fun c => c != '.') name) with
      | some st => st.getLast?.getD (List.takeWhile (fun c => c != '.') name)
      | none => List.takeWhile (fun c => c != '.') name) := by
    cases env.aliases (List.takeWhile (fun c => c != '.') name) with
    | none => rfl
    | some st =>
      dsimp only
      cases st.getLast? <;> rfl
  rw [hb]
  congr 1
  cases hr : List.dropWhile (fun c => c != '.') name with
  | nil => simp [Bool.or_eq_true]
  | cons a as => simp

/-! ## Scopes -/

theorem strLt_asymm : ∀ (a b : Str), strLt a b = true → strLt b a = false
  | [], [], h => by simp [strLt] at h
  | [], _ :: _, _ => by simp [strLt]
  | _ :: _, [], h => by simp [strLt] at h
  | a :: as, b :: bs, h => by
    simp only [strLt] at h ⊢
    by_cases h1 : a.toNat < b.toNat
    · have h2 : ¬ b.toNat < a.toNat := by omega
      simp [h1, h2]
    · by_cases h2 : b.toNat < a.toNat
      · simp [h1, h2] at h
      · simp only [h1, h2, if_false] at h ⊢
        exact strLt_asymm as bs h

theorem strLt_irrefl (a : Str) : strLt a a = false := by
  cases h : strLt a a with
  | false => rfl
  | true => have := strLt_asymm a a h; rw [h] at this; exact this

/-- Inserting a key that is above every element of the set appends it. -/
theorem setInsert_append (key : Str) (scope : List Str)
    (h : ∀ x ∈ scope, strLt x key = true) : setInsert key scope = scope ++ [key] := by
  induction scope with
  | nil => rfl
  | cons x xs ih =>
    have hx : strLt x key = true := h x (by simp)
    have hne : key ≠ x := by
      intro e; subst e; rw [strLt_irrefl] at hx; exact absurd hx (by simp)
    have hlt : strLt key x = false := strLt_asymm x key hx
    simp only [setInsert, hne, hlt, if_false, Bool.false_eq_true, List.cons_append]
    rw [ih (fun y hy => h y (by simp [hy]))]

theorem IsMap.tail {a : Str × Str} {m : List (Str × Str)} (h : IsMap (a :: m)) : IsMap m :=
  (List.pairwise_cons.mp h).2

theorem IsMap.head_not_mem {a : Str × Str} {m : List (Str × Str)} (h : IsMap (a :: m)) :
    a.1 ∉ m.map Prod.fst := by
  intro hm
  obtain ⟨b, hb, e⟩ := List.mem_map.mp hm
  have := (List.pairwise_cons.mp h).1 b hb
  rw [e, strLt_irrefl] at this
  exact absurd this (by simp)

theorem pushScopeLoop_scope (m : List (Str × Str)) :
    ∀ (scope : List Str) (al : Aliases), IsMap m →
      (∀ x ∈ scope, ∀ b ∈ m, strLt x b.1 = true) →
      (pushScopeLoop m scope al).1 = scope ++ m.map Prod.fst := by
  induction m with
  | nil => intro scope al _ _; simp [pushScopeLoop]
  | cons a rest ih =>
    intro scope al hm hs
    obtain ⟨key, value⟩ := a
    simp only [pushScopeLoop]
    have hi : setInsert key scope = scope ++ [key] :=
      setInsert_append key scope (fun x hx => hs x hx (key, value) (by simp))
    rw [hi, ih _ _ hm.tail]
    · simp
    · intro x hx b hb
      rcases List.mem_append.mp hx with h | h
      · exact hs x h b (by simp [hb])
      · simp only [List.mem_singleton] at h
        subst h
        exact (List.pairwise_cons.mp hm).1 b hb

theorem pushScopeLoop_cons (key value : Str) (rest : List (Str × Str)) (scope : List Str)
    (al : Aliases) :
    pushScopeLoop ((key, value) :: rest) scope al
      = pushScopeLoop rest (setInsert key scope) (aliasesPush al key value) := by
  simp only [pushScopeLoop, aliasesPush]
  congr 1
  cases h : al key with
  | none =>
    funext k
    by_cases hk : k = key <;> simp [aliasesSet, hk]
  | some st => simp [aliasesSet, h]

theorem pushScopeLoop_aliases_congr (m : List (Str × Str)) :
    ∀ (s1 s2 : List Str) (al1 al2 : Aliases) (j : Str), al1 j = al2 j →
      (pushScopeLoop m s1 al1).2 j = (pushScopeLoop m s2 al2).2 j := by
  induction m with
  | nil => intro s1 s2 al1 al2 j h; simpa [pushScopeLoop] using h
  | cons a rest ih =>
    intro s1 s2 al1 al2 j h
    obtain ⟨key, value⟩ := a
    rw [pushScopeLoop_cons, pushScopeLoop_cons]
    apply ih
    by_cases hj : j = key
    · subst hj; simp [aliasesPush, aliasesSet, h]
    · simp [aliasesPush, aliasesSet, hj, h]

theorem pushScopeLoop_aliases_not_mem (m : List (Str × Str)) :
    ∀ (s : List Str) (al : Aliases) (j : Str), j ∉ m.map Prod.fst →
      (pushScopeLoop m s al).2 j = al j := by
  induction m with
  | nil => intro s al j _; simp [pushScopeLoop]
  | cons a rest ih =>
    intro s al j hj
    obtain ⟨key, value⟩ := a
    simp only [List.map_cons, List.mem_cons, not_or] at hj
    rw [pushScopeLoop_cons, ih _ _ _ hj.2]
    simp [aliasesPush, aliasesSet, hj.1]

/-- Popping the names of a map that was just pushed restores the alias table. -/
theorem popScopeLoop_push (m : List (Str × Str)) :
    ∀ (s : List Str) (al : Aliases), IsMap m → (∀ k st, al k = some st → st ≠ []) →
      popScopeLoop (m.map Prod.fst) (pushScopeLoop m s al).2 = (true, al) := by
  induction m with
  | nil => intro s al _ _; simp [pushScopeLoop, popScopeLoop]
  | cons a rest ih =>
    intro s al hm hal
    obtain ⟨key, value⟩ := a
    have hnm : key ∉ rest.map Prod.fst := hm.head_not_mem
    have hk : (pushScopeLoop ((key, value) :: rest) s al).2 key
        = some ((al key).getD [] ++ [value]) := by
      rw [pushScopeLoop_cons, pushScopeLoop_aliases_not_mem _ _ _ _ hnm]
      simp [aliasesPush, aliasesSet]
    simp only [List.map_cons, popScopeLoop, hk, List.dropLast_concat]
    have key_eq : ∀ (A : Aliases), (∀ j, j ≠ key →
          A j = (pushScopeLoop ((key, value) :: rest) s al).2 j) → A key = al key →
        A = (pushScopeLoop rest s al).2 := by
      intro A h1 h2
      funext j
      by_cases hj : j = key
      · subst hj
        rw [h2, pushScopeLoop_aliases_not_mem _ _ _ _ hnm]
      · rw [h1 j hj, pushScopeLoop_cons]
        apply pushScopeLoop_aliases_congr
        simp [aliasesPush, aliasesSet, hj]
    split
    · rename_i hlen
      have hst : (al key).getD [] = [] := List.length_eq_zero.mp hlen
      have hnone : al key = none := by
        cases h : al key with
        | none => rfl
        | some st =>
          rw [h] at hst
          simp only [Option.getD_some] at hst
          exact absurd hst (hal key st h)
      rw [key_eq (aliasesErase _ key) (fun j hj => by simp [aliasesErase, hj])
        (by simp [aliasesErase, hnone])]
      exact ih s al hm.tail hal
    · rename_i hlen
      have hsome : al key = some ((al key).getD []) := by
        cases h : al key with
        | none => rw [h] at hlen; simp at hlen
        | some st => simp
      rw [key_eq (aliasesSet _ key _) (fun j hj => by simp [aliasesSet, hj])
        (by simp only [aliasesSet, if_true]; exact hsome.symm)]
      exact ih s al hm.tail hal


/-! ## Reading lines -/

theorem splitLine_line (l rest : Str) (h : '\n' ∉ l) :
    splitLine (l ++ '\n' :: rest) = (l, l.length + 1, false) := by
  induction l with
  | nil => simp [splitLine]
  | cons c cs ih =>
    have hc : c ≠ '\n' := fun e => h (by simp [e])
    have hcs : '\n' ∉ cs := fun e => h (by simp [e])
    simp [splitLine, hc, ih hcs]

theorem splitLine_last (l : Str) (h : '\n' ∉ l) :
    splitLine l = (l, l.length, true) := by
  induction l with
  | nil => simp [splitLine]
  | cons c cs ih =>
    have hc : c ≠ '\n' := fun e => h (by simp [e])
    have hcs : '\n' ∉ cs := fun e => h (by simp [e])
    simp [splitLine, hc, ih hcs]

theorem getline_line {input : Input} {l rest : Str} (ln : Str)
    (h : input.At (l ++ '\n' :: rest)) (hl : '\n' ∉ l) :
    getline input ln = (true, l, { input with pos := input.pos + l.length + 1 })
      ∧ Input.At { input with pos := input.pos + l.length + 1 } rest := by
  obtain ⟨h1, h2, h3, h4⟩ := h
  have hlen : input.pos + l.length + 1 ≤ input.content.length := by
    have := congrArg List.length h4
    simp only [List.length_drop, List.length_append, List.length_cons] at this
    omega
  have hlt : ¬ input.content.length ≤ input.pos := by omega
  constructor
  · simp only [getline, h1, h2, Bool.or_self, Bool.false_eq_true, if_false, hlt, h4,
      splitLine_line l rest hl]
    have : input = { input with eofbit := false } := by
      cases input; simp_all
    rw [Prod.mk.injEq, Prod.mk.injEq]
    refine ⟨rfl, rfl, ?_⟩
    cases input; simp_all [Nat.add_assoc]
  · refine ⟨h1, h2, hlen, ?_⟩
    show List.drop (input.pos + l.length + 1) input.content = rest
    have : input.pos + l.length + 1 = input.pos + (l.length + 1) := by omega
    rw [this, ← List.drop_drop, h4]
    simp

theorem getline_end {input : Input} (ln : Str) (h : input.At []) :
    getline input ln = (false, [], { input with eofbit := true, failbit := true }) := by
  obtain ⟨h1, h2, h3, h4⟩ := h
  have hle : input.content.length ≤ input.pos := by
    have := congrArg List.length h4
    simp only [List.length_drop, List.length_nil] at this
    omega
  simp [getline, h1, h2, hle]

/-! ## One line at a time -/

theorem take_eq_iff_isPrefixOf (p l : Str) : List.take p.length l = p ↔ p.isPrefixOf l = true := by
  rw [List.isPrefixOf_iff_prefix, List.prefix_iff_eq_take]
  exact eq_comm

theorem parseEndFor_not (sp : ShaderPreprocessor) (env : Env)
    (h : endForString.isPrefixOf env.line = false) : parseEndFor sp env = .ok (false, env) := by
  have : ¬ substr env.line 0 endForString.length = endForString := by
    intro e
    have := (take_eq_iff_isPrefixOf endForString env.line).mp (by simpa [substr] using e)
    rw [h] at this; exact absurd this (by simp)
  simp [parseEndFor, this]

theorem parseInclude_not (sp : ShaderPreprocessor) (inc : Str → Env → Res (Bool × Env))
    (env : Env) (h : includeString.isPrefixOf env.line = false) :
    parseInclude sp inc env = .ok (false, env) := by
  have : ¬ substr env.line 0 includeString.length = includeString := by
    intro e
    have := (take_eq_iff_isPrefixOf includeString env.line).mp (by simpa [substr] using e)
    rw [h] at this; exact absurd this (by simp)
  simp [parseInclude, this]

theorem tokenizeFor_not (line : Str) (h : forString.isPrefixOf line = false) :
    tokenizeFor line = some .notFor := by
  have : ¬ substr line 0 forString.length = forString := by
    intro e
    have := (take_eq_iff_isPrefixOf forString line).mp (by simpa [substr] using e)
    rw [h] at this; exact absurd this (by simp)
  simp [tokenizeFor, this]

theorem parseFor_not (sp : ShaderPreprocessor) (env : Env)
    (h : forString.isPrefixOf env.line = false) : parseFor sp env = .ok (false, env) := by
  simp [parseFor, tokenizeFor_not env.line h]

theorem substituteLine_none (sp : ShaderPreprocessor) (env : Env)
    (h : strFind openString env.line = none) : substituteLine sp env = (true, env) := by
  simp [substituteLine, substituteLoop, h]

theorem isDirective_false {line : Str} (h : isDirective line = false) :
    endForString.isPrefixOf line = false ∧ includeString.isPrefixOf line = false
      ∧ forString.isPrefixOf line = false := by
  simpa [isDirective, Bool.or_eq_false_iff, and_assoc] using h

/-- A line that is no directive, has no substitution and is not inside an empty loop is
written to the output behind the indentation of the file and its own. -/
theorem dispatchLine_plain (sp : ShaderPreprocessor) (inc : Str → Env → Res (Bool × Env))
    (input : Input) (env : Env) (hd : isDirective env.line = false)
    (hs : strFind openString env.line = none) (he : isInsideEmptyForStatement env = false) :
    dispatchLine sp inc input env
      = .ok (true, { env with output := env.output ++ input.indentation ++ env.indentation
          ++ env.line ++ "\n".toList }) := by
  obtain ⟨h1, h2, h3⟩ := isDirective_false hd
  simp [dispatchLine, parseEndFor_not sp env h1, he, substituteLine_none sp env hs,
    parseInclude_not sp inc env h2, parseFor_not sp env h3]

/-- Inside an empty loop a line that is not `#endfor` is dropped. -/
theorem dispatchLine_skip (sp : ShaderPreprocessor) (inc : Str → Env → Res (Bool × Env))
    (input : Input) (env : Env) (hd : endForString.isPrefixOf env.line = false)
    (he : isInsideEmptyForStatement env = true) :
    dispatchLine sp inc input env = .ok (true, env) := by
  simp [dispatchLine, parseEndFor_not sp env hd, he]

theorem parseLine_read (sp : ShaderPreprocessor) (inc : Str → Env → Res (Bool × Env))
    (env : Env) (ins : List Input) (input : Input) (l rest : Str)
    (hin : env.inputs = ins ++ [input]) (hat : input.At (l ++ '\n' :: rest)) (hl : '\n' ∉ l) :
    parseLine sp inc env
      = dispatchLine sp inc input
          (env.afterRead { input with pos := input.pos + l.length + 1 } l) := by
  simp [parseLine, hin, (getline_line env.line hat hl).1]

theorem parseLine_end (sp : ShaderPreprocessor) (inc : Str → Env → Res (Bool × Env))
    (env : Env) (ins : List Input) (input : Input)
    (hin : env.inputs = ins ++ [input]) (hat : input.At []) :
    parseLine sp inc env
      = .ok (false, { env with
          inputs := ins ++ [{ input with eofbit := true, failbit := true }], line := [] }) := by
  simp [parseLine, hin, getline_end env.line hat]

theorem parseLines_step (sp : ShaderPreprocessor) (step : Env → Res (Bool × Env))
    (path : Str) (fuel : Nat) (env env1 : Env) (h : step env = .ok (true, env1))
    (hs : env1.success = true) :
    parseLines sp step path (fuel + 1) env = parseLines sp step path fuel env1 := by
  simp [parseLines, h, hs]

theorem parseLines_stop (sp : ShaderPreprocessor) (step : Env → Res (Bool × Env))
    (path : Str) (fuel : Nat) (env env1 : Env) (h : step env = .ok (false, env1)) :
    parseLines sp step path (fuel + 1) env = .ok (true, env1) := by
  simp [parseLines, h]

/-! ## Runs of plain lines -/

theorem fileLines_no_newline : ∀ (r : Str), ∀ l ∈ fileLines r, '\n' ∉ l
  | [], l, h => by simp [fileLines] at h
  | c :: cs, l, h => by
    simp only [fileLines] at h
    split at h
    · rcases List.mem_cons.mp h with e | e
      · subst e; simp
      · exact fileLines_no_newline cs l e
    · rename_i hc
      cases hf : fileLines cs with
      | nil =>
        rw [hf] at h
        simp only [List.mem_singleton] at h
        subst h
        simpa using fun e => hc e.symm
      | cons l1 ls =>
        rw [hf] at h
        rcases List.mem_cons.mp h with e | e
        · subst e
          have := fileLines_no_newline cs l1 (by rw [hf]; simp)
          simp only [List.mem_cons, not_or]
          exact ⟨fun e => hc e.symm, this⟩
        · exact fileLines_no_newline cs l (by rw [hf]; simp [e])

/-- The bytes of a file are its lines, each but possibly the last followed by a newline. -/
theorem fileLines_cases : ∀ (r : Str),
    r = joinLines (fileLines r)
      ∨ ∃ init last, fileLines r = init ++ [last] ∧ last ≠ [] ∧ r = joinLines init ++ last
  | [] => by left; simp [fileLines, joinLines]
  | c :: cs => by
    by_cases hc : c = '\n'
    · subst hc
      rcases fileLines_cases cs with h | ⟨init, last, h1, h2, h3⟩
      · left
        simp only [fileLines, if_true, joinLines, List.nil_append]
        rw [← h]
      · right
        refine ⟨[] :: init, last, by simp [fileLines, h1], h2, ?_⟩
        simp only [joinLines, List.nil_append, List.cons_append]
        rw [← h3]
    · rcases fileLines_cases cs with h | ⟨init, last, h1, h2, h3⟩
      · cases hf : fileLines cs with
        | nil =>
          right
          rw [hf] at h
          simp only [joinLines] at h
          subst h
          exact ⟨[], [c], by simp [fileLines, hc], by simp, by simp [joinLines]⟩
        | cons l ls =>
          left
          rw [hf] at h
          simp only [fileLines, hc, if_false, hf, joinLines, List.cons_append]
          simp only [joinLines] at h
          rw [← h]
      · cases init with
        | nil =>
          right
          simp only [List.nil_append] at h1
          simp only [joinLines, List.nil_append] at h3
          subst h3
          exact ⟨[], c :: cs, by simp [fileLines, hc, h1], by simp, by simp [joinLines]⟩
        | cons l ls =>
          right
          simp only [List.cons_append] at h1
          refine ⟨(c :: l) :: ls, last, by simp [fileLines, hc, h1], h2, ?_⟩
          simp only [joinLines, List.cons_append]
          simp only [joinLines, List.cons_append, List.append_assoc] at h3
          rw [h3]
          simp

@[simp] theorem isInsideEmpty_afterRead (env : Env) (input : Input) (l : Str) :
    isInsideEmptyForStatement (env.afterRead input l) = isInsideEmptyForStatement env := rfl

theorem isInsideEmpty_congr {e e1 : Env} (h : e1.forStatements = e.forStatements) :
    isInsideEmptyForStatement e1 = isInsideEmptyForStatement e := by
  simp [isInsideEmptyForStatement, h]

theorem Env.Frame.same (e : Env) : e.Frame e := ⟨rfl, rfl, rfl, rfl, rfl, rfl⟩

theorem Env.Frame.comp {a b c : Env} (h1 : a.Frame b) (h2 : b.Frame c) : a.Frame c :=
  ⟨h2.scopes.trans h1.scopes, h2.forStatements.trans h1.forStatements,
    h2.aliases.trans h1.aliases, h2.success.trans h1.success, h2.log.trans h1.log,
    h2.trackedFiles.trans h1.trackedFiles⟩

theorem isPlainLine_iff {l : Str} (h : isPlainLine l = true) :
    isDirective (trim l) = false ∧ strFind openString (trim l) = none := by
  simpa [isPlainLine, Option.isNone_iff_eq_none] using h

/-- A run of plain lines outside an empty loop: each one is written to the output. -/
theorem run_plain (sp : ShaderPreprocessor) (inc : Str → Env → Res (Bool × Env))
    (path : Str) (ins : List Input) :
    ∀ (seg : List Str) (rest : Str) (env : Env) (input : Input) (fuel : Nat),
      (∀ l ∈ seg, '\n' ∉ l ∧ isPlainLine l = true) →
      env.inputs = ins ++ [input] → input.At (joinLines seg ++ rest) →
      isInsideEmptyForStatement env = false → env.success = true →
      ∃ env1 input1,
        parseLines sp (parseLine sp inc) path (fuel + seg.length) env
            = parseLines sp (parseLine sp inc) path fuel env1
          ∧ env1.output = env.output ++ renderLines input.indentation seg
          ∧ env1.inputs = ins ++ [input1] ∧ input1.At rest
          ∧ input.Moved input1 (joinLines seg).length seg.length
          ∧ env.Frame env1 := by
  intro seg
  induction seg with
  | nil =>
    intro rest env input fuel _ hin hat _ _
    exact ⟨env, input, rfl, by simp [renderLines], hin, by simpa [joinLines] using hat,
      ⟨rfl, rfl, rfl, by simp [joinLines], rfl⟩, Env.Frame.same env⟩
  | cons l ls ih =>
    intro rest env input fuel hseg hin hat hemp hsucc
    obtain ⟨hnl, hpl⟩ := hseg l (by simp)
    obtain ⟨hdir, hsub⟩ := isPlainLine_iff hpl
    have hat1 : input.At (l ++ '\n' :: (joinLines ls ++ rest)) := by
      simpa [joinLines] using hat
    have hread := parseLine_read sp inc env ins input l _ hin hat1 hnl
    have hat2 := (getline_line env.line hat1 hnl).2
    let envR : Env := env.afterRead { input with pos := input.pos + l.length + 1 } l
    let env2 : Env := { envR with output := envR.output ++ input.indentation
      ++ envR.indentation ++ envR.line ++ "\n".toList }
    have hdisp : dispatchLine sp inc input envR = .ok (true, env2) :=
      dispatchLine_plain sp inc input envR
        (by simpa [envR, Env.afterRead, trim] using hdir)
        (by simpa [envR, Env.afterRead, trim] using hsub)
        (by simpa [envR] using hemp)
    rw [hdisp] at hread
    have hstep := parseLines_step sp (parseLine sp inc) path (fuel + ls.length) env env2 hread
      (by simpa [env2, envR, Env.afterRead] using hsucc)
    obtain ⟨env1, input1, h1, h2, h3, h4, h5, h6⟩ := ih rest env2
      { input with pos := input.pos + l.length + 1, lineNumber := input.lineNumber + 1 } fuel
      (fun x hx => hseg x (by simp [hx]))
      (by simp [env2, envR, Env.afterRead, hin])
      (by
        obtain ⟨a, b, c, d⟩ := hat2
        exact ⟨a, b, c, d⟩)
      (by simpa [env2, envR, isInsideEmptyForStatement, Env.afterRead] using hemp)
      (by simpa [env2, envR, Env.afterRead] using hsucc)
    refine ⟨env1, input1, ?_, ?_, h3, h4, ?_, ?_⟩
    · rw [← h1, ← hstep]
      simp [Nat.add_assoc]
    · rw [h2]
      simp [env2, envR, renderLines, renderLine, Env.afterRead, List.append_assoc]
    · exact ⟨h5.path, h5.content, h5.indentation, by
        rw [h5.pos]; simp [joinLines]; omega, by
        rw [h5.lineNumber]; simp; omega⟩
    · exact Env.Frame.comp (b := env2) ⟨rfl, rfl, rfl, rfl, rfl, rfl⟩ h6

/-- A run of lines inside an empty loop, none of them an `#endfor`: nothing is written. -/
theorem run_skip (sp : ShaderPreprocessor) (inc : Str → Env → Res (Bool × Env))
    (path : Str) (ins : List Input) :
    ∀ (seg : List Str) (rest : Str) (env : Env) (input : Input) (fuel : Nat),
      (∀ l ∈ seg, '\n' ∉ l ∧ endForString.isPrefixOf (trim l) = false) →
      env.inputs = ins ++ [input] → input.At (joinLines seg ++ rest) →
      isInsideEmptyForStatement env = true → env.success = true →
      ∃ env1 input1,
        parseLines sp (parseLine sp inc) path (fuel + seg.length) env
            = parseLines sp (parseLine sp inc) path fuel env1
          ∧ env1.output = env.output
          ∧ env1.inputs = ins ++ [input1] ∧ input1.At rest
          ∧ input.Moved input1 (joinLines seg).length seg.length
          ∧ env.Frame env1 := by
  intro seg
  induction seg with
  | nil =>
    intro rest env input fuel _ hin hat _ _
    exact ⟨env, input, rfl, rfl, hin, by simpa [joinLines] using hat,
      ⟨rfl, rfl, rfl, by simp [joinLines], rfl⟩, Env.Frame.same env⟩
  | cons l ls ih =>
    intro rest env input fuel hseg hin hat hemp hsucc
    obtain ⟨hnl, hpl⟩ := hseg l (by simp)
    have hat1 : input.At (l ++ '\n' :: (joinLines ls ++ rest)) := by
      simpa [joinLines] using hat
    have hread := parseLine_read sp inc env ins input l _ hin hat1 hnl
    have hat2 := (getline_line env.line hat1 hnl).2
    let envR : Env := env.afterRead { input with pos := input.pos + l.length + 1 } l
    have hdisp : dispatchLine sp inc input envR = .ok (true, envR) :=
      dispatchLine_skip sp inc input envR
        (by simpa [envR, Env.afterRead, trim] using hpl)
        (by simpa [envR] using hemp)
    rw [hdisp] at hread
    have hstep := parseLines_step sp (parseLine sp inc) path (fuel + ls.length) env envR hread
      (by simpa [envR, Env.afterRead] using hsucc)
    obtain ⟨env1, input1, h1, h2, h3, h4, h5, h6⟩ := ih rest envR
      { input with pos := input.pos + l.length + 1, lineNumber := input.lineNumber + 1 } fuel
      (fun x hx => hseg x (by simp [hx]))
      (by simp [envR, Env.afterRead, hin])
      (by
        obtain ⟨a, b, c, d⟩ := hat2
        exact ⟨a, b, c, d⟩)
      (by simpa [envR] using hemp)
      (by simpa [envR, Env.afterRead] using hsucc)
    refine ⟨env1, input1, ?_, ?_, h3, h4, ?_, ?_⟩
    · rw [← h1, ← hstep]
      simp [Nat.add_assoc]
    · rw [h2]; rfl
    · exact ⟨h5.path, h5.content, h5.indentation, by
        rw [h5.pos]; simp [joinLines]; omega, by
        rw [h5.lineNumber]; simp; omega⟩
    · exact Env.Frame.comp (b := envR) ⟨rfl, rfl, rfl, rfl, rfl, rfl⟩ h6

theorem getline_last {input : Input} {l : Str} (ln : Str)
    (h : input.At l) (hne : l ≠ []) (hl : '\n' ∉ l) :
    getline input ln
      = (true, l, { input with pos := input.pos + l.length, eofbit := true }) := by
  obtain ⟨h1, h2, h3, h4⟩ := h
  have hlt : ¬ input.content.length ≤ input.pos := by
    have := congrArg List.length h4
    have hpos : 0 < l.length := List.length_pos.mpr hne
    simp only [List.length_drop] at this
    omega
  simp only [getline, h1, h2, Bool.or_self, Bool.false_eq_true, if_false, hlt, h4,
    splitLine_last l hl]

theorem parseLine_read_last (sp : ShaderPreprocessor) (inc : Str → Env → Res (Bool × Env))
    (env : Env) (ins : List Input) (input : Input) (l : Str)
    (hin : env.inputs = ins ++ [input]) (hat : input.At l) (hne : l ≠ []) (hl : '\n' ∉ l) :
    parseLine sp inc env
      = dispatchLine sp inc input
          (env.afterRead { input with pos := input.pos + l.length, eofbit := true } l) := by
  simp [parseLine, hin, getline_last env.line hat hne hl]

theorem parseLine_eofbit (sp : ShaderPreprocessor) (inc : Str → Env → Res (Bool × Env))
    (env : Env) (ins : List Input) (input : Input)
    (hin : env.inputs = ins ++ [input]) (he : input.eofbit = true) :
    parseLine sp inc env
      = .ok (false, { env with inputs := ins ++ [{ input with failbit := true }] }) := by
  simp [parseLine, hin, getline, he]

theorem renderLines_append (indent : Str) (a b : List Str) :
    renderLines indent (a ++ b) = renderLines indent a ++ renderLines indent b := by
  induction a with
  | nil => simp [renderLines]
  | cons l ls ih => simp [renderLines, ih, List.append_assoc]

/-- A file whose remaining lines are all plain is copied to its end, with or without a
final newline, and the line loop ends there. -/
theorem run_plain_end (sp : ShaderPreprocessor) (inc : Str → Env → Res (Bool × Env))
    (path : Str) (ins : List Input) (r : Str) (env : Env) (input : Input) (fuel : Nat)
    (hplain : ∀ l ∈ fileLines r, isPlainLine l = true)
    (hin : env.inputs = ins ++ [input]) (hat : input.At r)
    (hemp : isInsideEmptyForStatement env = false) (hsucc : env.success = true) :
    ∃ env1 input1,
      parseLines sp (parseLine sp inc) path (fuel + (fileLines r).length + 1) env
          = .ok (true, env1)
        ∧ env1.output = env.output ++ renderLines input.indentation (fileLines r)
        ∧ env1.inputs = ins ++ [input1]
        ∧ input1.path = input.path ∧ input1.indentation = input.indentation
        ∧ input1.lineNumber = input.lineNumber + (fileLines r).length
        ∧ env.Frame env1 := by
  have hnl := fileLines_no_newline r
  rcases fileLines_cases r with h | ⟨init, last, h1, h2, h3⟩
  · obtain ⟨env1, input1, e1, e2, e3, e4, e5, e6⟩ := run_plain sp inc path ins (fileLines r) []
      env input (fuel + 1) (fun l hl => ⟨hnl l hl, hplain l hl⟩) hin
      (by rw [List.append_nil, ← h]; exact hat) hemp hsucc
    have hend := parseLine_end sp inc env1 ins input1 e3 e4
    let inputE : Input := { input1 with eofbit := true, failbit := true }
    let envE : Env := { env1 with inputs := ins ++ [inputE], line := [] }
    refine ⟨envE, inputE, ?_, ?_, rfl, e5.path, e5.indentation, e5.lineNumber, ?_⟩
    · have : fuel + (fileLines r).length + 1 = fuel + 1 + (fileLines r).length := by omega
      rw [this, e1]
      exact parseLines_stop sp _ path fuel env1 _ hend
    · exact e2
    · exact Env.Frame.comp e6 ⟨rfl, rfl, rfl, rfl, rfl, rfl⟩
  · have hlast_mem : last ∈ fileLines r := by rw [h1]; simp
    obtain ⟨env1, input1, e1, e2, e3, e4, e5, e6⟩ := run_plain sp inc path ins init last
      env input (fuel + 2) (fun l hl => ⟨hnl l (by rw [h1]; simp [hl]),
        hplain l (by rw [h1]; simp [hl])⟩) hin (by rw [← h3]; exact hat) hemp hsucc
    obtain ⟨hdir, hsub⟩ := isPlainLine_iff (hplain last hlast_mem)
    have hemp1 : isInsideEmptyForStatement env1 = false := by
      rw [isInsideEmpty_congr e6.forStatements]; exact hemp
    have hsucc1 : env1.success = true := by rw [e6.success]; exact hsucc
    have hread := parseLine_read_last sp inc env1 ins input1 last e3 e4 h2 (hnl last hlast_mem)
    let envR : Env := env1.afterRead
      { input1 with pos := input1.pos + last.length, eofbit := true } last
    let env2 : Env := { envR with output := envR.output ++ input1.indentation
      ++ envR.indentation ++ envR.line ++ "\n".toList }
    have hdisp : dispatchLine sp inc input1 envR = .ok (true, env2) :=
      dispatchLine_plain sp inc input1 envR
        (by simpa [envR, Env.afterRead, trim] using hdir)
        (by simpa [envR, Env.afterRead, trim] using hsub)
        (by simpa [envR] using hemp1)
    rw [hdisp] at hread
    have hstep := parseLines_step sp (parseLine sp inc) path (fuel + 1) env1 env2 hread
      (by simpa [env2, envR, Env.afterRead] using hsucc1)
    let input2 : Input := { input1 with
      pos := input1.pos + last.length, eofbit := true, lineNumber := input1.lineNumber + 1 }
    have hin2 : env2.inputs = ins ++ [input2] := by
      simp [env2, envR, input2, Env.afterRead, e3]
    have hend := parseLine_eofbit sp inc env2 ins input2 hin2 rfl
    have hstop := parseLines_stop sp _ path fuel env2 _ hend
    let inputE : Input := { input2 with failbit := true }
    let envE : Env := { env2 with inputs := ins ++ [inputE] }
    refine ⟨envE, inputE, ?_, ?_, rfl, ?_, ?_, ?_, ?_⟩
    · have : fuel + (fileLines r).length + 1 = fuel + 2 + init.length := by
        rw [h1]; simp; omega
      rw [this, e1, hstep, hstop]
    · simp only [env2, envR, Env.afterRead, e2, h1, renderLines_append, renderLines,
        renderLine, e5.indentation]
      simp [List.append_assoc]
    · exact e5.path
    · exact e5.indentation
    · simp only [e5.lineNumber, h1, List.length_append, List.length_singleton]
      omega
    · exact Env.Frame.comp e6 ⟨rfl, rfl, rfl, rfl, rfl, rfl⟩

theorem trackPath_eq (env : Env) (path : Str) : trackPath env path = (true, env) := by
  unfold trackPath
  split
  · rename_i h; simp [h]
  · rfl

/-- The line marker `addLineNumber` writes for an `Input`. -/
theorem addLineNumber_snoc (sp : ShaderPreprocessor) (env : Env) (ins : List Input)
    (input : Input) (h : env.inputs = ins ++ [input]) :
    addLineNumber sp env
      = .ok { env with
          output := env.output ++ "#line ".toList ++ natStr input.lineNumber ++ " ".toList
            ++ sp.fs.filename input.path ++ "\n".toList } := by
  simp [addLineNumber, h]

/-! ## The root file -/

theorem includeFile_unfold (sp : ShaderPreprocessor) (fuel : Nat) (path content : Str)
    (env : Env) (hopen : sp.fs.openStream path = some content) :
    includeFile sp (fuel + 1) path env =
      match parseLines sp (parseLine sp (includeFile sp fuel)) path fuel
          (env.enter sp path content) with
      | .crash => .crash
      | .outOfFuel => .outOfFuel
      | .ok r =>
        if !r.1 then .ok (false, r.2)
        else
          match r.2.forStatements.getLast? with
          | some forStatement =>
            if forStatement.inputIndex ≥ r.2.inputs.length - 1 then
              match r.2.inputs.get? forStatement.inputIndex with
              | none => .crash
              | some forInput =>
                .ok (false, logError r.2
                  ("Parse error. Unexpected end of file. Still processing #for loop from ".toList
                    ++ sp.fs.filePath forInput.path ++ ":".toList
                    ++ natStr forStatement.lineNumber ++ ". ".toList
                    ++ debugString sp r.2))
            else
              if (r.2.inputs.dropLast).length > 0 then
                match addLineNumber sp { r.2 with inputs := r.2.inputs.dropLast } with
                | .ok env4 => .ok (true, env4)
                | .crash => .crash
                | .outOfFuel => .outOfFuel
              else .ok (true, { r.2 with inputs := r.2.inputs.dropLast })
          | none =>
            if (r.2.inputs.dropLast).length > 0 then
              match addLineNumber sp { r.2 with inputs := r.2.inputs.dropLast } with
              | .ok env4 => .ok (true, env4)
              | .crash => .crash
              | .outOfFuel => .outOfFuel
            else .ok (true, { r.2 with inputs := r.2.inputs.dropLast }) := by
  rw [includeFile]
  simp only [trackPath_eq, Bool.not_true, Bool.false_eq_true, if_false, hopen]
  have hadd : addLineNumber sp { env with inputs := env.inputs ++ [{
      path := path, content := content, pos := 0, eofbit := false, failbit := false,
      indentation := (match env.inputs.getLast? with
        | some parent => parent.indentation
        | none => []) ++ env.indentation,
      lineNumber := sp.initialLineNumber }] } = .ok (env.enter sp path content) := by
    rw [addLineNumber_snoc sp _ env.inputs _ rfl]
    rfl
  rw [hadd]

/-- The root file: when the line loop ends with no loop open, the `Input` is popped and no
marker follows. -/
theorem includeFile_root (sp : ShaderPreprocessor) (fuel : Nat) (path content : Str)
    (env env2 : Env) (input2 : Input) (hopen : sp.fs.openStream path = some content)
    (hrun : parseLines sp (parseLine sp (includeFile sp fuel)) path fuel
      (env.enter sp path content) = .ok (true, env2))
    (hfor : env2.forStatements = []) (hin : env2.inputs = [input2]) :
    includeFile sp (fuel + 1) path env = .ok (true, { env2 with inputs := [] }) := by
  rw [includeFile_unfold sp fuel path content env hopen, hrun]
  simp [hfor, hin]

theorem processEnv_of_includeFile (sp : ShaderPreprocessor) (tracked : List Str) (fuel : Nat)
    (b : Bool) (env : Env)
    (h : includeFile sp fuel (sp.fs.absPath sp.shaderPath) (Env.initial []) = .ok (b, env))
    (hfor : env.forStatements = []) (hsc : env.scopes = []) :
    processEnv sp tracked fuel = .ok env := by
  have h0 : clearTrackedPaths (Env.initial tracked) = Env.initial [] := rfl
  simp [processEnv, h0, h, hfor, hsc]

/-- A root file of plain lines: the marker of the root file, then every line. -/
theorem process_plain (sp : ShaderPreprocessor) (tracked : List Str) (content : Str)
    (fuel : Nat) (hopen : sp.fs.openStream (sp.fs.absPath sp.shaderPath) = some content)
    (hplain : ∀ l ∈ fileLines content, isPlainLine l = true)
    (hfuel : (fileLines content).length + 2 ≤ fuel) :
    process sp tracked fuel
      = .ok (true, lineMarker sp sp.initialLineNumber (sp.fs.absPath sp.shaderPath)
          ++ renderLines [] (fileLines content)) := by
  obtain ⟨f, rfl⟩ : ∃ f, fuel = f + (fileLines content).length + 1 + 1 :=
    ⟨fuel - (fileLines content).length - 2, by omega⟩
  let env0 : Env := (Env.initial []).enter sp (sp.fs.absPath sp.shaderPath) content
  let input0 : Input :=
    { path := sp.fs.absPath sp.shaderPath, content := content, pos := 0, eofbit := false,
      failbit := false, indentation := [], lineNumber := sp.initialLineNumber }
  obtain ⟨env1, input1, e1, e2, e3, _, _, _, e7⟩ := run_plain_end sp
    (includeFile sp (f + (fileLines content).length + 1)) (sp.fs.absPath sp.shaderPath) []
    content env0 input0 f hplain rfl ⟨rfl, rfl, Nat.zero_le _, rfl⟩ rfl rfl
  have hinc := includeFile_root sp (f + (fileLines content).length + 1)
    (sp.fs.absPath sp.shaderPath) content (Env.initial []) env1 input1 hopen e1
    (by rw [e7.forStatements]; rfl) (by simpa using e3)
  have hp := processEnv_of_includeFile sp tracked _ true _ hinc
    (by show env1.forStatements = []; rw [e7.forStatements]; rfl)
    (by show env1.scopes = []; rw [e7.scopes]; rfl)
  simp only [process, hp]
  have hs : env1.success = true := by rw [e7.success]; rfl
  simp [hs, e2, env0, input0, Env.enter, Env.initial, lineMarker]

/-! ## Trimming -/

theorem findLastNotOf_some (set : Str) : ∀ (l : Str) (e : Nat), findLastNotOf set l = some e →
    e < l.length ∧ (∀ c ∈ l.drop (e + 1), c ∈ set) ∧ l.get? e ∉ set.map some
  | [], e, h => by simp [findLastNotOf] at h
  | c :: cs, e, h => by
    simp only [findLastNotOf] at h
    cases hr : findLastNotOf set cs with
    | some i =>
      rw [hr] at h
      simp only [Option.some.injEq] at h
      subst h
      obtain ⟨h1, h2, h3⟩ := findLastNotOf_some set cs i hr
      exact ⟨by simp; omega, by simpa using h2, by simpa using h3⟩
    | none =>
      rw [hr] at h
      by_cases hc : c ∈ set
      · simp [hc] at h
      · simp only [hc, if_false, Option.some.injEq] at h
        subst h
        refine ⟨by simp, ?_, by simpa using hc⟩
        have hall : ∀ (l : Str), findLastNotOf set l = none → ∀ x ∈ l, x ∈ set := by
          intro l
          induction l with
          | nil => simp
          | cons d ds ih =>
            intro hn x hx
            simp only [findLastNotOf] at hn
            cases hd : findLastNotOf set ds with
            | some j => rw [hd] at hn; simp at hn
            | none =>
              rw [hd] at hn
              by_cases hds : d ∈ set
              · rcases List.mem_cons.mp hx with e | e
                · subst e; exact hds
                · exact ih hd x e
              · simp [hds] at hn
        simpa using hall cs hr

theorem findLastNotOf_none (set : Str) : ∀ (l : Str), findLastNotOf set l = none →
    ∀ x ∈ l, x ∈ set
  | [], _, x, hx => by simp at hx
  | d :: ds, hn, x, hx => by
    simp only [findLastNotOf] at hn
    cases hd : findLastNotOf set ds with
    | some j => rw [hd] at hn; simp at hn
    | none =>
      rw [hd] at hn
      by_cases hds : d ∈ set
      · rcases List.mem_cons.mp hx with e | e
        · subst e; exact hds
        · exact findLastNotOf_none set ds hd x e
      · simp [hds] at hn

theorem findFirstNotOf_some (set : Str) : ∀ (l : Str) (s : Nat), findFirstNotOf set l = some s →
    s < l.length ∧ (∀ c ∈ l.take s, c ∈ set) ∧ l.get? s ∉ set.map some
  | [], s, h => by simp [findFirstNotOf] at h
  | c :: cs, s, h => by
    simp only [findFirstNotOf] at h
    by_cases hc : c ∈ set
    · simp only [hc, if_true, Option.map_eq_some'] at h
      obtain ⟨i, hi, rfl⟩ := h
      obtain ⟨h1, h2, h3⟩ := findFirstNotOf_some set cs i hi
      refine ⟨by simp; omega, ?_, by simpa using h3⟩
      intro x hx
      simp only [List.take_succ_cons, List.mem_cons] at hx
      rcases hx with e | e
      · subst e; exact hc
      · exact h2 x e
    · simp only [hc, if_false, Option.some.injEq] at h
      subst h
      exact ⟨by simp, by simp, by simpa using hc⟩

theorem findFirstNotOf_none (set : Str) : ∀ (l : Str), findFirstNotOf set l = none →
    ∀ x ∈ l, x ∈ set
  | [], _, x, hx => by simp at hx
  | d :: ds, hn, x, hx => by
    simp only [findFirstNotOf] at hn
    by_cases hds : d ∈ set
    · simp only [hds, if_true, Option.map_eq_none'] at hn
      rcases List.mem_cons.mp hx with e | e
      · subst e; exact hds
      · exact findFirstNotOf_none set ds hn x e
    · simp [hds] at hn

theorem first_le_last (set : Str) (l : Str) (s e : Nat)
    (hs : findFirstNotOf set l = some s) (he : findLastNotOf set l = some e) : s ≤ e := by
  obtain ⟨h1, _, h3⟩ := findFirstNotOf_some set l s hs
  obtain ⟨_, h5, _⟩ := findLastNotOf_some set l e he
  by_contra hlt
  have hlt : e + 1 ≤ s := by omega
  apply h3
  have hmem : l.get? s ∈ (l.drop (e + 1)).map some := by
    have : l.get? s = (l.drop (e + 1)).get? (s - (e + 1)) := by
      simp only [List.get?_eq_getElem?, List.getElem?_drop]
      congr 1; omega
    rw [this]
    have hlen : s - (e + 1) < (l.drop (e + 1)).length := by
      simp only [List.length_drop]; omega
    rw [List.get?_eq_get hlen]
    exact List.mem_map.mpr ⟨_, List.get_mem _ _ _, rfl⟩
  obtain ⟨c, hc, e1⟩ := List.mem_map.mp hmem
  rw [← e1]
  exact List.mem_map.mpr ⟨c, h5 c hc, rfl⟩

/-- The three parts `trim` cuts a string into give the string back, and the part after the
result is whitespace. -/
theorem trimParts_spec (l : Str) :
    (trimParts l).1 ++ (trimParts l).2.1 ++ (trimParts l).2.2 = l
      ∧ (∀ c ∈ (trimParts l).2.2, c ∈ ws) ∧ (∀ c ∈ (trimParts l).1, c ∈ ws) := by
  unfold trimParts
  cases he : findLastNotOf ws l with
  | none =>
    have hall := findLastNotOf_none ws l he
    cases hs : findFirstNotOf ws l with
    | none => simp [substr]
    | some s =>
      obtain ⟨h1, _, h3⟩ := findFirstNotOf_some ws l s hs
      exfalso
      apply h3
      rw [List.get?_eq_get h1]
      exact List.mem_map.mpr ⟨_, hall _ (List.get_mem _ _ _), rfl⟩
  | some e =>
    obtain ⟨h4, h5, h6⟩ := findLastNotOf_some ws l e he
    cases hs : findFirstNotOf ws l with
    | none =>
      have hall := findFirstNotOf_none ws l hs
      exfalso
      apply h6
      rw [List.get?_eq_get h4]
      exact List.mem_map.mpr ⟨_, hall _ (List.get_mem _ _ _), rfl⟩
    | some s =>
      obtain ⟨h1, h2, _⟩ := findFirstNotOf_some ws l s hs
      have hle := first_le_last ws l s e hs he
      simp only [Option.getD_some, substr]
      refine ⟨?_, h5, h2⟩
      have hd : List.drop (e + 1) l = List.drop (e + 1 - s) (List.drop s l) := by
        rw [List.drop_drop]; congr 1; omega
      rw [hd, List.append_assoc, List.take_append_drop, List.take_append_drop]

theorem pushScopeLoop_binding (m : List (Str × Str)) :
    ∀ (s : List Str) (al : Aliases) (k v : Str), IsMap m → (k, v) ∈ m →
      (pushScopeLoop m s al).2 k = some ((al k).getD [] ++ [v]) := by
  induction m with
  | nil => intro s al k v _ h; simp at h
  | cons a rest ih =>
    intro s al k v hm hmem
    obtain ⟨key, value⟩ := a
    rw [pushScopeLoop_cons]
    rcases List.mem_cons.mp hmem with e | e
    · simp only [Prod.mk.injEq] at e
      obtain ⟨rfl, rfl⟩ := e
      rw [pushScopeLoop_aliases_not_mem _ _ _ _ hm.head_not_mem]
      simp [aliasesPush, aliasesSet]
    · have hne : k ≠ key := by
        intro e2; subst e2
        exact hm.head_not_mem (List.mem_map.mpr ⟨(k, v), e, rfl⟩)
      rw [ih _ _ k v hm.tail e]
      simp [aliasesPush, aliasesSet, hne]


/-! ## The `#for` line -/

theorem findFirstNotOf_head (set : Str) (c : Char) (cs : Str) (h : c ∉ set) :
    findFirstNotOf set (c :: cs) = some 0 := by
  simp [findFirstNotOf, h]

theorem findFirstOf_none (set : Str) (s : Str) (h : ∀ c ∈ s, c ∉ set) :
    findFirstOf set s = none := by
  induction s with
  | nil => rfl
  | cons d ds ih =>
    have hd : d ∉ set := h d (by simp)
    simp [findFirstOf, hd, ih (fun c hc => h c (by simp [hc]))]

theorem findLastNotOf_snoc (set : Str) (xs : Str) (c : Char) (h : c ∉ set) :
    findLastNotOf set (xs ++ [c]) = some xs.length := by
  induction xs with
  | nil => simp [findLastNotOf, h]
  | cons d ds ih => simp [findLastNotOf, ih]

/-- A string that neither starts nor ends with whitespace is its own trimmed form, with
no indentation. -/
theorem trimParts_id (l : Str) (c : Char) (cs : Str) (hl : l = c :: cs) (hc : c ∉ ws)
    (hlast : ∀ x, l.getLast? = some x → x ∉ ws) : trimParts l = ([], l, []) := by
  have hne : l ≠ [] := by rw [hl]; simp
  obtain ⟨ys, y, hy⟩ : ∃ ys y, l = ys ++ [y] :=
    ⟨l.dropLast, l.getLast hne, (List.dropLast_append_getLast hne).symm⟩
  have hyw : y ∉ ws := hlast y (by rw [hy]; simp)
  have h1 : findFirstNotOf ws l = some 0 := by rw [hl]; exact findFirstNotOf_head ws c cs hc
  have h2 : findLastNotOf ws l = some ys.length := by
    rw [hy]; exact findLastNotOf_snoc ws ys y hyw
  have hlen : ys.length + 1 = l.length := by rw [hy]; simp
  simp only [trimParts, h1, h2, Option.getD_some, List.take_zero, substr, List.drop_zero,
    Nat.sub_zero, hlen, List.take_length, List.drop_length]

theorem trim_noWs (s : Str) (hne : s ≠ []) (hws : ∀ c ∈ s, c ∉ ws) :
    trimParts s = ([], s, []) := by
  cases s with
  | nil => exact absurd rfl hne
  | cons c cs =>
    exact trimParts_id _ c cs rfl (hws c (by simp))
      (fun x hx => hws x (List.mem_of_mem_getLast? hx))

theorem substrFrom_le (s : Str) (pos : Nat) (h : pos ≤ s.length) :
    substrFrom s pos = some (s.drop pos) := by
  simp [substrFrom]; omega

theorem tokenizeFor_kv (D : Str) (hne : D ≠ []) (hws : ∀ c ∈ D, c ∉ ws) :
    tokenizeFor ("#for k, v in ".toList ++ D)
      = some (.tokens "k".toList "v".toList D) := by
  have ht : trim D = D := by simp [trim, trim_noWs D hne hws]
  have hk : trim ['k'] = ['k'] := by decide
  have hv : trim ['v'] = ['v'] := by decide
  have hf : findFirstOf ws D = none := findFirstOf_none ws D hws
  obtain ⟨d, ds, rfl⟩ : ∃ d ds, D = d :: ds := by
    cases D with
    | nil => exact absurd rfl hne
    | cons d ds => exact ⟨d, ds, rfl⟩
  have hd : d ∉ ws := hws d (by simp)
  have hd0 : findFirstNotOf ws (d :: ds) = some 0 := findFirstNotOf_head ws d ds hd
  have w1 : (' ' : Char) ∈ ws := by decide
  have w2 : ('k' : Char) ∉ ws := by decide
  have w3 : ('v' : Char) ∉ ws := by decide
  have w4 : ('i' : Char) ∉ ws := by decide
  have w5 : (',' : Char) ∉ ws := by decide
  have w6 : ('n' : Char) ∉ ws := by decide
  have hL : "#for k, v in ".toList ++ d :: ds
      = '#' :: 'f' :: 'o' :: 'r' :: ' ' :: 'k' :: ',' :: ' ' :: 'v' :: ' ' :: 'i' :: 'n'
          :: ' ' :: d :: ds := by simp
  rw [hL]
  unfold tokenizeFor
  have c0 : ¬ ((('#' :: 'f' :: 'o' :: 'r' :: ' ' :: 'k' :: ',' :: ' ' :: 'v' :: ' ' :: 'i' :: 'n'
          :: ' ' :: d :: ds).length < forString.length + inString.length)
      ∨ substr ('#' :: 'f' :: 'o' :: 'r' :: ' ' :: 'k' :: ',' :: ' ' :: 'v' :: ' ' :: 'i' :: 'n'
          :: ' ' :: d :: ds) 0 forString.length ≠ forString) := by
    simp [forString, inString, substr]
  rw [if_neg c0]
  simp only [forString, inString, String.toList, String.length, List.length_cons,
    List.length_nil]
  have mem1 : ∀ c : Char, (c ∈ [',']) = (c = ',') := by intro c; simp
  simp only [Nat.reduceAdd, Nat.reduceMod, Nat.reducePow, Nat.zero_add, Option.pure_def,
    Option.bind_eq_bind]
  iterate 6
    rw [substrFrom_le _ _ (by simp)]
    simp only [Option.some_bind, List.drop_succ_cons,
      List.drop_zero, findFirstNotOf, findFirstOf, w1, w2, w3, w4, w5, w6, if_true, if_false,
      Option.map_some', optPos, Option.getD_some, sizeAdd, mem1, Char.reduceEq,
      Nat.zero_add, Nat.add_zero, Nat.reduceAdd, Nat.reduceMod, Nat.reducePow]
  have c1 : ¬ (('i' :: 'n' :: ' ' :: d :: ds).length < 3
      ∨ List.take 2 ('i' :: 'n' :: ' ' :: d :: ds) ≠ ['i', 'n']) := by simp
  rw [if_neg c1]
  iterate 2
    rw [substrFrom_le _ _ (by simp)]
    simp only [Option.some_bind, List.drop_succ_cons,
      List.drop_zero, findFirstNotOf, findFirstOf, w1, w2, w3, w4, w5, w6, if_true, if_false,
      Option.map_some', optPos, Option.getD_some, sizeAdd, mem1, Char.reduceEq,
      Nat.zero_add, Nat.add_zero, Nat.reduceAdd, Nat.reduceMod, Nat.reducePow, hd0, hd]
  have t1 : takeCount 1 ('k' :: ',' :: ' ' :: 'v' :: ' ' :: 'i' :: 'n' :: ' ' :: d :: ds)
      = ['k'] := by simp [takeCount, npos]
  have t2 : takeCount 1 ('v' :: ' ' :: 'i' :: 'n' :: ' ' :: d :: ds) = ['v'] := by
    simp [takeCount, npos]
  have hf1 : findFirstOf ws ds = none :=
    findFirstOf_none ws ds (fun c hc => hws c (by simp [hc]))
  have t3 : takeCount ((Option.map (fun x => x + 1) (findFirstOf ws ds)).getD npos) (d :: ds)
      = d :: ds := by
    simp [hf1, takeCount]
  rw [t1, t2, t3, hk, hv, ht]

theorem isReference_iff {ref : Str} (h : isReference ref = true) :
    ref ≠ [] ∧ (∀ c ∈ ref, c ∉ ws) ∧ strFind openString ref = none := by
  simp only [isReference, Bool.and_eq_true, Bool.not_eq_true', List.isEmpty_eq_false,
    List.all_eq_true, Option.isNone_iff_eq_none] at h
  refine ⟨h.1.1, ?_, h.2⟩
  intro c hc
  simpa using h.1.2 c hc

theorem forLine_facts (ref : Str) (h : isReference ref = true) :
    trimParts (forLine ref) = ([], forLine ref, []) ∧ '\n' ∉ forLine ref
      ∧ endForString.isPrefixOf (forLine ref) = false
      ∧ includeString.isPrefixOf (forLine ref) = false
      ∧ strFind openString (forLine ref) = none
      ∧ tokenizeFor (forLine ref) = some (.tokens "k".toList "v".toList ref) := by
  obtain ⟨hne, hws, hsub⟩ := isReference_iff h
  have hlast : ∀ x, (forLine ref).getLast? = some x → x ∉ ws := by
    intro x hx
    have : (forLine ref).getLast? = ref.getLast? := by
      simp only [forLine]
      rw [List.getLast?_append]
      cases hr : ref.getLast? with
      | none => simp [List.getLast?_eq_none_iff] at hr; exact absurd hr hne
      | some y => simp
    rw [this] at hx
    exact hws x (List.mem_of_mem_getLast? hx)
  refine ⟨trimParts_id (forLine ref) '#' _ (by simp [forLine]; rfl) (by decide) hlast, ?_, ?_,
    ?_, ?_, tokenizeFor_kv ref hne hws⟩
  · simp only [forLine, List.mem_append, not_or]
    exact ⟨by decide, fun hm => hws _ hm (by decide)⟩
  · simp [forLine, endForString, List.isPrefixOf]
  · simp [forLine, includeString, List.isPrefixOf]
  · have : ∀ (s : Str), strFind openString s = none → ∀ c, c ≠ '#' →
        strFind openString (c :: s) = none := by
      intro s hs c hc
      have : openString.isPrefixOf (c :: s) = false := by
        rw [isPrefixOf_open_cons]; simp [hc]
      simp [strFind, this, hs]
    have h0 : strFind openString (' ' :: ref) = none := this ref hsub ' ' (by decide)
    have h1 := this _ h0 'n' (by decide)
    have h2 := this _ h1 'i' (by decide)
    have h3 := this _ h2 ' ' (by decide)
    have h4 := this _ h3 'v' (by decide)
    have h5 := this _ h4 ' ' (by decide)
    have h6 := this _ h5 ',' (by decide)
    have h7 := this _ h6 'k' (by decide)
    have h8 := this _ h7 ' ' (by decide)
    have h9 := this _ h8 'r' (by decide)
    have h10 := this _ h9 'o' (by decide)
    have h11 := this _ h10 'f' (by decide)
    have hp : openString.isPrefixOf ('#' :: 'f' :: 'o' :: 'r' :: ' ' :: 'k' :: ',' :: ' '
        :: 'v' :: ' ' :: 'i' :: 'n' :: ' ' :: ref) = false := by
      rw [isPrefixOf_open_cons]; simp
    have : forLine ref = '#' :: 'f' :: 'o' :: 'r' :: ' ' :: 'k' :: ',' :: ' '
        :: 'v' :: ' ' :: 'i' :: 'n' :: ' ' :: ref := by simp [forLine]
    rw [this, strFind]
    simp only [hp, h11, Bool.false_eq_true, if_false, Option.map_none']

theorem loopTable_eq (ref key : Str) :
    mapAssign "v".toList (ref ++ ".".toList ++ key)
        (mapAssign "k".toList ([dquote] ++ key ++ [dquote]) [])
      = loopTable ref key := by
  have h1 : ("v".toList = "k".toList) = False := by decide
  have h2 : strLt "v".toList "k".toList = false := by decide
  simp only [mapAssign, h1, h2, if_false, Bool.false_eq_true, loopTable]

theorem loopTable_isMap (ref key : Str) : IsMap (loopTable ref key) := by
  have h : strLt ['k'] ['v'] = true := by decide
  simp [IsMap, loopTable, h]

theorem tellg_good (input : Input) (h1 : input.eofbit = false) (h2 : input.failbit = false) :
    tellg input = ((input.pos : Int), input) := by
  simp [tellg, h1, h2]

/-- `parseFor` on `#for k, v in <name>` when the resolved reference has no keys. -/
theorem parseFor_empty (sp : ShaderPreprocessor) (env : Env) (ins : List Input)
    (input : Input) (name ref : Str) (hname : isReference name = true)
    (hline : env.line = forLine name) (hin : env.inputs = ins ++ [input])
    (hat : input.eofbit = false ∧ input.failbit = false)
    (hres : resolveAlias sp name env = (true, ref))
    (hkeys : sp.dictionary.valueKeys ref = []) :
    parseFor sp env = .ok (true, { env with
      output := env.output ++ "//# Empty for loop\n".toList,
      scopes := env.scopes ++ [[]],
      forStatements := env.forStatements ++ [loopStatement ins input ref (-1)] }) := by
  obtain ⟨_, _, _, _, _, htok⟩ := forLine_facts name hname
  simp only [parseFor, hline, htok, hres, hkeys, hin, getLast?_snoc, List.head?_nil,
    List.length_nil, Nat.lt_irrefl, if_false, Bool.not_true, Bool.false_eq_true,
    tellg_good input hat.1 hat.2, pushScope, pushScopeLoop, setBack_snoc,
    length_snoc_sub_one, loopStatement, gt_iff_lt]

/-- `parseFor` on `#for k, v in <name>` when the resolved reference has a first key. -/
theorem parseFor_cons (sp : ShaderPreprocessor) (env : Env) (ins : List Input)
    (input : Input) (name ref key0 : Str) (keys : List Str) (hname : isReference name = true)
    (hline : env.line = forLine name) (hin : env.inputs = ins ++ [input])
    (hat : input.eofbit = false ∧ input.failbit = false)
    (hres : resolveAlias sp name env = (true, ref))
    (hkeys : sp.dictionary.valueKeys ref = key0 :: keys) :
    parseFor sp env = .ok (true, { env with
      output := env.output ++ "//# For loop over ".toList ++ ref ++ "\n".toList
        ++ "//# Key ".toList ++ key0 ++ " in ".toList ++ ref ++ "\n".toList,
      aliases := (pushScopeLoop (loopTable ref key0) [] env.aliases).2,
      scopes := env.scopes ++ [(pushScopeLoop (loopTable ref key0) [] env.aliases).1],
      forStatements := env.forStatements ++ [loopStatement ins input ref 0] }) := by
  obtain ⟨_, _, _, _, _, htok⟩ := forLine_facts name hname
  unfold parseFor
  rw [hline, htok]
  simp only [hres, hkeys, hin, getLast?_snoc, List.head?_cons, Bool.not_true,
    Bool.false_eq_true, if_false, loopTable_eq, tellg_good input hat.1 hat.2]
  simp only [pushScope, setBack_snoc, length_snoc_sub_one, loopStatement, List.length_cons,
    gt_iff_lt, Nat.zero_lt_succ, if_true, List.append_assoc]

/-! ## The `#endfor` line -/

theorem popScope_of_loop (env : Env) (base : List (List Str)) (scope : List Str)
    (al : Aliases) (hsc : env.scopes = base ++ [scope])
    (hpop : popScopeLoop scope env.aliases = (true, al)) :
    popScope env = (true, { env with aliases := al, scopes := base }) := by
  simp [popScope, hsc, hpop]

theorem endFor_facts :
    trimParts endForString = ([], endForString, []) ∧ '\n' ∉ endForString
      ∧ strFind openString endForString = none := by
  decide

/-- `parseEndFor` when the keys of the loop are used up: the loop is closed. -/
theorem parseEndFor_terminate (sp : ShaderPreprocessor) (env : Env) (ins : List Input)
    (input : Input) (fss : List ForStatement) (fs : ForStatement)
    (base : List (List Str)) (scope : List Str) (al : Aliases)
    (hline : env.line = endForString) (hfs : env.forStatements = fss ++ [fs])
    (hin : env.inputs = ins ++ [input]) (hidx : fs.inputIndex = ins.length)
    (hsc : env.scopes = base ++ [scope])
    (hpop : popScopeLoop scope env.aliases = (true, al))
    (hk : ¬ (0 ≤ fs.keyIndex + 1
      ∧ (fs.keyIndex + 1).toNat < (sp.dictionary.valueKeys fs.dictionaryRef).length)) :
    parseEndFor sp env = .ok (true, { env with
      aliases := al, scopes := base, forStatements := fss,
      output := env.output ++ "//# Terminated loop over ".toList ++ fs.dictionaryRef
        ++ "\n".toList }) := by
  have h1 : env.line.length > 6 ∧ substr env.line 0 endForString.length = endForString := by
    rw [hline]; decide
  unfold parseEndFor
  rw [if_pos h1]
  simp only [hfs, getLast?_snoc, hin, length_snoc_sub_one, hidx, ne_eq, not_true_eq_false,
    if_false, popScope_of_loop env base scope al hsc hpop, if_true, hk,
    List.dropLast_concat]

/-- `parseEndFor` when another key is left: the variables are bound to it and the stream
is put back to the start of the body. -/
theorem parseEndFor_continue (sp : ShaderPreprocessor) (env : Env) (ins : List Input)
    (input : Input) (fss : List ForStatement) (fs : ForStatement)
    (base : List (List Str)) (scope : List Str) (al : Aliases) (key : Str)
    (hline : env.line = endForString) (hfs : env.forStatements = fss ++ [fs])
    (hin : env.inputs = ins ++ [input]) (hidx : fs.inputIndex = ins.length)
    (hsc : env.scopes = base ++ [scope])
    (hpop : popScopeLoop scope env.aliases = (true, al))
    (hkn : fs.keyName = "k".toList) (hvn : fs.valueName = "v".toList)
    (hk : 0 ≤ fs.keyIndex + 1
      ∧ (fs.keyIndex + 1).toNat < (sp.dictionary.valueKeys fs.dictionaryRef).length)
    (hkey : (sp.dictionary.valueKeys fs.dictionaryRef).getD (fs.keyIndex + 1).toNat [] = key) :
    parseEndFor sp env = .ok (true, { env with
      aliases := (pushScopeLoop (loopTable fs.dictionaryRef key) [] al).2,
      scopes := base ++ [(pushScopeLoop (loopTable fs.dictionaryRef key) [] al).1],
      output := env.output ++ "//# Key ".toList ++ key ++ " in ".toList ++ fs.dictionaryRef
        ++ "\n".toList,
      inputs := ins ++ [{ seekg input fs.streamPos with lineNumber := fs.lineNumber }],
      forStatements := fss ++ [{ fs with keyIndex := fs.keyIndex + 1 }] }) := by
  have h1 : env.line.length > 6 ∧ substr env.line 0 endForString.length = endForString := by
    rw [hline]; decide
  unfold parseEndFor
  rw [if_pos h1]
  simp only [hfs, getLast?_snoc, hin, length_snoc_sub_one, hidx, ne_eq, not_true_eq_false,
    if_false, popScope_of_loop env base scope al hsc hpop, if_true, hk, and_self, hkey,
    hkn, hvn, loopTable_eq, pushScope, setBack_snoc]

/-- A `#for` line that `parseFor` accepts. -/
theorem dispatchLine_for (sp : ShaderPreprocessor) (inc : Str → Env → Res (Bool × Env))
    (input : Input) (env env1 : Env) (name : Str) (hname : isReference name = true)
    (hline : env.line = forLine name) (he : isInsideEmptyForStatement env = false)
    (hfor : parseFor sp env = .ok (true, env1)) :
    dispatchLine sp inc input env = .ok (true, env1) := by
  obtain ⟨_, _, h3, h4, h5, _⟩ := forLine_facts name hname
  simp [dispatchLine, parseEndFor_not sp env (by rw [hline]; exact h3), he,
    substituteLine_none sp env (by rw [hline]; exact h5),
    parseInclude_not sp inc env (by rw [hline]; exact h4), hfor]

/-- An `#endfor` line that `parseEndFor` accepts. -/
theorem dispatchLine_endFor (sp : ShaderPreprocessor) (inc : Str → Env → Res (Bool × Env))
    (input : Input) (env env1 : Env) (hend : parseEndFor sp env = .ok (true, env1))
    (hline : env1.line = endForString) (he : isInsideEmptyForStatement env1 = false) :
    dispatchLine sp inc input env = .ok (true, env1) := by
  simp [dispatchLine, hend, he, substituteLine_none sp env1 (by rw [hline]; decide)]

/-! ## An empty loop -/

theorem Input.Moved.follow {a b c : Input} {n1 n2 k1 k2 : Nat} (h1 : a.Moved b n1 k1)
    (h2 : b.Moved c n2 k2) : a.Moved c (n1 + n2) (k1 + k2) :=
  ⟨h2.path.trans h1.path, h2.content.trans h1.content, h2.indentation.trans h1.indentation,
    by rw [h2.pos, h1.pos]; omega, by rw [h2.lineNumber, h1.lineNumber]; omega⟩

/-- A loop over a reference without keys, read from the current `Input` outside an empty
loop: the two markers are written, the body is dropped, and the stacks are as before. -/
theorem run_empty_loop (sp : ShaderPreprocessor) (inc : Str → Env → Res (Bool × Env))
    (path : Str) (ins : List Input) (body : List Str) (rest : Str) (env : Env)
    (input : Input) (fuel : Nat) (name ref : Str)
    (hin : env.inputs = ins ++ [input])
    (hat : input.At (forLine name ++ '\n' :: (joinLines body ++ endForString ++ '\n' :: rest)))
    (hemp : isInsideEmptyForStatement env = false) (hsucc : env.success = true)
    (hname : isReference name = true) (hres : resolveAlias sp name env = (true, ref))
    (hkeys : sp.dictionary.valueKeys ref = [])
    (hbody : ∀ l ∈ body, '\n' ∉ l ∧ endForString.isPrefixOf (trim l) = false) :
    ∃ env1 input1,
      parseLines sp (parseLine sp inc) path (fuel + body.length + 2) env
          = parseLines sp (parseLine sp inc) path fuel env1
        ∧ env1.output = env.output ++ "//# Empty for loop\n".toList
            ++ "//# Terminated loop over ".toList ++ ref ++ "\n".toList
        ∧ env1.inputs = ins ++ [input1] ∧ input1.At rest
        ∧ input.Moved input1
            ((forLine name).length + 1 + (joinLines body).length + endForString.length + 1)
            (body.length + 2)
        ∧ env.Frame env1 := by
  obtain ⟨hf1, hf2, _, _, _, _⟩ := forLine_facts name hname
  -- the `#for` line
  have hread := parseLine_read sp inc env ins input (forLine name) _ hin hat hf2
  have hat2 := (getline_line env.line hat hf2).2
  let inputA : Input := { input with
    pos := input.pos + (forLine name).length + 1, lineNumber := input.lineNumber + 1 }
  let envR : Env := env.afterRead { input with pos := input.pos + (forLine name).length + 1 }
    (forLine name)
  have hRin : envR.inputs = ins ++ [inputA] := by simp [envR, inputA, Env.afterRead, hin]
  have hRline : envR.line = forLine name := by simp [envR, Env.afterRead, hf1]
  let env2 : Env := { envR with
    output := envR.output ++ "//# Empty for loop\n".toList,
    scopes := envR.scopes ++ [[]],
    forStatements := envR.forStatements ++ [loopStatement ins inputA ref (-1)] }
  have hfor : parseFor sp envR = .ok (true, env2) :=
    parseFor_empty sp envR ins inputA name ref hname hRline hRin ⟨hat2.1, hat2.2.1⟩
      (by rw [resolveAlias_congr sp name envR env rfl]; exact hres) hkeys
  have hdisp := dispatchLine_for sp inc input envR env2 name hname hRline
    (by simpa [envR] using hemp) hfor
  rw [hdisp] at hread
  have hstep1 := parseLines_step sp (parseLine sp inc) path (fuel + 1 + body.length) env env2
    hread (by simpa [env2, envR, Env.afterRead] using hsucc)
  -- the body
  obtain ⟨env3, input3, s1, s2, s3, s4, s5, s6⟩ := run_skip sp inc path ins body
    (endForString ++ '\n' :: rest) env2 inputA (fuel + 1) hbody
    (by simp [env2, hRin])
    (by
      obtain ⟨a, b, c, d⟩ := hat2
      exact ⟨a, b, c, by simpa [inputA, List.append_assoc] using d⟩)
    (by simp [env2, isInsideEmptyForStatement, loopStatement])
    (by simpa [env2, envR, Env.afterRead] using hsucc)
  -- the `#endfor` line
  obtain ⟨he1, he2, _⟩ := endFor_facts
  have hread3 := parseLine_read sp inc env3 ins input3 endForString rest s3 s4 he2
  have hat4 := (getline_line env3.line s4 he2).2
  let inputB : Input := { input3 with
    pos := input3.pos + endForString.length + 1, lineNumber := input3.lineNumber + 1 }
  let envR3 : Env := env3.afterRead
    { input3 with pos := input3.pos + endForString.length + 1 } endForString
  have hR3in : envR3.inputs = ins ++ [inputB] := by simp [envR3, inputB, Env.afterRead, s3]
  have hR3line : envR3.line = endForString := by simp [envR3, Env.afterRead, he1]
  let env4 : Env := { envR3 with
    aliases := envR3.aliases, scopes := env.scopes, forStatements := env.forStatements,
    output := envR3.output ++ "//# Terminated loop over ".toList ++ ref ++ "\n".toList }
  have hend : parseEndFor sp envR3 = .ok (true, env4) :=
    parseEndFor_terminate sp envR3 ins inputB env.forStatements
      (loopStatement ins inputA ref (-1)) env.scopes [] envR3.aliases hR3line
      (by simp [envR3, Env.afterRead, s6.forStatements, env2, envR])
      hR3in rfl
      (by simp [envR3, Env.afterRead, s6.scopes, env2, envR])
      rfl (by simp [loopStatement, hkeys])
  have hdisp3 := dispatchLine_endFor sp inc input3 envR3 env4 hend hR3line
    (by simpa [env4, isInsideEmptyForStatement] using hemp)
  rw [hdisp3] at hread3
  have hstep3 := parseLines_step sp (parseLine sp inc) path fuel env3 env4 hread3
    (by simp [env4, envR3, Env.afterRead, s6.success, env2, envR, hsucc])
  refine ⟨env4, inputB, ?_, ?_, hR3in, ?_, ?_, ?_⟩
  · have e : fuel + body.length + 2 = fuel + 1 + body.length + 1 := by omega
    rw [e, hstep1, s1, hstep3]
  · simp [env4, envR3, Env.afterRead, s2, env2, envR, List.append_assoc]
  · obtain ⟨a, b, c, d⟩ := hat4
    exact ⟨a, b, c, d⟩
  · have m1 : input.Moved inputA ((forLine name).length + 1) 1 :=
      ⟨rfl, rfl, rfl, by simp [inputA]; omega, rfl⟩
    have m3 : input3.Moved inputB (endForString.length + 1) 1 :=
      ⟨rfl, rfl, rfl, by simp [inputB]; omega, rfl⟩
    have := (m1.follow s5).follow m3
    refine ⟨this.path, this.content, this.indentation, ?_, ?_⟩
    · rw [this.pos]; omega
    · rw [this.lineNumber]; omega
  · refine ⟨rfl, rfl, ?_, ?_, ?_, ?_⟩
    · simp [env4, envR3, Env.afterRead, s6.aliases, env2, envR]
    · simp [env4, envR3, Env.afterRead, s6.success, env2, envR]
    · simp [env4, envR3, Env.afterRead, s6.log, env2, envR]
    · simp [env4, envR3, Env.afterRead, s6.trackedFiles, env2, envR]

theorem resolveAlias_unbound (sp : ShaderPreprocessor) (name : Str) (env : Env)
    (h : env.aliases (name.takeWhile (fun c => c != '.')) = none)
    (hkey : sp.dictionary.hasKey name = true) : resolveAlias sp name env = (true, name) := by
  rw [resolveAlias_eq_spec]
  simp only [resolveAliasSpec, topBinding, h, List.takeWhile_append_dropWhile, hkey, or_true,
    decide_True]

/-- A root file with an empty loop between plain lines. -/
theorem process_empty_loop_run (sp : ShaderPreprocessor) (tracked : List Str)
    (pre body : List Str) (post ref : Str) (fuel : Nat)
    (hopen : sp.fs.openStream (sp.fs.absPath sp.shaderPath)
      = some (joinLines pre ++ (forLine ref ++ '\n' :: (joinLines body
          ++ endForString ++ '\n' :: post))))
    (hpre : ∀ l ∈ pre, '\n' ∉ l ∧ isPlainLine l = true)
    (href : isReference ref = true) (hkey : sp.dictionary.hasKey ref = true)
    (hkeys : sp.dictionary.valueKeys ref = [])
    (hbody : ∀ l ∈ body, '\n' ∉ l ∧ endForString.isPrefixOf (trim l) = false)
    (hpost : ∀ l ∈ fileLines post, isPlainLine l = true)
    (hfuel : pre.length + body.length + (fileLines post).length + 4 ≤ fuel) :
    process sp tracked fuel = .ok (true,
      lineMarker sp sp.initialLineNumber (sp.fs.absPath sp.shaderPath)
        ++ renderLines [] pre
        ++ "//# Empty for loop\n".toList
        ++ "//# Terminated loop over ".toList ++ ref ++ "\n".toList
        ++ renderLines [] (fileLines post)) := by
  obtain ⟨f, rfl⟩ : ∃ f, fuel
      = f + (fileLines post).length + 1 + body.length + 2 + pre.length + 1 :=
    ⟨fuel - (pre.length + body.length + (fileLines post).length + 4), by omega⟩
  let path := sp.fs.absPath sp.shaderPath
  let content := joinLines pre ++ (forLine ref ++ '\n' :: (joinLines body
    ++ endForString ++ '\n' :: post))
  let inc := includeFile sp (f + (fileLines post).length + 1 + body.length + 2 + pre.length)
  let env0 : Env := (Env.initial []).enter sp path content
  let input0 : Input :=
    { path := path, content := content, pos := 0, eofbit := false,
      failbit := false, indentation := [], lineNumber := sp.initialLineNumber }
  obtain ⟨env1, input1, a1, a2, a3, a4, a5, a6⟩ := run_plain sp inc path [] pre _ env0 input0
    (f + (fileLines post).length + 1 + body.length + 2) hpre rfl
    ⟨rfl, rfl, Nat.zero_le _, rfl⟩ rfl rfl
  obtain ⟨env2, input2, b1, b2, b3, b4, b5, b6⟩ := run_empty_loop sp inc path [] body post
    env1 input1 (f + (fileLines post).length + 1) ref ref a3 a4
    (by rw [isInsideEmpty_congr a6.forStatements]; rfl)
    (by rw [a6.success]; rfl) href
    (resolveAlias_unbound sp ref env1 (by rw [a6.aliases]; rfl) hkey) hkeys hbody
  obtain ⟨env3, input3, c1, c2, c3, _, _, _, c7⟩ := run_plain_end sp inc path [] post env2
    input2 f hpost b3 b4
    (by rw [isInsideEmpty_congr b6.forStatements, isInsideEmpty_congr a6.forStatements]; rfl)
    (by rw [b6.success, a6.success]; rfl)
  have hrun : parseLines sp (parseLine sp inc) path
      (f + (fileLines post).length + 1 + body.length + 2 + pre.length) env0
      = .ok (true, env3) := by
    rw [a1, b1, c1]
  have hfs : env3.forStatements = [] := by
    rw [c7.forStatements, b6.forStatements, a6.forStatements]; rfl
  have hsc : env3.scopes = [] := by rw [c7.scopes, b6.scopes, a6.scopes]; rfl
  have hsu : env3.success = true := by rw [c7.success, b6.success, a6.success]; rfl
  have hinc := includeFile_root sp _ path content (Env.initial []) env3 input3 hopen hrun hfs
    (by simpa using c3)
  have hp := processEnv_of_includeFile sp tracked _ true _ hinc hfs hsc
  simp only [process, hp]
  simp only [hsu, c2, b2, a2, a5.indentation, b5.indentation, env0, input0, Env.enter,
    Env.initial, lineMarker, path, List.nil_append, List.append_assoc]

/-! ## A loop over the keys of a dictionary -/

theorem substitute_key (sp : ShaderPreprocessor) (env : Env) (st : List Str) (key : Str)
    (hk : env.aliases "k".toList = some st)
    (hkl : st.getLast? = some ([dquote] ++ key ++ [dquote])) :
    substitute sp "k".toList env = (true, key, env) := by
  have hr : resolveAlias sp "k".toList env = (true, [dquote] ++ key ++ [dquote]) := by
    rw [resolveAlias_eq_spec]
    have h1 : List.takeWhile (fun c => c != '.') "k".toList = "k".toList := by decide
    have h2 : List.dropWhile (fun c => c != '.') "k".toList = [] := by decide
    have h3 : isString ([dquote] ++ key ++ [dquote]) = true :=
      (isString_iff _).mpr ⟨key, rfl⟩
    simp only [resolveAliasSpec, h1, h2, topBinding, hk, hkl, Option.getD_some, h3,
      List.append_nil, and_self, true_or, decide_True]
  have h3 : isString ([dquote] ++ key ++ [dquote]) = true := (isString_iff _).mpr ⟨key, rfl⟩
  simp only [substitute, hr, Bool.not_true, Bool.false_eq_true, if_false, h3, if_true,
    substr_unquote]

theorem substitute_value (sp : ShaderPreprocessor) (env : Env) (st : List Str) (path : Str)
    (hv : env.aliases "v".toList = some st) (hvl : st.getLast? = some path)
    (hhas : sp.dictionary.hasKey path = true) (hnq : isString path = false)
    (hstr : sp.dictionary.hasValueString path = true) :
    substitute sp "v".toList env = (true, sp.dictionary.getValueString path, env) := by
  have hr : resolveAlias sp "v".toList env = (true, path) := by
    rw [resolveAlias_eq_spec]
    have h1 : List.takeWhile (fun c => c != '.') "v".toList = "v".toList := by decide
    have h2 : List.dropWhile (fun c => c != '.') "v".toList = [] := by decide
    simp only [resolveAliasSpec, h1, h2, topBinding, hv, hvl, Option.getD_some,
      List.append_nil, hhas, or_true, decide_True]
  simp only [substitute, hr, Bool.not_true, Bool.false_eq_true, if_false, hnq, hstr, if_true]

/-- The body line `#{k}: #{v}` with `k` bound to a quoted key and `v` to a path that holds
a string. -/
theorem substituteLine_body (sp : ShaderPreprocessor) (env : Env) (stk stv : List Str)
    (key path : Str) (hline : env.line = bodyLine)
    (hk : env.aliases "k".toList = some stk)
    (hkl : stk.getLast? = some ([dquote] ++ key ++ [dquote]))
    (hv : env.aliases "v".toList = some stv) (hvl : stv.getLast? = some path)
    (hhas : sp.dictionary.hasKey path = true) (hnq : isString path = false)
    (hstr : sp.dictionary.hasValueString path = true) :
    substituteLine sp env
      = (true, { env with line := key ++ ": ".toList ++ sp.dictionary.getValueString path }) := by
  have e0 : env.line.length + 1 = 8 + 1 + 1 + 1 := by rw [hline]; decide
  have b1 : strFind openString bodyLine = some 0 := by decide
  have b2 : strFind [rbrace] (List.drop 0 bodyLine) = some 3 := by decide
  have b3 : substr bodyLine (0 + 2) (3 - 2) = "k".toList := by decide
  have b4 : List.drop (0 + 3 + 1) bodyLine = ": #\x7bv\x7d".toList := by decide
  have b5 : List.take 0 bodyLine = [] := by decide
  have c1 : strFind openString ": #\x7bv\x7d".toList = some 2 := by decide
  have c2 : strFind [rbrace] (List.drop 2 ": #\x7bv\x7d".toList) = some 3 := by decide
  have c3 : substr ": #\x7bv\x7d".toList (2 + 2) (3 - 2) = "v".toList := by decide
  have c4 : List.drop (2 + 3 + 1) ": #\x7bv\x7d".toList = [] := by decide
  have c5 : List.take 2 ": #\x7bv\x7d".toList = ": ".toList := by decide
  have d1 : strFind openString [] = none := by decide
  have s1 := substitute_key sp { env with line := bodyLine } stk key hk hkl
  have s2 := substitute_value sp { env with line := ": #\x7bv\x7d".toList } stv path hv hvl
    hhas hnq hstr
  unfold substituteLine
  rw [e0, hline, substituteLoop, b1]
  dsimp only
  rw [b2]
  dsimp only
  rw [b3, b4, b5, s1]
  dsimp only
  rw [substituteLoop, c1]
  dsimp only
  rw [c2]
  dsimp only
  rw [c3, c4, c5, s2]
  dsimp only
  rw [substituteLoop, d1]
  simp

/-- A line that is no directive before or after substitution, outside an empty loop, is
written in its substituted form. -/
theorem dispatchLine_emit (sp : ShaderPreprocessor) (inc : Str → Env → Res (Bool × Env))
    (input : Input) (env env2 : Env) (hd : endForString.isPrefixOf env.line = false)
    (he : isInsideEmptyForStatement env = false)
    (hs : substituteLine sp env = (true, env2))
    (hdir : isDirective env2.line = false) :
    dispatchLine sp inc input env
      = .ok (true, { env2 with output := env2.output ++ input.indentation ++ env2.indentation
          ++ env2.line ++ "\n".toList }) := by
  obtain ⟨_, h2, h3⟩ := isDirective_false hdir
  simp [dispatchLine, parseEndFor_not sp env hd, he, hs,
    parseInclude_not sp inc env2 h2, parseFor_not sp env2 h3]

theorem isInsideEmpty_snoc (env : Env) (fss : List ForStatement) (fs : ForStatement)
    (h : env.forStatements = fss ++ [fs]) :
    isInsideEmptyForStatement env = decide (fs.keyIndex = -1) := by
  simp [isInsideEmptyForStatement, h]

theorem bodyLine_facts :
    trimParts bodyLine = ([], bodyLine, []) ∧ '\n' ∉ bodyLine
      ∧ endForString.isPrefixOf bodyLine = false := by
  decide

theorem loopTable_top (ref key : Str) (al : Aliases) :
    (∃ st, (pushScopeLoop (loopTable ref key) [] al).2 "k".toList = some st
        ∧ st.getLast? = some ([dquote] ++ key ++ [dquote]))
      ∧ ∃ st, (pushScopeLoop (loopTable ref key) [] al).2 "v".toList = some st
        ∧ st.getLast? = some (ref ++ ".".toList ++ key) := by
  have hm := loopTable_isMap ref key
  constructor
  · exact ⟨_, pushScopeLoop_binding _ [] al _ _ hm (by simp [loopTable]), getLast?_snoc _ _⟩
  · exact ⟨_, pushScopeLoop_binding _ [] al _ _ hm (by simp [loopTable]), getLast?_snoc _ _⟩

/-- The body line of one iteration. -/
theorem loop_body_step (sp : ShaderPreprocessor) (inc : Str → Env → Res (Bool × Env))
    (path : Str) (ins : List Input) (rest : Str) (env0 : Env) (inputB : Input)
    (ref key : Str) (index : Nat) (e : Env) (fuel : Nat)
    (hB : inputB.At (bodyLine ++ '\n' :: rest))
    (hst : LoopState env0 ins inputB ref index key e)
    (hstr : HoldsStrings sp ref [key]) :
    ∃ e1 inputC,
      parseLines sp (parseLine sp inc) path (fuel + 1) e
          = parseLines sp (parseLine sp inc) path fuel e1
        ∧ e1.output = e.output ++ bodyOutput sp inputB.indentation ref key
        ∧ e1.inputs = ins ++ [inputC] ∧ inputC.At rest
        ∧ inputB.Moved inputC (bodyLine.length + 1) 1
        ∧ e1.forStatements = e.forStatements ∧ e1.scopes = e.scopes
        ∧ e1.aliases = e.aliases ∧ e1.success = true ∧ e1.log = e.log
        ∧ e1.trackedFiles = e.trackedFiles := by
  obtain ⟨hb1, hb2, hb3⟩ := bodyLine_facts
  obtain ⟨h1, h2, h3, h4⟩ := hstr key (by simp)
  have hread := parseLine_read sp inc e ins inputB bodyLine rest hst.inputs hB hb2
  have hat2 := (getline_line e.line hB hb2).2
  let inputC : Input := { inputB with
    pos := inputB.pos + bodyLine.length + 1, lineNumber := inputB.lineNumber + 1 }
  let envR : Env := e.afterRead { inputB with pos := inputB.pos + bodyLine.length + 1 }
    bodyLine
  have hRline : envR.line = bodyLine := by simp [envR, Env.afterRead, hb1]
  have hRind : envR.indentation = [] := by simp [envR, Env.afterRead, hb1]
  obtain ⟨⟨stk, hk, hkl⟩, ⟨stv, hv, hvl⟩⟩ := loopTable_top ref key env0.aliases
  have hsub := substituteLine_body sp envR stk stv key (ref ++ ".".toList ++ key) hRline
    (by simpa [envR, Env.afterRead, hst.aliases] using hk) hkl
    (by simpa [envR, Env.afterRead, hst.aliases] using hv) hvl h1 h3 h2
  have hemp : isInsideEmptyForStatement envR = false := by
    rw [isInsideEmpty_snoc envR _ _ (by simp [envR, Env.afterRead, hst.forStatements]; rfl)]
    simp only [decide_eq_false_iff_not]
    intro h
    have : (index : Int) = -1 := h
    omega
  have hdisp := dispatchLine_emit sp inc inputB envR _ (by rw [hRline]; exact hb3) hemp hsub
    (by simpa [valueAt] using h4)
  rw [hdisp] at hread
  have hstep := parseLines_step sp (parseLine sp inc) path fuel e _ hread
    (by simp [envR, Env.afterRead, hst.success])
  refine ⟨_, inputC, hstep, ?_, ?_, ?_, ⟨rfl, rfl, rfl, ?_, rfl⟩, rfl, rfl, rfl, ?_, rfl, rfl⟩
  · simp [envR, Env.afterRead, hb1, bodyOutput, valueAt, List.append_assoc]
  · simp [envR, inputC, Env.afterRead, hst.inputs]
  · obtain ⟨a, b, c, d⟩ := hat2
    exact ⟨a, b, c, d⟩
  · simp [inputC]; omega
  · simp [envR, Env.afterRead, hst.success]

theorem seekg_back (inputB inputD : Input) (n k : Nat)
    (hB : inputB.eofbit = false ∧ inputB.failbit = false) (hm : inputB.Moved inputD n k)
    (hD : inputD.failbit = false) :
    { seekg inputD (inputB.pos : Int) with lineNumber := inputB.lineNumber } = inputB := by
  obtain ⟨p, c, i, _, _⟩ := hm
  have hp : ¬ ((inputB.pos : Int) < 0) := by omega
  simp only [seekg, hD, Bool.false_eq_true, if_false, hp, Int.toNat_ofNat]
  cases inputB
  cases inputD
  simp_all

theorem popScopeLoop_loopTable (ref key : Str) (al : Aliases)
    (hal : ∀ k st, al k = some st → st ≠ []) :
    popScopeLoop (pushScopeLoop (loopTable ref key) [] al).1
      (pushScopeLoop (loopTable ref key) [] al).2 = (true, al) := by
  have hm := loopTable_isMap ref key
  rw [pushScopeLoop_scope _ [] al hm (by simp)]
  simpa using popScopeLoop_push _ [] al hm hal

/-- The `#endfor` line of one iteration, from the state after the body line: either the
next key is bound and the stream is back at the start of the body, or the loop is
closed. -/
theorem loop_endFor_step (sp : ShaderPreprocessor) (inc : Str → Env → Res (Bool × Env))
    (path : Str) (ins : List Input) (rest : Str) (env0 : Env) (inputB inputC : Input)
    (ref key : Str) (index : Nat) (e : Env) (fuel : Nat) (n k : Nat)
    (hBgood : inputB.eofbit = false ∧ inputB.failbit = false)
    (hC : inputC.At (endForString ++ '\n' :: rest)) (hmoved : inputB.Moved inputC n k)
    (hin : e.inputs = ins ++ [inputC])
    (hfs : e.forStatements
      = env0.forStatements ++ [{ loopStatement ins inputB ref 0 with keyIndex := index }])
    (hsc : e.scopes = env0.scopes ++ [(pushScopeLoop (loopTable ref key) [] env0.aliases).1])
    (hal : e.aliases = (pushScopeLoop (loopTable ref key) [] env0.aliases).2)
    (hsucc : e.success = true) (hlog : e.log = env0.log)
    (htr : e.trackedFiles = env0.trackedFiles)
    (hal0 : ∀ k st, env0.aliases k = some st → st ≠ [])
    (hemp0 : isInsideEmptyForStatement env0 = false) (hsucc0 : env0.success = true) :
    (∀ key1, index + 1 < (sp.dictionary.valueKeys ref).length →
        (sp.dictionary.valueKeys ref).getD (index + 1) [] = key1 →
        ∃ e1, parseLines sp (parseLine sp inc) path (fuel + 1) e
            = parseLines sp (parseLine sp inc) path fuel e1
          ∧ e1.output = e.output ++ keyMarker ref key1
          ∧ LoopState env0 ins inputB ref (index + 1) key1 e1)
      ∧ (¬ index + 1 < (sp.dictionary.valueKeys ref).length →
        ∃ e1 inputD, parseLines sp (parseLine sp inc) path (fuel + 1) e
            = parseLines sp (parseLine sp inc) path fuel e1
          ∧ e1.output = e.output ++ "//# Terminated loop over ".toList ++ ref ++ "\n".toList
          ∧ e1.inputs = ins ++ [inputD] ∧ inputD.At rest
          ∧ inputC.Moved inputD (endForString.length + 1) 1
          ∧ env0.Frame e1) := by
  obtain ⟨he1, he2, _⟩ := endFor_facts
  have hread := parseLine_read sp inc e ins inputC endForString rest hin hC he2
  have hat2 := (getline_line e.line hC he2).2
  let inputD : Input := { inputC with
    pos := inputC.pos + endForString.length + 1, lineNumber := inputC.lineNumber + 1 }
  let envR : Env := e.afterRead { inputC with pos := inputC.pos + endForString.length + 1 }
    endForString
  have hRin : envR.inputs = ins ++ [inputD] := by simp [envR, inputD, Env.afterRead, hin]
  have hRline : envR.line = endForString := by simp [envR, Env.afterRead, he1]
  have hpop : popScopeLoop (pushScopeLoop (loopTable ref key) [] env0.aliases).1 envR.aliases
      = (true, env0.aliases) := by
    have : envR.aliases = (pushScopeLoop (loopTable ref key) [] env0.aliases).2 := by
      simp [envR, Env.afterRead, hal]
    rw [this]
    exact popScopeLoop_loopTable ref key env0.aliases hal0
  have hRfs : envR.forStatements
      = env0.forStatements ++ [{ loopStatement ins inputB ref 0 with keyIndex := index }] := by
    simp [envR, Env.afterRead, hfs]
  have hRsc : envR.scopes
      = env0.scopes ++ [(pushScopeLoop (loopTable ref key) [] env0.aliases).1] := by
    simp [envR, Env.afterRead, hsc]
  constructor
  · intro key1 hlt hkey
    have hend := parseEndFor_continue sp envR ins inputD env0.forStatements
      { loopStatement ins inputB ref 0 with keyIndex := index } env0.scopes _ env0.aliases key1
      hRline hRfs hRin rfl hRsc hpop rfl rfl
      (by
        simp only [loopStatement]
        constructor
        · omega
        · have : ((index : Int) + 1).toNat = index + 1 := by omega
          rw [this]; exact hlt)
      (by
        simp only [loopStatement]
        have : ((index : Int) + 1).toNat = index + 1 := by omega
        rw [this]; exact hkey)
    have hback : { seekg inputD (inputB.pos : Int) with lineNumber := inputB.lineNumber }
        = inputB :=
      seekg_back inputB inputD (n + (endForString.length + 1)) (k + 1) hBgood
        (hmoved.follow ⟨rfl, rfl, rfl, by simp [inputD]; omega, rfl⟩) hat2.2.1
    simp only [loopStatement] at hend hback
    rw [hback] at hend
    have hdisp := dispatchLine_endFor sp inc inputC envR _ hend hRline
      (by
        rw [isInsideEmpty_snoc _ _ _ rfl]
        simp only [decide_eq_false_iff_not]
        intro h
        have : (index : Int) + 1 = -1 := h
        omega)
    rw [hdisp] at hread
    have hstep := parseLines_step sp (parseLine sp inc) path fuel e _ hread
      (by simp [envR, Env.afterRead, hsucc])
    refine ⟨_, hstep, ?_, ⟨rfl, ?_, rfl, rfl, ?_, ?_, ?_⟩⟩
    · simp [envR, Env.afterRead, keyMarker, List.append_assoc]
    · simp [loopStatement]
    · simp [envR, Env.afterRead, hsucc]
    · simp [envR, Env.afterRead, hlog]
    · simp [envR, Env.afterRead, htr]
  · intro hnlt
    have hend := parseEndFor_terminate sp envR ins inputD env0.forStatements
      { loopStatement ins inputB ref 0 with keyIndex := index } env0.scopes _ env0.aliases
      hRline hRfs hRin rfl hRsc hpop
      (by
        simp only [loopStatement]
        intro h
        have : ((index : Int) + 1).toNat = index + 1 := by omega
        rw [this] at h
        exact hnlt h.2)
    have hdisp := dispatchLine_endFor sp inc inputC envR _ hend hRline
      (by simpa [isInsideEmptyForStatement] using hemp0)
    rw [hdisp] at hread
    have hstep := parseLines_step sp (parseLine sp inc) path fuel e _ hread
      (by simp [envR, Env.afterRead, hsucc])
    refine ⟨_, inputD, hstep, ?_, hRin, ?_, ⟨rfl, rfl, rfl, by simp [inputD]; omega, rfl⟩,
      ⟨rfl, rfl, rfl, ?_, ?_, ?_⟩⟩
    · simp [envR, Env.afterRead, loopStatement, List.append_assoc]
    · obtain ⟨a, b, c, d⟩ := hat2
      exact ⟨a, b, c, d⟩
    · simp [envR, Env.afterRead, hsucc, hsucc0]
    · simp [envR, Env.afterRead, hlog]
    · simp [envR, Env.afterRead, htr]

/-- The iterations of a loop from the one for `key` on: for every key left the body line
is written, and between two keys the marker of the next one; then the loop is closed. -/
theorem run_iterations (sp : ShaderPreprocessor) (inc : Str → Env → Res (Bool × Env))
    (path : Str) (ins : List Input) (rest : Str) (env0 : Env) (inputB : Input) (ref : Str)
    (hB : inputB.At (bodyLine ++ '\n' :: (endForString ++ '\n' :: rest)))
    (hal0 : ∀ k st, env0.aliases k = some st → st ≠ [])
    (hemp0 : isInsideEmptyForStatement env0 = false) (hsucc0 : env0.success = true)
    (hstr : HoldsStrings sp ref (sp.dictionary.valueKeys ref)) :
    ∀ (todo done : List Str) (key : Str) (e : Env) (fuel : Nat),
      sp.dictionary.valueKeys ref = done ++ key :: todo →
      LoopState env0 ins inputB ref done.length key e →
      ∃ e1 input1,
        parseLines sp (parseLine sp inc) path (fuel + 2 * (todo.length + 1)) e
            = parseLines sp (parseLine sp inc) path fuel e1
          ∧ e1.output = e.output ++ bodyOutput sp inputB.indentation ref key
              ++ loopOutput sp inputB.indentation ref todo
              ++ "//# Terminated loop over ".toList ++ ref ++ "\n".toList
          ∧ e1.inputs = ins ++ [input1] ∧ input1.At rest
          ∧ inputB.Moved input1 (bodyLine.length + 1 + (endForString.length + 1)) 2
          ∧ env0.Frame e1 := by
  intro todo
  induction todo with
  | nil =>
    intro done key e fuel hkeys hst
    have hkey : HoldsStrings sp ref [key] := by
      intro x hx
      simp only [List.mem_singleton] at hx
      subst hx
      exact hstr x (by rw [hkeys]; simp)
    obtain ⟨e1, inputC, a1, a2, a3, a4, a5, a6, a7, a8, a9, a10, a11⟩ :=
      loop_body_step sp inc path ins _ env0 inputB ref key done.length e (fuel + 1) hB hst hkey
    obtain ⟨e2, inputD, b1, b2, b3, b4, b5, b6⟩ :=
      (loop_endFor_step sp inc path ins rest env0 inputB inputC ref key done.length e1 fuel _ _
        ⟨hB.1, hB.2.1⟩ a4 a5 a3 (a6.trans hst.forStatements) (a7.trans hst.scopes)
        (a8.trans hst.aliases) a9 (a10.trans hst.log) (a11.trans hst.trackedFiles)
        hal0 hemp0 hsucc0).2 (by rw [hkeys]; simp)
    refine ⟨e2, inputD, ?_, ?_, b3, b4, a5.follow b5, b6⟩
    · have : fuel + 2 * (([] : List Str).length + 1) = fuel + 1 + 1 := by simp
      rw [this, a1, b1]
    · rw [b2, a2]; simp [loopOutput, List.append_assoc]
  | cons key1 todo1 ih =>
    intro done key e fuel hkeys hst
    have hkey : HoldsStrings sp ref [key] := by
      intro x hx
      simp only [List.mem_singleton] at hx
      subst hx
      exact hstr x (by rw [hkeys]; simp)
    obtain ⟨e1, inputC, a1, a2, a3, a4, a5, a6, a7, a8, a9, a10, a11⟩ :=
      loop_body_step sp inc path ins _ env0 inputB ref key done.length e
        (fuel + 2 * (todo1.length + 1) + 1) hB hst hkey
    obtain ⟨e2, b1, b2, b3⟩ :=
      (loop_endFor_step sp inc path ins rest env0 inputB inputC ref key done.length e1
        (fuel + 2 * (todo1.length + 1)) _ _
        ⟨hB.1, hB.2.1⟩ a4 a5 a3 (a6.trans hst.forStatements) (a7.trans hst.scopes)
        (a8.trans hst.aliases) a9 (a10.trans hst.log) (a11.trans hst.trackedFiles)
        hal0 hemp0 hsucc0).1 key1 (by rw [hkeys]; simp)
        (by
          rw [hkeys]
          have : done ++ key :: key1 :: todo1 = (done ++ [key]) ++ key1 :: todo1 := by simp
          rw [this, List.getD_eq_getElem?_getD, List.getElem?_append_right (by simp)]
          simp)
    obtain ⟨e3, input3, c1, c2, c3, c4, c5, c6⟩ := ih (done ++ [key]) key1 e2 fuel
      (by rw [hkeys]; simp) (by simpa using b3)
    refine ⟨e3, input3, ?_, ?_, c3, c4, c5, c6⟩
    · have : fuel + 2 * ((key1 :: todo1).length + 1)
          = fuel + 2 * (todo1.length + 1) + 1 + 1 := by simp; omega
      rw [this, a1, b1, c1]
    · rw [c2, b2, a2]; simp [loopOutput, List.append_assoc]

/-- A loop `#for k, v in <name>` over keys that all lead to strings, with the single body
line `#{k}: #{v}`, read from the current `Input` outside an empty loop. -/
theorem run_loop (sp : ShaderPreprocessor) (inc : Str → Env → Res (Bool × Env))
    (path : Str) (ins : List Input) (rest : Str) (env : Env) (input : Input) (fuel : Nat)
    (name ref : Str) (hin : env.inputs = ins ++ [input])
    (hat : input.At (forLine name ++ '\n'
      :: (bodyLine ++ '\n' :: (endForString ++ '\n' :: rest))))
    (hemp : isInsideEmptyForStatement env = false) (hsucc : env.success = true)
    (hal : ∀ k st, env.aliases k = some st → st ≠ [])
    (hname : isReference name = true) (hres : resolveAlias sp name env = (true, ref))
    (hne : sp.dictionary.valueKeys ref ≠ [])
    (hstr : HoldsStrings sp ref (sp.dictionary.valueKeys ref)) :
    ∃ env1 input1,
      parseLines sp (parseLine sp inc) path
          (fuel + 2 * (sp.dictionary.valueKeys ref).length + 1) env
          = parseLines sp (parseLine sp inc) path fuel env1
        ∧ env1.output = env.output ++ "//# For loop over ".toList ++ ref ++ "\n".toList
            ++ loopOutput sp input.indentation ref (sp.dictionary.valueKeys ref)
            ++ "//# Terminated loop over ".toList ++ ref ++ "\n".toList
        ∧ env1.inputs = ins ++ [input1] ∧ input1.At rest
        ∧ input.Moved input1
            ((forLine name).length + 1 + (bodyLine.length + 1 + (endForString.length + 1))) 3
        ∧ env.Frame env1 := by
  obtain ⟨key0, keys, hkeys⟩ : ∃ key0 keys, sp.dictionary.valueKeys ref = key0 :: keys := by
    cases h : sp.dictionary.valueKeys ref with
    | nil => exact absurd h hne
    | cons a b => exact ⟨a, b, rfl⟩
  obtain ⟨hf1, hf2, _, _, _, _⟩ := forLine_facts name hname
  have hread := parseLine_read sp inc env ins input (forLine name) _ hin hat hf2
  have hat2 := (getline_line env.line hat hf2).2
  let inputB : Input := { input with
    pos := input.pos + (forLine name).length + 1, lineNumber := input.lineNumber + 1 }
  let envR : Env := env.afterRead { input with pos := input.pos + (forLine name).length + 1 }
    (forLine name)
  have hRin : envR.inputs = ins ++ [inputB] := by simp [envR, inputB, Env.afterRead, hin]
  have hRline : envR.line = forLine name := by simp [envR, Env.afterRead, hf1]
  let envF : Env := { envR with
    output := envR.output ++ "//# For loop over ".toList ++ ref ++ "\n".toList
      ++ "//# Key ".toList ++ key0 ++ " in ".toList ++ ref ++ "\n".toList,
    aliases := (pushScopeLoop (loopTable ref key0) [] envR.aliases).2,
    scopes := envR.scopes ++ [(pushScopeLoop (loopTable ref key0) [] envR.aliases).1],
    forStatements := envR.forStatements ++ [loopStatement ins inputB ref 0] }
  have hfor : parseFor sp envR = .ok (true, envF) :=
    parseFor_cons sp envR ins inputB name ref key0 keys hname hRline hRin
      ⟨hat2.1, hat2.2.1⟩ (by rw [resolveAlias_congr sp name envR env rfl]; exact hres) hkeys
  have hdisp := dispatchLine_for sp inc input envR envF name hname hRline
    (by simpa [envR] using hemp) hfor
  rw [hdisp] at hread
  have hstep1 := parseLines_step sp (parseLine sp inc) path
    (fuel + 2 * (keys.length + 1)) env envF hread
    (by simpa [envF, envR, Env.afterRead] using hsucc)
  have hB : inputB.At (bodyLine ++ '\n' :: (endForString ++ '\n' :: rest)) := by
    obtain ⟨a, b, c, d⟩ := hat2
    exact ⟨a, b, c, d⟩
  obtain ⟨e1, input1, c1, c2, c3, c4, c5, c6⟩ := run_iterations sp inc path ins rest env
    inputB ref hB hal hemp hsucc hstr keys [] key0 envF fuel (by simpa using hkeys)
    ⟨hRin, by simp [envF, envR, Env.afterRead, loopStatement],
      by simp [envF, envR, Env.afterRead], by simp [envF, envR, Env.afterRead],
      by simpa [envF, envR, Env.afterRead] using hsucc,
      by simp [envF, envR, Env.afterRead], by simp [envF, envR, Env.afterRead]⟩
  refine ⟨e1, input1, ?_, ?_, c3, c4, ?_, c6⟩
  · have : fuel + 2 * (sp.dictionary.valueKeys ref).length + 1
        = fuel + 2 * (keys.length + 1) + 1 := by rw [hkeys]; simp
    rw [this, hstep1, c1]
  · rw [c2, hkeys]
    simp [envF, envR, inputB, Env.afterRead, loopOutput, keyMarker, List.append_assoc]
  · have m1 : input.Moved inputB ((forLine name).length + 1) 1 :=
      ⟨rfl, rfl, rfl, by simp [inputB]; omega, rfl⟩
    exact m1.follow c5

/-! ## The stack of inputs across `includeFile` -/

theorem grows_refl (e : Env) : Grows e e := ⟨[], by simp⟩

theorem grows_trans {a b c : Env} (h1 : Grows a b) (h2 : Grows b c) : Grows a c := by
  obtain ⟨d1, e1⟩ := h1
  obtain ⟨d2, e2⟩ := h2
  exact ⟨d1 ++ d2, by rw [e2, e1, List.append_assoc]⟩

theorem grows_of_eq {a b : Env} (h : b.output = a.output) : Grows a b := ⟨[], by simp [h]⟩

theorem snoc_inj {α : Type} {xs ys : List α} {x y : α} (h : xs ++ [x] = ys ++ [y]) :
    xs = ys ∧ x = y := by
  have := List.append_inj' h rfl
  exact ⟨this.1, by simpa using this.2⟩

theorem topTouched_same {e e1 : Env} (h : e1.inputs = e.inputs) : TopTouched e e1 := Or.inl h

theorem topTouched_clean {e e1 : Env} (h : TopTouched e e1) {base : List Input} {c : Input}
    (hb : e.inputs = base ++ [c]) : ∃ c1, e1.inputs = base ++ [c1] ∧ c1.content = c.content := by
  rcases h with h | ⟨b, x, x1, h1, h2, h3⟩
  · exact ⟨c, by rw [h, hb], rfl⟩
  · rw [hb] at h1
    obtain ⟨rfl, rfl⟩ := snoc_inj h1
    exact ⟨x1, h2, h3⟩

theorem topTouched_trans {a b c : Env} (h1 : TopTouched a b) (h2 : TopTouched b c) :
    TopTouched a c := by
  rcases h1 with h1 | ⟨base, x, x1, e1, e2, e3⟩
  · rcases h2 with h2 | ⟨base, x, x1, e1, e2, e3⟩
    · exact Or.inl (h2.trans h1)
    · exact Or.inr ⟨base, x, x1, by rw [← h1, e1], e2, e3⟩
  · obtain ⟨x2, f1, f2⟩ := topTouched_clean h2 e2
    exact Or.inr ⟨base, x, x2, e1, f1, f2.trans e3⟩

theorem topTouched_fromFs {sp : ShaderPreprocessor} {e e1 : Env} (h : TopTouched e e1)
    (hf : FromFs sp e) : FromFs sp e1 := by
  rcases h with h | ⟨base, x, x1, e1', e2, e3⟩
  · intro i hi
    exact hf i (by rw [← h]; exact hi)
  · intro i hi
    rw [e2] at hi
    rcases List.mem_append.mp hi with hm | hm
    · exact hf i (by rw [e1']; exact List.mem_append_left _ hm)
    · simp only [List.mem_singleton] at hm
      subst hm
      obtain ⟨p, hp⟩ := hf x (by rw [e1']; simp)
      exact ⟨p, by rw [e3]; exact hp⟩

theorem topTouched_setBack (e e1 : Env) (t t1 : Input) (ht : e.inputs.getLast? = some t)
    (h : e1.inputs = setBack e.inputs t1) (hc : t1.content = t.content) : TopTouched e e1 := by
  obtain ⟨base, hb⟩ := List.getLast?_eq_some_iff.mp ht
  exact Or.inr ⟨base, t, t1, hb, by rw [h, hb]; simp, hc⟩

theorem substituteLoop_frame (sp : ShaderPreprocessor) :
    ∀ (fuel : Nat) (line p : Str) (env : Env),
      (substituteLoop sp fuel line p env).2.inputs = env.inputs
        ∧ (substituteLoop sp fuel line p env).2.output = env.output
        ∧ (substituteLoop sp fuel line p env).2.forStatements = env.forStatements
        ∧ (substituteLoop sp fuel line p env).2.success = env.success := by
  intro fuel
  induction fuel with
  | zero => intro line p env; simp [substituteLoop]
  | succ n ih =>
    intro line p env
    simp only [substituteLoop]
    cases hb : strFind openString line with
    | none => simp
    | some b =>
      dsimp only
      cases he : strFind [rbrace] (List.drop b line) with
      | none => simp [logError]
      | some e =>
        dsimp only
        obtain ⟨log, hl⟩ := substitute_env sp (substr line (b + 2) (e - 2))
          { env with line := line }
        obtain ⟨i1, i2, i3, i4⟩ := ih (List.drop (b + e + 1) line)
          (p ++ List.take b line
            ++ (substitute sp (substr line (b + 2) (e - 2)) { env with line := line }).2.1)
          (substitute sp (substr line (b + 2) (e - 2)) { env with line := line }).2.2
        rw [i1, i2, i3, i4, hl]
        simp

theorem substituteLine_frame (sp : ShaderPreprocessor) (env : Env) :
    (substituteLine sp env).2.inputs = env.inputs
      ∧ (substituteLine sp env).2.output = env.output
      ∧ (substituteLine sp env).2.forStatements = env.forStatements
      ∧ (substituteLine sp env).2.success = env.success :=
  substituteLoop_frame sp _ _ _ _

theorem popScope_frame (env : Env) :
    (popScope env).2.inputs = env.inputs ∧ (popScope env).2.output = env.output
      ∧ (popScope env).2.forStatements = env.forStatements
      ∧ (popScope env).2.line = env.line := by
  unfold popScope
  cases env.scopes.getLast? with
  | none => simp
  | some scope =>
    dsimp only
    split <;> simp

theorem pushScope_frame (m : List (Str × Str)) (env : Env) :
    (pushScope m env).inputs = env.inputs ∧ (pushScope m env).output = env.output
      ∧ (pushScope m env).forStatements = env.forStatements
      ∧ (pushScope m env).line = env.line := by
  simp [pushScope]

theorem seekg_content (i : Input) (p : Int) : (seekg i p).content = i.content := by
  unfold seekg
  split
  · rfl
  · split <;> rfl

theorem tellg_content (i : Input) : (tellg i).2.content = i.content := by
  unfold tellg
  split <;> rfl

/-- `parseEndFor` keeps the line, only adds to the output and touches at most the `Input`
on top of the stack. -/
theorem parseEndFor_frame (sp : ShaderPreprocessor) (e e1 : Env) (b : Bool)
    (h : parseEndFor sp e = .ok (b, e1)) :
    e1.line = e.line ∧ Grows e e1 ∧ TopTouched e e1 := by
  unfold parseEndFor at h
  split at h
  · cases hfs : e.forStatements.getLast? with
    | none =>
      rw [hfs] at h
      simp only [Res.ok.injEq, Prod.mk.injEq] at h
      obtain ⟨_, rfl⟩ := h
      exact ⟨rfl, grows_refl _, topTouched_same rfl⟩
    | some fs =>
      rw [hfs] at h
      dsimp only at h
      split at h
      · cases hg : e.inputs.get? fs.inputIndex with
        | none => rw [hg] at h; cases h
        | some fi =>
          rw [hg] at h
          simp only [Res.ok.injEq, Prod.mk.injEq] at h
          obtain ⟨_, rfl⟩ := h
          exact ⟨rfl, grows_refl _, topTouched_same rfl⟩
      · obtain ⟨p1, p2, p3, p4⟩ := popScope_frame e
        have q : ∀ (x : Env), x.inputs = (popScope e).2.inputs → x.output = (popScope e).2.output
            → x.line = (popScope e).2.line → x.inputs = e.inputs ∧ x.output = e.output
              ∧ x.line = e.line := fun x a b c => ⟨a.trans p1, b.trans p2, c.trans p4⟩
        obtain ⟨r1, r2, r3⟩ := q (if (popScope e).1 = true then (popScope e).2
            else logError (popScope e).2
              ("Preprocessor internal error. Failed to pop scope from stack. ".toList
                ++ debugString sp (popScope e).2))
          (by split <;> rfl) (by split <;> rfl) (by split <;> rfl)
        revert h
        generalize (if (popScope e).1 = true then (popScope e).2
            else logError (popScope e).2
              ("Preprocessor internal error. Failed to pop scope from stack. ".toList
                ++ debugString sp (popScope e).2)) = x at r1 r2 r3
        intro h
        cases hl : x.inputs.getLast? with
        | none => rw [hl] at h; cases h
        | some input =>
          rw [hl] at h
          dsimp only at h
          split at h
          · simp only [Res.ok.injEq, Prod.mk.injEq] at h
            obtain ⟨_, rfl⟩ := h
            refine ⟨?_, ?_, ?_⟩
            · simp [pushScope, r3]
            · unfold Grows
              simp only [pushScope, r2, List.append_assoc]
              exact ⟨_, rfl⟩
            · exact topTouched_setBack _ _ input
                { seekg input fs.streamPos with lineNumber := fs.lineNumber }
                (by rw [← r1]; exact hl) (by simp [pushScope, r1]) (seekg_content _ _)
          · simp only [Res.ok.injEq, Prod.mk.injEq] at h
            obtain ⟨_, rfl⟩ := h
            refine ⟨r3, ?_, topTouched_same r1⟩
            unfold Grows
            simp only [r2, List.append_assoc]
            exact ⟨_, rfl⟩
  · simp only [Res.ok.injEq, Prod.mk.injEq] at h
    obtain ⟨_, rfl⟩ := h
    exact ⟨rfl, grows_refl _, topTouched_same rfl⟩

/-- `parseFor` only adds to the output and touches at most the `Input` on top of the
stack. -/
theorem parseFor_frame (sp : ShaderPreprocessor) (e e1 : Env) (b : Bool)
    (h : parseFor sp e = .ok (b, e1)) : Grows e e1 ∧ TopTouched e e1 := by
  unfold parseFor at h
  cases ht : tokenizeFor e.line with
  | none => rw [ht] at h; cases h
  | some t =>
    rw [ht] at h
    cases t with
    | notFor =>
      simp only [Res.ok.injEq, Prod.mk.injEq] at h
      obtain ⟨_, rfl⟩ := h
      exact ⟨grows_refl _, topTouched_same rfl⟩
    | expectedIn =>
      simp only [Res.ok.injEq, Prod.mk.injEq] at h
      obtain ⟨_, rfl⟩ := h
      exact ⟨grows_of_eq rfl, topTouched_same rfl⟩
    | tokens k v d =>
      dsimp only at h
      split at h
      · simp only [Res.ok.injEq, Prod.mk.injEq] at h
        obtain ⟨_, rfl⟩ := h
        exact ⟨grows_of_eq rfl, topTouched_same rfl⟩
      · cases hl : e.inputs.getLast? with
        | none => rw [hl] at h; cases h
        | some input =>
          rw [hl] at h
          simp only [Res.ok.injEq, Prod.mk.injEq] at h
          obtain ⟨_, rfl⟩ := h
          refine ⟨?_, ?_⟩
          · unfold Grows
            simp only [pushScope]
            exact ⟨_, rfl⟩
          · exact topTouched_setBack _ _ input (tellg input).2 hl (by simp [pushScope])
              (tellg_content _)

theorem dirtyOver_logError {base : List Input} {e : Env} (msg : Str)
    (h : DirtyOver base e) : DirtyOver base (logError e msg) := h

/-- `parseInclude`, when the function it calls keeps the discipline of the stack. -/
theorem parseInclude_spec (sp : ShaderPreprocessor) (inc : Str → Env → Res (Bool × Env))
    (hinc : IncSpec sp inc) (e e1 : Env) (b : Bool) (hf : FromFs sp e)
    (h : parseInclude sp inc e = .ok (b, e1)) :
    FromFs sp e1 ∧ Grows e e1
      ∧ (e1.inputs = e.inputs ∨ e1.success = false ∨ DirtyOver e.inputs e1) := by
  have hfail : ∀ msg, FromFs sp (failWith e msg) ∧ Grows e (failWith e msg)
      ∧ ((failWith e msg).inputs = e.inputs ∨ (failWith e msg).success = false
          ∨ DirtyOver e.inputs (failWith e msg)) :=
    fun msg => ⟨hf, grows_of_eq rfl, Or.inl rfl⟩
  have hcons : ∀ p, consumed (inc p e) = .ok (b, e1) →
      FromFs sp e1 ∧ Grows e e1
        ∧ (e1.inputs = e.inputs ∨ e1.success = false ∨ DirtyOver e.inputs e1) := by
    intro p hc
    cases hr : inc p e with
    | crash => rw [hr] at hc; cases hc
    | outOfFuel => rw [hr] at hc; cases hc
    | ok r =>
      rw [hr] at hc
      simp only [consumed, Res.ok.injEq, Prod.mk.injEq] at hc
      obtain ⟨_, rfl⟩ := hc
      obtain ⟨s1, s2, s3, s4⟩ := hinc p e r.1 r.2 hf hr
      refine ⟨s1, s2, ?_⟩
      cases hb : r.1 with
      | true => exact Or.inl (s3 hb)
      | false => exact s4 hb
  unfold parseInclude at h
  dsimp only at h
  split at h
  · cases h1 : findFirstNotOfFrom ws e.line includeString.length with
    | none =>
      rw [h1] at h
      simp only [Res.ok.injEq, Prod.mk.injEq] at h
      obtain ⟨_, rfl⟩ := h
      exact hfail _
    | some p1 =>
      rw [h1] at h
      dsimp only at h
      split at h
      · cases h2 : findFirstOfFrom [dquote] e.line (p1 + 1) with
        | none =>
          rw [h2] at h
          simp only [Res.ok.injEq, Prod.mk.injEq] at h
          obtain ⟨_, rfl⟩ := h
          exact ⟨hf, grows_refl _, Or.inl rfl⟩
        | some p2 =>
          rw [h2] at h
          dsimp only at h
          cases h3 : e.inputs.getLast? with
          | none => rw [h3] at h; cases h
          | some input =>
            rw [h3] at h
            dsimp only at h
            cases h4 : resolveQuoted sp input (substr e.line (p1 + 1) (p2 - p1 - 1)) with
            | none =>
              rw [h4] at h
              simp only [Res.ok.injEq, Prod.mk.injEq] at h
              obtain ⟨_, rfl⟩ := h
              exact hfail _
            | some f =>
              rw [h4] at h
              exact hcons f h
      · split at h
        · cases h2 : findFirstOfFrom ">".toList e.line (p1 + 1) with
          | none =>
            rw [h2] at h
            simp only [Res.ok.injEq, Prod.mk.injEq] at h
            obtain ⟨_, rfl⟩ := h
            exact hfail _
          | some p2 =>
            rw [h2] at h
            exact hcons _ h
        · simp only [Res.ok.injEq, Prod.mk.injEq] at h
          obtain ⟨_, rfl⟩ := h
          exact hfail _
  · simp only [Res.ok.injEq, Prod.mk.injEq] at h
    obtain ⟨_, rfl⟩ := h
    exact ⟨hf, grows_refl _, Or.inl rfl⟩

/-- A line that `parseInclude` does not consume leaves the environment as it was. -/
theorem parseInclude_false (sp : ShaderPreprocessor) (inc : Str → Env → Res (Bool × Env))
    (e e1 : Env) (h : parseInclude sp inc e = .ok (false, e1)) : e1 = e := by
  have hcons : ∀ r, consumed r ≠ .ok (false, e1) := by
    intro r hr
    cases r <;> simp [consumed] at hr
  unfold parseInclude at h
  dsimp only at h
  split at h
  · cases h1 : findFirstNotOfFrom ws e.line includeString.length with
    | none => rw [h1] at h; simp at h
    | some p1 =>
      rw [h1] at h
      dsimp only at h
      split at h
      · cases h2 : findFirstOfFrom [dquote] e.line (p1 + 1) with
        | none => rw [h2] at h; simp at h
        | some p2 =>
          rw [h2] at h
          dsimp only at h
          cases h3 : e.inputs.getLast? with
          | none => rw [h3] at h; cases h
          | some input =>
            rw [h3] at h
            dsimp only at h
            cases h4 : resolveQuoted sp input (substr e.line (p1 + 1) (p2 - p1 - 1)) with
            | none => rw [h4] at h; simp at h
            | some f => rw [h4] at h; exact absurd h (hcons _)
      · split at h
        · cases h2 : findFirstOfFrom ">".toList e.line (p1 + 1) with
          | none => rw [h2] at h; simp at h
          | some p2 => rw [h2] at h; exact absurd h (hcons _)
        · simp at h
  · simp only [Res.ok.injEq, Prod.mk.injEq, true_and] at h
    exact h.symm

/-- One dispatched line, when its substitutions succeed: the line loop goes on, and the
stack is as before, or the run has failed, or a nested file left used-up inputs. -/
theorem dispatchLine_spec (sp : ShaderPreprocessor) (inc : Str → Env → Res (Bool × Env))
    (hinc : IncSpec sp inc) (input : Input) (e : Env) (base : List Input) (c : Input)
    (hb : e.inputs = base ++ [c]) (hf : FromFs sp e)
    (hsub : ∀ env1 : Env, env1.line = e.line → (substituteLine sp env1).1 = true)
    (b : Bool) (e1 : Env) (h : dispatchLine sp inc input e = .ok (b, e1)) :
    b = true ∧ FromFs sp e1 ∧ Grows e e1
      ∧ ((∃ c1, e1.inputs = base ++ [c1]) ∨ e1.success = false ∨ DirtyL base e1) := by
  unfold dispatchLine at h
  cases hp : parseEndFor sp e with
  | crash => rw [hp] at h; cases h
  | outOfFuel => rw [hp] at h; cases h
  | ok r =>
    obtain ⟨rb, e2⟩ := r
    rw [hp] at h
    dsimp only at h
    obtain ⟨hline, hg2, ht2⟩ := parseEndFor_frame sp e e2 rb hp
    obtain ⟨c2, hb2, _⟩ := topTouched_clean ht2 hb
    have hf2 : FromFs sp e2 := topTouched_fromFs ht2 hf
    split at h
    · simp only [Res.ok.injEq, Prod.mk.injEq] at h
      obtain ⟨rfl, rfl⟩ := h
      exact ⟨rfl, hf2, hg2, Or.inl ⟨c2, hb2⟩⟩
    · have hs1 : (substituteLine sp e2).1 = true := hsub e2 hline
      obtain ⟨si, so, _, _⟩ := substituteLine_frame sp e2
      have hfs : FromFs sp (substituteLine sp e2).2 := by
        intro i hi
        rw [si] at hi
        exact hf2 i hi
      have hgs : Grows e (substituteLine sp e2).2 := grows_trans hg2 (grows_of_eq so)
      have hbs : (substituteLine sp e2).2.inputs = base ++ [c2] := si.trans hb2
      rw [hs1] at h
      simp only [Bool.not_true, Bool.false_eq_true, if_false] at h
      split at h
      · simp only [Res.ok.injEq, Prod.mk.injEq] at h
        obtain ⟨rfl, rfl⟩ := h
        exact ⟨rfl, hfs, hgs, Or.inl ⟨c2, hbs⟩⟩
      · cases hi : parseInclude sp inc (substituteLine sp e2).2 with
        | crash => rw [hi] at h; cases h
        | outOfFuel => rw [hi] at h; cases h
        | ok i =>
          obtain ⟨ib, e3⟩ := i
          rw [hi] at h
          dsimp only at h
          obtain ⟨hf3, hg3, h3⟩ := parseInclude_spec sp inc hinc _ e3 ib hfs hi
          cases ib with
          | true =>
            simp only [if_true, Res.ok.injEq, Prod.mk.injEq] at h
            obtain ⟨rfl, rfl⟩ := h
            refine ⟨rfl, hf3, grows_trans hgs hg3, ?_⟩
            rcases h3 with h3 | h3 | h3
            · exact Or.inl ⟨c2, h3.trans hbs⟩
            · exact Or.inr (Or.inl h3)
            · rw [hbs] at h3
              exact Or.inr (Or.inr ⟨c2, h3⟩)
          | false =>
            have he3 : e3 = (substituteLine sp e2).2 := parseInclude_false sp inc _ e3 hi
            simp only [Bool.false_eq_true, if_false] at h
            cases hpf : parseFor sp e3 with
            | crash => rw [hpf] at h; cases h
            | outOfFuel => rw [hpf] at h; cases h
            | ok f =>
              obtain ⟨fb, e4⟩ := f
              rw [hpf] at h
              dsimp only at h
              obtain ⟨hg4, ht4⟩ := parseFor_frame sp e3 e4 fb hpf
              have hb3 : e3.inputs = base ++ [c2] := by rw [he3]; exact hbs
              obtain ⟨c4, hb4, _⟩ := topTouched_clean ht4 hb3
              have hf4 : FromFs sp e4 := topTouched_fromFs ht4 hf3
              have hge4 : Grows e e4 := grows_trans (grows_trans hgs hg3) hg4
              split at h
              · simp only [Res.ok.injEq, Prod.mk.injEq] at h
                obtain ⟨rfl, rfl⟩ := h
                exact ⟨rfl, hf4, hge4, Or.inl ⟨c4, hb4⟩⟩
              · simp only [Res.ok.injEq, Prod.mk.injEq] at h
                obtain ⟨rfl, rfl⟩ := h
                refine ⟨rfl, hf4, grows_trans hge4 ?_, Or.inl ⟨c4, hb4⟩⟩
                unfold Grows
                simp only [List.append_assoc]
                exact ⟨_, rfl⟩

theorem getline_false (i : Input) (l : Str) (h : (getline i l).1 = false) :
    (getline i l).2.2.dead = true ∧ (getline i l).2.2.content = i.content := by
  unfold getline at h ⊢
  split
  · simp [Input.dead]
  · split
    · simp [Input.dead]
    · rename_i h1 h2
      rw [if_neg h1, if_neg h2] at h
      simp at h

theorem getline_true (i : Input) (l : Str) (h : (getline i l).1 = true) :
    (getline i l).2.1 = (splitLine (i.content.drop i.pos)).1
      ∧ (getline i l).2.2.content = i.content := by
  unfold getline at h ⊢
  split
  · rename_i h1
    rw [if_pos h1] at h
    simp at h
  · split
    · rename_i h1 h2
      rw [if_neg h1, if_pos h2] at h
      simp at h
    · simp

theorem getline_dead (i : Input) (l : Str) (h : i.dead = true) :
    getline i l = (false, l, { i with failbit := true }) := by
  unfold Input.dead at h
  unfold getline
  rw [if_pos h]

theorem fromFs_setBack {sp : ShaderPreprocessor} {e e1 : Env} {t t1 : Input}
    (hf : FromFs sp e) (ht : e.inputs.getLast? = some t) (h : e1.inputs = setBack e.inputs t1)
    (hc : t1.content = t.content) : FromFs sp e1 :=
  topTouched_fromFs (topTouched_setBack e e1 t t1 ht h hc) hf

/-- One line of the loop read from a stack that ends in the file being read. -/
theorem parseLine_spec (sp : ShaderPreprocessor) (inc : Str → Env → Res (Bool × Env))
    (hinc : IncSpec sp inc) (hsp : SubstitutionsClosed sp) (e : Env) (base : List Input)
    (c : Input) (hb : e.inputs = base ++ [c]) (hf : FromFs sp e)
    (b : Bool) (e1 : Env) (h : parseLine sp inc e = .ok (b, e1)) :
    FromFs sp e1 ∧ Grows e e1
      ∧ (b = false → ∃ c1, e1.inputs = base ++ [c1] ∧ c1.dead = true)
      ∧ (b = true → (∃ c1, e1.inputs = base ++ [c1]) ∨ e1.success = false ∨ DirtyL base e1) := by
  have hlast : e.inputs.getLast? = some c := by rw [hb]; simp
  unfold parseLine at h
  rw [hlast] at h
  dsimp only at h
  cases hg : (getline c e.line).1 with
  | false =>
    rw [hg] at h
    simp only [Bool.not_false, if_true, Res.ok.injEq, Prod.mk.injEq] at h
    obtain ⟨rfl, rfl⟩ := h
    obtain ⟨hd, hc⟩ := getline_false c e.line hg
    refine ⟨fromFs_setBack hf hlast rfl hc, grows_of_eq rfl, ?_, ?_⟩
    · intro _
      exact ⟨(getline c e.line).2.2, by simp [hb], hd⟩
    · intro hbt
      cases hbt
  | true =>
    rw [hg] at h
    simp only [Bool.not_true, Bool.false_eq_true, if_false] at h
    obtain ⟨hl, hc⟩ := getline_true c e.line hg
    have hb1 : (e.afterRead (getline c e.line).2.2 (getline c e.line).2.1).inputs
        = base ++ [{ (getline c e.line).2.2 with
            lineNumber := (getline c e.line).2.2.lineNumber + 1 }] := by
      simp [Env.afterRead, hb]
    have hf1 : FromFs sp (e.afterRead (getline c e.line).2.2 (getline c e.line).2.1) :=
      fromFs_setBack hf hlast rfl hc
    obtain ⟨p, hp⟩ := hf c (by rw [hb]; simp)
    have hsub : ∀ env1 : Env,
        env1.line = (e.afterRead (getline c e.line).2.2 (getline c e.line).2.1).line →
          (substituteLine sp env1).1 = true := by
      intro env1 h1
      have h2 := hsp p c.content hp c.pos env1
      have h3 : { env1 with line := (trimParts (splitLine (c.content.drop c.pos)).1).2.1 }
          = env1 := by
        cases env1
        simp only [Env.afterRead, hl] at h1
        simp only [Env.mk.injEq, true_and, and_true]
        simp [h1]
      rw [h3] at h2
      exact h2
    obtain ⟨r1, r2, r3, r4⟩ := dispatchLine_spec sp inc hinc c _ base _ hb1 hf1 hsub b e1 h
    refine ⟨r2, grows_trans (grows_of_eq rfl) r3, ?_, fun _ => r4⟩
    intro hbf
    rw [r1] at hbf
    cases hbf

theorem dirtyOver_setBack {base : List Input} {e e1 : Env} (t : Input)
    (h : DirtyOver base e) (hi : e1.inputs = setBack e.inputs t) (hd : t.dead = true)
    (hfs : e1.forStatements = e.forStatements) : DirtyOver base e1 := by
  obtain ⟨extra, hne, hin, _, fsx, hfsx, hle⟩ := h
  have hs : e1.inputs = base ++ (extra.dropLast ++ [t]) := by
    rw [hi, hin, setBack, List.dropLast_append_of_ne_nil _ hne, List.append_assoc]
  refine ⟨extra.dropLast ++ [t], by simp, hs, ⟨t, ?_, hd⟩, fsx, by rw [hfs]; exact hfsx, ?_⟩
  · rw [hs, ← List.append_assoc]; simp
  · have : e1.inputs.length = e.inputs.length := by
      rw [hs, hin]
      simp only [List.length_append, List.length_dropLast, List.length_singleton]
      have := List.length_pos.mpr hne
      omega
    rw [this]
    exact hle

/-- A line read while used-up inputs are on top of the stack: nothing is read and the
loop ends. -/
theorem parseLine_dirty (sp : ShaderPreprocessor) (inc : Str → Env → Res (Bool × Env))
    (e : Env) (base : List Input) (hd : DirtyL base e) (hf : FromFs sp e)
    (b : Bool) (e1 : Env) (h : parseLine sp inc e = .ok (b, e1)) :
    b = false ∧ DirtyL base e1 ∧ FromFs sp e1 ∧ Grows e e1 := by
  obtain ⟨c, hdo⟩ := hd
  have hdo1 := hdo
  obtain ⟨_, _, _, ⟨top, htop, hdead⟩, _⟩ := hdo1
  unfold parseLine at h
  rw [htop] at h
  dsimp only at h
  rw [getline_dead top e.line hdead] at h
  simp only [Bool.not_false, if_true, Res.ok.injEq, Prod.mk.injEq] at h
  obtain ⟨rfl, rfl⟩ := h
  refine ⟨rfl, ⟨c, dirtyOver_setBack _ hdo rfl ?_ rfl⟩, fromFs_setBack hf htop rfl rfl,
    grows_of_eq rfl⟩
  simp [Input.dead]

/-- The line loop of `includeFile` above the stack `base`: it fails only with
`success = false`, and when it ends the file on top is used up. -/
theorem parseLines_spec (sp : ShaderPreprocessor) (inc : Str → Env → Res (Bool × Env))
    (hinc : IncSpec sp inc) (hsp : SubstitutionsClosed sp) (path : Str) (base : List Input) :
    ∀ (n : Nat) (e : Env), ((∃ c, e.inputs = base ++ [c]) ∨ DirtyL base e) → FromFs sp e →
      ∀ (b : Bool) (e1 : Env), parseLines sp (parseLine sp inc) path n e = .ok (b, e1) →
        FromFs sp e1 ∧ Grows e e1 ∧ (b = false → e1.success = false)
          ∧ (b = true → (∃ c1, e1.inputs = base ++ [c1] ∧ c1.dead = true) ∨ DirtyL base e1) := by
  intro n
  induction n with
  | zero =>
    intro e _ _ b e1 h
    simp [parseLines] at h
  | succ n ih =>
    intro e hst hf b e1 h
    unfold parseLines at h
    cases hp : parseLine sp inc e with
    | crash => rw [hp] at h; cases h
    | outOfFuel => rw [hp] at h; cases h
    | ok r =>
      obtain ⟨rb, e2⟩ := r
      rw [hp] at h
      dsimp only at h
      have key : FromFs sp e2 ∧ Grows e e2
          ∧ (rb = false → (∃ c1, e2.inputs = base ++ [c1] ∧ c1.dead = true) ∨ DirtyL base e2)
          ∧ (rb = true →
              ((∃ c1, e2.inputs = base ++ [c1]) ∨ DirtyL base e2) ∨ e2.success = false) := by
        rcases hst with ⟨c, hb⟩ | hd
        · obtain ⟨k1, k2, k3, k4⟩ := parseLine_spec sp inc hinc hsp e base c hb hf rb e2 hp
          refine ⟨k1, k2, fun hx => Or.inl (k3 hx), fun hx => ?_⟩
          rcases k4 hx with k | k | k
          · exact Or.inl (Or.inl k)
          · exact Or.inr k
          · exact Or.inl (Or.inr k)
        · obtain ⟨k1, k2, k3, k4⟩ := parseLine_dirty sp inc e base hd hf rb e2 hp
          refine ⟨k3, k4, fun _ => Or.inr k2, fun hx => ?_⟩
          rw [k1] at hx
          cases hx
      obtain ⟨k1, k2, k3, k4⟩ := key
      cases rb with
      | false =>
        simp only [Bool.not_false, if_true, Res.ok.injEq, Prod.mk.injEq] at h
        obtain ⟨rfl, rfl⟩ := h
        exact ⟨k1, k2, fun hx => (by cases hx), fun _ => k3 rfl⟩
      | true =>
        simp only [Bool.not_true, Bool.false_eq_true, if_false] at h
        cases hs : e2.success with
        | false =>
          rw [hs] at h
          simp only [Bool.not_false, if_true] at h
          cases hl : e2.inputs.getLast? with
          | none => rw [hl] at h; cases h
          | some input =>
            rw [hl] at h
            simp only [Res.ok.injEq, Prod.mk.injEq] at h
            obtain ⟨rfl, rfl⟩ := h
            exact ⟨k1, grows_trans k2 (grows_of_eq rfl), fun _ => hs, fun hx => (by cases hx)⟩
        | true =>
          rw [hs] at h
          simp only [Bool.not_true, Bool.false_eq_true, if_false] at h
          have hst2 : (∃ c1, e2.inputs = base ++ [c1]) ∨ DirtyL base e2 := by
            rcases k4 rfl with k | k
            · exact k
            · rw [hs] at k; cases k
          obtain ⟨j1, j2, j3, j4⟩ := ih e2 hst2 k1 b e1 h
          exact ⟨j1, grows_trans k2 j2, j3, j4⟩

theorem fromFs_enter {sp : ShaderPreprocessor} {env : Env} {path content : Str}
    (hf : FromFs sp env) (hopen : sp.fs.openStream path = some content) :
    FromFs sp (env.enter sp path content) := by
  intro i hi
  simp only [Env.enter, List.mem_append, List.mem_singleton] at hi
  rcases hi with hi | hi
  · exact hf i hi
  · exact ⟨path, by rw [hi]; exact hopen⟩

theorem fromFs_dropLast {sp : ShaderPreprocessor} {e e1 : Env} (hf : FromFs sp e)
    (h : e1.inputs = e.inputs.dropLast) : FromFs sp e1 := by
  intro i hi
  rw [h] at hi
  exact hf i (List.dropLast_subset _ hi)

theorem enter_output (sp : ShaderPreprocessor) (env : Env) (path content : Str) :
    (env.enter sp path content).output
      = env.output ++ lineMarker sp sp.initialLineNumber path := by
  simp [Env.enter, lineMarker]

/-- The end of `includeFile` once the line loop has ended with the stack as it was at the
start of the loop: the `Input` is popped and the marker of the parent, if there is one, is
written. -/
theorem includeFile_pop (sp : ShaderPreprocessor) (base : List Input) (c : Input) (e2 e1 : Env)
    (hb : e2.inputs = base ++ [c])
    (h : (if (e2.inputs.dropLast).length > 0 then
            match addLineNumber sp { e2 with inputs := e2.inputs.dropLast } with
            | .ok env4 => Res.ok (true, env4)
            | .crash => .crash
            | .outOfFuel => .outOfFuel
          else .ok (true, { e2 with inputs := e2.inputs.dropLast })) = .ok (true, e1)) :
    e1.inputs = base
      ∧ e1.output = e2.output ++ (match base.getLast? with
          | none => []
          | some parent => lineMarker sp parent.lineNumber parent.path) := by
  have hd : e2.inputs.dropLast = base := by rw [hb]; simp
  rw [hd] at h
  cases hl : base.getLast? with
  | none =>
    have hnil : base = [] := List.getLast?_eq_none_iff.mp hl
    rw [hnil] at h
    simp only [List.length_nil, gt_iff_lt, lt_self_iff_false, if_false, Res.ok.injEq,
      Prod.mk.injEq, true_and] at h
    rw [← h]
    simp [hnil]
  | some parent =>
    have hpos : base.length > 0 := by
      cases base with
      | nil => simp at hl
      | cons x xs => simp
    rw [if_pos hpos] at h
    simp only [addLineNumber, hl, Res.ok.injEq, Prod.mk.injEq, true_and] at h
    rw [← h]
    simp [lineMarker]

/-- One level of `includeFile`, given the discipline of the nested calls: a call that
returns true restores the stack and has written the marker of the file, the output of its
line loop and the marker of the parent; a call that returns false has left the stack as it
was, or has failed the run, or has left used-up inputs on the stack. -/
theorem includeFile_step (sp : ShaderPreprocessor) (hsp : SubstitutionsClosed sp) (fuel : Nat)
    (hinc : IncSpec sp (includeFile sp fuel)) (path : Str) (env : Env) (hf : FromFs sp env)
    (b : Bool) (env1 : Env) (h : includeFile sp (fuel + 1) path env = .ok (b, env1)) :
    FromFs sp env1 ∧ Grows env env1
      ∧ (b = false →
          env1.inputs = env.inputs ∨ env1.success = false ∨ DirtyOver env.inputs env1)
      ∧ (b = true → ∃ content env2 child body,
          sp.fs.openStream path = some content
          ∧ parseLines sp (parseLine sp (includeFile sp fuel)) path fuel
              (env.enter sp path content) = .ok (true, env2)
          ∧ env2.inputs = env.inputs ++ [child] ∧ child.dead = true
          ∧ env2.output = env.output ++ lineMarker sp sp.initialLineNumber path ++ body
          ∧ env1.inputs = env.inputs
          ∧ env1.output = env2.output ++ (match env.inputs.getLast? with
              | none => []
              | some parent => lineMarker sp parent.lineNumber parent.path)) := by
  cases hopen : sp.fs.openStream path with
  | none =>
    simp only [includeFile, trackPath_eq, hopen, Bool.not_true, Bool.false_eq_true, if_false,
      Res.ok.injEq, Prod.mk.injEq] at h
    obtain ⟨rfl, rfl⟩ := h
    exact ⟨hf, grows_of_eq rfl, fun _ => Or.inl rfl, fun hx => (by cases hx)⟩
  | some content =>
    rw [← hopen]
    rw [includeFile_unfold sp fuel path content env hopen] at h
    cases hp : parseLines sp (parseLine sp (includeFile sp fuel)) path fuel
        (env.enter sp path content) with
    | crash => rw [hp] at h; cases h
    | outOfFuel => rw [hp] at h; cases h
    | ok r =>
      obtain ⟨rb, e2⟩ := r
      rw [hp] at h
      dsimp only at h
      have hf0 : FromFs sp (env.enter sp path content) := fromFs_enter hf hopen
      have hg0 : Grows env (env.enter sp path content) :=
        ⟨lineMarker sp sp.initialLineNumber path, enter_output sp env path content⟩
      obtain ⟨k1, k2, k3, k4⟩ := parseLines_spec sp (includeFile sp fuel) hinc hsp path
        env.inputs fuel (env.enter sp path content) (Or.inl ⟨_, rfl⟩) hf0 rb e2 hp
      have hg2 : Grows env e2 := grows_trans hg0 k2
      cases rb with
      | false =>
        simp only [Bool.not_false, if_true, Res.ok.injEq, Prod.mk.injEq] at h
        obtain ⟨rfl, rfl⟩ := h
        exact ⟨k1, hg2, fun _ => Or.inr (Or.inl (k3 rfl)), fun hx => (by cases hx)⟩
      | true =>
        simp only [Bool.not_true, Bool.false_eq_true, if_false] at h
        rcases k4 rfl with ⟨c1, hb1, hdead⟩ | ⟨c, hdo⟩
        · have hlen : e2.inputs.length - 1 = env.inputs.length := by rw [hb1]; simp
          have hpop : ∀ (hh : (if (e2.inputs.dropLast).length > 0 then
                match addLineNumber sp { e2 with inputs := e2.inputs.dropLast } with
                | .ok env4 => Res.ok (true, env4)
                | .crash => .crash
                | .outOfFuel => .outOfFuel
              else .ok (true, { e2 with inputs := e2.inputs.dropLast })) = .ok (b, env1)),
              FromFs sp env1 ∧ Grows env env1
                ∧ (b = false → env1.inputs = env.inputs ∨ env1.success = false
                    ∨ DirtyOver env.inputs env1)
                ∧ (b = true → ∃ content env2 child body,
                    sp.fs.openStream path = some content
                    ∧ parseLines sp (parseLine sp (includeFile sp fuel)) path fuel
                        (env.enter sp path content) = .ok (true, env2)
                    ∧ env2.inputs = env.inputs ++ [child] ∧ child.dead = true
                    ∧ env2.output = env.output ++ lineMarker sp sp.initialLineNumber path ++ body
                    ∧ env1.inputs = env.inputs
                    ∧ env1.output = env2.output ++ (match env.inputs.getLast? with
                        | none => []
                        | some parent => lineMarker sp parent.lineNumber parent.path)) := by
            intro hh
            have hbt : b = true := by
              split at hh
              · cases ha : addLineNumber sp { e2 with inputs := e2.inputs.dropLast } with
                | ok v => rw [ha] at hh; simp at hh; exact hh.1
                | crash => rw [ha] at hh; cases hh
                | outOfFuel => rw [ha] at hh; cases hh
              · simp at hh; exact hh.1
            subst hbt
            obtain ⟨p1, p2⟩ := includeFile_pop sp env.inputs c1 e2 env1 hb1 hh
            obtain ⟨d, hd⟩ := k2
            refine ⟨?_, ?_, fun hx => (by cases hx), fun _ =>
              ⟨content, e2, c1, d, hopen, hp, hb1, hdead, ?_, p1, p2⟩⟩
            · intro i hi
              rw [p1] at hi
              exact hf i hi
            · exact grows_trans hg2 ⟨_, p2⟩
            · rw [hd, enter_output]
          cases hl : e2.forStatements.getLast? with
          | none =>
            rw [hl] at h
            exact hpop h
          | some fs =>
            rw [hl] at h
            dsimp only at h
            split at h
            · rename_i hge
              cases hget : e2.inputs.get? fs.inputIndex with
              | none => rw [hget] at h; cases h
              | some forInput =>
                rw [hget] at h
                simp only [Res.ok.injEq, Prod.mk.injEq] at h
                obtain ⟨rfl, rfl⟩ := h
                refine ⟨k1, grows_trans hg2 (grows_of_eq rfl), fun _ => Or.inr (Or.inr ?_),
                  fun hx => (by cases hx)⟩
                exact ⟨[c1], by simp, hb1, ⟨c1, by simp [logError, hb1], hdead⟩, fs, hl, hge⟩
            · exact hpop h
        · have hdo1 := hdo
          obtain ⟨extra, hne, hin, htop, fs, hl, hge⟩ := hdo1
          rw [hl] at h
          dsimp only at h
          rw [if_pos hge] at h
          cases hget : e2.inputs.get? fs.inputIndex with
          | none => rw [hget] at h; cases h
          | some forInput =>
            rw [hget] at h
            simp only [Res.ok.injEq, Prod.mk.injEq] at h
            obtain ⟨rfl, rfl⟩ := h
            refine ⟨k1, grows_trans hg2 (grows_of_eq rfl), fun _ => Or.inr (Or.inr ?_),
              fun hx => (by cases hx)⟩
            exact ⟨c :: extra, by simp, by simp [logError, hin], htop, fs, hl, hge⟩

/-- Every call of `includeFile` keeps the discipline of the stack of inputs. -/
theorem includeFile_spec (sp : ShaderPreprocessor) (hsp : SubstitutionsClosed sp) :
    ∀ fuel, IncSpec sp (includeFile sp fuel) := by
  intro fuel
  induction fuel with
  | zero =>
    intro path env b env1 _ h
    simp [includeFile] at h
  | succ n ih =>
    intro path env b env1 hf h
    obtain ⟨k1, k2, k3, k4⟩ := includeFile_step sp hsp n ih path env hf b env1 h
    refine ⟨k1, k2, ?_, k3⟩
    intro hb
    obtain ⟨_, _, _, _, _, _, _, _, _, hi, _⟩ := k4 hb
    exact hi

theorem strFind_open_none {l : Str} (h : lbrace ∉ l) : strFind openString l = none := by
  induction l with
  | nil => simp [strFind, openString, List.isPrefixOf]
  | cons c cs ih =>
    have hcs : lbrace ∉ cs := fun hx => h (List.mem_cons_of_mem _ hx)
    have hp : openString.isPrefixOf (c :: cs) = false := by
      rw [isPrefixOf_open_cons]
      cases cs with
      | nil => simp
      | cons d ds =>
        have hd : d ≠ '\x7b' := by
          intro e
          apply hcs
          rw [e]
          simp [lbrace]
        simp [hd]
    simp [strFind, hp, ih hcs]

theorem splitLine_subset (l : Str) : ∀ x ∈ (splitLine l).1, x ∈ l := by
  induction l with
  | nil => simp [splitLine]
  | cons c cs ih =>
    intro x hx
    unfold splitLine at hx
    split at hx
    · simp at hx
    · simp only [List.mem_cons] at hx
      rcases hx with hx | hx
      · simp [hx]
      · exact List.mem_cons_of_mem _ (ih x hx)

theorem trimParts_subset (l : Str) : ∀ x ∈ (trimParts l).2.1, x ∈ l := by
  intro x hx
  simp only [trimParts, substr] at hx
  exact List.drop_subset _ _ (List.take_subset _ _ hx)

/-- When no file has the character `{`, no substitution is ever attempted. -/
theorem substitutionsClosed_of_no_brace (sp : ShaderPreprocessor)
    (h : ∀ path content, sp.fs.openStream path = some content → lbrace ∉ content) :
    SubstitutionsClosed sp := by
  intro path content hopen pos env
  have hno : lbrace ∉ (trimParts (splitLine (content.drop pos)).1).2.1 := by
    intro hx
    exact h path content hopen
      (List.drop_subset _ _ (splitLine_subset _ _ (trimParts_subset _ _ hx)))
  rw [substituteLine_none sp _ (strFind_open_none hno)]

theorem demoFileSys_open (files : List (String × String)) (p content : Str)
    (h : (demoFileSys files).openStream p = some content) :
    ∃ e ∈ files, content = e.2.toList := by
  simp only [demoFileSys, demoLookup] at h
  cases hfind : files.find? (fun e => e.1.toList == p) with
  | none => rw [hfind] at h; simp at h
  | some e =>
    rw [hfind] at h
    simp only [Option.map_some', Option.some.injEq] at h
    exact ⟨e, List.mem_of_find?_eq_some hfind, h.symm⟩

/-! ## The lines `#include` -/

theorem findFirstOf_single_append (c : Char) (name post : Str) (h : c ∉ name) :
    findFirstOf [c] (name ++ c :: post) = some name.length := by
  induction name with
  | nil => simp [findFirstOf]
  | cons d ds ih =>
    have hd : d ≠ c := fun e => h (by simp [e])
    have hds : c ∉ ds := fun e => h (by simp [e])
    simp [findFirstOf, hd, ih hds]

theorem searchIncludePaths_first (sp : ShaderPreprocessor) (rel : Str) (p : Str) :
    ∀ (before after : List Str),
      (∀ q ∈ before, sp.fs.fileExists (q ++ [sp.fs.pathSeparator] ++ rel) = false) →
      sp.fs.fileExists (p ++ [sp.fs.pathSeparator] ++ rel) = true →
      searchIncludePaths sp rel (before ++ p :: after)
        = some (p ++ [sp.fs.pathSeparator] ++ rel) := by
  intro before
  induction before with
  | nil => intro after _ hp; simp only [List.nil_append, searchIncludePaths, hp, if_true]
  | cons q qs ih =>
    intro after hq hp
    have h1 := hq q (by simp)
    simp only [List.cons_append, searchIncludePaths, h1, Bool.false_eq_true, if_false]
    exact ih after (fun x hx => hq x (by simp [hx])) hp

theorem parseInclude_quoted (sp : ShaderPreprocessor)
    (inc : Str → Env → Res (Bool × Env)) (env : Env) (input : Input) (rel : Str)
    (hline : env.line = includeString ++ " ".toList ++ [dquote] ++ rel ++ [dquote])
    (hrel : rel ≠ []) (hq : dquote ∉ rel) (hin : env.inputs.getLast? = some input) :
    parseInclude sp inc env =
      match resolveQuoted sp input rel with
      | some includeFilename => consumed (inc includeFilename env)
      | none =>
        .ok (true, failWith env ("Could not resolve file path for include file \x27".toList
          ++ rel ++ "\x27".toList)) := by
  have hlen : 0 < rel.length := List.length_pos.mpr hrel
  have h1 : env.line.length > 11 := by
    rw [hline]; simp [includeString]; omega
  have h2 : substr env.line 0 includeString.length = includeString := by
    rw [hline]; simp [substr, includeString]
  have h3 : findFirstNotOfFrom ws env.line includeString.length = some 9 := by
    rw [hline]
    simp [findFirstNotOfFrom, includeString, findFirstNotOf, ws, dquote]
  have h4 : env.line.get? 9 = some dquote := by
    rw [hline]; simp [includeString]
  have h5 : findFirstOfFrom [dquote] env.line (9 + 1) = some (rel.length + 10) := by
    rw [hline]
    simp only [findFirstOfFrom, includeString, String.toList, List.cons_append, List.nil_append,
      List.append_assoc, List.drop_succ_cons, List.drop_zero, List.singleton_append]
    rw [findFirstOf_single_append dquote rel [] hq]
    simp
  have h6 : substr env.line (9 + 1) (rel.length + 10 - 9 - 1) = rel := by
    rw [hline]
    simp [substr, includeString]
  unfold parseInclude
  simp only [h1, h2, h3, h4, h5, h6, hin, and_self, if_true]


/-! ## Runs that fail -/

/-- The loop of `includeFile` returns false as soon as a line leaves `success` unset. -/
theorem parseLines_fail (sp : ShaderPreprocessor) (step : Env → Res (Bool × Env))
    (path : Str) (fuel : Nat) (env env1 : Env) (ins : List Input) (input : Input)
    (h : step env = .ok (true, env1)) (hs : env1.success = false)
    (hin : env1.inputs = ins ++ [input]) :
    parseLines sp step path (fuel + 1) env
      = .ok (false, logError env1 ("Parse error. Could not parse line. ".toList ++ path
          ++ ":".toList ++ natStr input.lineNumber)) := by
  simp [parseLines, h, hs, hin]

/-- When the loop over the lines of a file returns false, `includeFile` returns false at
once and leaves the `Input` on the stack. -/
theorem includeFile_fail (sp : ShaderPreprocessor) (fuel : Nat) (path content : Str)
    (env e : Env) (hopen : sp.fs.openStream path = some content)
    (hrun : parseLines sp (parseLine sp (includeFile sp fuel)) path fuel
      (env.enter sp path content) = .ok (false, e)) :
    includeFile sp (fuel + 1) path env = .ok (false, e) := by
  rw [includeFile_unfold sp fuel path content env hopen, hrun]
  simp

/-- When the loop over the lines of a file ends while the last open loop was opened in
this file or above it on the stack, `includeFile` returns false, logs the loop, and leaves
the `Input` on the stack. -/
theorem includeFile_unclosed (sp : ShaderPreprocessor) (fuel : Nat) (path content : Str)
    (env e : Env) (fs : ForStatement) (forInput : Input)
    (hopen : sp.fs.openStream path = some content)
    (hrun : parseLines sp (parseLine sp (includeFile sp fuel)) path fuel
      (env.enter sp path content) = .ok (true, e))
    (hfs : e.forStatements.getLast? = some fs) (hge : e.inputs.length - 1 ≤ fs.inputIndex)
    (hget : e.inputs.get? fs.inputIndex = some forInput) :
    includeFile sp (fuel + 1) path env
      = .ok (false, logError e
          ("Parse error. Unexpected end of file. Still processing #for loop from ".toList
            ++ sp.fs.filePath forInput.path ++ ":".toList ++ natStr fs.lineNumber
            ++ ". ".toList ++ debugString sp e)) := by
  rw [includeFile_unfold sp fuel path content env hopen, hrun]
  simp only [Bool.not_true, Bool.false_eq_true, if_false, hfs]
  rw [if_pos hge, hget]

/-- What `process` returns, from what `includeFile` returned for the root file: the flag
is set only when `success` is still set and no loop and no scope is left open. -/
theorem process_of_includeFile (sp : ShaderPreprocessor) (tracked : List Str) (fuel : Nat)
    (b : Bool) (env : Env)
    (h : includeFile sp fuel (sp.fs.absPath sp.shaderPath) (Env.initial []) = .ok (b, env)) :
    process sp tracked fuel
      = .ok (env.success && env.forStatements.isEmpty && env.scopes.isEmpty, env.output) := by
  have h0 : clearTrackedPaths (Env.initial tracked) = Env.initial [] := rfl
  simp only [process, processEnv, h0, h]
  cases hf : env.forStatements with
  | nil =>
    cases hsc : env.scopes with
    | nil => simp [hsc]
    | cons s ss => simp [hsc, failWith, logError]
  | cons f fs =>
    cases hsc : env.scopes with
    | nil => simp [hsc, failWith, logError]
    | cons s ss => simp [hsc, failWith, logError]

/-- The line `#endfor` read while no loop is open. -/
theorem parseEndFor_unexpected (sp : ShaderPreprocessor) (env : Env)
    (hline : endForString.isPrefixOf env.line = true) (hfor : env.forStatements = []) :
    parseEndFor sp env
      = .ok (true, { logError env
          ("Parse error. Unexpected #endfor. No corresponing #for was found.".toList
            ++ debugString sp env) with success := false }) := by
  have h1 := (take_eq_iff_isPrefixOf endForString env.line).mpr hline
  have h2 : env.line.length > 6 := by
    have : (env.line.take endForString.length).length = endForString.length := by rw [h1]
    simp only [List.length_take, endForString] at this
    have h3 : ("#endfor".toList).length = 7 := rfl
    omega
  simp [parseEndFor, substr, h1, h2, hfor]

/-- A line is read whether a newline or the end of the file follows it. -/
theorem parseLine_read_any (sp : ShaderPreprocessor) (inc : Str → Env → Res (Bool × Env))
    (env : Env) (ins : List Input) (input : Input) (l tail : Str)
    (hin : env.inputs = ins ++ [input]) (hat : input.At (l ++ tail)) (hl : '\n' ∉ l)
    (hne : l ≠ []) (htail : tail = [] ∨ ∃ rest, tail = '\n' :: rest) :
    ∃ input1 : Input,
      parseLine sp inc env = dispatchLine sp inc input (env.afterRead input1 l)
        ∧ input1.path = input.path ∧ input1.content = input.content
        ∧ input1.indentation = input.indentation ∧ input1.lineNumber = input.lineNumber := by
  rcases htail with rfl | ⟨rest, rfl⟩
  · rw [List.append_nil] at hat
    exact ⟨_, parseLine_read_last sp inc env ins input l hin hat hne hl, rfl, rfl, rfl, rfl⟩
  · exact ⟨_, parseLine_read sp inc env ins input l rest hin hat hl, rfl, rfl, rfl, rfl⟩

theorem afterRead_inputs (env : Env) (ins : List Input) (input input1 : Input) (l : Str)
    (hin : env.inputs = ins ++ [input]) :
    (env.afterRead input1 l).inputs
      = ins ++ [{ input1 with lineNumber := input1.lineNumber + 1 }] := by
  simp [Env.afterRead, hin]

/-- The state in which the line loop of the root file starts. -/
theorem enter_initial (sp : ShaderPreprocessor) (path content : Str) :
    ((Env.initial []).enter sp path content).inputs
        = [] ++ [{ path := path, content := content, pos := 0, eofbit := false,
                   failbit := false, indentation := [],
                   lineNumber := sp.initialLineNumber }]
      ∧ ((Env.initial []).enter sp path content).output
          = lineMarker sp sp.initialLineNumber path
      ∧ (Env.initial []).Frame ((Env.initial []).enter sp path content) := by
  refine ⟨rfl, ?_, ⟨rfl, rfl, rfl, rfl, rfl, rfl⟩⟩
  simp [Env.enter, Env.initial, lineMarker]

/-- A line that `parseEndFor` consumes outside an empty loop: only the substitutions are
done after it, and their flag is what `parseLine` returns. -/
theorem dispatchLine_special (sp : ShaderPreprocessor) (inc : Str → Env → Res (Bool × Env))
    (input : Input) (env e : Env) (hpe : parseEndFor sp env = .ok (true, e))
    (he : isInsideEmptyForStatement e = false) :
    dispatchLine sp inc input env = .ok ((substituteLine sp e).1, (substituteLine sp e).2) := by
  unfold dispatchLine
  rw [hpe]
  dsimp only
  rw [he]
  cases hs : (substituteLine sp e).1 <;> simp

/-- The final environment of `process`, from what `includeFile` returned for the root
file: the two checks at the end only log and unset `success`. -/
theorem processEnv_fields (sp : ShaderPreprocessor) (tracked : List Str) (fuel : Nat)
    (b : Bool) (env : Env)
    (h : includeFile sp fuel (sp.fs.absPath sp.shaderPath) (Env.initial []) = .ok (b, env)) :
    ∃ env1, processEnv sp tracked fuel = .ok env1
      ∧ env1.success = (env.success && env.forStatements.isEmpty && env.scopes.isEmpty)
      ∧ env1.output = env.output ∧ env1.forStatements = env.forStatements
      ∧ env1.inputs = env.inputs ∧ env1.scopes = env.scopes := by
  have h0 : clearTrackedPaths (Env.initial tracked) = Env.initial [] := rfl
  have step : ∀ (c : Prop) [Decidable c] (e : Env) (msg : Str),
      (if c then failWith e msg else e).success = (e.success && !decide c)
        ∧ (if c then failWith e msg else e).output = e.output
        ∧ (if c then failWith e msg else e).forStatements = e.forStatements
        ∧ (if c then failWith e msg else e).inputs = e.inputs
        ∧ (if c then failWith e msg else e).scopes = e.scopes := by
    intro c _ e msg
    by_cases hc : c <;> simp [hc, failWith, logError]
  simp only [processEnv, h0, h]
  refine ⟨_, rfl, ?_⟩
  obtain ⟨a1, a2, a3, a4, a5⟩ := step (env.forStatements.length > 0) env
    (("Parse error. Unexpected end of file. In the middle of expanding "
      ++ "#for statement. ").toList ++ debugString sp env)
  obtain ⟨b1, b2, b3, b4, b5⟩ := step ((if env.forStatements.length > 0 then
      failWith env (("Parse error. Unexpected end of file. In the middle of expanding "
        ++ "#for statement. ").toList ++ debugString sp env) else env).scopes.length > 0)
    (if env.forStatements.length > 0 then
      failWith env (("Parse error. Unexpected end of file. In the middle of expanding "
        ++ "#for statement. ").toList ++ debugString sp env) else env)
    ("Parse error. Unexpected end of file. ".toList ++ debugString sp
      (if env.forStatements.length > 0 then
        failWith env (("Parse error. Unexpected end of file. In the middle of expanding "
          ++ "#for statement. ").toList ++ debugString sp env) else env))
  refine ⟨?_, b2.trans a2, b3.trans a3, b4.trans a4, b5.trans a5⟩
  rw [b1, a1, a5]
  cases env.forStatements <;> cases env.scopes <;> simp

theorem includeLine_facts (rel : Str) (hnl : '\n' ∉ rel) (hb : lbrace ∉ rel) :
    trimParts (includeLine rel) = ([], includeLine rel, []) ∧ '\n' ∉ includeLine rel
      ∧ endForString.isPrefixOf (includeLine rel) = false
      ∧ strFind openString (includeLine rel) = none ∧ includeLine rel ≠ [] := by
  have hlast : ∀ x, (includeLine rel).getLast? = some x → x ∉ ws := by
    intro x hx
    simp only [includeLine, getLast?_snoc, Option.some.injEq] at hx
    rw [← hx]
    decide
  refine ⟨trimParts_id (includeLine rel) '#' _ (by simp [includeLine, includeString]; rfl)
    (by decide) hlast, ?_, ?_, ?_, ?_⟩
  · simp only [includeLine, List.mem_append, not_or, List.mem_singleton]
    exact ⟨⟨⟨⟨by decide, by decide⟩, by decide⟩, hnl⟩, by decide⟩
  · simp [includeLine, includeString, endForString, List.isPrefixOf]
  · apply strFind_open_none
    simp only [includeLine, List.mem_append, not_or, List.mem_singleton]
    exact ⟨⟨⟨⟨by decide, by decide⟩, by decide⟩, hb⟩, by decide⟩
  · simp [includeLine, includeString]

theorem searchIncludePaths_none (sp : ShaderPreprocessor) (rel : Str) :
    ∀ (paths : List Str),
      (∀ p ∈ paths, sp.fs.fileExists (p ++ [sp.fs.pathSeparator] ++ rel) = false) →
      searchIncludePaths sp rel paths = none := by
  intro paths
  induction paths with
  | nil => intro _; rfl
  | cons q qs ih =>
    intro h
    have h1 := h q (by simp)
    simp only [searchIncludePaths, h1, Bool.false_eq_true, if_false]
    exact ih (fun p hp => h p (by simp [hp]))

/-- A line that `parseInclude` consumes, outside an empty loop and without `#{`. -/
theorem dispatchLine_include (sp : ShaderPreprocessor) (inc : Str → Env → Res (Bool × Env))
    (input : Input) (env r : Env) (hd : endForString.isPrefixOf env.line = false)
    (he : isInsideEmptyForStatement env = false)
    (hs : strFind openString env.line = none)
    (hi : parseInclude sp inc env = .ok (true, r)) :
    dispatchLine sp inc input env = .ok (true, r) := by
  unfold dispatchLine
  rw [parseEndFor_not sp env hd]
  dsimp only
  rw [he, substituteLine_none sp env hs]
  simp [hi]

/-- Whatever keys the dictionary returns for a reference that resolves, `parseFor` opens a
loop and leaves `success` as it is. -/
theorem parseFor_opens (sp : ShaderPreprocessor) (env : Env) (k v d : Str) (input : Input)
    (ht : tokenizeFor env.line = some (.tokens k v d))
    (hr : (resolveAlias sp d env).1 = true) (hin : env.inputs.getLast? = some input) :
    ∃ e1, parseFor sp env = .ok (true, e1) ∧ e1.success = env.success
      ∧ e1.forStatements.length = env.forStatements.length + 1 := by
  unfold parseFor
  rw [ht]
  simp only [hr, Bool.not_true, Bool.false_eq_true, if_false, hin]
  exact ⟨_, rfl, by simp [pushScope], by simp [pushScope]⟩

/-! ## Loops that are left open -/

/-- The line `#for k, v in <name>` over a reference with at least one key: the loop is
opened on top of the loops of `env`, at the `Input` it is read from. -/
theorem run_for_cons (sp : ShaderPreprocessor) (inc : Str → Env → Res (Bool × Env))
    (path : Str) (ins : List Input) (rest : Str) (env : Env) (input : Input) (fuel : Nat)
    (name ref key0 : Str) (keys : List Str) (hin : env.inputs = ins ++ [input])
    (hat : input.At (forLine name ++ '\n' :: rest))
    (hemp : isInsideEmptyForStatement env = false) (hsucc : env.success = true)
    (hname : isReference name = true) (hres : resolveAlias sp name env = (true, ref))
    (hkeys : sp.dictionary.valueKeys ref = key0 :: keys) :
    ∃ env1 input1,
      parseLines sp (parseLine sp inc) path (fuel + 1) env
          = parseLines sp (parseLine sp inc) path fuel env1
        ∧ env1.output = env.output ++ "//# For loop over ".toList ++ ref ++ "\n".toList
            ++ keyMarker ref key0
        ∧ env1.inputs = ins ++ [input1] ∧ input1.At rest
        ∧ input.Moved input1 ((forLine name).length + 1) 1
        ∧ env1.forStatements = env.forStatements ++ [loopStatement ins input1 ref 0]
        ∧ env1.scopes.length = env.scopes.length + 1
        ∧ env1.success = true ∧ env1.log = env.log := by
  obtain ⟨hf1, hf2, _, _, _, _⟩ := forLine_facts name hname
  have hread := parseLine_read sp inc env ins input (forLine name) _ hin hat hf2
  have hat2 := (getline_line env.line hat hf2).2
  let inputB : Input := { input with
    pos := input.pos + (forLine name).length + 1, lineNumber := input.lineNumber + 1 }
  let envR : Env := env.afterRead { input with pos := input.pos + (forLine name).length + 1 }
    (forLine name)
  have hRin : envR.inputs = ins ++ [inputB] := by simp [envR, inputB, Env.afterRead, hin]
  have hRline : envR.line = forLine name := by simp [envR, Env.afterRead, hf1]
  let envF : Env := { envR with
    output := envR.output ++ "//# For loop over ".toList ++ ref ++ "\n".toList
      ++ "//# Key ".toList ++ key0 ++ " in ".toList ++ ref ++ "\n".toList,
    aliases := (pushScopeLoop (loopTable ref key0) [] envR.aliases).2,
    scopes := envR.scopes ++ [(pushScopeLoop (loopTable ref key0) [] envR.aliases).1],
    forStatements := envR.forStatements ++ [loopStatement ins inputB ref 0] }
  have hfor : parseFor sp envR = .ok (true, envF) :=
    parseFor_cons sp envR ins inputB name ref key0 keys hname hRline hRin
      ⟨hat2.1, hat2.2.1⟩ (by rw [resolveAlias_congr sp name envR env rfl]; exact hres) hkeys
  have hdisp := dispatchLine_for sp inc input envR envF name hname hRline
    (by simpa [envR] using hemp) hfor
  rw [hdisp] at hread
  have hstep1 := parseLines_step sp (parseLine sp inc) path fuel env envF hread
    (by simpa [envF, envR, Env.afterRead] using hsucc)
  refine ⟨envF, inputB, hstep1, ?_, hRin, ?_, ⟨rfl, rfl, rfl, by simp [inputB]; omega, rfl⟩,
    ?_, ?_, by simpa [envF, envR, Env.afterRead] using hsucc, ?_⟩
  · simp [envF, envR, Env.afterRead, keyMarker, List.append_assoc]
  · obtain ⟨a, b, c, d⟩ := hat2
    exact ⟨a, b, c, d⟩
  · simp [envF, envR, Env.afterRead]
  · simp [envF, envR, Env.afterRead]
  · simp [envF, envR, Env.afterRead]

/-- The line `#for k, v in <name>` over a reference without keys: an empty loop is
opened. -/
theorem run_for_nil (sp : ShaderPreprocessor) (inc : Str → Env → Res (Bool × Env))
    (path : Str) (ins : List Input) (rest : Str) (env : Env) (input : Input) (fuel : Nat)
    (name ref : Str) (hin : env.inputs = ins ++ [input])
    (hat : input.At (forLine name ++ '\n' :: rest))
    (hemp : isInsideEmptyForStatement env = false) (hsucc : env.success = true)
    (hname : isReference name = true) (hres : resolveAlias sp name env = (true, ref))
    (hkeys : sp.dictionary.valueKeys ref = []) :
    ∃ env1 input1,
      parseLines sp (parseLine sp inc) path (fuel + 1) env
          = parseLines sp (parseLine sp inc) path fuel env1
        ∧ env1.output = env.output ++ "//# Empty for loop\n".toList
        ∧ env1.inputs = ins ++ [input1] ∧ input1.At rest
        ∧ input.Moved input1 ((forLine name).length + 1) 1
        ∧ env1.forStatements = env.forStatements ++ [loopStatement ins input1 ref (-1)]
        ∧ env1.scopes.length = env.scopes.length + 1
        ∧ env1.success = true ∧ env1.log = env.log := by
  obtain ⟨hf1, hf2, _, _, _, _⟩ := forLine_facts name hname
  have hread := parseLine_read sp inc env ins input (forLine name) _ hin hat hf2
  have hat2 := (getline_line env.line hat hf2).2
  let inputB : Input := { input with
    pos := input.pos + (forLine name).length + 1, lineNumber := input.lineNumber + 1 }
  let envR : Env := env.afterRead { input with pos := input.pos + (forLine name).length + 1 }
    (forLine name)
  have hRin : envR.inputs = ins ++ [inputB] := by simp [envR, inputB, Env.afterRead, hin]
  have hRline : envR.line = forLine name := by simp [envR, Env.afterRead, hf1]
  let envF : Env := { envR with
    output := envR.output ++ "//# Empty for loop\n".toList,
    scopes := envR.scopes ++ [[]],
    forStatements := envR.forStatements ++ [loopStatement ins inputB ref (-1)] }
  have hfor : parseFor sp envR = .ok (true, envF) :=
    parseFor_empty sp envR ins inputB name ref hname hRline hRin
      ⟨hat2.1, hat2.2.1⟩ (by rw [resolveAlias_congr sp name envR env rfl]; exact hres) hkeys
  have hdisp := dispatchLine_for sp inc input envR envF name hname hRline
    (by simpa [envR] using hemp) hfor
  rw [hdisp] at hread
  have hstep1 := parseLines_step sp (parseLine sp inc) path fuel env envF hread
    (by simpa [envF, envR, Env.afterRead] using hsucc)
  refine ⟨envF, inputB, hstep1, ?_, hRin, ?_, ⟨rfl, rfl, rfl, by simp [inputB]; omega, rfl⟩,
    ?_, ?_, by simpa [envF, envR, Env.afterRead] using hsucc, ?_⟩
  · simp [envF, envR, Env.afterRead]
  · obtain ⟨a, b, c, d⟩ := hat2
    exact ⟨a, b, c, d⟩
  · simp [envF, envR, Env.afterRead]
  · simp [envF, envR, Env.afterRead]
  · simp [envF, envR, Env.afterRead]

/-- The line `#endfor` read from another `Input` than the one the open loop was opened
in. -/
theorem parseEndFor_mismatch (sp : ShaderPreprocessor) (env : Env) (fs : ForStatement)
    (forInput : Input) (hline : endForString.isPrefixOf env.line = true)
    (hfs : env.forStatements.getLast? = some fs)
    (hne : fs.inputIndex ≠ env.inputs.length - 1)
    (hget : env.inputs.get? fs.inputIndex = some forInput) :
    parseEndFor sp env
      = .ok (true, { logError env
          ("Parse error. Unexpected #endfor. Last seen #for was in ".toList
            ++ sp.fs.filePath forInput.path ++ ":".toList ++ natStr fs.lineNumber
            ++ ". ".toList ++ debugString sp env) with success := false }) := by
  have h1 := (take_eq_iff_isPrefixOf endForString env.line).mpr hline
  have h2 : env.line.length > 6 := by
    have : (env.line.take endForString.length).length = endForString.length := by rw [h1]
    simp only [List.length_take, endForString] at this
    have h3 : ("#endfor".toList).length = 7 := rfl
    omega
  unfold parseEndFor
  rw [if_pos ⟨h2, by simpa [substr] using h1⟩, hfs]
  dsimp only
  rw [if_pos hne, hget]

/-- A file included while a loop of a file below it on the stack is open, whose first
line that is not plain starts with `#endfor`: the line is refused, `success` is unset, and
`includeFile` returns false after the lines before it are written. -/
theorem includeFile_foreign_endfor (sp : ShaderPreprocessor) (fuel : Nat) (path : Str)
    (env : Env) (preB : List Str) (lineE tailB : Str) (fs : ForStatement)
    (hopen : sp.fs.openStream path = some (joinLines preB ++ (lineE ++ tailB)))
    (hpre : ∀ l ∈ preB, '\n' ∉ l ∧ isPlainLine l = true)
    (hl : '\n' ∉ lineE) (hend : endForString.isPrefixOf (trim lineE) = true)
    (hsub : strFind openString (trim lineE) = none)
    (htail : tailB = [] ∨ ∃ rest, tailB = '\n' :: rest)
    (hfs : env.forStatements.getLast? = some fs) (hidx : fs.inputIndex < env.inputs.length)
    (hkey : fs.keyIndex ≠ -1) (hsucc : env.success = true)
    (hfuel : preB.length + 1 ≤ fuel) :
    ∃ e child, includeFile sp (fuel + 1) path env = .ok (false, e)
      ∧ e.success = false ∧ e.inputs = env.inputs ++ [child]
      ∧ e.output = env.output ++ lineMarker sp sp.initialLineNumber path
          ++ renderLines ((match env.inputs.getLast? with
              | some parent => parent.indentation
              | none => []) ++ env.indentation) preB
      ∧ e.forStatements = env.forStatements ∧ e.scopes = env.scopes := by
  obtain ⟨f, rfl⟩ : ∃ f, fuel = f + 1 + preB.length := ⟨fuel - preB.length - 1, by omega⟩
  obtain ⟨forInput, hget⟩ : ∃ forInput, env.inputs.get? fs.inputIndex = some forInput :=
    ⟨env.inputs.get ⟨fs.inputIndex, hidx⟩, List.get?_eq_get hidx⟩
  have hemp0 : isInsideEmptyForStatement (env.enter sp path (joinLines preB ++ (lineE ++ tailB)))
      = false := by
    obtain ⟨fss, hfss⟩ := List.getLast?_eq_some_iff.mp hfs
    rw [isInsideEmpty_snoc _ fss fs (by simpa [Env.enter] using hfss)]
    simpa using hkey
  obtain ⟨env1, input1, r1, r2, r3, r4, r5, r6⟩ := run_plain sp
    (includeFile sp (f + 1 + preB.length)) path env.inputs preB
    (lineE ++ tailB) (env.enter sp path (joinLines preB ++ (lineE ++ tailB))) _ (f + 1) hpre
    rfl ⟨rfl, rfl, Nat.zero_le _, rfl⟩ hemp0 hsucc
  have hne : lineE ≠ [] := by
    intro e
    subst e
    simp [trim, trimParts, substr, endForString, findFirstNotOf, findLastNotOf] at hend
  obtain ⟨input2, p1, p2, p3, p4, p5⟩ := parseLine_read_any sp
    (includeFile sp (f + 1 + preB.length)) env1 env.inputs input1 lineE tailB r3 r4 hl hne
    htail
  have hin2 := afterRead_inputs env1 env.inputs input1 input2 lineE r3
  obtain ⟨er, her⟩ : ∃ e : Env, e = env1.afterRead input2 lineE := ⟨_, rfl⟩
  have a1 : er.line = trim lineE := by rw [her]; rfl
  have a2 : er.forStatements = env.forStatements := by
    rw [her]; show env1.forStatements = _; rw [r6.forStatements]; rfl
  have a3 : er.inputs = env.inputs ++ [{ input2 with lineNumber := input2.lineNumber + 1 }] := by
    rw [her]; exact hin2
  have a4 : er.output = env1.output := by rw [her]; rfl
  have a5 : er.scopes = env.scopes := by
    rw [her]; show env1.scopes = _; rw [r6.scopes]; rfl
  have hget2 : er.inputs.get? fs.inputIndex = some forInput := by
    rw [a3, List.get?_eq_getElem?, List.getElem?_append_left hidx, ← List.get?_eq_getElem?]
    exact hget
  obtain ⟨failed, hfailed⟩ : ∃ e : Env, e = { logError er
      ("Parse error. Unexpected #endfor. Last seen #for was in ".toList
        ++ sp.fs.filePath forInput.path ++ ":".toList ++ natStr fs.lineNumber
        ++ ". ".toList ++ debugString sp er) with success := false } := ⟨_, rfl⟩
  have hpe : parseEndFor sp er = .ok (true, failed) := by
    rw [hfailed]
    exact parseEndFor_mismatch sp er fs forInput (by rw [a1]; exact hend) (by rw [a2]; exact hfs)
      (by rw [a3]; simp; omega) hget2
  have f1 : failed.forStatements = env.forStatements := by rw [hfailed]; exact a2
  have f2 : failed.success = false := by rw [hfailed]
  have f3 : failed.inputs = env.inputs ++ [{ input2 with lineNumber := input2.lineNumber + 1 }] := by
    rw [hfailed]; exact a3
  have f4 : failed.output = env1.output := by rw [hfailed]; exact a4
  have f5 : failed.line = trim lineE := by rw [hfailed]; exact a1
  have f6 : failed.scopes = env.scopes := by rw [hfailed]; exact a5
  have hemp : isInsideEmptyForStatement failed = false := by
    obtain ⟨fss, hfss⟩ := List.getLast?_eq_some_iff.mp hfs
    rw [isInsideEmpty_snoc _ fss fs (by rw [f1]; exact hfss)]
    simpa using hkey
  have hd : parseLine sp (includeFile sp (f + 1 + preB.length)) env1 = .ok (true, failed) := by
    rw [p1, ← her, dispatchLine_special sp _ input1 er failed hpe hemp,
      substituteLine_none sp failed (by rw [f5]; exact hsub)]
  have hl2 := parseLines_fail sp (parseLine sp (includeFile sp (f + 1 + preB.length)))
    path f env1 _ env.inputs { input2 with lineNumber := input2.lineNumber + 1 } hd f2 f3
  rw [← r1] at hl2
  have hi := includeFile_fail sp (f + 1 + preB.length) path _ env _ hopen hl2
  refine ⟨_, { input2 with lineNumber := input2.lineNumber + 1 }, hi, f2, f3, ?_, f1, f6⟩
  show failed.output = _
  rw [f4, r2, enter_output]


/-- A root file that opens a loop over a reference with keys and, in its body, includes a
file whose first line that is not plain starts with `#endfor`: the final environment of
`includeFile` for the root file. Nothing is read after the `#endfor` line. -/
theorem include_endfor_run (sp : ShaderPreprocessor) (pre mid preB : List Str)
    (ref rel lineE tailA tailB key0 : Str) (keys : List Str) (fuel : Nat)
    (hopenA : sp.fs.openStream (sp.fs.absPath sp.shaderPath)
      = some (joinLines pre ++ (forLine ref ++ '\n' :: (joinLines mid
          ++ (includeLine rel ++ tailA)))))
    (hexists : sp.fs.fileExists (sp.fs.directoryName (sp.fs.absPath sp.shaderPath)
      ++ [sp.fs.pathSeparator] ++ rel) = true)
    (hopenB : sp.fs.openStream (sp.fs.directoryName (sp.fs.absPath sp.shaderPath)
      ++ [sp.fs.pathSeparator] ++ rel) = some (joinLines preB ++ (lineE ++ tailB)))
    (hpre : ∀ l ∈ pre, '\n' ∉ l ∧ isPlainLine l = true)
    (hmid : ∀ l ∈ mid, '\n' ∉ l ∧ isPlainLine l = true)
    (hpreB : ∀ l ∈ preB, '\n' ∉ l ∧ isPlainLine l = true)
    (href : isReference ref = true) (hkey : sp.dictionary.hasKey ref = true)
    (hkeys : sp.dictionary.valueKeys ref = key0 :: keys)
    (hrel : rel ≠ []) (hq : dquote ∉ rel) (hnl : '\n' ∉ rel) (hb : lbrace ∉ rel)
    (hl : '\n' ∉ lineE) (hend : endForString.isPrefixOf (trim lineE) = true)
    (hsub : strFind openString (trim lineE) = none)
    (htailA : tailA = [] ∨ ∃ rest, tailA = '\n' :: rest)
    (htailB : tailB = [] ∨ ∃ rest, tailB = '\n' :: rest)
    (hfuel : pre.length + mid.length + 3 ≤ fuel ∧ preB.length + 3 ≤ fuel) :
    ∃ e, includeFile sp fuel (sp.fs.absPath sp.shaderPath) (Env.initial []) = .ok (false, e)
      ∧ e.success = false ∧ e.forStatements.length = 1
      ∧ e.output = lineMarker sp sp.initialLineNumber (sp.fs.absPath sp.shaderPath)
          ++ renderLines [] pre ++ "//# For loop over ".toList ++ ref ++ "\n".toList
          ++ keyMarker ref key0 ++ renderLines [] mid
          ++ lineMarker sp sp.initialLineNumber (sp.fs.directoryName
              (sp.fs.absPath sp.shaderPath) ++ [sp.fs.pathSeparator] ++ rel)
          ++ renderLines [] preB := by
  obtain ⟨F, rfl⟩ : ∃ F, fuel = F + 1 := ⟨fuel - 1, by omega⟩
  obtain ⟨f, hF1⟩ : ∃ f, F = f + 1 + mid.length + 1 + pre.length :=
    ⟨F - pre.length - mid.length - 2, by omega⟩
  obtain ⟨F1, hF2⟩ : ∃ F1, F = F1 + 1 := ⟨F - 1, by omega⟩
  have hF3 : preB.length + 1 ≤ F1 := by omega
  obtain ⟨i0, o0, fr0⟩ := enter_initial sp (sp.fs.absPath sp.shaderPath)
    (joinLines pre ++ (forLine ref ++ '\n' :: (joinLines mid ++ (includeLine rel ++ tailA))))
  -- the lines before the loop
  obtain ⟨env1, input1, r1, r2, r3, r4, r5, r6⟩ := run_plain sp
    (includeFile sp F) (sp.fs.absPath sp.shaderPath) [] pre _ _ _ (f + 1 + mid.length + 1)
    hpre i0 ⟨rfl, rfl, Nat.zero_le _, rfl⟩ rfl rfl
  rw [← hF1] at r1
  have hfr1 : (Env.initial []).Frame env1 := fr0.comp r6
  have hemp1 : isInsideEmptyForStatement env1 = false := by
    simp [isInsideEmptyForStatement, hfr1.forStatements, Env.initial]
  have hsucc1 : env1.success = true := by rw [hfr1.success]; rfl
  have hres1 : resolveAlias sp ref env1 = (true, ref) :=
    resolveAlias_unbound sp ref env1 (by rw [hfr1.aliases]; rfl) hkey
  -- the line that opens the loop
  obtain ⟨env2, input2, s1, s2, s3, s4, s5, s6, _, s8, _⟩ := run_for_cons sp
    (includeFile sp F) (sp.fs.absPath sp.shaderPath) [] _ env1 input1 (f + 1 + mid.length)
    ref ref key0 keys r3 r4 hemp1 hsucc1 href hres1 hkeys
  have hfs2 : env2.forStatements = [] ++ [loopStatement [] input2 ref 0] := by
    rw [s6, hfr1.forStatements]; rfl
  have hemp2 : isInsideEmptyForStatement env2 = false := by
    rw [isInsideEmpty_snoc env2 [] _ hfs2]; simp [loopStatement]
  -- the lines of the body before the include
  obtain ⟨env3, input3, t1, t2, t3, t4, t5, t6⟩ := run_plain sp
    (includeFile sp F) (sp.fs.absPath sp.shaderPath) [] mid _ env2 input2 (f + 1)
    hmid s3 s4 hemp2 s8
  -- the include line
  obtain ⟨u1, u2, u3, u4, u5⟩ := includeLine_facts rel hnl hb
  obtain ⟨input4, p1, p2, p3, p4, p5⟩ := parseLine_read_any sp
    (includeFile sp F) env3 [] input3 (includeLine rel) tailA t3 t4 u2 u5 htailA
  have hin4 := afterRead_inputs env3 [] input3 input4 (includeLine rel) t3
  obtain ⟨e, he⟩ : ∃ e : Env, e = env3.afterRead input4 (includeLine rel) := ⟨_, rfl⟩
  have e1 : e.line = includeLine rel := by rw [he]; simp [Env.afterRead, u1]
  have e2 : e.forStatements = [] ++ [loopStatement [] input2 ref 0] := by
    rw [he]; show env3.forStatements = _; rw [t6.forStatements]; exact hfs2
  have e3 : e.inputs = [] ++ [{ input4 with lineNumber := input4.lineNumber + 1 }] := by
    rw [he]; exact hin4
  have e4 : e.output = env3.output := by rw [he]; rfl
  have e5 : e.success = true := by rw [he]; show env3.success = true; rw [t6.success]; exact s8
  have e6 : e.indentation = [] := by rw [he]; simp [Env.afterRead, u1]
  have hpath : input4.path = sp.fs.absPath sp.shaderPath := by
    rw [p2, t5.path, s5.path, r5.path]
  have hind : input4.indentation = [] := by
    rw [p4, t5.indentation, s5.indentation, r5.indentation]
  have hempe : isInsideEmptyForStatement e = false := by
    rw [isInsideEmpty_snoc e [] _ e2]; simp [loopStatement]
  have hpi := parseInclude_quoted sp (includeFile sp F) e
    { input4 with lineNumber := input4.lineNumber + 1 } rel e1 hrel hq (by rw [e3]; simp)
  have hres : resolveQuoted sp { input4 with lineNumber := input4.lineNumber + 1 } rel
      = some (sp.fs.directoryName (sp.fs.absPath sp.shaderPath)
          ++ [sp.fs.pathSeparator] ++ rel) := by
    simp only [resolveQuoted, hpath, hexists, if_true]
  rw [hres] at hpi
  -- the included file
  obtain ⟨eC, child, c1, c2, c3, c4, c5, _⟩ := includeFile_foreign_endfor sp F1
    (sp.fs.directoryName (sp.fs.absPath sp.shaderPath) ++ [sp.fs.pathSeparator] ++ rel)
    e preB lineE tailB (loopStatement [] input2 ref 0) hopenB hpreB hl hend hsub htailB
    (by rw [e2]; simp) (by rw [e3]; simp [loopStatement]) (by simp [loopStatement]) e5 hF3
  rw [← hF2] at c1
  have hpi2 : parseInclude sp (includeFile sp F) e = .ok (true, eC) := by
    rw [hpi]
    show consumed (includeFile sp F _ e) = _
    rw [c1]; rfl
  have hd : parseLine sp (includeFile sp F) env3 = .ok (true, eC) := by
    rw [p1, ← he]
    exact dispatchLine_include sp _ input3 e eC (by rw [e1]; exact u3) hempe
      (by rw [e1]; exact u4) hpi2
  have hl2 := parseLines_fail sp (parseLine sp (includeFile sp F))
    (sp.fs.absPath sp.shaderPath) f env3 eC _ child hd c2 c3
  rw [← t1, ← s1, ← r1] at hl2
  have hi := includeFile_fail sp F (sp.fs.absPath sp.shaderPath) _ (Env.initial []) _
    hopenA hl2
  refine ⟨_, hi, c2, ?_, ?_⟩
  · show eC.forStatements.length = 1
    rw [c5, e2]; rfl
  show eC.output = _
  have hind2 : input2.indentation = [] := by rw [s5.indentation, r5.indentation]
  rw [c4, e4, t2, s2, r2, o0, e3, e6, hind2]
  simp [hind]

/-- Plain lines read inside or outside an empty loop: the stacks stay as they are. -/
theorem run_body (sp : ShaderPreprocessor) (inc : Str → Env → Res (Bool × Env))
    (path : Str) (ins : List Input) (seg : List Str) (rest : Str) (env : Env) (input : Input)
    (fuel : Nat) (hseg : ∀ l ∈ seg, '\n' ∉ l ∧ isPlainLine l = true)
    (hin : env.inputs = ins ++ [input]) (hat : input.At (joinLines seg ++ rest))
    (hsucc : env.success = true) :
    ∃ env1 input1,
      parseLines sp (parseLine sp inc) path (fuel + seg.length) env
          = parseLines sp (parseLine sp inc) path fuel env1
        ∧ env1.inputs = ins ++ [input1] ∧ input1.At rest
        ∧ input.Moved input1 (joinLines seg).length seg.length
        ∧ env.Frame env1 := by
  cases he : isInsideEmptyForStatement env with
  | false =>
    obtain ⟨env1, input1, a, _, c, d, e, f⟩ :=
      run_plain sp inc path ins seg rest env input fuel hseg hin hat he hsucc
    exact ⟨env1, input1, a, c, d, e, f⟩
  | true =>
    have hskip : ∀ l ∈ seg, '\n' ∉ l ∧ endForString.isPrefixOf (trim l) = false := by
      intro l hl
      exact ⟨(hseg l hl).1, (isDirective_false (isPlainLine_iff (hseg l hl).2).1).1⟩
    obtain ⟨env1, input1, a, _, c, d, e, f⟩ :=
      run_skip sp inc path ins seg rest env input fuel hskip hin hat he hsucc
    exact ⟨env1, input1, a, c, d, e, f⟩

/-- A file of plain lines, a line `#for k, v in <name>` and more plain lines up to its
end, included outside an empty loop: at the end of the file the loop is still open,
`includeFile` logs it and returns false, with the used-up `Input` left on the stack, the
loop left open, and `success` as it was. -/
theorem includeFile_unclosed_for (sp : ShaderPreprocessor) (fuel : Nat) (path : Str)
    (env : Env) (pre body : List Str) (name ref : Str)
    (hopen : sp.fs.openStream path
      = some (joinLines pre ++ (forLine name ++ '\n' :: joinLines body)))
    (hpre : ∀ l ∈ pre, '\n' ∉ l ∧ isPlainLine l = true)
    (hbody : ∀ l ∈ body, '\n' ∉ l ∧ isPlainLine l = true)
    (hemp : isInsideEmptyForStatement env = false) (hsucc : env.success = true)
    (hname : isReference name = true) (hres : resolveAlias sp name env = (true, ref))
    (hfuel : pre.length + body.length + 2 ≤ fuel) :
    ∃ e c fs, includeFile sp (fuel + 1) path env = .ok (false, e)
      ∧ e.inputs = env.inputs ++ [c] ∧ c.eofbit = true
      ∧ e.forStatements = env.forStatements ++ [fs] ∧ fs.inputIndex = env.inputs.length
      ∧ e.success = true := by
  obtain ⟨f, rfl⟩ : ∃ f, fuel = f + 1 + body.length + 1 + pre.length :=
    ⟨fuel - pre.length - body.length - 2, by omega⟩
  obtain ⟨env1, input1, r1, r2, r3, r4, r5, r6⟩ := run_plain sp
    (includeFile sp (f + 1 + body.length + 1 + pre.length)) path env.inputs pre
    (forLine name ++ '\n' :: joinLines body)
    (env.enter sp path (joinLines pre ++ (forLine name ++ '\n' :: joinLines body))) _
    (f + 1 + body.length + 1) hpre rfl ⟨rfl, rfl, Nat.zero_le _, rfl⟩
    (by rw [← hemp]; exact isInsideEmpty_congr rfl) hsucc
  have hemp1 : isInsideEmptyForStatement env1 = false := by
    rw [← hemp]; exact isInsideEmpty_congr r6.forStatements
  have hsucc1 : env1.success = true := by rw [r6.success]; exact hsucc
  have hres1 : resolveAlias sp name env1 = (true, ref) := by
    rw [resolveAlias_congr sp name env1 env r6.aliases]; exact hres
  have hfor1 : env1.forStatements = env.forStatements := r6.forStatements
  have key : ∃ env2 input2 idx,
      parseLines sp (parseLine sp (includeFile sp (f + 1 + body.length + 1 + pre.length))) path
          (f + 1 + body.length + 1) env1
        = parseLines sp (parseLine sp (includeFile sp (f + 1 + body.length + 1 + pre.length)))
            path (f + 1 + body.length) env2
      ∧ env2.inputs = env.inputs ++ [input2] ∧ input2.At (joinLines body ++ [])
      ∧ env2.forStatements = env.forStatements ++ [loopStatement env.inputs input2 ref idx]
      ∧ env2.success = true := by
    cases hk : sp.dictionary.valueKeys ref with
    | nil =>
      obtain ⟨env2, input2, s1, _, s3, s4, _, s6, _, s8, _⟩ := run_for_nil sp _ path
        env.inputs _ env1 input1 (f + 1 + body.length) name ref r3 r4 hemp1 hsucc1 hname
        hres1 hk
      exact ⟨env2, input2, -1, s1, s3, by rw [List.append_nil]; exact s4,
        by rw [s6, hfor1], s8⟩
    | cons key0 keys =>
      obtain ⟨env2, input2, s1, _, s3, s4, _, s6, _, s8, _⟩ := run_for_cons sp _ path
        env.inputs _ env1 input1 (f + 1 + body.length) name ref key0 keys r3 r4 hemp1 hsucc1
        hname hres1 hk
      exact ⟨env2, input2, 0, s1, s3, by rw [List.append_nil]; exact s4,
        by rw [s6, hfor1], s8⟩
  obtain ⟨env2, input2, idx, s1, s3, s4, s6, s8⟩ := key
  obtain ⟨env3, input3, t1, t3, t4, _, t6⟩ := run_body sp
    (includeFile sp (f + 1 + body.length + 1 + pre.length)) path env.inputs body [] env2
    input2 (f + 1) hbody s3 s4 s8
  have hend := parseLine_end sp (includeFile sp (f + 1 + body.length + 1 + pre.length)) env3
    env.inputs input3 t3 t4
  have hstop := parseLines_stop sp
    (parseLine sp (includeFile sp (f + 1 + body.length + 1 + pre.length))) path f env3 _ hend
  rw [← t1, ← s1, ← r1] at hstop
  have hi := includeFile_unclosed sp (f + 1 + body.length + 1 + pre.length) path _ env _
    (loopStatement env.inputs input2 ref idx)
    { input3 with eofbit := true, failbit := true } hopen hstop
    (by simp [t6.forStatements, s6]) (by simp [loopStatement])
    (by simp [loopStatement])
  refine ⟨_, { input3 with eofbit := true, failbit := true },
    loopStatement env.inputs input2 ref idx, hi, rfl, rfl, ?_, rfl, ?_⟩
  · simp [logError, t6.forStatements, s6]
  · simp [logError, t6.success, s8]

/-! ## The tracked paths -/

theorem substituteLoop_tracked (sp : ShaderPreprocessor) :
    ∀ (fuel : Nat) (line p : Str) (env : Env),
      (substituteLoop sp fuel line p env).2.trackedFiles = env.trackedFiles := by
  intro fuel
  induction fuel with
  | zero => intro line p env; simp [substituteLoop]
  | succ n ih =>
    intro line p env
    simp only [substituteLoop]
    cases hb : strFind openString line with
    | none => simp
    | some b =>
      dsimp only
      cases he : strFind [rbrace] (List.drop b line) with
      | none => simp [logError]
      | some e =>
        dsimp only
        obtain ⟨log, hl⟩ := substitute_env sp (substr line (b + 2) (e - 2))
          { env with line := line }
        rw [ih, hl]

theorem substituteLine_tracked (sp : ShaderPreprocessor) (env : Env) :
    (substituteLine sp env).2.trackedFiles = env.trackedFiles :=
  substituteLoop_tracked sp _ _ _ _

theorem popScope_tracked (env : Env) : (popScope env).2.trackedFiles = env.trackedFiles := by
  unfold popScope
  cases env.scopes.getLast? with
  | none => simp
  | some scope =>
    dsimp only
    split <;> simp

theorem parseEndFor_tracked (sp : ShaderPreprocessor) (e e1 : Env) (b : Bool)
    (h : parseEndFor sp e = .ok (b, e1)) : e1.trackedFiles = e.trackedFiles := by
  unfold parseEndFor at h
  split at h
  · cases hfs : e.forStatements.getLast? with
    | none =>
      rw [hfs] at h
      simp only [Res.ok.injEq, Prod.mk.injEq] at h
      obtain ⟨_, rfl⟩ := h
      rfl
    | some fs =>
      rw [hfs] at h
      dsimp only at h
      split at h
      · cases hg : e.inputs.get? fs.inputIndex with
        | none => rw [hg] at h; cases h
        | some fi =>
          rw [hg] at h
          simp only [Res.ok.injEq, Prod.mk.injEq] at h
          obtain ⟨_, rfl⟩ := h
          rfl
      · have r1 : (if (popScope e).1 = true then (popScope e).2
            else logError (popScope e).2
              ("Preprocessor internal error. Failed to pop scope from stack. ".toList
                ++ debugString sp (popScope e).2)).trackedFiles = e.trackedFiles := by
          split
          · exact popScope_tracked e
          · exact popScope_tracked e
        revert h
        generalize (if (popScope e).1 = true then (popScope e).2
            else logError (popScope e).2
              ("Preprocessor internal error. Failed to pop scope from stack. ".toList
                ++ debugString sp (popScope e).2)) = x at r1
        intro h
        cases hl : x.inputs.getLast? with
        | none => rw [hl] at h; cases h
        | some input =>
          rw [hl] at h
          dsimp only at h
          split at h
          · simp only [Res.ok.injEq, Prod.mk.injEq] at h
            obtain ⟨_, rfl⟩ := h
            simpa [pushScope] using r1
          · simp only [Res.ok.injEq, Prod.mk.injEq] at h
            obtain ⟨_, rfl⟩ := h
            exact r1
  · simp only [Res.ok.injEq, Prod.mk.injEq] at h
    obtain ⟨_, rfl⟩ := h
    rfl

theorem parseFor_tracked (sp : ShaderPreprocessor) (e e1 : Env) (b : Bool)
    (h : parseFor sp e = .ok (b, e1)) : e1.trackedFiles = e.trackedFiles := by
  unfold parseFor at h
  cases ht : tokenizeFor e.line with
  | none => rw [ht] at h; cases h
  | some t =>
    rw [ht] at h
    cases t with
    | notFor =>
      simp only [Res.ok.injEq, Prod.mk.injEq] at h
      obtain ⟨_, rfl⟩ := h
      rfl
    | expectedIn =>
      simp only [Res.ok.injEq, Prod.mk.injEq] at h
      obtain ⟨_, rfl⟩ := h
      rfl
    | tokens k v d =>
      dsimp only at h
      split at h
      · simp only [Res.ok.injEq, Prod.mk.injEq] at h
        obtain ⟨_, rfl⟩ := h
        rfl
      · cases hl : e.inputs.getLast? with
        | none => rw [hl] at h; cases h
        | some input =>
          rw [hl] at h
          simp only [Res.ok.injEq, Prod.mk.injEq] at h
          obtain ⟨_, rfl⟩ := h
          simp [pushScope]

/-- A function called for `includeFile` that leaves the tracked paths alone. -/
theorem parseInclude_tracked (sp : ShaderPreprocessor) (inc : Str → Env → Res (Bool × Env))
    (hinc : ∀ path env b env1, inc path env = .ok (b, env1) →
      env1.trackedFiles = env.trackedFiles)
    (e e1 : Env) (b : Bool) (h : parseInclude sp inc e = .ok (b, e1)) :
    e1.trackedFiles = e.trackedFiles := by
  have hcons : ∀ p, consumed (inc p e) = .ok (b, e1) → e1.trackedFiles = e.trackedFiles := by
    intro p hc
    cases hr : inc p e with
    | crash => rw [hr] at hc; cases hc
    | outOfFuel => rw [hr] at hc; cases hc
    | ok r =>
      rw [hr] at hc
      simp only [consumed, Res.ok.injEq, Prod.mk.injEq] at hc
      obtain ⟨_, rfl⟩ := hc
      exact hinc p e r.1 r.2 hr
  unfold parseInclude at h
  dsimp only at h
  split at h
  · cases h1 : findFirstNotOfFrom ws e.line includeString.length with
    | none =>
      rw [h1] at h
      simp only [Res.ok.injEq, Prod.mk.injEq] at h
      obtain ⟨_, rfl⟩ := h
      rfl
    | some p1 =>
      rw [h1] at h
      dsimp only at h
      split at h
      · cases h2 : findFirstOfFrom [dquote] e.line (p1 + 1) with
        | none =>
          rw [h2] at h
          simp only [Res.ok.injEq, Prod.mk.injEq] at h
          obtain ⟨_, rfl⟩ := h
          rfl
        | some p2 =>
          rw [h2] at h
          dsimp only at h
          cases h3 : e.inputs.getLast? with
          | none => rw [h3] at h; cases h
          | some input =>
            rw [h3] at h
            dsimp only at h
            cases h4 : resolveQuoted sp input (substr e.line (p1 + 1) (p2 - p1 - 1)) with
            | none =>
              rw [h4] at h
              simp only [Res.ok.injEq, Prod.mk.injEq] at h
              obtain ⟨_, rfl⟩ := h
              rfl
            | some f =>
              rw [h4] at h
              exact hcons f h
      · split at h
        · cases h2 : findFirstOfFrom ">".toList e.line (p1 + 1) with
          | none =>
            rw [h2] at h
            simp only [Res.ok.injEq, Prod.mk.injEq] at h
            obtain ⟨_, rfl⟩ := h
            rfl
          | some p2 =>
            rw [h2] at h
            exact hcons _ h
        · simp only [Res.ok.injEq, Prod.mk.injEq] at h
          obtain ⟨_, rfl⟩ := h
          rfl
  · simp only [Res.ok.injEq, Prod.mk.injEq] at h
    obtain ⟨_, rfl⟩ := h
    rfl

theorem dispatchLine_tracked (sp : ShaderPreprocessor) (inc : Str → Env → Res (Bool × Env))
    (hinc : ∀ path env b env1, inc path env = .ok (b, env1) →
      env1.trackedFiles = env.trackedFiles)
    (input : Input) (e e1 : Env) (b : Bool) (h : dispatchLine sp inc input e = .ok (b, e1)) :
    e1.trackedFiles = e.trackedFiles := by
  unfold dispatchLine at h
  cases hp : parseEndFor sp e with
  | crash => rw [hp] at h; cases h
  | outOfFuel => rw [hp] at h; cases h
  | ok r =>
    obtain ⟨rb, e2⟩ := r
    rw [hp] at h
    dsimp only at h
    have t2 := parseEndFor_tracked sp e e2 rb hp
    have ts := (substituteLine_tracked sp e2).trans t2
    split at h
    · simp only [Res.ok.injEq, Prod.mk.injEq] at h
      obtain ⟨_, rfl⟩ := h
      exact t2
    · split at h
      · simp only [Res.ok.injEq, Prod.mk.injEq] at h
        obtain ⟨_, rfl⟩ := h
        exact ts
      · split at h
        · simp only [Res.ok.injEq, Prod.mk.injEq] at h
          obtain ⟨_, rfl⟩ := h
          exact ts
        · cases hi : parseInclude sp inc (substituteLine sp e2).2 with
          | crash => rw [hi] at h; cases h
          | outOfFuel => rw [hi] at h; cases h
          | ok i =>
            obtain ⟨ib, e3⟩ := i
            rw [hi] at h
            dsimp only at h
            have t3 := (parseInclude_tracked sp inc hinc _ e3 ib hi).trans ts
            split at h
            · simp only [Res.ok.injEq, Prod.mk.injEq] at h
              obtain ⟨_, rfl⟩ := h
              exact t3
            · cases hpf : parseFor sp e3 with
              | crash => rw [hpf] at h; cases h
              | outOfFuel => rw [hpf] at h; cases h
              | ok f =>
                obtain ⟨fb, e4⟩ := f
                rw [hpf] at h
                dsimp only at h
                have t4 := (parseFor_tracked sp e3 e4 fb hpf).trans t3
                split at h
                · simp only [Res.ok.injEq, Prod.mk.injEq] at h
                  obtain ⟨_, rfl⟩ := h
                  exact t4
                · simp only [Res.ok.injEq, Prod.mk.injEq] at h
                  obtain ⟨_, rfl⟩ := h
                  exact t4

theorem parseLine_tracked (sp : ShaderPreprocessor) (inc : Str → Env → Res (Bool × Env))
    (hinc : ∀ path env b env1, inc path env = .ok (b, env1) →
      env1.trackedFiles = env.trackedFiles)
    (e e1 : Env) (b : Bool) (h : parseLine sp inc e = .ok (b, e1)) :
    e1.trackedFiles = e.trackedFiles := by
  unfold parseLine at h
  cases hl : e.inputs.getLast? with
  | none => rw [hl] at h; cases h
  | some input =>
    rw [hl] at h
    dsimp only at h
    split at h
    · simp only [Res.ok.injEq, Prod.mk.injEq] at h
      obtain ⟨_, rfl⟩ := h
      rfl
    · have t := dispatchLine_tracked sp inc hinc input _ e1 b h
      exact t

theorem parseLines_tracked (sp : ShaderPreprocessor) (inc : Str → Env → Res (Bool × Env))
    (hinc : ∀ path env b env1, inc path env = .ok (b, env1) →
      env1.trackedFiles = env.trackedFiles) (path : Str) :
    ∀ (n : Nat) (e e1 : Env) (b : Bool),
      parseLines sp (parseLine sp inc) path n e = .ok (b, e1) →
      e1.trackedFiles = e.trackedFiles := by
  intro n
  induction n with
  | zero => intro e e1 b h; simp [parseLines] at h
  | succ n ih =>
    intro e e1 b h
    unfold parseLines at h
    cases hp : parseLine sp inc e with
    | crash => rw [hp] at h; cases h
    | outOfFuel => rw [hp] at h; cases h
    | ok r =>
      obtain ⟨rb, e2⟩ := r
      rw [hp] at h
      dsimp only at h
      have t2 := parseLine_tracked sp inc hinc e e2 rb hp
      split at h
      · simp only [Res.ok.injEq, Prod.mk.injEq] at h
        obtain ⟨_, rfl⟩ := h
        exact t2
      · split at h
        · cases hl : e2.inputs.getLast? with
          | none => rw [hl] at h; cases h
          | some input =>
            rw [hl] at h
            simp only [Res.ok.injEq, Prod.mk.injEq] at h
            obtain ⟨_, rfl⟩ := h
            exact t2
        · exact (ih e2 e1 b h).trans t2

/-- No call of `includeFile` changes the tracked paths: `trackPath` enters a path only
when it is a key already. -/
theorem includeFile_tracked (sp : ShaderPreprocessor) :
    ∀ (fuel : Nat) (path : Str) (env : Env) (b : Bool) (env1 : Env),
      includeFile sp fuel path env = .ok (b, env1) →
      env1.trackedFiles = env.trackedFiles := by
  intro fuel
  induction fuel with
  | zero => intro path env b env1 h; simp [includeFile] at h
  | succ n ih =>
    intro path env b env1 h
    cases hopen : sp.fs.openStream path with
    | none =>
      simp only [includeFile, trackPath_eq, hopen, Bool.not_true, Bool.false_eq_true, if_false,
        Res.ok.injEq, Prod.mk.injEq] at h
      obtain ⟨_, rfl⟩ := h
      rfl
    | some content =>
      rw [includeFile_unfold sp n path content env hopen] at h
      cases hp : parseLines sp (parseLine sp (includeFile sp n)) path n
          (env.enter sp path content) with
      | crash => rw [hp] at h; cases h
      | outOfFuel => rw [hp] at h; cases h
      | ok r =>
        obtain ⟨rb, e2⟩ := r
        rw [hp] at h
        dsimp only at h
        have t2 : e2.trackedFiles = env.trackedFiles := by
          have t := parseLines_tracked sp (includeFile sp n) ih path n _ e2 rb hp
          exact t
        have hpop : ∀ (hh : (if (e2.inputs.dropLast).length > 0 then
              match addLineNumber sp { e2 with inputs := e2.inputs.dropLast } with
              | .ok env4 => Res.ok (true, env4)
              | .crash => .crash
              | .outOfFuel => .outOfFuel
            else .ok (true, { e2 with inputs := e2.inputs.dropLast })) = .ok (b, env1)),
            env1.trackedFiles = env.trackedFiles := by
          intro hh
          split at hh
          · unfold addLineNumber at hh
            dsimp only at hh
            cases hl : e2.inputs.dropLast.getLast? with
            | none => rw [hl] at hh; cases hh
            | some input =>
              rw [hl] at hh
              simp only [Res.ok.injEq, Prod.mk.injEq] at hh
              obtain ⟨_, rfl⟩ := hh
              exact t2
          · simp only [Res.ok.injEq, Prod.mk.injEq] at hh
            obtain ⟨_, rfl⟩ := hh
            exact t2
        split at h
        · simp only [Res.ok.injEq, Prod.mk.injEq] at h
          obtain ⟨_, rfl⟩ := h
          exact t2
        · cases hl : e2.forStatements.getLast? with
          | none => rw [hl] at h; exact hpop h
          | some fs =>
            rw [hl] at h
            dsimp only at h
            split at h
            · cases hget : e2.inputs.get? fs.inputIndex with
              | none => rw [hget] at h; cases h
              | some forInput =>
                rw [hget] at h
                simp only [Res.ok.injEq, Prod.mk.injEq] at h
                obtain ⟨_, rfl⟩ := h
                exact t2
            · exact hpop h

/-- After `process` no path is tracked, whatever was tracked before. -/
theorem processEnv_tracked (sp : ShaderPreprocessor) (tracked : List Str) (fuel : Nat)
    (env : Env) (h : processEnv sp tracked fuel = .ok env) : env.trackedFiles = [] := by
  have h0 : clearTrackedPaths (Env.initial tracked) = Env.initial [] := rfl
  cases hi : includeFile sp fuel (sp.fs.absPath sp.shaderPath) (Env.initial []) with
  | crash => simp [processEnv, h0, hi] at h
  | outOfFuel => simp [processEnv, h0, hi] at h
  | ok r =>
    obtain ⟨b, e⟩ := r
    have t := includeFile_tracked sp fuel _ _ b e hi
    simp only [processEnv, h0, hi, Res.ok.injEq] at h
    rw [← h]
    have step : ∀ (c : Prop) [Decidable c] (x : Env) (msg : Str),
        (if c then failWith x msg else x).trackedFiles = x.trackedFiles := by
      intro c _ x msg
      by_cases hc : c <;> simp [hc, failWith, logError]
    rw [step, step, t]
    rfl

/-! ## Occurrences and trimming, in general -/

/-- The call `find` fails exactly when the pattern does not occur. -/
theorem strFind_eq_none_iff (pat : Str) : ∀ (l : Str), strFind pat l = none ↔ ¬ pat <:+: l
  | [] => by
    cases pat with
    | nil => simp [strFind]
    | cons p ps => simp [strFind, List.isPrefixOf]
  | c :: cs => by
    have ih := strFind_eq_none_iff pat cs
    by_cases hp : pat.isPrefixOf (c :: cs) = true
    · have : pat <:+: c :: cs := (List.isPrefixOf_iff_prefix.mp hp).isInfix
      simp [strFind, hp, this]
    · have hnp : ¬ pat <+: c :: cs := fun h => hp (List.isPrefixOf_iff_prefix.mpr h)
      simp only [strFind, hp, Bool.false_eq_true, if_false, Option.map_eq_none', ih,
        List.infix_cons_iff, hnp, false_or]

theorem findFirstNotOf_all (set : Str) : ∀ (l : Str), (∀ c ∈ l, c ∈ set) →
    findFirstNotOf set l = none
  | [], _ => rfl
  | c :: cs, h => by
    have hc : c ∈ set := h c (by simp)
    simp [findFirstNotOf, hc, findFirstNotOf_all set cs (fun x hx => h x (by simp [hx]))]

theorem findLastNotOf_all (set : Str) : ∀ (l : Str), (∀ c ∈ l, c ∈ set) →
    findLastNotOf set l = none
  | [], _ => rfl
  | c :: cs, h => by
    have hc : c ∈ set := h c (by simp)
    simp [findLastNotOf, hc, findLastNotOf_all set cs (fun x hx => h x (by simp [hx]))]

theorem findFirstNotOf_takeWhile (set : Str) : ∀ (l : Str) (s : Nat),
    findFirstNotOf set l = some s → l.take s = l.takeWhile (fun c => decide (c ∈ set))
  | [], s, h => by simp [findFirstNotOf] at h
  | c :: cs, s, h => by
    simp only [findFirstNotOf] at h
    by_cases hc : c ∈ set
    · simp only [hc, if_true, Option.map_eq_some'] at h
      obtain ⟨i, hi, rfl⟩ := h
      simp [List.takeWhile, hc, findFirstNotOf_takeWhile set cs i hi]
    · simp only [hc, if_false, Option.some.injEq] at h
      subst h
      simp [List.takeWhile, hc]

/-- What `trim` returns for a line with a character that is not whitespace, and for a
line without one. -/
theorem trimParts_cases (l : Str) :
    ((∃ c ∈ l, c ∉ ws) →
        (trimParts l).1 = l.takeWhile (fun c => decide (c ∈ ws))
          ∧ (∃ a, (trimParts l).2.1.head? = some a ∧ a ∉ ws)
          ∧ (∃ z, (trimParts l).2.1.getLast? = some z ∧ z ∉ ws)
          ∧ (trimParts l).1 ++ (trimParts l).2.1 ++ (trimParts l).2.2 = l
          ∧ (∀ c ∈ (trimParts l).2.2, c ∈ ws))
      ∧ ((∀ c ∈ l, c ∈ ws) → trimParts l = ([], l, [])) := by
  constructor
  · rintro ⟨c, hc, hcw⟩
    obtain ⟨sp1, sp2, _⟩ := trimParts_spec l
    cases hs : findFirstNotOf ws l with
    | none => exact absurd (findFirstNotOf_none ws l hs c hc) hcw
    | some s =>
      cases he : findLastNotOf ws l with
      | none => exact absurd (findLastNotOf_none ws l he c hc) hcw
      | some e =>
        obtain ⟨s1, _, s3⟩ := findFirstNotOf_some ws l s hs
        obtain ⟨e1, _, e3⟩ := findLastNotOf_some ws l e he
        have hse := first_le_last ws l s e hs he
        have hparts : trimParts l = (l.take s, (l.drop s).take (e + 1 - s), l.drop (e + 1)) := by
          simp [trimParts, hs, he, substr]
        refine ⟨?_, ?_, ?_, sp1, sp2⟩
        · rw [hparts]
          exact findFirstNotOf_takeWhile ws l s hs
        · rw [hparts]
          refine ⟨l.get ⟨s, s1⟩, ?_, ?_⟩
          · have h1 : ((l.drop s).take (e + 1 - s)).head? = (l.drop s).head? := by
              cases hd : l.drop s with
              | nil => simp
              | cons x xs =>
                have : e + 1 - s = (e - s) + 1 := by omega
                rw [this]; simp
            show ((l.drop s).take (e + 1 - s)).head? = _
            rw [h1, List.head?_drop, List.getElem?_eq_getElem s1]
            rfl
          · intro hin
            apply s3
            rw [List.get?_eq_get s1]
            exact List.mem_map_of_mem _ hin
        · rw [hparts]
          refine ⟨l.get ⟨e, e1⟩, ?_, ?_⟩
          · show ((l.drop s).take (e + 1 - s)).getLast? = _
            have hlen : ((l.drop s).take (e + 1 - s)).length = e + 1 - s := by
              simp only [List.length_take, List.length_drop]; omega
            rw [List.getLast?_eq_getElem?, hlen, List.getElem?_take]
            have h2 : e + 1 - s - 1 < e + 1 - s := by omega
            rw [if_pos h2, List.getElem?_drop]
            have h3 : s + (e + 1 - s - 1) = e := by omega
            rw [h3, List.getElem?_eq_getElem e1]
            rfl
          · intro hin
            apply e3
            rw [List.get?_eq_get e1]
            exact List.mem_map_of_mem _ hin
  · intro h
    simp [trimParts, findFirstNotOf_all ws l h, findLastNotOf_all ws l h, substr]

/-! ## The invariant of the alias table -/

theorem char_eq_of_toNat {a b : Char} (h : a.toNat = b.toNat) : a = b := by
  rw [← Char.ofNat_toNat a, ← Char.ofNat_toNat b, h]

theorem strLt_total : ∀ (a b : Str), strLt a b = false → a ≠ b → strLt b a = true
  | [], [], _, h => absurd rfl h
  | [], _ :: _, h, _ => by simp [strLt] at h
  | _ :: _, [], _, _ => by simp [strLt]
  | a :: as, b :: bs, h, hne => by
    simp only [strLt] at h ⊢
    by_cases h1 : a.toNat < b.toNat
    · simp [h1] at h
    · by_cases h2 : b.toNat < a.toNat
      · simp [h2]
      · simp only [h1, h2, if_false] at h ⊢
        have hab : a = b := char_eq_of_toNat (by omega)
        exact strLt_total as bs h (fun e => hne (by rw [hab, e]))

theorem IsSet.nodup {s : List Str} (h : IsSet s) : s.Nodup := by
  unfold IsSet at h
  refine h.imp ?_
  intro a b hab e
  subst e
  rw [strLt_irrefl] at hab
  cases hab

theorem isSet_keys {m : List (Str × Str)} (h : IsMap m) : IsSet (m.map Prod.fst) := by
  unfold IsSet
  rw [List.pairwise_map]
  exact h

/-- The two assignments `table[keyName] = ...; table[valueName] = ...` on an empty map give
a map. -/
theorem isMap_assign2 (k v x y : Str) : IsMap (mapAssign v x (mapAssign k y [])) := by
  simp only [mapAssign]
  by_cases h1 : v = k
  · simp [h1, IsMap]
  · by_cases h2 : strLt v k = true
    · simp [h1, h2, IsMap]
    · have h3 : strLt k v = true :=
        strLt_total v k (by simpa using h2) h1
      simp [h1, h2, IsMap, h3]

/-- The alias table after `pushScope`, name by name. -/
theorem pushScopeLoop_lookup (m : List (Str × Str)) (al : Aliases) (hm : IsMap m) (name : Str) :
    (name ∈ m.map Prod.fst →
        ∃ v, (pushScopeLoop m [] al).2 name = some ((al name).getD [] ++ [v]))
      ∧ (name ∉ m.map Prod.fst → (pushScopeLoop m [] al).2 name = al name) := by
  constructor
  · intro h
    obtain ⟨⟨k, v⟩, hkv, hk⟩ := List.mem_map.mp h
    simp only at hk
    subst hk
    exact ⟨v, pushScopeLoop_binding m [] al k v hm hkv⟩
  · intro h
    exact pushScopeLoop_aliases_not_mem m [] al name h

/-- The alias table after the loop of `popScope` over a scope whose names are all bound. -/
theorem popScopeLoop_lookup : ∀ (s : List Str) (al : Aliases), s.Nodup →
    (∀ k ∈ s, ∃ st, al k = some st) →
    (popScopeLoop s al).1 = true
      ∧ ∀ name, (popScopeLoop s al).2 name
          = if name ∈ s then
              (if ((al name).getD []).dropLast = [] then none
                else some ((al name).getD []).dropLast)
            else al name
  | [], al, _, _ => by simp [popScopeLoop]
  | key :: rest, al, hnd, hb => by
    obtain ⟨hk, hrest⟩ := List.nodup_cons.mp hnd
    obtain ⟨st, hst⟩ := hb key (by simp)
    have key_step : ∀ al1 : Aliases, (∀ k, k ≠ key → al1 k = al k) →
        (popScopeLoop rest al1).1 = true
          ∧ ∀ name, (popScopeLoop rest al1).2 name
              = if name ∈ rest then
                  (if ((al name).getD []).dropLast = [] then none
                    else some ((al name).getD []).dropLast)
                else al1 name := by
      intro al1 h1
      have hb1 : ∀ k ∈ rest, ∃ st, al1 k = some st := by
        intro k hkr
        have hne : k ≠ key := fun e => hk (e ▸ hkr)
        rw [h1 k hne]
        exact hb k (by simp [hkr])
      obtain ⟨r1, r2⟩ := popScopeLoop_lookup rest al1 hrest hb1
      refine ⟨r1, fun name => ?_⟩
      rw [r2 name]
      by_cases hn : name ∈ rest
      · have hne : name ≠ key := fun e => hk (e ▸ hn)
        simp [hn, h1 name hne]
      · simp [hn]
    simp only [popScopeLoop, hst]
    by_cases hd : st.dropLast.length = 0
    · rw [if_pos hd]
      obtain ⟨r1, r2⟩ := key_step (aliasesErase al key) (by
        intro k hne; simp [aliasesErase, hne])
      refine ⟨r1, fun name => ?_⟩
      rw [r2 name]
      by_cases hn : name = key
      · subst hn
        have : st.dropLast = [] := List.length_eq_zero.mp hd
        simp [hk, hst, this, aliasesErase]
      · simp [hn, aliasesErase]
    · rw [if_neg hd]
      obtain ⟨r1, r2⟩ := key_step (aliasesSet al key st.dropLast) (by
        intro k hne; simp [aliasesSet, hne])
      refine ⟨r1, fun name => ?_⟩
      rw [r2 name]
      by_cases hn : name = key
      · subst hn
        have : st.dropLast ≠ [] := fun e => hd (by rw [e]; rfl)
        simp [hk, hst, this, aliasesSet]
      · simp [hn, aliasesSet]

theorem aliasInv_congr {e e1 : Env} (ha : e1.aliases = e.aliases) (hs : e1.scopes = e.scopes)
    (h : AliasInv e) : AliasInv e1 := by
  unfold AliasInv at h ⊢
  rw [ha, hs]
  exact h

theorem aliasInv_initial (tracked : List Str) : AliasInv (Env.initial tracked) := by
  refine ⟨by simp [Env.initial], fun name => ?_⟩
  simp [Env.initial]

/-- A name is a key of the alias table exactly when some open scope contains it. -/
theorem aliasInv_key_iff {env : Env} (h : AliasInv env) (name : Str) :
    (env.aliases name).isSome = true ↔ ∃ s ∈ env.scopes, name ∈ s := by
  obtain ⟨h1, h2⟩ := h.2 name
  constructor
  · intro hs
    cases ha : env.aliases name with
    | none => rw [ha] at hs; cases hs
    | some st =>
      rw [ha] at h1 h2
      have hpos : 0 < env.scopes.countP (fun s => decide (name ∈ s)) := by
        rw [← h2]
        cases st with
        | nil => exact absurd rfl h1
        | cons a b => simp
      obtain ⟨s, hs1, hs2⟩ := List.countP_pos_iff.mp hpos
      exact ⟨s, hs1, by simpa using hs2⟩
  · rintro ⟨s, hs1, hs2⟩
    have hpos : 0 < env.scopes.countP (fun s => decide (name ∈ s)) :=
      List.countP_pos_iff.mpr ⟨s, hs1, by simpa using hs2⟩
    cases ha : env.aliases name with
    | none => rw [ha] at h2; simp at h2; omega
    | some st => rfl

theorem aliasInv_pushScope (m : List (Str × Str)) (env : Env) (h : AliasInv env)
    (hm : IsMap m) : AliasInv (pushScope m env) := by
  have hs : (pushScopeLoop m [] env.aliases).1 = m.map Prod.fst := by
    simpa using pushScopeLoop_scope m [] env.aliases hm (by simp)
  refine ⟨?_, fun name => ?_⟩
  · intro s hmem
    simp only [pushScope, List.mem_append, List.mem_singleton] at hmem
    rcases hmem with hmem | rfl
    · exact h.1 s hmem
    · rw [hs]; exact isSet_keys hm
  · obtain ⟨h1, h2⟩ := h.2 name
    obtain ⟨p1, p2⟩ := pushScopeLoop_lookup m env.aliases hm name
    simp only [pushScope, hs, List.countP_append, List.countP_singleton]
    by_cases hn : name ∈ m.map Prod.fst
    · obtain ⟨v, hv⟩ := p1 hn
      rw [hv]
      refine ⟨by simp, ?_⟩
      simp [hn, h2]
    · rw [p2 hn]
      refine ⟨h1, ?_⟩
      simp [hn, h2]

theorem aliasInv_popScope (env : Env) (h : AliasInv env) : AliasInv (popScope env).2 := by
  unfold popScope
  cases hl : env.scopes.getLast? with
  | none => exact h
  | some scope =>
    obtain ⟨init, hinit⟩ := List.getLast?_eq_some_iff.mp hl
    have hset : IsSet scope := h.1 scope (by rw [hinit]; simp)
    have hbound : ∀ k ∈ scope, ∃ st, env.aliases k = some st := by
      intro k hk
      have := (aliasInv_key_iff h k).mpr ⟨scope, by rw [hinit]; simp, hk⟩
      cases ha : env.aliases k with
      | none => rw [ha] at this; cases this
      | some st => exact ⟨st, rfl⟩
    obtain ⟨r1, r2⟩ := popScopeLoop_lookup scope env.aliases hset.nodup hbound
    dsimp only
    rw [r1]
    simp only [if_true]
    refine ⟨?_, fun name => ?_⟩
    · intro s hs
      exact h.1 s (List.dropLast_subset _ hs)
    · obtain ⟨h1, h2⟩ := h.2 name
      have hcount : env.scopes.countP (fun s => decide (name ∈ s))
          = init.countP (fun s => decide (name ∈ s)) + (if name ∈ scope then 1 else 0) := by
        rw [hinit, List.countP_append, List.countP_singleton]
        simp
      have hdrop : env.scopes.dropLast = init := by rw [hinit]; simp
      show (popScopeLoop scope env.aliases).2 name ≠ some []
        ∧ (((popScopeLoop scope env.aliases).2 name).getD []).length
            = (env.scopes.dropLast).countP (fun s => decide (name ∈ s))
      rw [r2 name, hdrop]
      by_cases hn : name ∈ scope
      · rw [if_pos hn] at hcount ⊢
        by_cases hd : ((env.aliases name).getD []).dropLast = []
        · rw [if_pos hd]
          refine ⟨by simp, ?_⟩
          have : ((env.aliases name).getD []).dropLast.length = 0 := by rw [hd]; rfl
          simp only [List.length_dropLast] at this
          simp only [Option.getD_none, List.length_nil]
          omega
        · rw [if_neg hd]
          refine ⟨by simpa using hd, ?_⟩
          simp only [Option.getD_some, List.length_dropLast]
          omega
      · rw [if_neg hn] at hcount ⊢
        exact ⟨h1, by omega⟩

theorem aliasInv_parseFor (sp : ShaderPreprocessor) (e e1 : Env) (b : Bool)
    (h : AliasInv e) (hp : parseFor sp e = .ok (b, e1)) : AliasInv e1 := by
  unfold parseFor at hp
  cases ht : tokenizeFor e.line with
  | none => rw [ht] at hp; cases hp
  | some t =>
    rw [ht] at hp
    cases t with
    | notFor =>
      simp only [Res.ok.injEq, Prod.mk.injEq] at hp
      obtain ⟨_, rfl⟩ := hp
      exact h
    | expectedIn =>
      simp only [Res.ok.injEq, Prod.mk.injEq] at hp
      obtain ⟨_, rfl⟩ := hp
      exact aliasInv_congr rfl rfl h
    | tokens k v d =>
      dsimp only at hp
      split at hp
      · simp only [Res.ok.injEq, Prod.mk.injEq] at hp
        obtain ⟨_, rfl⟩ := hp
        exact aliasInv_congr rfl rfl h
      · cases hl : e.inputs.getLast? with
        | none => rw [hl] at hp; cases hp
        | some input =>
          rw [hl] at hp
          simp only [Res.ok.injEq, Prod.mk.injEq] at hp
          obtain ⟨_, rfl⟩ := hp
          refine aliasInv_congr (e := pushScope _ { e with output := _ }) rfl rfl ?_
          apply aliasInv_pushScope
          · exact aliasInv_congr rfl rfl h
          · cases (sp.dictionary.valueKeys (resolveAlias sp d e).2).head? with
            | none => simp [IsMap]
            | some key0 => exact isMap_assign2 _ _ _ _

theorem aliasInv_parseEndFor (sp : ShaderPreprocessor) (e e1 : Env) (b : Bool)
    (h : AliasInv e) (hp : parseEndFor sp e = .ok (b, e1)) : AliasInv e1 := by
  unfold parseEndFor at hp
  split at hp
  · cases hfs : e.forStatements.getLast? with
    | none =>
      rw [hfs] at hp
      simp only [Res.ok.injEq, Prod.mk.injEq] at hp
      obtain ⟨_, rfl⟩ := hp
      exact aliasInv_congr rfl rfl h
    | some fs =>
      rw [hfs] at hp
      dsimp only at hp
      split at hp
      · cases hg : e.inputs.get? fs.inputIndex with
        | none => rw [hg] at hp; cases hp
        | some fi =>
          rw [hg] at hp
          simp only [Res.ok.injEq, Prod.mk.injEq] at hp
          obtain ⟨_, rfl⟩ := hp
          exact aliasInv_congr rfl rfl h
      · have r1 : AliasInv (if (popScope e).1 = true then (popScope e).2
            else logError (popScope e).2
              ("Preprocessor internal error. Failed to pop scope from stack. ".toList
                ++ debugString sp (popScope e).2)) := by
          split
          · exact aliasInv_popScope e h
          · exact aliasInv_congr rfl rfl (aliasInv_popScope e h)
        revert hp
        generalize (if (popScope e).1 = true then (popScope e).2
            else logError (popScope e).2
              ("Preprocessor internal error. Failed to pop scope from stack. ".toList
                ++ debugString sp (popScope e).2)) = x at r1
        intro hp
        cases hl : x.inputs.getLast? with
        | none => rw [hl] at hp; cases hp
        | some input =>
          rw [hl] at hp
          dsimp only at hp
          split at hp
          · simp only [Res.ok.injEq, Prod.mk.injEq] at hp
            obtain ⟨_, rfl⟩ := hp
            refine aliasInv_congr (e := pushScope _ x) rfl rfl ?_
            exact aliasInv_pushScope _ x r1 (isMap_assign2 _ _ _ _)
          · simp only [Res.ok.injEq, Prod.mk.injEq] at hp
            obtain ⟨_, rfl⟩ := hp
            exact aliasInv_congr rfl rfl r1
  · simp only [Res.ok.injEq, Prod.mk.injEq] at hp
    obtain ⟨_, rfl⟩ := hp
    exact h

/-! ## Includes in the line loop -/

theorem findFirstNotOf_append_ws (set : Str) (c : Char) (cs : Str) (hc : c ∉ set) :
    ∀ (w : Str), (∀ x ∈ w, x ∈ set) → findFirstNotOf set (w ++ c :: cs) = some w.length
  | [], _ => by simp [findFirstNotOf, hc]
  | x :: xs, h => by
    have hx : x ∈ set := h x (by simp)
    simp [findFirstNotOf, hx,
      findFirstNotOf_append_ws set c cs hc xs (fun y hy => h y (by simp [hy]))]

/-- Leading whitespace in front of a text that neither begins nor ends with whitespace:
`trim` returns the text and captures the whitespace as indentation. -/
theorem trimParts_indent (w t : Str) (c : Char) (cs : Str) (hw : ∀ x ∈ w, x ∈ ws)
    (ht : t = c :: cs) (hc : c ∉ ws) (hlast : ∀ x, t.getLast? = some x → x ∉ ws) :
    trimParts (w ++ t) = (w, t, []) := by
  have hne : t ≠ [] := by rw [ht]; simp
  obtain ⟨ys, y, hy⟩ : ∃ ys y, t = ys ++ [y] :=
    ⟨t.dropLast, t.getLast hne, (List.dropLast_append_getLast hne).symm⟩
  have hyw : y ∉ ws := hlast y (by rw [hy]; simp)
  have h1 : findFirstNotOf ws (w ++ t) = some w.length := by
    rw [ht]; exact findFirstNotOf_append_ws ws c cs hc w hw
  have h2 : findLastNotOf ws (w ++ t) = some (w ++ ys).length := by
    rw [hy, ← List.append_assoc]; exact findLastNotOf_snoc ws (w ++ ys) y hyw
  have hlen : (w ++ ys).length + 1 - w.length = t.length := by
    rw [hy]; simp; omega
  have hlen2 : (w ++ ys).length + 1 = (w ++ t).length := by rw [hy]; simp; omega
  have hlen3 : (w ++ t).length - w.length = t.length := by simp
  simp only [trimParts, h1, h2, Option.getD_some, substr, hlen, hlen2, List.take_left,
    List.drop_left, List.take_length, List.drop_length, hlen3]

/-- The end of `includeFile` for a file that was included from a parent, once the line
loop has ended with the stack as it was at the start of the loop and no loop of this file
left open: the `Input` is popped and the marker of the parent is written. -/
theorem includeFile_done (sp : ShaderPreprocessor) (fuel : Nat) (path content : Str)
    (env e2 : Env) (c parent : Input) (hopen : sp.fs.openStream path = some content)
    (hrun : parseLines sp (parseLine sp (includeFile sp fuel)) path fuel
      (env.enter sp path content) = .ok (true, e2))
    (hin : e2.inputs = env.inputs ++ [c])
    (hfor : ∀ fs, e2.forStatements.getLast? = some fs → fs.inputIndex < env.inputs.length)
    (hparent : env.inputs.getLast? = some parent) :
    includeFile sp (fuel + 1) path env
      = .ok (true, { e2 with
          inputs := env.inputs,
          output := e2.output ++ lineMarker sp parent.lineNumber parent.path }) := by
  rw [includeFile_unfold sp fuel path content env hopen, hrun]
  have hd : e2.inputs.dropLast = env.inputs := by rw [hin]; simp
  obtain ⟨base, hbase⟩ := List.getLast?_eq_some_iff.mp hparent
  have hpos : env.inputs.length > 0 := by rw [hbase]; simp
  have hadd := addLineNumber_snoc sp { e2 with inputs := env.inputs } base parent hbase
  have tail : (if (e2.inputs.dropLast).length > 0 then
        match addLineNumber sp { e2 with inputs := e2.inputs.dropLast } with
        | .ok env4 => Res.ok (true, env4)
        | .crash => .crash
        | .outOfFuel => .outOfFuel
      else .ok (true, { e2 with inputs := e2.inputs.dropLast }))
      = .ok (true, { e2 with
          inputs := env.inputs,
          output := e2.output ++ lineMarker sp parent.lineNumber parent.path }) := by
    rw [hd, if_pos hpos, hadd]
    simp [lineMarker]
  simp only [Bool.not_true, Bool.false_eq_true, if_false]
  cases hl : e2.forStatements.getLast? with
  | none => exact tail
  | some fs =>
    have hlt := hfor fs hl
    have hlen : e2.inputs.length - 1 = env.inputs.length := by rw [hin]; simp
    dsimp only
    rw [if_neg (by rw [hlen]; omega)]
    exact tail

/-- The line `#include "rel"` behind the whitespace `w`, read in the line loop outside an
empty loop, when `rel` lies next to the including file and `includeFile` returns true for
it with `success` still set: the loop goes on in the environment `includeFile` returned.
The environment `includeFile` is called in holds `w` as indentation. -/
theorem run_include_step (sp : ShaderPreprocessor) (inc : Str → Env → Res (Bool × Env))
    (path : Str) (ins : List Input) (rest : Str) (env e1 : Env) (input : Input) (fuel : Nat)
    (w rel : Str) (hin : env.inputs = ins ++ [input])
    (hat : input.At ((w ++ includeLine rel) ++ '\n' :: rest))
    (hw : ∀ x ∈ w, x ∈ ws) (hwn : '\n' ∉ w)
    (hemp : isInsideEmptyForStatement env = false)
    (hrel : rel ≠ []) (hq : dquote ∉ rel) (hnl : '\n' ∉ rel) (hb : lbrace ∉ rel)
    (hexists : sp.fs.fileExists (siblingPath sp input.path rel) = true)
    (hinc : inc (siblingPath sp input.path rel) (env.atInclude ins input w rel) = .ok (true, e1))
    (hsucc : e1.success = true) :
    parseLines sp (parseLine sp inc) path (fuel + 1) env
        = parseLines sp (parseLine sp inc) path fuel e1 := by
  obtain ⟨u1, u2, u3, u4, u5⟩ := includeLine_facts rel hnl hb
  have hwnl : '\n' ∉ w ++ includeLine rel := by
    simp only [List.mem_append, not_or]
    exact ⟨hwn, u2⟩
  have htrim : trimParts (w ++ includeLine rel) = (w, includeLine rel, []) :=
    trimParts_indent w (includeLine rel) '#' _ hw (by simp [includeLine, includeString]; rfl)
      (by decide) (by
        intro x hx
        simp only [includeLine, getLast?_snoc, Option.some.injEq] at hx
        rw [← hx]; decide)
  have hread := parseLine_read sp inc env ins input (w ++ includeLine rel) rest hin hat hwnl
  have hcall : env.afterRead { input with pos := input.pos + (w ++ includeLine rel).length + 1 }
      (w ++ includeLine rel) = env.atInclude ins input w rel := by
    simp [Env.afterRead, htrim, hin, Env.atInclude, Input.advance]
  rw [hcall] at hread
  have hpi := parseInclude_quoted sp inc (env.atInclude ins input w rel)
    (input.advance (w ++ includeLine rel).length) rel rfl hrel hq (by simp [Env.atInclude])
  have hres : resolveQuoted sp (input.advance (w ++ includeLine rel).length) rel
      = some (siblingPath sp input.path rel) := by
    simp only [siblingPath] at hexists
    simp only [resolveQuoted, Input.advance, siblingPath, hexists, if_true]
  rw [hres] at hpi
  have hpi2 : parseInclude sp inc (env.atInclude ins input w rel) = .ok (true, e1) := by
    rw [hpi]
    show consumed (inc _ _) = _
    rw [hinc]; rfl
  have hd := dispatchLine_include sp inc input _ e1 u3
    (by rw [← hemp]; exact isInsideEmpty_congr rfl) u4 hpi2
  rw [hd] at hread
  exact parseLines_step sp (parseLine sp inc) path fuel env e1 hread hsucc

theorem enter_atInclude (sp : ShaderPreprocessor) (env : Env) (ins : List Input)
    (input : Input) (w rel path content : Str) :
    ((env.atInclude ins input w rel).enter sp path content).inputs
        = (ins ++ [input.advance (w ++ includeLine rel).length])
            ++ [Input.fresh sp path content (input.indentation ++ w)]
      ∧ ((env.atInclude ins input w rel).enter sp path content).output
          = env.output ++ lineMarker sp sp.initialLineNumber path
      ∧ env.Frame ((env.atInclude ins input w rel).enter sp path content) := by
  refine ⟨?_, ?_, ⟨rfl, rfl, rfl, rfl, rfl, rfl⟩⟩
  · simp [Env.enter, Env.atInclude, Input.fresh, Input.advance]
  · simp [Env.enter, Env.atInclude, lineMarker]

/-- The line `#include "rel"` behind the whitespace `w`, for a file next to the including
one whose line loop ends without a failure and with no loop of its own left open: the
including loop goes on behind the directive line, with the marker of the including file
written after what the included file wrote. -/
theorem run_include_of_run (sp : ShaderPreprocessor) (G : Nat) (path : Str)
    (ins : List Input) (rest : Str) (env e2 : Env) (input c : Input) (fuel : Nat)
    (w rel content : Str) (hin : env.inputs = ins ++ [input])
    (hat : input.At ((w ++ includeLine rel) ++ '\n' :: rest))
    (hw : ∀ x ∈ w, x ∈ ws) (hwn : '\n' ∉ w)
    (hemp : isInsideEmptyForStatement env = false)
    (hrel : rel ≠ []) (hq : dquote ∉ rel) (hnl : '\n' ∉ rel) (hb : lbrace ∉ rel)
    (hexists : sp.fs.fileExists (siblingPath sp input.path rel) = true)
    (hopen : sp.fs.openStream (siblingPath sp input.path rel) = some content)
    (hforEnv : ∀ fs, env.forStatements.getLast? = some fs → fs.inputIndex < ins.length + 1)
    (hrun : parseLines sp (parseLine sp (includeFile sp G)) (siblingPath sp input.path rel) G
      ((env.atInclude ins input w rel).enter sp (siblingPath sp input.path rel) content)
        = .ok (true, e2))
    (hin2 : e2.inputs = (ins ++ [input.advance (w ++ includeLine rel).length]) ++ [c])
    (hfor2 : e2.forStatements = env.forStatements) (hsucc2 : e2.success = true) :
    parseLines sp (parseLine sp (includeFile sp (G + 1))) path (fuel + 1) env
      = parseLines sp (parseLine sp (includeFile sp (G + 1))) path fuel
          { e2 with
            inputs := ins ++ [input.advance (w ++ includeLine rel).length],
            output := e2.output ++ lineMarker sp (input.lineNumber + 1) input.path } := by
  have hdone := includeFile_done sp G (siblingPath sp input.path rel) content
    (env.atInclude ins input w rel) e2 c (input.advance (w ++ includeLine rel).length) hopen
    hrun hin2
    (fun fs hfs => by
      have := hforEnv fs (by rw [← hfor2]; exact hfs)
      simpa [Env.atInclude] using this)
    (by simp [Env.atInclude])
  exact run_include_step sp (includeFile sp (G + 1)) path ins rest env _ input fuel w rel hin
    hat hw hwn hemp hrel hq hnl hb hexists hdone hsucc2

/-- The line `#include "rel"` behind the whitespace `w`, for a file of plain lines next to
the including one. Every line of the included file is written behind the indentation of
the including `Input` followed by `w`. -/
theorem run_include_plain (sp : ShaderPreprocessor) (G : Nat) (path : Str)
    (ins : List Input) (rest : Str) (env : Env) (input : Input) (fuel : Nat)
    (w rel content : Str) (hin : env.inputs = ins ++ [input])
    (hat : input.At ((w ++ includeLine rel) ++ '\n' :: rest))
    (hw : ∀ x ∈ w, x ∈ ws) (hwn : '\n' ∉ w)
    (hemp : isInsideEmptyForStatement env = false) (hsucc : env.success = true)
    (hrel : rel ≠ []) (hq : dquote ∉ rel) (hnl : '\n' ∉ rel) (hb : lbrace ∉ rel)
    (hexists : sp.fs.fileExists (siblingPath sp input.path rel) = true)
    (hopen : sp.fs.openStream (siblingPath sp input.path rel) = some content)
    (hplain : ∀ l ∈ fileLines content, isPlainLine l = true)
    (hforEnv : ∀ fs, env.forStatements.getLast? = some fs → fs.inputIndex < ins.length + 1)
    (hG : (fileLines content).length + 1 ≤ G) :
    ∃ env1 input1,
      parseLines sp (parseLine sp (includeFile sp (G + 1))) path (fuel + 1) env
          = parseLines sp (parseLine sp (includeFile sp (G + 1))) path fuel env1
        ∧ env1.output = env.output
            ++ lineMarker sp sp.initialLineNumber (siblingPath sp input.path rel)
            ++ renderLines (input.indentation ++ w) (fileLines content)
            ++ lineMarker sp (input.lineNumber + 1) input.path
        ∧ env1.inputs = ins ++ [input1] ∧ input1.At rest
        ∧ input.Moved input1 ((w ++ includeLine rel).length + 1) 1
        ∧ env.Frame env1 := by
  obtain ⟨f, hF⟩ : ∃ f, G = f + (fileLines content).length + 1 :=
    ⟨G - (fileLines content).length - 1, by omega⟩
  obtain ⟨i0, o0, fr0⟩ := enter_atInclude sp env ins input w rel (siblingPath sp input.path rel)
    content
  obtain ⟨e2, c, r1, r2, r3, _, _, _, r7⟩ := run_plain_end sp (includeFile sp G)
    (siblingPath sp input.path rel) (ins ++ [input.advance (w ++ includeLine rel).length]) content
    ((env.atInclude ins input w rel).enter sp (siblingPath sp input.path rel) content)
    (Input.fresh sp (siblingPath sp input.path rel) content (input.indentation ++ w)) f hplain i0
    ⟨rfl, rfl, Nat.zero_le _, rfl⟩
    (by rw [isInsideEmpty_congr fr0.forStatements]; exact hemp)
    (by rw [fr0.success]; exact hsucc)
  rw [← hF] at r1
  have hfr := fr0.comp r7
  have hstep := run_include_of_run sp G path ins rest env e2 input c fuel w rel content hin
    hat hw hwn hemp hrel hq hnl hb hexists hopen hforEnv r1 r3 hfr.forStatements
    (by rw [hfr.success]; exact hsucc)
  obtain ⟨a1, a2, a3, a4⟩ := hat
  refine ⟨_, input.advance (w ++ includeLine rel).length, hstep, ?_, rfl, ?_,
    ⟨rfl, rfl, rfl, rfl, rfl⟩,
    ⟨hfr.scopes, hfr.forStatements, hfr.aliases, hfr.success, hfr.log, hfr.trackedFiles⟩⟩
  · show e2.output ++ _ = _
    rw [r2, o0]; rfl
  · refine ⟨a1, a2, ?_, ?_⟩
    · have hl : (input.content.drop input.pos).length
          = ((w ++ includeLine rel) ++ '\n' :: rest).length := by rw [a4]
      simp only [List.length_drop, List.length_append, List.length_cons] at hl
      simp only [Input.advance, List.length_append]
      omega
    · show input.content.drop (input.pos + (w ++ includeLine rel).length + 1) = rest
      have h1 : ((w ++ includeLine rel) ++ '\n' :: rest)
          = ((w ++ includeLine rel) ++ ['\n']) ++ rest := by simp
      have h2 : ((w ++ includeLine rel) ++ ['\n']).length
          = (w ++ includeLine rel).length + 1 := List.length_append _ _
      have hdd : input.content.drop (input.pos + (w ++ includeLine rel).length + 1)
          = List.drop ((w ++ includeLine rel).length + 1) (input.content.drop input.pos) := by
        rw [List.drop_drop]; congr 1
      rw [hdd, a4, h1]
      exact List.drop_left' h2

/-- An include within an include. The line `#include "rel1"` behind the whitespace `w1`
names a file B next to the including one; B holds plain lines, the line
`#include "rel2"` behind the whitespace `w2`, and plain lines; `rel2` names a file C of
plain lines next to B. The lines of B are written behind the indentation of the including
`Input` followed by `w1`, the lines of C behind that followed by `w2`. -/
theorem run_include_nested (sp : ShaderPreprocessor) (H : Nat) (path : Str)
    (ins : List Input) (rest : Str) (env : Env) (input : Input) (fuel : Nat)
    (w1 rel1 w2 rel2 postB contentC : Str) (preB : List Str)
    (hin : env.inputs = ins ++ [input])
    (hat : input.At ((w1 ++ includeLine rel1) ++ '\n' :: rest))
    (hw1 : ∀ x ∈ w1, x ∈ ws) (hwn1 : '\n' ∉ w1)
    (hw2 : ∀ x ∈ w2, x ∈ ws) (hwn2 : '\n' ∉ w2)
    (hemp : isInsideEmptyForStatement env = false) (hsucc : env.success = true)
    (hrel1 : rel1 ≠ []) (hq1 : dquote ∉ rel1) (hnl1 : '\n' ∉ rel1) (hb1 : lbrace ∉ rel1)
    (hrel2 : rel2 ≠ []) (hq2 : dquote ∉ rel2) (hnl2 : '\n' ∉ rel2) (hb2 : lbrace ∉ rel2)
    (hexistsB : sp.fs.fileExists (siblingPath sp input.path rel1) = true)
    (hopenB : sp.fs.openStream (siblingPath sp input.path rel1)
      = some (joinLines preB ++ ((w2 ++ includeLine rel2) ++ '\n' :: postB)))
    (hexistsC : sp.fs.fileExists (siblingPath sp (siblingPath sp input.path rel1) rel2) = true)
    (hopenC : sp.fs.openStream (siblingPath sp (siblingPath sp input.path rel1) rel2)
      = some contentC)
    (hpreB : ∀ l ∈ preB, '\n' ∉ l ∧ isPlainLine l = true)
    (hpostB : ∀ l ∈ fileLines postB, isPlainLine l = true)
    (hplainC : ∀ l ∈ fileLines contentC, isPlainLine l = true)
    (hforEnv : ∀ fs, env.forStatements.getLast? = some fs → fs.inputIndex < ins.length + 1)
    (hfuel : preB.length + (fileLines postB).length + 1 ≤ H
      ∧ (fileLines contentC).length + 1 ≤ H) :
    ∃ env1 input1,
      parseLines sp (parseLine sp (includeFile sp (H + 1 + 1))) path (fuel + 1) env
          = parseLines sp (parseLine sp (includeFile sp (H + 1 + 1))) path fuel env1
        ∧ env1.output = env.output
            ++ lineMarker sp sp.initialLineNumber (siblingPath sp input.path rel1)
            ++ renderLines (input.indentation ++ w1) preB
            ++ lineMarker sp sp.initialLineNumber
                (siblingPath sp (siblingPath sp input.path rel1) rel2)
            ++ renderLines (input.indentation ++ w1 ++ w2) (fileLines contentC)
            ++ lineMarker sp (sp.initialLineNumber + preB.length + 1)
                (siblingPath sp input.path rel1)
            ++ renderLines (input.indentation ++ w1) (fileLines postB)
            ++ lineMarker sp (input.lineNumber + 1) input.path
        ∧ env1.inputs = ins ++ [input1] ∧ input1.At rest
        ∧ input.Moved input1 ((w1 ++ includeLine rel1).length + 1) 1
        ∧ env.Frame env1 := by
  obtain ⟨f, hF⟩ : ∃ f, H + 1 = f + (fileLines postB).length + 1 + 1 + preB.length :=
    ⟨H - preB.length - (fileLines postB).length - 1, by omega⟩
  obtain ⟨i0, o0, fr0⟩ := enter_atInclude sp env ins input w1 rel1
    (siblingPath sp input.path rel1)
    (joinLines preB ++ ((w2 ++ includeLine rel2) ++ '\n' :: postB))
  -- the lines of B before the include
  obtain ⟨e1, c1, r1, r2, r3, r4, r5, r6⟩ := run_plain sp (includeFile sp (H + 1))
    (siblingPath sp input.path rel1) (ins ++ [input.advance (w1 ++ includeLine rel1).length])
    preB ((w2 ++ includeLine rel2) ++ '\n' :: postB)
    ((env.atInclude ins input w1 rel1).enter sp (siblingPath sp input.path rel1)
      (joinLines preB ++ ((w2 ++ includeLine rel2) ++ '\n' :: postB)))
    (Input.fresh sp (siblingPath sp input.path rel1)
      (joinLines preB ++ ((w2 ++ includeLine rel2) ++ '\n' :: postB))
      (input.indentation ++ w1))
    (f + (fileLines postB).length + 1 + 1) hpreB i0 ⟨rfl, rfl, Nat.zero_le _, rfl⟩
    (by rw [isInsideEmpty_congr fr0.forStatements]; exact hemp)
    (by rw [fr0.success]; exact hsucc)
  rw [← hF] at r1
  have hfr1 := fr0.comp r6
  have hp1 : c1.path = siblingPath sp input.path rel1 := r5.path
  have hi1 : c1.indentation = input.indentation ++ w1 := r5.indentation
  have hl1 : c1.lineNumber = sp.initialLineNumber + preB.length := r5.lineNumber
  -- the include of C
  obtain ⟨e2, c2, s1, s2, s3, s4, s5, s6⟩ := run_include_plain sp H
    (siblingPath sp input.path rel1) (ins ++ [input.advance (w1 ++ includeLine rel1).length])
    postB e1 c1 (f + (fileLines postB).length + 1) w2 rel2 contentC r3 r4 hw2 hwn2
    (by rw [isInsideEmpty_congr hfr1.forStatements]; exact hemp)
    (by rw [hfr1.success]; exact hsucc) hrel2 hq2 hnl2 hb2
    (by rw [hp1]; exact hexistsC) (by rw [hp1]; exact hopenC) hplainC
    (fun fs hfs => by
      have := hforEnv fs (by rw [← hfr1.forStatements]; exact hfs)
      simp only [List.length_append, List.length_singleton]
      omega)
    hfuel.2
  have hfr2 := hfr1.comp s6
  -- the lines of B behind the include
  obtain ⟨e3, c3, t1, t2, t3, _, _, _, t7⟩ := run_plain_end sp (includeFile sp (H + 1))
    (siblingPath sp input.path rel1) (ins ++ [input.advance (w1 ++ includeLine rel1).length])
    postB e2 c2 f hpostB s3 s4
    (by rw [isInsideEmpty_congr hfr2.forStatements]; exact hemp)
    (by rw [hfr2.success]; exact hsucc)
  have hfr3 := hfr2.comp t7
  have hrunB : parseLines sp (parseLine sp (includeFile sp (H + 1)))
      (siblingPath sp input.path rel1) (H + 1)
      ((env.atInclude ins input w1 rel1).enter sp (siblingPath sp input.path rel1)
        (joinLines preB ++ ((w2 ++ includeLine rel2) ++ '\n' :: postB)))
      = .ok (true, e3) := by
    rw [r1, s1, t1]
  have hstep := run_include_of_run sp (H + 1) path ins rest env e3 input c3 fuel w1 rel1
    (joinLines preB ++ ((w2 ++ includeLine rel2) ++ '\n' :: postB)) hin hat hw1 hwn1 hemp
    hrel1 hq1 hnl1 hb1 hexistsB hopenB hforEnv hrunB t3 hfr3.forStatements
    (by rw [hfr3.success]; exact hsucc)
  obtain ⟨a1, a2, a3, a4⟩ := hat
  refine ⟨_, input.advance (w1 ++ includeLine rel1).length, hstep, ?_, rfl, ?_,
    ⟨rfl, rfl, rfl, rfl, rfl⟩,
    ⟨hfr3.scopes, hfr3.forStatements, hfr3.aliases, hfr3.success, hfr3.log,
      hfr3.trackedFiles⟩⟩
  · show e3.output ++ _ = _
    rw [t2, s2, r2, o0, s5.indentation, hi1, hl1, hp1]
    simp only [Input.fresh, List.append_assoc]
  · refine ⟨a1, a2, ?_, ?_⟩
    · have hl : (input.content.drop input.pos).length
          = ((w1 ++ includeLine rel1) ++ '\n' :: rest).length := by rw [a4]
      simp only [List.length_drop, List.length_append, List.length_cons] at hl
      simp only [Input.advance, List.length_append]
      omega
    · show input.content.drop (input.pos + (w1 ++ includeLine rel1).length + 1) = rest
      have h1 : ((w1 ++ includeLine rel1) ++ '\n' :: rest)
          = ((w1 ++ includeLine rel1) ++ ['\n']) ++ rest := by simp
      have h2 : ((w1 ++ includeLine rel1) ++ ['\n']).length
          = (w1 ++ includeLine rel1).length + 1 := List.length_append _ _
      have hdd : input.content.drop (input.pos + (w1 ++ includeLine rel1).length + 1)
          = List.drop ((w1 ++ includeLine rel1).length + 1)
              (input.content.drop input.pos) := by
        rw [List.drop_drop]; congr 1
      rw [hdd, a4, h1]
      exact List.drop_left' h2

/-! ## The prefixes of the directives -/

theorem length_of_isPrefixOf {p l : Str} (h : p.isPrefixOf l = true) : p.length ≤ l.length :=
  (List.isPrefixOf_iff_prefix.mp h).length_le

theorem substr_of_isPrefixOf {p l : Str} (h : p.isPrefixOf l = true) :
    substr l 0 p.length = p := by
  have := (take_eq_iff_isPrefixOf p l).mpr h
  simpa [substr] using this

/-- A line that starts with `#endfor` is consumed by `parseEndFor` whenever it returns. -/
theorem parseEndFor_flag (sp : ShaderPreprocessor) (env : Env)
    (h : endForString.isPrefixOf env.line = true) (r : Bool × Env)
    (hr : parseEndFor sp env = .ok r) : r.1 = true := by
  have hlen : env.line.length > 6 := by
    have := length_of_isPrefixOf h
    simp [endForString] at this
    omega
  have hsub := substr_of_isPrefixOf h
  unfold parseEndFor at hr
  rw [if_pos ⟨hlen, hsub⟩] at hr
  cases hl : env.forStatements.getLast? with
  | none => rw [hl] at hr; cases hr; rfl
  | some fs =>
    rw [hl] at hr
    dsimp only at hr
    split at hr
    · split at hr
      · cases hr
      · cases hr; rfl
    · split at hr
      · cases hr
      · split at hr <;> (cases hr; rfl)

/-- A line of at most 11 characters is not consumed by `parseInclude`. -/
theorem parseInclude_short (sp : ShaderPreprocessor) (inc : Str → Env → Res (Bool × Env))
    (env : Env) (h : env.line.length ≤ 11) : parseInclude sp inc env = .ok (false, env) := by
  have : ¬ env.line.length > 11 := by omega
  simp [parseInclude, this]

theorem consumed_flag (x : Res (Bool × Env)) (r : Bool × Env) (h : consumed x = .ok r) :
    r.1 = true := by
  cases x with
  | ok y => simp only [consumed] at h; cases h; rfl
  | crash => cases h
  | outOfFuel => cases h

/-- A line of more than 11 characters that starts with `#include` is consumed by
`parseInclude` whenever it returns. -/
theorem parseInclude_flag (sp : ShaderPreprocessor) (inc : Str → Env → Res (Bool × Env))
    (env : Env) (h : includeString.isPrefixOf env.line = true) (hlen : env.line.length > 11)
    (r : Bool × Env) (hr : parseInclude sp inc env = .ok r) : r.1 = true := by
  have hsub := substr_of_isPrefixOf h
  unfold parseInclude at hr
  dsimp only at hr
  rw [if_pos ⟨hlen, hsub⟩] at hr
  split at hr
  · cases hr; rfl
  · split at hr
    · split at hr
      · cases hr; rfl
      · split at hr
        · cases hr
        · split at hr
          · exact consumed_flag _ r hr
          · cases hr; rfl
    · split at hr
      · split at hr
        · cases hr; rfl
        · exact consumed_flag _ r hr
      · cases hr; rfl

/-- A line of fewer than 6 characters is not a `#for` line for `tokenizeFor`. -/
theorem tokenizeFor_short (line : Str) (h : line.length < 6) :
    tokenizeFor line = some .notFor := by
  have : line.length < forString.length + inString.length := by
    simpa [forString, inString] using h
  simp [tokenizeFor, this]

theorem parseFor_short (sp : ShaderPreprocessor) (env : Env) (h : env.line.length < 6) :
    parseFor sp env = .ok (false, env) := by
  simp [parseFor, tokenizeFor_short env.line h]

theorem isPrefixOf_of_tokens {line k v d : Str}
    (h : tokenizeFor line = some (.tokens k v d)) : forString.isPrefixOf line = true := by
  cases hp : forString.isPrefixOf line with
  | true => rfl
  | false => rw [tokenizeFor_not line hp] at h; cases h

theorem not_include_of_for {line : Str} (h : forString.isPrefixOf line = true) :
    includeString.isPrefixOf line = false := by
  obtain ⟨t, rfl⟩ := List.isPrefixOf_iff_prefix.mp h
  rfl

/-- A line from which `tokenizeFor` extracts the three names is consumed by `parseFor`
whenever it returns. -/
theorem parseFor_flag (sp : ShaderPreprocessor) (env : Env) (k v d : Str)
    (h : tokenizeFor env.line = some (.tokens k v d)) (r : Bool × Env)
    (hr : parseFor sp env = .ok r) : r.1 = true := by
  unfold parseFor at hr
  rw [h] at hr
  dsimp only at hr
  split at hr
  · cases hr; rfl
  · split at hr
    · cases hr
    · cases hr; rfl

/-! ## The tokens of a `#for` line, in general -/

theorem substrFrom_append (p r : Str) (n : Nat) (hn : n = p.length) :
    substrFrom (p ++ r) n = some r := by
  subst hn
  simp [substrFrom]

theorem sizeAdd_small (a b : Nat) (h : a + b < 2 ^ 64) : sizeAdd a b = a + b := by
  simp only [sizeAdd]
  exact Nat.mod_eq_of_lt h

theorem findFirstOf_append_mem (set : Str) (c : Char) (cs : Str) (hc : c ∈ set) :
    ∀ (t : Str), (∀ x ∈ t, x ∉ set) → findFirstOf set (t ++ c :: cs) = some t.length
  | [], _ => by simp [findFirstOf, hc]
  | x :: xs, h => by
    have hx : x ∉ set := h x (by simp)
    simp [findFirstOf, hx,
      findFirstOf_append_mem set c cs hc xs (fun y hy => h y (by simp [hy]))]

theorem takeCount_append (t r : Str) (h : t.length < 2 ^ 64 - 1) :
    takeCount t.length (t ++ r) = t := by
  have : t.length ≠ npos := by simp only [npos]; omega
  simp [takeCount, this]

theorem findLastNotOf_append_ws (set : Str) (a : Str) (ha : ∀ x ∈ a, x ∈ set) :
    ∀ (xs : Str), findLastNotOf set (xs ++ a) = findLastNotOf set xs
  | [] => by simpa [findLastNotOf] using findLastNotOf_all set a ha
  | x :: xs => by
    simp [findLastNotOf, findLastNotOf_append_ws set a ha xs]

/-- A text that neither begins nor ends with whitespace, between two runs of whitespace. -/
theorem trimParts_between (w t a : Str) (c : Char) (cs : Str) (hw : ∀ x ∈ w, x ∈ ws)
    (ha : ∀ x ∈ a, x ∈ ws) (ht : t = c :: cs) (hc : c ∉ ws)
    (hlast : ∀ x, t.getLast? = some x → x ∉ ws) :
    trimParts (w ++ t ++ a) = (w, t, a) := by
  have hne : t ≠ [] := by rw [ht]; simp
  obtain ⟨ys, y, hy⟩ : ∃ ys y, t = ys ++ [y] :=
    ⟨t.dropLast, t.getLast hne, (List.dropLast_append_getLast hne).symm⟩
  have hyw : y ∉ ws := hlast y (by rw [hy]; simp)
  have h1 : findFirstNotOf ws (w ++ t ++ a) = some w.length := by
    rw [ht, List.append_assoc, List.cons_append]
    exact findFirstNotOf_append_ws ws c _ hc w hw
  have h2 : findLastNotOf ws (w ++ t ++ a) = some (w ++ ys).length := by
    rw [findLastNotOf_append_ws ws a ha, hy, ← List.append_assoc]
    exact findLastNotOf_snoc ws (w ++ ys) y hyw
  have hlen : (w ++ ys).length + 1 - w.length = t.length := by
    rw [hy]; simp; omega
  have hlen2 : (w ++ ys).length + 1 = (w ++ t).length := by rw [hy]; simp; omega
  have d1 : List.drop w.length (w ++ t ++ a) = t ++ a := by
    rw [List.append_assoc]; exact List.drop_left _ _
  have d2 : List.take w.length (w ++ t ++ a) = w := by
    rw [List.append_assoc]; exact List.take_left _ _
  have d3 : List.drop (w ++ t).length (w ++ t ++ a) = a := List.drop_left _ _
  have d4 : List.take t.length (t ++ a) = t := List.take_left _ _
  have hlen3 : (w ++ t).length - w.length = t.length := by simp
  simp only [trimParts, h1, h2, Option.getD_some, substr, hlen, hlen2, d1, d2, d3, hlen3, d4]

theorem trim_between (w t a : Str) (c : Char) (cs : Str) (hw : ∀ x ∈ w, x ∈ ws)
    (ha : ∀ x ∈ a, x ∈ ws) (ht : t = c :: cs) (hc : c ∉ ws)
    (hlast : ∀ x, t.getLast? = some x → x ∉ ws) : trim (w ++ t ++ a) = t := by
  rw [trim, trimParts_between w t a c cs hw ha ht hc hlast]

/-- The tokens of a line `#for`, whitespace, key, whitespace, comma, whitespace, value,
whitespace, `in`, whitespace, reference, and a tail that is empty or starts with
whitespace. -/
theorem tokenizeFor_parts (w0 kt wk w1 v w2 w3 ref tail : Str) (k0 : Char) (ks : Str)
    (hw0 : ∀ c ∈ w0, c ∈ ws) (hkt : kt = k0 :: ks) (hk0 : k0 ∉ ws)
    (hklast : ∀ x, kt.getLast? = some x → x ∉ ws) (hkc : ',' ∉ kt)
    (hwk : ∀ c ∈ wk, c ∈ ws)
    (hw1 : ∀ c ∈ w1, c ∈ ws)
    (hv : v ≠ []) (hvw : ∀ c ∈ v, c ∉ ws)
    (hw2 : w2 ≠ []) (hw2w : ∀ c ∈ w2, c ∈ ws)
    (hw3 : ∀ c ∈ w3, c ∈ ws)
    (href : ref ≠ []) (hrefw : ∀ c ∈ ref, c ∉ ws)
    (htail : tail = [] ∨ ∃ c cs, tail = c :: cs ∧ c ∈ ws)
    (hlen : (forString ++ (w0 ++ (kt ++ (wk ++ ([','] ++ (w1 ++ (v ++ (w2 ++ (inString
      ++ (w3 ++ (ref ++ tail))))))))))).length < 2 ^ 64) :
    tokenizeFor (forString ++ (w0 ++ (kt ++ (wk ++ ([','] ++ (w1 ++ (v ++ (w2 ++ (inString
      ++ (w3 ++ (ref ++ tail))))))))))) = some (.tokens kt v ref) := by
  obtain ⟨line, hline⟩ : ∃ line, line = forString ++ (w0 ++ (kt ++ (wk ++ ([','] ++ (w1
    ++ (v ++ (w2 ++ (inString ++ (w3 ++ (ref ++ tail)))))))))) := ⟨_, rfl⟩
  rw [← hline] at hlen ⊢
  have hL : line.length = 4 + w0.length + kt.length + wk.length + 1 + w1.length + v.length
      + w2.length + 2 + w3.length + ref.length + tail.length := by
    rw [hline]; simp [forString, inString]; omega
  have hvpos : 0 < v.length := List.length_pos.mpr hv
  have hrpos : 0 < ref.length := List.length_pos.mpr href
  have c0 : ¬ (line.length < forString.length + inString.length
      ∨ substr line 0 forString.length ≠ forString) := by
    rw [hline]
    simp [forString, inString, substr]
    omega
  unfold tokenizeFor
  rw [if_neg c0]
  simp only [Option.pure_def, Option.bind_eq_bind]
  have sub : ∀ (p r : Str) (n : Nat), line = p ++ r → n = p.length →
      substrFrom line n = some r := by
    intro p r n h hn
    rw [h]; exact substrFrom_append p r n hn
  have wi : ('i' : Char) ∉ ws := by decide
  have hf4 : forString.length = 4 := rfl
  have hi2 : inString.length = 2 := rfl
  have wc : (',' : Char) ∈ [','] := by simp
  obtain ⟨r0, hr0⟩ : ∃ r0, r0 = ref.head href := ⟨_, rfl⟩
  have href0 : ref = r0 :: ref.tail := by rw [hr0]; exact (List.head_cons_tail ref href).symm
  have hr0w : r0 ∉ ws := hrefw r0 (by rw [href0]; simp)
  obtain ⟨v0, hv0⟩ : ∃ v0, v0 = v.head hv := ⟨_, rfl⟩
  have hv0' : v = v0 :: v.tail := by rw [hv0]; exact (List.head_cons_tail v hv).symm
  have hv0w : v0 ∉ ws := hvw v0 (by rw [hv0']; simp)
  obtain ⟨x0, hx0⟩ : ∃ x0, x0 = w2.head hw2 := ⟨_, rfl⟩
  have hw20 : w2 = x0 :: w2.tail := by rw [hx0]; exact (List.head_cons_tail w2 hw2).symm
  have hx0w : x0 ∈ ws := hw2w x0 (by rw [hw20]; simp)
  -- the positions
  obtain ⟨P1, hP1⟩ : ∃ n, n = 4 + w0.length := ⟨_, rfl⟩
  obtain ⟨O2, hO2⟩ : ∃ n, n = kt.length + wk.length := ⟨_, rfl⟩
  obtain ⟨P2, hP2⟩ : ∃ n, n = P1 + O2 := ⟨_, rfl⟩
  obtain ⟨P3, hP3⟩ : ∃ n, n = P2 + 1 := ⟨_, rfl⟩
  obtain ⟨P4, hP4⟩ : ∃ n, n = P3 + w1.length := ⟨_, rfl⟩
  obtain ⟨P5, hP5⟩ : ∃ n, n = P4 + v.length := ⟨_, rfl⟩
  obtain ⟨P6, hP6⟩ : ∃ n, n = P5 + w2.length := ⟨_, rfl⟩
  obtain ⟨P7, hP7⟩ : ∃ n, n = P6 + 2 := ⟨_, rfl⟩
  obtain ⟨P8, hP8⟩ : ∃ n, n = P7 + w3.length := ⟨_, rfl⟩
  have p1 : sizeAdd forString.length w0.length = P1 := by
    rw [hf4, sizeAdd_small _ _ (by omega), hP1]
  have p2 : sizeAdd P1 O2 = P2 := by rw [sizeAdd_small _ _ (by omega), hP2]
  have p3 : sizeAdd P2 1 = P3 := by rw [sizeAdd_small _ _ (by omega), hP3]
  have p4 : sizeAdd P3 w1.length = P4 := by rw [sizeAdd_small _ _ (by omega), hP4]
  have p5 : sizeAdd P4 v.length = P5 := by rw [sizeAdd_small _ _ (by omega), hP5]
  have p6 : sizeAdd P5 w2.length = P6 := by rw [sizeAdd_small _ _ (by omega), hP6]
  have p7 : sizeAdd P6 inString.length = P7 := by
    rw [hi2, sizeAdd_small _ _ (by omega), hP7]
  have p8 : sizeAdd P7 w3.length = P8 := by rw [sizeAdd_small _ _ (by omega), hP8]
  -- the strings at the positions
  have e1 : substrFrom line forString.length
      = some (w0 ++ (kt ++ (wk ++ ([','] ++ (w1 ++ (v ++ (w2 ++ (inString
          ++ (w3 ++ (ref ++ tail)))))))))) := sub forString _ _ hline rfl
  have e2 : substrFrom line P1
      = some (kt ++ (wk ++ ([','] ++ (w1 ++ (v ++ (w2 ++ (inString
          ++ (w3 ++ (ref ++ tail))))))))) :=
    sub (forString ++ w0) _ _ (by rw [hline]; simp only [List.append_assoc])
      (by rw [hP1]; simp [forString]; omega)
  have e3 : substrFrom line P3
      = some (w1 ++ (v ++ (w2 ++ (inString ++ (w3 ++ (ref ++ tail)))))) :=
    sub (forString ++ w0 ++ kt ++ wk ++ [',']) _ _
      (by rw [hline]; simp only [List.append_assoc])
      (by rw [hP3, hP2, hO2, hP1]; simp [forString]; omega)
  have e4 : substrFrom line P4
      = some (v ++ (w2 ++ (inString ++ (w3 ++ (ref ++ tail))))) :=
    sub (forString ++ w0 ++ kt ++ wk ++ [','] ++ w1) _ _
      (by rw [hline]; simp only [List.append_assoc])
      (by rw [hP4, hP3, hP2, hO2, hP1]; simp [forString]; omega)
  have e5 : substrFrom line P5
      = some (w2 ++ (inString ++ (w3 ++ (ref ++ tail)))) :=
    sub (forString ++ w0 ++ kt ++ wk ++ [','] ++ w1 ++ v) _ _
      (by rw [hline]; simp only [List.append_assoc])
      (by rw [hP5, hP4, hP3, hP2, hO2, hP1]; simp [forString]; omega)
  have e6 : substrFrom line P6 = some (inString ++ (w3 ++ (ref ++ tail))) :=
    sub (forString ++ w0 ++ kt ++ wk ++ [','] ++ w1 ++ v ++ w2) _ _
      (by rw [hline]; simp only [List.append_assoc])
      (by rw [hP6, hP5, hP4, hP3, hP2, hO2, hP1]; simp [forString]; omega)
  have e7 : substrFrom line P7 = some (w3 ++ (ref ++ tail)) :=
    sub (forString ++ w0 ++ kt ++ wk ++ [','] ++ w1 ++ v ++ w2 ++ inString) _ _
      (by rw [hline]; simp only [List.append_assoc])
      (by rw [hP7, hP6, hP5, hP4, hP3, hP2, hO2, hP1]; simp [forString, inString]; omega)
  have e8 : substrFrom line P8 = some (ref ++ tail) :=
    sub (forString ++ w0 ++ kt ++ wk ++ [','] ++ w1 ++ v ++ w2 ++ inString ++ w3) _ _
      (by rw [hline]; simp only [List.append_assoc])
      (by rw [hP8, hP7, hP6, hP5, hP4, hP3, hP2, hO2, hP1]; simp [forString, inString]; omega)
  -- the searches
  have f1 : findFirstNotOf ws (w0 ++ (kt ++ (wk ++ ([','] ++ (w1 ++ (v ++ (w2 ++ (inString
      ++ (w3 ++ (ref ++ tail)))))))))) = some w0.length := by
    rw [hkt, List.cons_append]
    exact findFirstNotOf_append_ws ws k0 _ hk0 w0 hw0
  have f2 : findFirstOf ",".toList (kt ++ (wk ++ ([','] ++ (w1 ++ (v ++ (w2 ++ (inString
      ++ (w3 ++ (ref ++ tail))))))))) = some O2 := by
    rw [hO2, ← List.append_assoc, ← List.length_append]
    exact findFirstOf_append_mem [','] ',' _ wc (kt ++ wk) (fun x hx => by
      rcases List.mem_append.mp hx with h | h
      · intro hc; rw [List.mem_singleton.mp hc] at h; exact hkc h
      · intro hc; rw [List.mem_singleton.mp hc] at h
        exact absurd (hwk _ h) (by decide))
  have f3 : findFirstNotOf ws (w1 ++ (v ++ (w2 ++ (inString ++ (w3 ++ (ref ++ tail))))))
      = some w1.length := by
    rw [hv0', List.cons_append]
    exact findFirstNotOf_append_ws ws v0 _ hv0w w1 hw1
  have f4 : findFirstOf ws (v ++ (w2 ++ (inString ++ (w3 ++ (ref ++ tail)))))
      = some v.length := by
    rw [hw20, List.cons_append]
    exact findFirstOf_append_mem ws x0 _ hx0w v hvw
  have f5 : findFirstNotOf ws (w2 ++ (inString ++ (w3 ++ (ref ++ tail))))
      = some w2.length :=
    findFirstNotOf_append_ws ws 'i' _ wi w2 hw2w
  have f7 : findFirstNotOf ws (w3 ++ (ref ++ tail)) = some w3.length := by
    rw [href0, List.cons_append]
    exact findFirstNotOf_append_ws ws r0 _ hr0w w3 hw3
  have t1 : trim (takeCount O2 (kt ++ (wk ++ ([','] ++ (w1 ++ (v ++ (w2 ++ (inString
      ++ (w3 ++ (ref ++ tail)))))))))) = kt := by
    rw [hO2, ← List.append_assoc, ← List.length_append,
      takeCount_append _ _ (by rw [List.length_append]; omega)]
    have := trim_between [] kt wk k0 ks (by simp) hwk hkt hk0 hklast
    simpa using this
  have t2 : trim (takeCount v.length (v ++ (w2 ++ (inString ++ (w3 ++ (ref ++ tail))))))
      = v := by
    rw [takeCount_append _ _ (by omega), trim, trim_noWs v hv hvw]
  have t3 : trim (takeCount (optPos (findFirstOf ws (ref ++ tail))) (ref ++ tail)) = ref := by
    have hr : trim ref = ref := by rw [trim, trim_noWs ref href hrefw]
    rcases htail with h | ⟨c, cs, h, hc⟩
    · rw [h, List.append_nil, findFirstOf_none ws ref hrefw]
      simp only [optPos, Option.getD_none, takeCount, if_true]
      exact hr
    · rw [h, findFirstOf_append_mem ws c cs hc ref hrefw]
      simp only [optPos, Option.getD_some]
      rw [takeCount_append _ _ (by omega)]
      exact hr
  have c1 : ¬ ((inString ++ (w3 ++ (ref ++ tail))).length < inString.length + 1
      ∨ (inString ++ (w3 ++ (ref ++ tail))).take inString.length ≠ inString) := by
    simp only [List.length_append, List.take_left, ne_eq, not_true_eq_false, or_false]
    omega
  have os : ∀ n : Nat, optPos (some n) = n := fun _ => rfl
  rw [e1]
  simp only [Option.some_bind]
  rw [f1, os, p1, e2]
  simp only [Option.some_bind]
  rw [f2, os, p2, p3, e3]
  simp only [Option.some_bind]
  rw [f3, os, p4, e4]
  simp only [Option.some_bind]
  rw [f4, os, p5, e5]
  simp only [Option.some_bind]
  rw [f5, os, p6, e6]
  simp only [Option.some_bind]
  rw [if_neg c1, p7, e7]
  simp only [Option.some_bind]
  rw [f7, os, p8, e8]
  simp only [Option.some_bind]
  rw [t1, t2, t3]

/-! ## Files without `#` -/

theorem dropWhile_append_all {α : Type} (p : α → Bool) :
    ∀ (xs ys : List α), (∀ x ∈ xs, p x = true) → (xs ++ ys).dropWhile p = ys.dropWhile p
  | [], _, _ => rfl
  | x :: xs, ys, h => by
    have hx : p x = true := h x (by simp)
    simp only [List.cons_append, List.dropWhile_cons, hx, if_true]
    exact dropWhile_append_all p xs ys (fun y hy => h y (by simp [hy]))

/-- What `parseLine` writes for a plain line of the root file is the line without its
trailing whitespace, or the whole line when it holds only whitespace. -/
theorem renderLine_kept (l : Str) : renderLine [] l = keptLine l ++ ['\n'] := by
  by_cases hall : ∀ c ∈ l, c ∈ ws
  · have h := (trimParts_cases l).2 hall
    have hk : keptLine l = l := by
      simp only [keptLine]
      rw [if_pos]
      simpa using hall
    simp [renderLine, h, hk]
  · have hex : ∃ c ∈ l, c ∉ ws := by
      by_contra hne
      apply hall
      intro c hc
      by_contra hcw
      exact hne ⟨c, hc, hcw⟩
    obtain ⟨_, _, ⟨z, hz, hzw⟩, hdec, hafter⟩ := (trimParts_cases l).1 hex
    have hk : keptLine l = stripTrailingWs l := by
      simp only [keptLine]
      rw [if_neg]
      simpa using hall
    obtain ⟨init, hinit⟩ := List.getLast?_eq_some_iff.mp hz
    have hstrip : stripTrailingWs l = (trimParts l).1 ++ (trimParts l).2.1 := by
      unfold stripTrailingWs
      conv_lhs => rw [← hdec]
      rw [List.reverse_append, dropWhile_append_all _ _ _ (by
        intro x hx
        simpa using hafter x (List.mem_reverse.mp hx))]
      rw [hinit, ← List.append_assoc, List.reverse_append]
      simp only [List.reverse_cons, List.reverse_nil, List.nil_append, List.singleton_append,
        List.dropWhile_cons, hzw, decide_False, Bool.false_eq_true, if_false]
      simp
    rw [hk, hstrip]
    simp [renderLine]

theorem renderLines_kept : ∀ (ls : List Str), renderLines [] ls = keptLines ls
  | [] => rfl
  | l :: ls => by
    simp only [renderLines, keptLines, renderLine_kept l, renderLines_kept ls]
    simp

theorem fileLines_subset : ∀ (r : Str), ∀ l ∈ fileLines r, ∀ c ∈ l, c ∈ r
  | [], l, h, _, _ => by simp [fileLines] at h
  | x :: xs, l, h, c, hc => by
    simp only [fileLines] at h
    split at h
    · rcases List.mem_cons.mp h with e | e
      · subst e; simp at hc
      · exact List.mem_cons_of_mem _ (fileLines_subset xs l e c hc)
    · cases hf : fileLines xs with
      | nil =>
        rw [hf] at h
        simp only [List.mem_singleton] at h
        subst h
        simp only [List.mem_singleton] at hc
        simp [hc]
      | cons l1 ls =>
        rw [hf] at h
        rcases List.mem_cons.mp h with e | e
        · subst e
          rcases List.mem_cons.mp hc with e2 | e2
          · simp [e2]
          · exact List.mem_cons_of_mem _
              (fileLines_subset xs l1 (by rw [hf]; simp) c e2)
        · exact List.mem_cons_of_mem _
            (fileLines_subset xs l (by rw [hf]; simp [e]) c hc)

/-- A line without the character `#` is copied to the output. -/
theorem isPlainLine_of_no_hash (l : Str) (h : hashChar ∉ l) : isPlainLine l = true := by
  have ht : hashChar ∉ trim l := fun hx => h (trimParts_subset l _ hx)
  have hp : ∀ p : Str, p.isPrefixOf (hashChar :: p.tail) = true → p ≠ [] →
      p.head? = some hashChar → p.isPrefixOf (trim l) = false := by
    intro p _ hne hh
    cases hpre : p.isPrefixOf (trim l) with
    | false => rfl
    | true =>
      exfalso
      obtain ⟨t, ht2⟩ := List.isPrefixOf_iff_prefix.mp hpre
      apply ht
      rw [← ht2]
      cases p with
      | nil => exact absurd rfl hne
      | cons a as =>
        simp only [List.head?_cons, Option.some.injEq] at hh
        simp [hh]
  have h1 : endForString.isPrefixOf (trim l) = false := hp _ (by decide) (by decide) (by decide)
  have h2 : includeString.isPrefixOf (trim l) = false := hp _ (by decide) (by decide) (by decide)
  have h3 : forString.isPrefixOf (trim l) = false := hp _ (by decide) (by decide) (by decide)
  have h4 : strFind openString (trim l) = none := by
    rw [strFind_eq_none_iff]
    rintro ⟨s, t, hst⟩
    apply ht
    rw [← hst]
    simp [openString]
  simp [isPlainLine, isDirective, h1, h2, h3, h4]

/-! ## A valid `#endfor`, in general -/

/-- Under the invariant of the alias table `popScope` succeeds: the innermost scope is
removed and its bindings are taken off the stacks. -/
theorem popScope_of_inv (env : Env) (base : List (List Str)) (scope : List Str)
    (h : AliasInv env) (hsc : env.scopes = base ++ [scope]) :
    popScope env
      = (true, { env with aliases := (popScopeLoop scope env.aliases).2, scopes := base }) := by
  have hset : IsSet scope := h.1 scope (by rw [hsc]; simp)
  have hbound : ∀ k ∈ scope, ∃ st, env.aliases k = some st := by
    intro k hk
    have := (aliasInv_key_iff h k).mpr ⟨scope, by rw [hsc]; simp, hk⟩
    cases ha : env.aliases k with
    | none => rw [ha] at this; cases this
    | some st => exact ⟨st, rfl⟩
  obtain ⟨r1, _⟩ := popScopeLoop_lookup scope env.aliases hset.nodup hbound
  exact popScope_of_loop env base scope _ hsc (Prod.ext r1 rfl)

theorem mem_endForTable_value (fs : ForStatement) (key : Str) :
    (fs.valueName, fs.dictionaryRef ++ ".".toList ++ key) ∈ endForTable fs key := by
  simp only [endForTable, mapAssign]
  by_cases h1 : fs.valueName = fs.keyName
  · simp [h1]
  · by_cases h2 : strLt fs.valueName fs.keyName = true
    · simp [h1, h2]
    · simp [h1, h2]

theorem mem_endForTable_key (fs : ForStatement) (key : Str)
    (h : fs.keyName ≠ fs.valueName) :
    (fs.keyName, [dquote] ++ key ++ [dquote]) ∈ endForTable fs key := by
  have h1 : ¬ fs.valueName = fs.keyName := fun e => h e.symm
  simp only [endForTable, mapAssign]
  by_cases h2 : strLt fs.valueName fs.keyName = true
  · simp [h1, h2]
  · simp [h1, h2]

/-- The top binding of a name after `pushScope` of a map that binds it. -/
theorem topBinding_pushScope (m : List (Str × Str)) (env : Env) (k v : Str) (hm : IsMap m)
    (hmem : (k, v) ∈ m) : topBinding (pushScope m env) k = v := by
  simp only [topBinding, pushScope, pushScopeLoop_binding m [] env.aliases k v hm hmem,
    getLast?_snoc, Option.getD_some]

/-- The line `#endfor` for the innermost loop, read from the `Input` that holds its
`#for`, under the invariant of the alias table: what `parseEndFor` does when another key is
left and when none is. -/
theorem parseEndFor_valid (sp : ShaderPreprocessor) (env : Env) (ins : List Input)
    (input : Input) (fss : List ForStatement) (fs : ForStatement)
    (base : List (List Str)) (scope : List Str)
    (hline : endForString.isPrefixOf env.line = true)
    (hfs : env.forStatements = fss ++ [fs]) (hin : env.inputs = ins ++ [input])
    (hidx : fs.inputIndex = ins.length) (hsc : env.scopes = base ++ [scope])
    (hinv : AliasInv env) :
    ((0 ≤ fs.keyIndex + 1
        ∧ (fs.keyIndex + 1).toNat < (sp.dictionary.valueKeys fs.dictionaryRef).length) →
      parseEndFor sp env = .ok (true,
        { pushScope (endForTable fs ((sp.dictionary.valueKeys fs.dictionaryRef).getD
              (fs.keyIndex + 1).toNat []))
            { env with aliases := (popScopeLoop scope env.aliases).2, scopes := base } with
          output := env.output ++ "//# Key ".toList
            ++ (sp.dictionary.valueKeys fs.dictionaryRef).getD (fs.keyIndex + 1).toNat []
            ++ " in ".toList ++ fs.dictionaryRef ++ "\n".toList,
          inputs := ins ++ [{ seekg input fs.streamPos with lineNumber := fs.lineNumber }],
          forStatements := fss ++ [{ fs with keyIndex := fs.keyIndex + 1 }] }))
      ∧ (¬ (0 ≤ fs.keyIndex + 1
          ∧ (fs.keyIndex + 1).toNat < (sp.dictionary.valueKeys fs.dictionaryRef).length) →
        parseEndFor sp env = .ok (true, { env with
          aliases := (popScopeLoop scope env.aliases).2, scopes := base,
          forStatements := fss,
          output := env.output ++ "//# Terminated loop over ".toList ++ fs.dictionaryRef
            ++ "\n".toList })) := by
  have h1 : env.line.length > 6 ∧ substr env.line 0 endForString.length = endForString := by
    have := length_of_isPrefixOf hline
    simp only [endForString, String.toList, List.length_cons, List.length_nil] at this
    exact ⟨by omega, substr_of_isPrefixOf hline⟩
  have hpop := popScope_of_inv env base scope hinv hsc
  constructor
  · intro hk
    unfold parseEndFor
    rw [if_pos h1]
    simp only [hfs, getLast?_snoc, hin, length_snoc_sub_one, hidx, ne_eq, not_true_eq_false,
      if_false, hpop, if_true, hk, and_self, endForTable, pushScope, setBack_snoc]
  · intro hk
    unfold parseEndFor
    rw [if_pos h1]
    simp only [hfs, getLast?_snoc, hin, length_snoc_sub_one, hidx, ne_eq, not_true_eq_false,
      if_false, hpop, if_true, hk, List.dropLast_concat]

theorem aliasInv_demoEndForEnv : AliasInv demoEndForEnv := by
  have h0 : AliasInv { demoLineEnv "#for k, v in D" with inputs := [demoLoopInput 15 2] } :=
    aliasInv_congr rfl rfl (aliasInv_initial [])
  unfold demoEndForEnv
  cases hp : parseFor (demoPreprocessor [] demoLoopDictionary)
      { demoLineEnv "#for k, v in D" with inputs := [demoLoopInput 15 2] } with
  | ok r =>
    exact aliasInv_congr rfl rfl (aliasInv_parseFor _ _ r.2 r.1 h0 hp)
  | crash => exact aliasInv_congr rfl rfl (aliasInv_initial [])
  | outOfFuel => exact aliasInv_congr rfl rfl (aliasInv_initial [])

/-! ## Properties of the three stacks along a run -/

theorem sameStacks_refl (e : Env) : SameStacks e e := ⟨rfl, rfl, rfl⟩

theorem sameStacks_trans {a b c : Env} (h1 : SameStacks a b) (h2 : SameStacks b c) :
    SameStacks a c :=
  ⟨h2.1.trans h1.1, h2.2.1.trans h1.2.1, h2.2.2.trans h1.2.2⟩

theorem substituteLoop_stacks (sp : ShaderPreprocessor) :
    ∀ (fuel : Nat) (line p : Str) (env : Env),
      SameStacks env (substituteLoop sp fuel line p env).2 := by
  intro fuel
  induction fuel with
  | zero => intro line p env; exact ⟨rfl, rfl, rfl⟩
  | succ n ih =>
    intro line p env
    simp only [substituteLoop]
    cases hb : strFind openString line with
    | none => exact ⟨rfl, rfl, rfl⟩
    | some b =>
      dsimp only
      cases he : strFind [rbrace] (List.drop b line) with
      | none => exact ⟨rfl, rfl, rfl⟩
      | some e =>
        dsimp only
        obtain ⟨log, hl⟩ := substitute_env sp (substr line (b + 2) (e - 2))
          { env with line := line }
        have := ih (List.drop (b + e + 1) line)
          (p ++ List.take b line
            ++ (substitute sp (substr line (b + 2) (e - 2)) { env with line := line }).2.1)
          (substitute sp (substr line (b + 2) (e - 2)) { env with line := line }).2.2
        rw [hl] at this ⊢
        exact this

theorem substituteLine_stacks (sp : ShaderPreprocessor) (env : Env) :
    SameStacks env (substituteLine sp env).2 :=
  substituteLoop_stacks sp _ _ _ _

/-- A property of the three stacks that `parseEndFor` and `parseFor` preserve is preserved
by `parseInclude` when the function called for `includeFile` preserves it. -/
theorem parseInclude_keeps (sp : ShaderPreprocessor) (inc : Str → Env → Res (Bool × Env))
    (P : Env → Prop) (hP : ∀ e e1, P e → SameStacks e e1 → P e1)
    (hinc : ∀ path env b env1, P env → inc path env = .ok (b, env1) → P env1)
    (e e1 : Env) (b : Bool) (he : P e) (h : parseInclude sp inc e = .ok (b, e1)) : P e1 := by
  have hcons : ∀ p, consumed (inc p e) = .ok (b, e1) → P e1 := by
    intro p hc
    cases hr : inc p e with
    | crash => rw [hr] at hc; cases hc
    | outOfFuel => rw [hr] at hc; cases hc
    | ok r =>
      rw [hr] at hc
      simp only [consumed, Res.ok.injEq, Prod.mk.injEq] at hc
      obtain ⟨_, rfl⟩ := hc
      exact hinc p e r.1 r.2 he hr
  have hsame : ∀ msg, P (failWith e msg) := fun msg => hP _ _ he ⟨rfl, rfl, rfl⟩
  unfold parseInclude at h
  dsimp only at h
  split at h
  · cases h1 : findFirstNotOfFrom ws e.line includeString.length with
    | none =>
      rw [h1] at h
      simp only [Res.ok.injEq, Prod.mk.injEq] at h
      obtain ⟨_, rfl⟩ := h
      exact hsame _
    | some p1 =>
      rw [h1] at h
      dsimp only at h
      split at h
      · cases h2 : findFirstOfFrom [dquote] e.line (p1 + 1) with
        | none =>
          rw [h2] at h
          simp only [Res.ok.injEq, Prod.mk.injEq] at h
          obtain ⟨_, rfl⟩ := h
          exact he
        | some p2 =>
          rw [h2] at h
          dsimp only at h
          cases h3 : e.inputs.getLast? with
          | none => rw [h3] at h; cases h
          | some input =>
            rw [h3] at h
            dsimp only at h
            cases h4 : resolveQuoted sp input (substr e.line (p1 + 1) (p2 - p1 - 1)) with
            | none =>
              rw [h4] at h
              simp only [Res.ok.injEq, Prod.mk.injEq] at h
              obtain ⟨_, rfl⟩ := h
              exact hsame _
            | some f =>
              rw [h4] at h
              exact hcons f h
      · split at h
        · cases h2 : findFirstOfFrom ">".toList e.line (p1 + 1) with
          | none =>
            rw [h2] at h
            simp only [Res.ok.injEq, Prod.mk.injEq] at h
            obtain ⟨_, rfl⟩ := h
            exact hsame _
          | some p2 =>
            rw [h2] at h
            exact hcons _ h
        · simp only [Res.ok.injEq, Prod.mk.injEq] at h
          obtain ⟨_, rfl⟩ := h
          exact hsame _
  · simp only [Res.ok.injEq, Prod.mk.injEq] at h
    obtain ⟨_, rfl⟩ := h
    exact he

theorem dispatchLine_keeps (sp : ShaderPreprocessor) (inc : Str → Env → Res (Bool × Env))
    (P : Env → Prop) (hP : ∀ e e1, P e → SameStacks e e1 → P e1)
    (hend : ∀ e b e1, P e → parseEndFor sp e = .ok (b, e1) → P e1)
    (hfor : ∀ e b e1, P e → parseFor sp e = .ok (b, e1) → P e1)
    (hinc : ∀ path env b env1, P env → inc path env = .ok (b, env1) → P env1)
    (input : Input) (e e1 : Env) (b : Bool) (he : P e)
    (h : dispatchLine sp inc input e = .ok (b, e1)) : P e1 := by
  unfold dispatchLine at h
  cases hp : parseEndFor sp e with
  | crash => rw [hp] at h; cases h
  | outOfFuel => rw [hp] at h; cases h
  | ok r =>
    obtain ⟨rb, e2⟩ := r
    rw [hp] at h
    dsimp only at h
    have t2 : P e2 := hend e rb e2 he hp
    have ts : P (substituteLine sp e2).2 := hP _ _ t2 (substituteLine_stacks sp e2)
    split at h
    · simp only [Res.ok.injEq, Prod.mk.injEq] at h
      obtain ⟨_, rfl⟩ := h
      exact t2
    · split at h
      · simp only [Res.ok.injEq, Prod.mk.injEq] at h
        obtain ⟨_, rfl⟩ := h
        exact ts
      · split at h
        · simp only [Res.ok.injEq, Prod.mk.injEq] at h
          obtain ⟨_, rfl⟩ := h
          exact ts
        · cases hi : parseInclude sp inc (substituteLine sp e2).2 with
          | crash => rw [hi] at h; cases h
          | outOfFuel => rw [hi] at h; cases h
          | ok i =>
            obtain ⟨ib, e3⟩ := i
            rw [hi] at h
            dsimp only at h
            have t3 : P e3 := parseInclude_keeps sp inc P hP hinc _ e3 ib ts hi
            split at h
            · simp only [Res.ok.injEq, Prod.mk.injEq] at h
              obtain ⟨_, rfl⟩ := h
              exact t3
            · cases hpf : parseFor sp e3 with
              | crash => rw [hpf] at h; cases h
              | outOfFuel => rw [hpf] at h; cases h
              | ok f =>
                obtain ⟨fb, e4⟩ := f
                rw [hpf] at h
                dsimp only at h
                have t4 : P e4 := hfor e3 fb e4 t3 hpf
                split at h
                · simp only [Res.ok.injEq, Prod.mk.injEq] at h
                  obtain ⟨_, rfl⟩ := h
                  exact t4
                · simp only [Res.ok.injEq, Prod.mk.injEq] at h
                  obtain ⟨_, rfl⟩ := h
                  exact hP _ _ t4 ⟨rfl, rfl, rfl⟩

theorem parseLine_keeps (sp : ShaderPreprocessor) (inc : Str → Env → Res (Bool × Env))
    (P : Env → Prop) (hP : ∀ e e1, P e → SameStacks e e1 → P e1)
    (hend : ∀ e b e1, P e → parseEndFor sp e = .ok (b, e1) → P e1)
    (hfor : ∀ e b e1, P e → parseFor sp e = .ok (b, e1) → P e1)
    (hinc : ∀ path env b env1, P env → inc path env = .ok (b, env1) → P env1)
    (e e1 : Env) (b : Bool) (he : P e) (h : parseLine sp inc e = .ok (b, e1)) : P e1 := by
  unfold parseLine at h
  cases hl : e.inputs.getLast? with
  | none => rw [hl] at h; cases h
  | some input =>
    rw [hl] at h
    dsimp only at h
    split at h
    · simp only [Res.ok.injEq, Prod.mk.injEq] at h
      obtain ⟨_, rfl⟩ := h
      exact hP _ _ he ⟨rfl, rfl, rfl⟩
    · have t0 : P (e.afterRead (getline input e.line).2.2 (getline input e.line).2.1) :=
        hP _ _ he ⟨rfl, rfl, rfl⟩
      exact dispatchLine_keeps sp inc P hP hend hfor hinc input _ e1 b t0 h

theorem parseLines_keeps (sp : ShaderPreprocessor) (inc : Str → Env → Res (Bool × Env))
    (P : Env → Prop) (hP : ∀ e e1, P e → SameStacks e e1 → P e1)
    (hend : ∀ e b e1, P e → parseEndFor sp e = .ok (b, e1) → P e1)
    (hfor : ∀ e b e1, P e → parseFor sp e = .ok (b, e1) → P e1)
    (hinc : ∀ path env b env1, P env → inc path env = .ok (b, env1) → P env1)
    (path : Str) :
    ∀ (n : Nat) (e e1 : Env) (b : Bool), P e →
      parseLines sp (parseLine sp inc) path n e = .ok (b, e1) → P e1 := by
  intro n
  induction n with
  | zero => intro e e1 b _ h; simp [parseLines] at h
  | succ n ih =>
    intro e e1 b he h
    unfold parseLines at h
    cases hp : parseLine sp inc e with
    | crash => rw [hp] at h; cases h
    | outOfFuel => rw [hp] at h; cases h
    | ok r =>
      obtain ⟨rb, e2⟩ := r
      rw [hp] at h
      dsimp only at h
      have t2 : P e2 := parseLine_keeps sp inc P hP hend hfor hinc e e2 rb he hp
      split at h
      · simp only [Res.ok.injEq, Prod.mk.injEq] at h
        obtain ⟨_, rfl⟩ := h
        exact t2
      · split at h
        · cases hl : e2.inputs.getLast? with
          | none => rw [hl] at h; cases h
          | some input =>
            rw [hl] at h
            simp only [Res.ok.injEq, Prod.mk.injEq] at h
            obtain ⟨_, rfl⟩ := h
            exact hP _ _ t2 ⟨rfl, rfl, rfl⟩
        · exact ih e2 e1 b t2 h

/-- A property of the three stacks that `parseEndFor` and `parseFor` preserve holds after
every call of `includeFile` that returns. -/
theorem includeFile_keeps (sp : ShaderPreprocessor) (P : Env → Prop)
    (hP : ∀ e e1, P e → SameStacks e e1 → P e1)
    (hend : ∀ e b e1, P e → parseEndFor sp e = .ok (b, e1) → P e1)
    (hfor : ∀ e b e1, P e → parseFor sp e = .ok (b, e1) → P e1) :
    ∀ (fuel : Nat) (path : Str) (env : Env) (b : Bool) (env1 : Env), P env →
      includeFile sp fuel path env = .ok (b, env1) → P env1 := by
  intro fuel
  induction fuel with
  | zero => intro path env b env1 _ h; simp [includeFile] at h
  | succ n ih =>
    intro path env b env1 he h
    cases hopen : sp.fs.openStream path with
    | none =>
      simp only [includeFile, trackPath_eq, hopen, Bool.not_true, Bool.false_eq_true, if_false,
        Res.ok.injEq, Prod.mk.injEq] at h
      obtain ⟨_, rfl⟩ := h
      exact hP _ _ he ⟨rfl, rfl, rfl⟩
    | some content =>
      rw [includeFile_unfold sp n path content env hopen] at h
      cases hp : parseLines sp (parseLine sp (includeFile sp n)) path n
          (env.enter sp path content) with
      | crash => rw [hp] at h; cases h
      | outOfFuel => rw [hp] at h; cases h
      | ok r =>
        obtain ⟨rb, e2⟩ := r
        rw [hp] at h
        dsimp only at h
        have t0 : P (env.enter sp path content) := hP _ _ he ⟨rfl, rfl, rfl⟩
        have t2 : P e2 := parseLines_keeps sp (includeFile sp n) P hP hend hfor ih path n _
          e2 rb t0 hp
        have hpop : ∀ (hh : (if (e2.inputs.dropLast).length > 0 then
              match addLineNumber sp { e2 with inputs := e2.inputs.dropLast } with
              | .ok env4 => Res.ok (true, env4)
              | .crash => .crash
              | .outOfFuel => .outOfFuel
            else .ok (true, { e2 with inputs := e2.inputs.dropLast })) = .ok (b, env1)),
            P env1 := by
          intro hh
          split at hh
          · unfold addLineNumber at hh
            dsimp only at hh
            cases hl : e2.inputs.dropLast.getLast? with
            | none => rw [hl] at hh; cases hh
            | some input =>
              rw [hl] at hh
              simp only [Res.ok.injEq, Prod.mk.injEq] at hh
              obtain ⟨_, rfl⟩ := hh
              exact hP _ _ t2 ⟨rfl, rfl, rfl⟩
          · simp only [Res.ok.injEq, Prod.mk.injEq] at hh
            obtain ⟨_, rfl⟩ := hh
            exact hP _ _ t2 ⟨rfl, rfl, rfl⟩
        split at h
        · simp only [Res.ok.injEq, Prod.mk.injEq] at h
          obtain ⟨_, rfl⟩ := h
          exact t2
        · cases hl : e2.forStatements.getLast? with
          | none => rw [hl] at h; exact hpop h
          | some fs =>
            rw [hl] at h
            dsimp only at h
            split at h
            · cases hget : e2.inputs.get? fs.inputIndex with
              | none => rw [hget] at h; cases h
              | some forInput =>
                rw [hget] at h
                simp only [Res.ok.injEq, Prod.mk.injEq] at h
                obtain ⟨_, rfl⟩ := h
                exact hP _ _ t2 ⟨rfl, rfl, rfl⟩
            · exact hpop h

/-- The ways `parseEndFor` returns: the line is not an `#endfor`; or it is one without a
loop of this `Input` to close, which unsets `success` and leaves the stacks alone; or the
innermost loop was opened in the `Input` the line is read from. -/
theorem parseEndFor_cases (sp : ShaderPreprocessor) (e e1 : Env) (b : Bool)
    (h : parseEndFor sp e = .ok (b, e1)) :
    (b = false ∧ e1 = e ∧ endForString.isPrefixOf e.line = false)
      ∨ (b = true ∧ SameStacks e e1 ∧ e1.success = false ∧ e1.inputs = e.inputs)
      ∨ (∃ fss fs ins input, endForString.isPrefixOf e.line = true
          ∧ e.forStatements = fss ++ [fs] ∧ e.inputs = ins ++ [input]
          ∧ fs.inputIndex = ins.length) := by
  unfold parseEndFor at h
  split at h
  · rename_i hg
    have hpre : endForString.isPrefixOf e.line = true :=
      (take_eq_iff_isPrefixOf endForString e.line).mp (by simpa [substr] using hg.2)
    cases hfs : e.forStatements.getLast? with
    | none =>
      rw [hfs] at h
      simp only [Res.ok.injEq, Prod.mk.injEq] at h
      obtain ⟨rfl, rfl⟩ := h
      exact Or.inr (Or.inl ⟨rfl, ⟨rfl, rfl, rfl⟩, rfl, rfl⟩)
    | some fs =>
      rw [hfs] at h
      dsimp only at h
      split at h
      · cases hget : e.inputs.get? fs.inputIndex with
        | none => rw [hget] at h; cases h
        | some fi =>
          rw [hget] at h
          simp only [Res.ok.injEq, Prod.mk.injEq] at h
          obtain ⟨rfl, rfl⟩ := h
          exact Or.inr (Or.inl ⟨rfl, ⟨rfl, rfl, rfl⟩, rfl, rfl⟩)
      · rename_i hidx
        obtain ⟨fss, hfss⟩ := List.getLast?_eq_some_iff.mp hfs
        cases hl : e.inputs.getLast? with
        | none =>
          exfalso
          have r1 : (if (popScope e).1 = true then (popScope e).2
              else logError (popScope e).2
                ("Preprocessor internal error. Failed to pop scope from stack. ".toList
                  ++ debugString sp (popScope e).2)).inputs = e.inputs := by
            split
            · exact (popScope_frame e).1
            · exact (popScope_frame e).1
          revert h
          generalize (if (popScope e).1 = true then (popScope e).2
              else logError (popScope e).2
                ("Preprocessor internal error. Failed to pop scope from stack. ".toList
                  ++ debugString sp (popScope e).2)) = x at r1
          intro h
          rw [r1, hl] at h
          cases h
        | some input =>
          obtain ⟨ins, hins⟩ := List.getLast?_eq_some_iff.mp hl
          refine Or.inr (Or.inr ⟨fss, fs, ins, input, hpre, hfss, hins, ?_⟩)
          have : ¬ fs.inputIndex ≠ e.inputs.length - 1 := hidx
          rw [hins] at this
          simp only [List.length_append, List.length_singleton, Nat.add_sub_cancel, ne_eq,
            not_not] at this
          exact this
  · rename_i hg
    simp only [Res.ok.injEq, Prod.mk.injEq] at h
    obtain ⟨rfl, rfl⟩ := h
    refine Or.inl ⟨rfl, rfl, ?_⟩
    cases hp : endForString.isPrefixOf e.line with
    | false => rfl
    | true =>
      exfalso
      apply hg
      have := length_of_isPrefixOf hp
      simp only [endForString, String.toList, List.length_cons, List.length_nil] at this
      exact ⟨by omega, substr_of_isPrefixOf hp⟩

/-- What `parseEndFor` does to the stacks under their invariant: nothing; or it replaces the
innermost scope and increments the key index of the innermost loop; or it pops both. -/
theorem parseEndFor_stacks (sp : ShaderPreprocessor) (e e1 : Env) (b : Bool)
    (hinv : StackInv e) (h : parseEndFor sp e = .ok (b, e1)) :
    SameStacks e e1
      ∨ (∃ base sc sc1 fss fs, e.scopes = base ++ [sc] ∧ e1.scopes = base ++ [sc1]
          ∧ e.forStatements = fss ++ [fs]
          ∧ e1.forStatements = fss ++ [{ fs with keyIndex := fs.keyIndex + 1 }]
          ∧ e1.success = e.success)
      ∨ (∃ sc fs, e.scopes = e1.scopes ++ [sc] ∧ e.forStatements = e1.forStatements ++ [fs]
          ∧ e1.success = e.success) := by
  rcases parseEndFor_cases sp e e1 b h with ⟨_, rfl, _⟩ | ⟨_, hs, _, _⟩
    | ⟨fss, fs, ins, input, hpre, hfss, hins, hidx⟩
  · exact Or.inl (sameStacks_refl _)
  · exact Or.inl hs
  · have hne : e.scopes ≠ [] := by
      intro hnil
      have := hinv.2
      rw [hnil, hfss] at this
      simp at this
    obtain ⟨base, sc, hsc⟩ : ∃ base sc, e.scopes = base ++ [sc] :=
      ⟨e.scopes.dropLast, e.scopes.getLast hne, (List.dropLast_append_getLast hne).symm⟩
    obtain ⟨v1, v2⟩ := parseEndFor_valid sp e ins input fss fs base sc hpre hfss hins hidx
      hsc hinv.1
    by_cases hk : 0 ≤ fs.keyIndex + 1
        ∧ (fs.keyIndex + 1).toNat < (sp.dictionary.valueKeys fs.dictionaryRef).length
    · rw [v1 hk] at h
      simp only [Res.ok.injEq, Prod.mk.injEq] at h
      obtain ⟨_, rfl⟩ := h
      exact Or.inr (Or.inl ⟨base, sc, _, fss, fs, hsc, rfl, hfss, rfl, rfl⟩)
    · rw [v2 hk] at h
      simp only [Res.ok.injEq, Prod.mk.injEq] at h
      obtain ⟨_, rfl⟩ := h
      exact Or.inr (Or.inr ⟨sc, fs, hsc, hfss, rfl⟩)

/-- What `parseFor` does to the stacks: nothing, or it pushes one scope and one loop. -/
theorem parseFor_stacks (sp : ShaderPreprocessor) (e e1 : Env) (b : Bool)
    (h : parseFor sp e = .ok (b, e1)) :
    SameStacks e e1
      ∨ (∃ sc fs, e1.scopes = e.scopes ++ [sc] ∧ e1.forStatements = e.forStatements ++ [fs]
          ∧ e1.success = e.success ∧ b = true) := by
  unfold parseFor at h
  cases ht : tokenizeFor e.line with
  | none => rw [ht] at h; cases h
  | some t =>
    rw [ht] at h
    cases t with
    | notFor =>
      simp only [Res.ok.injEq, Prod.mk.injEq] at h
      obtain ⟨_, rfl⟩ := h
      exact Or.inl ⟨rfl, rfl, rfl⟩
    | expectedIn =>
      simp only [Res.ok.injEq, Prod.mk.injEq] at h
      obtain ⟨_, rfl⟩ := h
      exact Or.inl ⟨rfl, rfl, rfl⟩
    | tokens k v d =>
      dsimp only at h
      split at h
      · simp only [Res.ok.injEq, Prod.mk.injEq] at h
        obtain ⟨_, rfl⟩ := h
        exact Or.inl ⟨rfl, rfl, rfl⟩
      · cases hl : e.inputs.getLast? with
        | none => rw [hl] at h; cases h
        | some input =>
          rw [hl] at h
          simp only [Res.ok.injEq, Prod.mk.injEq] at h
          obtain ⟨rfl, rfl⟩ := h
          exact Or.inr ⟨_, _, rfl, rfl, rfl, rfl⟩

theorem stackInv_congr {e e1 : Env} (h : StackInv e) (hs : SameStacks e e1) : StackInv e1 :=
  ⟨aliasInv_congr hs.2.1 hs.1 h.1, by rw [hs.1, hs.2.2]; exact h.2⟩

theorem stackInv_parseEndFor (sp : ShaderPreprocessor) (e : Env) (b : Bool) (e1 : Env)
    (hinv : StackInv e) (h : parseEndFor sp e = .ok (b, e1)) : StackInv e1 := by
  refine ⟨aliasInv_parseEndFor sp e e1 b hinv.1 h, ?_⟩
  have h2 := hinv.2
  rcases parseEndFor_stacks sp e e1 b hinv h with hs | ⟨base, sc, sc1, fss, fs, a1, a2, a3, a4, _⟩
    | ⟨sc, fs, a1, a2, _⟩
  · rw [hs.1, hs.2.2]; exact h2
  · rw [a1, a3] at h2
    rw [a2, a4]
    simpa using h2
  · rw [a1, a2] at h2
    simpa using h2

theorem stackInv_parseFor (sp : ShaderPreprocessor) (e : Env) (b : Bool) (e1 : Env)
    (hinv : StackInv e) (h : parseFor sp e = .ok (b, e1)) : StackInv e1 := by
  refine ⟨aliasInv_parseFor sp e e1 b hinv.1 h, ?_⟩
  have h2 := hinv.2
  rcases parseFor_stacks sp e e1 b h with hs | ⟨sc, fs, a1, a2, _⟩
  · rw [hs.1, hs.2.2]; exact h2
  · rw [a1, a2]
    simpa using h2

theorem stackInv_initial (tracked : List Str) : StackInv (Env.initial tracked) :=
  ⟨aliasInv_initial tracked, rfl⟩

/-- The invariant of the stacks holds after every call of `includeFile` that returns. -/
theorem stackInv_includeFile (sp : ShaderPreprocessor) (fuel : Nat) (path : Str) (env : Env)
    (b : Bool) (env1 : Env) (hinv : StackInv env)
    (h : includeFile sp fuel path env = .ok (b, env1)) : StackInv env1 :=
  includeFile_keeps sp StackInv (fun _ _ h hs => stackInv_congr h hs)
    (stackInv_parseEndFor sp) (stackInv_parseFor sp) fuel path env b env1 hinv h

theorem stackInv_parseLine (sp : ShaderPreprocessor) (fuel : Nat) (env : Env)
    (b : Bool) (env1 : Env) (hinv : StackInv env)
    (h : parseLine sp (includeFile sp fuel) env = .ok (b, env1)) : StackInv env1 :=
  parseLine_keeps sp (includeFile sp fuel) StackInv (fun _ _ h hs => stackInv_congr h hs)
    (stackInv_parseEndFor sp) (stackInv_parseFor sp)
    (fun path e b e1 he hh => stackInv_includeFile sp fuel path e b e1 he hh) env env1 b hinv h

/-! ## Termination of the line loop without includes -/

theorem reaches_refl (sp : ShaderPreprocessor) (path : Str) (e : Env) : Reaches sp path e e :=
  ⟨0, fun _ _ => rfl⟩

theorem reaches_trans {sp : ShaderPreprocessor} {path : Str} {a b c : Env}
    (h1 : Reaches sp path a b) (h2 : Reaches sp path b c) : Reaches sp path a c := by
  obtain ⟨n1, h1⟩ := h1
  obtain ⟨n2, h2⟩ := h2
  refine ⟨n2 + n1, fun inc fuel => ?_⟩
  rw [← Nat.add_assoc, h1, h2]

theorem reaches_step {sp : ShaderPreprocessor} {path : Str} {e e1 : Env}
    (h : ∀ inc, parseLine sp inc e = .ok (true, e1)) (hs : e1.success = true) :
    Reaches sp path e e1 :=
  ⟨1, fun inc fuel => parseLines_step sp (parseLine sp inc) path fuel e e1 (h inc) hs⟩

theorem stops_of_reaches {sp : ShaderPreprocessor} {path : Str} {e e1 : Env}
    (h1 : Reaches sp path e e1) (h2 : Stops sp path e1) : Stops sp path e := by
  obtain ⟨n1, h1⟩ := h1
  obtain ⟨n2, h2⟩ := h2
  refine ⟨n2 + n1, fun inc fuel hf => ?_⟩
  obtain ⟨f, rfl⟩ : ∃ f, fuel = f + n1 := ⟨fuel - n1, by omega⟩
  rw [h1]
  exact h2 inc f (by omega)

/-- A line after which the loop of `includeFile` is left. -/
theorem stops_now {sp : ShaderPreprocessor} {path : Str} {e : Env} (r : Res (Bool × Env))
    (h : ∀ inc, parseLine sp inc e = r)
    (hr : r = .crash ∨ ∃ b e1, r = .ok (b, e1) ∧ (b = false ∨ e1.success = false)) :
    Stops sp path e := by
  refine ⟨1, fun inc fuel hf => ?_⟩
  obtain ⟨f, rfl⟩ : ∃ f, fuel = f + 1 := ⟨fuel - 1, by omega⟩
  rcases hr with rfl | ⟨b, e1, rfl, hb⟩
  · simp [parseLines, h inc]
  · cases b with
    | false => simp [parseLines, h inc]
    | true =>
      have hs : e1.success = false := by simpa using hb
      cases hl : e1.inputs.getLast? <;> simp [parseLines, h inc, hs, hl]

theorem parseEndFor_fuel (sp : ShaderPreprocessor) (e : Env) :
    parseEndFor sp e ≠ .outOfFuel := by
  intro h
  unfold parseEndFor at h
  split at h
  · split at h
    · cases h
    · dsimp only at h
      split at h
      · split at h <;> cases h
      · split at h
        · cases h
        · split at h <;> cases h
  · cases h

theorem parseFor_fuel (sp : ShaderPreprocessor) (e : Env) : parseFor sp e ≠ .outOfFuel := by
  intro h
  unfold parseFor at h
  split at h
  · cases h
  · cases h
  · cases h
  · dsimp only at h
    split at h
    · cases h
    · split at h <;> cases h

/-- What `parseEndFor` does to the `Input` stack and the ForStatement stack. -/
theorem parseEndFor_effect (sp : ShaderPreprocessor) (e e1 : Env) (b : Bool)
    (h : parseEndFor sp e = .ok (b, e1)) :
    (b = false ∧ e1 = e ∧ endForString.isPrefixOf e.line = false)
      ∨ (b = true ∧ e1.success = false)
      ∨ (b = true ∧ ∃ fss fs ins input, e.forStatements = fss ++ [fs]
          ∧ e.inputs = ins ++ [input]
          ∧ ((0 ≤ fs.keyIndex + 1
              ∧ (fs.keyIndex + 1).toNat < (sp.dictionary.valueKeys fs.dictionaryRef).length
              ∧ e1.forStatements = fss ++ [{ fs with keyIndex := fs.keyIndex + 1 }]
              ∧ e1.inputs
                  = ins ++ [{ seekg input fs.streamPos with lineNumber := fs.lineNumber }])
            ∨ (e1.forStatements = fss ∧ e1.inputs = e.inputs))) := by
  rcases parseEndFor_cases sp e e1 b h with ⟨hb, he, hp⟩ | ⟨hb, _, hs, _⟩
    | ⟨fss, fs, ins, input, hpre, hfss, hins, hidx⟩
  · exact Or.inl ⟨hb, he, hp⟩
  · exact Or.inr (Or.inl ⟨hb, hs⟩)
  · have h1 := (take_eq_iff_isPrefixOf endForString e.line).mpr hpre
    have h2 : e.line.length > 6 := by
      have := length_of_isPrefixOf hpre
      simp only [endForString, String.toList, List.length_cons, List.length_nil] at this
      omega
    have hfs : e.forStatements.getLast? = some fs := by rw [hfss]; simp
    have hne : ¬ fs.inputIndex ≠ e.inputs.length - 1 := by rw [hins, hidx]; simp
    unfold parseEndFor at h
    rw [if_pos ⟨h2, by simpa [substr] using h1⟩, hfs] at h
    dsimp only at h
    rw [if_neg hne] at h
    have r1 : (if (popScope e).1 = true then (popScope e).2
        else logError (popScope e).2
          ("Preprocessor internal error. Failed to pop scope from stack. ".toList
            ++ debugString sp (popScope e).2)).inputs = e.inputs := by
      split
      · exact (popScope_frame e).1
      · exact (popScope_frame e).1
    have r2 : (if (popScope e).1 = true then (popScope e).2
        else logError (popScope e).2
          ("Preprocessor internal error. Failed to pop scope from stack. ".toList
            ++ debugString sp (popScope e).2)).forStatements = e.forStatements := by
      split
      · exact (popScope_frame e).2.2.1
      · exact (popScope_frame e).2.2.1
    revert h
    generalize (if (popScope e).1 = true then (popScope e).2
        else logError (popScope e).2
          ("Preprocessor internal error. Failed to pop scope from stack. ".toList
            ++ debugString sp (popScope e).2)) = x at r1 r2
    intro h
    have hl : x.inputs.getLast? = some input := by rw [r1, hins]; simp
    rw [hl] at h
    dsimp only at h
    split at h
    · rename_i hk
      simp only [Res.ok.injEq, Prod.mk.injEq] at h
      obtain ⟨rfl, rfl⟩ := h
      refine Or.inr (Or.inr ⟨rfl, fss, fs, ins, input, hfss, hins, Or.inl ⟨hk.1, hk.2, ?_, ?_⟩⟩)
      · simp [pushScope, r2, hfss, setBack]
      · simp [pushScope, r1, hins, setBack]
    · simp only [Res.ok.injEq, Prod.mk.injEq] at h
      obtain ⟨rfl, rfl⟩ := h
      refine Or.inr (Or.inr ⟨rfl, fss, fs, ins, input, hfss, hins, Or.inr ⟨?_, ?_⟩⟩)
      · simp [r2, hfss]
      · simp [r1]

/-- What `parseFor` does to the `Input` stack and the ForStatement stack. -/
theorem parseFor_effect (sp : ShaderPreprocessor) (e e1 : Env) (b : Bool)
    (h : parseFor sp e = .ok (b, e1)) :
    (e1.inputs = e.inputs ∧ e1.forStatements = e.forStatements)
      ∨ (∃ ins input fs, e.inputs = ins ++ [input] ∧ e1.inputs = ins ++ [(tellg input).2]
          ∧ e1.forStatements = e.forStatements ++ [fs]
          ∧ fs.streamPos = (tellg input).1 ∧ -1 ≤ fs.keyIndex) := by
  unfold parseFor at h
  cases ht : tokenizeFor e.line with
  | none => rw [ht] at h; cases h
  | some t =>
    rw [ht] at h
    cases t with
    | notFor =>
      simp only [Res.ok.injEq, Prod.mk.injEq] at h
      obtain ⟨_, rfl⟩ := h
      exact Or.inl ⟨rfl, rfl⟩
    | expectedIn =>
      simp only [Res.ok.injEq, Prod.mk.injEq] at h
      obtain ⟨_, rfl⟩ := h
      exact Or.inl ⟨rfl, rfl⟩
    | tokens k v d =>
      dsimp only at h
      split at h
      · simp only [Res.ok.injEq, Prod.mk.injEq] at h
        obtain ⟨_, rfl⟩ := h
        exact Or.inl ⟨rfl, rfl⟩
      · cases hl : e.inputs.getLast? with
        | none => rw [hl] at h; cases h
        | some input =>
          rw [hl] at h
          simp only [Res.ok.injEq, Prod.mk.injEq] at h
          obtain ⟨rfl, rfl⟩ := h
          obtain ⟨ins, hins⟩ := List.getLast?_eq_some_iff.mp hl
          refine Or.inr ⟨ins, input, _, hins, ?_, rfl, rfl, ?_⟩
          · simp [pushScope, hins, setBack]
          · dsimp only
            split <;> omega

theorem dispatchLine_of_endFor (sp : ShaderPreprocessor) (inc : Str → Env → Res (Bool × Env))
    (input : Input) (e e2 : Env) (hp : parseEndFor sp e = .ok (true, e2)) :
    dispatchLine sp inc input e
      = if isInsideEmptyForStatement e2 then .ok (true, e2)
        else if !(substituteLine sp e2).1 then .ok (false, (substituteLine sp e2).2)
        else .ok (true, (substituteLine sp e2).2) := by
  simp [dispatchLine, hp]

theorem dispatchLine_of_other (sp : ShaderPreprocessor) (inc : Str → Env → Res (Bool × Env))
    (input : Input) (e : Env) (hp : parseEndFor sp e = .ok (false, e))
    (hfree : includeString.isPrefixOf (substituteLine sp e).2.line = false) :
    dispatchLine sp inc input e
      = if isInsideEmptyForStatement e then .ok (true, e)
        else if !(substituteLine sp e).1 then .ok (false, (substituteLine sp e).2)
        else
          match parseFor sp (substituteLine sp e).2 with
          | .crash => .crash
          | .outOfFuel => .outOfFuel
          | .ok f =>
            if f.1 then .ok (true, f.2)
            else
              .ok (true, { f.2 with output := f.2.output ++ input.indentation
                ++ f.2.indentation ++ f.2.line ++ "\n".toList }) := by
  unfold dispatchLine
  rw [hp]
  dsimp only
  rw [parseInclude_not sp inc _ hfree]
  rfl

theorem stepResult_ok (P : Env → Prop) (e1 : Env) (h : P e1) :
    StepResult P (.ok (true, e1)) := by
  cases hs : e1.success with
  | false => exact Or.inr (Or.inl hs)
  | true => exact Or.inr (Or.inr ⟨rfl, hs, h⟩)

/-- A line that includes nothing: what `dispatchLine` returns does not depend on
`includeFile`, and it ends the line loop or has one of the four effects on the stacks. -/
theorem dispatchLine_effect (sp : ShaderPreprocessor) (input : Input) (e : Env)
    (ins : List Input) (inputR : Input) (hin : e.inputs = ins ++ [inputR])
    (hfree : includeString.isPrefixOf (substituteLine sp e).2.line = false) :
    ∃ r, (∀ inc, dispatchLine sp inc input e = r) ∧ StepResult (LineEffect sp e) r := by
  cases hp : parseEndFor sp e with
  | crash => exact ⟨.crash, fun inc => by simp [dispatchLine, hp], trivial⟩
  | outOfFuel => exact absurd hp (parseEndFor_fuel sp e)
  | ok r =>
    obtain ⟨rb, e2⟩ := r
    have hsf := substituteLine_frame sp e2
    rcases parseEndFor_effect sp e e2 rb hp with ⟨rfl, rfl, _⟩ | ⟨rfl, hs⟩
      | ⟨rfl, fss, fs, ins1, input1, hfss, hins1, hv⟩
    · refine ⟨_, fun inc => dispatchLine_of_other sp inc input e2 hp hfree, ?_⟩
      have hsame : LineEffect sp e2 e2 := ⟨ins, inputR, hin, Or.inl ⟨rfl, rfl⟩⟩
      split
      · exact stepResult_ok _ _ hsame
      · split
        · exact Or.inl rfl
        · cases hpf : parseFor sp (substituteLine sp e2).2 with
          | crash => trivial
          | outOfFuel => exact absurd hpf (parseFor_fuel sp _)
          | ok f =>
            obtain ⟨fb, e4⟩ := f
            dsimp only
            have heff : LineEffect sp e2 e4 := by
              rcases parseFor_effect sp _ e4 fb hpf with ⟨h1, h2⟩
                | ⟨ins2, input2, fs2, h1, h2, h3, h4, h5⟩
              · exact ⟨ins, inputR, hin, Or.inl ⟨by rw [h1, hsf.1], by rw [h2, hsf.2.2.1]⟩⟩
              · rw [hsf.1, hin] at h1
                obtain ⟨rfl, h6⟩ := List.append_inj' h1 rfl
                simp only [List.cons.injEq, and_true] at h6
                subst h6
                exact ⟨ins, inputR, hin, Or.inr (Or.inl ⟨fs2, h2, by rw [h3, hsf.2.2.1], h4, h5⟩)⟩
            split
            · exact stepResult_ok _ _ heff
            · refine stepResult_ok _ _ ?_
              obtain ⟨a, b, c, d⟩ := heff
              exact ⟨a, b, c, d⟩
    · refine ⟨_, fun inc => dispatchLine_of_endFor sp inc input e e2 hp, ?_⟩
      split
      · exact Or.inr (Or.inl hs)
      · split
        · exact Or.inl rfl
        · exact Or.inr (Or.inl (by rw [hsf.2.2.2, hs]))
    · refine ⟨_, fun inc => dispatchLine_of_endFor sp inc input e e2 hp, ?_⟩
      rw [hin] at hins1
      obtain ⟨rfl, h6⟩ := List.append_inj' hins1 rfl
      simp only [List.cons.injEq, and_true] at h6
      subst h6
      have heff : LineEffect sp e e2 := by
        rcases hv with ⟨k1, k2, k3, k4⟩ | ⟨k1, k2⟩
        · exact ⟨ins, inputR, hin, Or.inr (Or.inr (Or.inl ⟨fss, fs, hfss, k1, k2, k3, k4⟩))⟩
        · exact ⟨ins, inputR, hin, Or.inr (Or.inr (Or.inr ⟨fss, fs, hfss, k1, k2⟩))⟩
      have heff2 : LineEffect sp e (substituteLine sp e2).2 := by
        obtain ⟨a, b, c, d⟩ := heff
        refine ⟨a, b, c, ?_⟩
        rw [hsf.1, hsf.2.2.1]
        exact d
      split
      · exact stepResult_ok _ _ heff
      · split
        · exact Or.inl rfl
        · exact stepResult_ok _ _ heff2

theorem fileLines_line (l rest : Str) (hl : '\n' ∉ l) :
    fileLines (l ++ '\n' :: rest) = l :: fileLines rest := by
  induction l with
  | nil => simp [fileLines]
  | cons c cs ih =>
    have hc : c ≠ '\n' := fun e => hl (by simp [e])
    have hcs : '\n' ∉ cs := fun e => hl (by simp [e])
    simp [fileLines, hc, ih hcs]

theorem fileLines_joinLines_append :
    ∀ (pre : List Str) (rest : Str), (∀ l ∈ pre, '\n' ∉ l) →
      fileLines (joinLines pre ++ rest) = pre ++ fileLines rest
  | [], rest, _ => by simp [joinLines]
  | l :: ls, rest, h => by
    have hl := h l (by simp)
    have ih := fileLines_joinLines_append ls rest (fun x hx => h x (by simp [hx]))
    simp only [joinLines, List.append_assoc, List.cons_append]
    rw [fileLines_line l _ hl, ih]

theorem fileLines_last (l : Str) (hl : '\n' ∉ l) (hne : l ≠ []) : fileLines l = [l] := by
  induction l with
  | nil => exact absurd rfl hne
  | cons c cs ih =>
    have hc : c ≠ '\n' := fun e => hl (by simp [e])
    have hcs : '\n' ∉ cs := fun e => hl (by simp [e])
    cases cs with
    | nil => simp [fileLines, hc]
    | cons d ds =>
      have := ih hcs (by simp)
      simp only [fileLines, hc, if_false] at this ⊢
      rw [this]

/-- What `std::getline` extracts: a line without a newline, which the newline follows or
which ends the bytes. -/
theorem splitLine_spec : ∀ (rest : Str),
    '\n' ∉ (splitLine rest).1
      ∧ (((splitLine rest).2.2 = false
            ∧ (∃ tail, rest = (splitLine rest).1 ++ '\n' :: tail)
            ∧ (splitLine rest).2.1 = (splitLine rest).1.length + 1)
        ∨ ((splitLine rest).2.2 = true ∧ rest = (splitLine rest).1
            ∧ (splitLine rest).2.1 = (splitLine rest).1.length))
  | [] => by simp [splitLine]
  | c :: cs => by
    by_cases hc : c = '\n'
    · subst hc
      simp [splitLine]
    · obtain ⟨h1, h2⟩ := splitLine_spec cs
      simp only [splitLine, hc, if_false]
      refine ⟨by simp [h1, Ne.symm hc], ?_⟩
      rcases h2 with ⟨a, ⟨tail, b⟩, c1⟩ | ⟨a, b, c1⟩
      · refine Or.inl ⟨a, ⟨tail, ?_⟩, by simp [c1]⟩
        simp only [List.cons_append]
        rw [← b]
      · refine Or.inr ⟨a, ?_, by simp [c1]⟩
        rw [← b]

theorem joinLines_snoc (pre : List Str) (l : Str) :
    joinLines (pre ++ [l]) = joinLines pre ++ l ++ ['\n'] := by
  induction pre with
  | nil => simp [joinLines]
  | cons x xs ih => simp [joinLines, ih]

/-- The line read at the start of a line of the file is one of its lines, and the stream
is then at the start of the next line or at the end of the file. -/
theorem atLine_next (content : Str) (pos : Nat) (h : AtLine content pos)
    (hlt : pos < content.length) :
    (splitLine (content.drop pos)).1 ∈ fileLines content
      ∧ 1 ≤ (splitLine (content.drop pos)).2.1
      ∧ pos + (splitLine (content.drop pos)).2.1 ≤ content.length
      ∧ ((splitLine (content.drop pos)).2.2 = false
          → AtLine content (pos + (splitLine (content.drop pos)).2.1)) := by
  obtain ⟨hle, pre, hpre, htake⟩ := h
  have hc : content = joinLines pre ++ content.drop pos := by
    rw [← htake, List.take_append_drop]
  have hlen : (joinLines pre).length = pos := by
    rw [← htake, List.length_take]; omega
  have hdl : (content.drop pos).length = content.length - pos := List.length_drop _ _
  obtain ⟨h1, h2⟩ := splitLine_spec (content.drop pos)
  revert h1 h2 hdl hc
  generalize content.drop pos = rest
  intro hc hdl h1 h2
  rcases h2 with ⟨a, ⟨tail, b⟩, c1⟩ | ⟨a, b, c1⟩
  · have hmem : (splitLine rest).1 ∈ fileLines content := by
      have hf : fileLines rest = (splitLine rest).1 :: fileLines tail := by
        conv_lhs => rw [b]
        exact fileLines_line _ _ h1
      rw [hc, fileLines_joinLines_append pre rest hpre, hf]
      simp
    have hrl : rest.length = (splitLine rest).1.length + 1 + tail.length := by
      have := congrArg List.length b
      simp only [List.length_append, List.length_cons] at this
      omega
    refine ⟨hmem, by omega, by omega, fun _ => ⟨by omega, pre ++ [(splitLine rest).1], ?_, ?_⟩⟩
    · intro l hl
      rcases List.mem_append.mp hl with h | h
      · exact hpre l h
      · simp only [List.mem_singleton] at h
        rw [h]; exact h1
    · rw [joinLines_snoc, c1]
      have hc2 : content = (joinLines pre ++ (splitLine rest).1 ++ ['\n']) ++ tail := by
        rw [hc]
        nth_rewrite 1 [b]
        simp
      nth_rewrite 1 [hc2]
      apply List.take_left'
      simp only [List.length_append, List.length_singleton, hlen]
      omega
  · have hne : (splitLine rest).1 ≠ [] := by
      intro e
      rw [e] at b
      rw [b] at hdl
      simp at hdl
      omega
    have hmem : (splitLine rest).1 ∈ fileLines content := by
      have hf : fileLines rest = [(splitLine rest).1] := by
        conv_lhs => rw [b]
        exact fileLines_last _ h1 hne
      rw [hc, fileLines_joinLines_append pre rest hpre, hf]
      simp
    have hrl : rest.length = (splitLine rest).1.length := by
      exact congrArg List.length b
    have hpos : 0 < (splitLine rest).1.length := List.length_pos.mpr hne
    refine ⟨hmem, by omega, by omega, fun hf => ?_⟩
    rw [a] at hf
    cases hf

theorem stepResult_mono {P Q : Env → Prop} (h : ∀ e, P e → Q e) :
    ∀ {r : Res (Bool × Env)}, StepResult P r → StepResult Q r
  | .crash, _ => trivial
  | .outOfFuel, hr => hr
  | .ok _, hr => by
    rcases hr with h1 | h1 | ⟨h1, h2, h3⟩
    · exact Or.inl h1
    · exact Or.inr (Or.inl h1)
    · exact Or.inr (Or.inr ⟨h1, h2, h _ h3⟩)

theorem bytesLeft_of (e : Env) (ins : List Input) (x : Input) (h : e.inputs = ins ++ [x]) :
    bytesLeft e = if x.dead then 0 else x.content.length + 1 - x.pos := by
  simp [bytesLeft, h]

/-- The state after a successful line that includes nothing, read from the start of a line
of the file. -/
theorem nextState_of_effect (sp : ShaderPreprocessor) (content : Str) (ins : List Input)
    (env envR e1 : Env) (input inputR : Input) (k : Nat) (hitEnd : Bool)
    (hin : env.inputs = ins ++ [input]) (hcont : input.content = content)
    (hgood : input.dead = false) (hlt : input.pos < content.length) (hk : 1 ≤ k)
    (hnext : hitEnd = false → AtLine content (input.pos + k))
    (hR : inputR = { input with
      pos := input.pos + k, eofbit := hitEnd, lineNumber := input.lineNumber + 1 })
    (hRin : envR.inputs = ins ++ [inputR]) (hRfor : envR.forStatements = env.forStatements)
    (h : LineEffect sp envR e1) : NextState sp content ins env e1 := by
  have hg : input.eofbit = false ∧ input.failbit = false := by
    simpa [Input.dead, Bool.or_eq_false_iff] using hgood
  have hRc : inputR.content = content := by rw [hR]; exact hcont
  have hRd : inputR.dead = hitEnd := by rw [hR]; simp [Input.dead, hg.2]
  have hRp : inputR.pos = input.pos + k := by rw [hR]
  have hRf : inputR.failbit = false := by rw [hR]; exact hg.2
  have hb : bytesLeft env = content.length + 1 - input.pos := by
    rw [bytesLeft_of env ins input hin, hgood, hcont]; rfl
  have hloaded : ∀ e, e.inputs = ins ++ [inputR] →
      Loaded content ins e ∧ bytesLeft e < bytesLeft env := by
    intro e he
    refine ⟨⟨inputR, he, hRc, fun hd => ?_⟩, ?_⟩
    · rw [hRp]; exact hnext (by rw [← hRd]; exact hd)
    · rw [bytesLeft_of e ins inputR he, hb, hRc, hRp]
      split <;> omega
  obtain ⟨ins1, input1, hins1, heff⟩ := h
  rw [hRin] at hins1
  obtain ⟨rfl, h6⟩ := List.append_inj' hins1 rfl
  simp only [List.cons.injEq, and_true] at h6
  subst h6
  rcases heff with ⟨h1, h2⟩ | ⟨fs, h1, h2, h3, h4⟩ | ⟨fss, fs, h1, h2, h3, h4, h5⟩
    | ⟨fss, fs, h1, h2, h3⟩
  · obtain ⟨a, b⟩ := hloaded e1 (by rw [h1, hRin])
    exact Or.inl ⟨a, b, Or.inl (by rw [h2, hRfor])⟩
  · cases hd : inputR.dead with
    | true =>
      have ht : tellg inputR = (-1, { inputR with failbit := true }) := by
        have : (inputR.eofbit || inputR.failbit) = true := hd
        simp [tellg, this]
      rw [ht] at h1 h3
      have hx : Input.dead { inputR with failbit := true } = true := by simp [Input.dead]
      refine Or.inl ⟨⟨_, h1, hRc, fun hf => ?_⟩, ?_, Or.inr (Or.inl ⟨fs, by rw [h2, hRfor], h4,
        ⟨_, h1, hRc, fun hf => ?_⟩⟩)⟩
      · rw [hx] at hf; cases hf
      · rw [bytesLeft_of e1 ins _ h1, hb, hx]
        simp only [if_true]
        omega
      · rw [hx] at hf; cases hf
    | false =>
      have ht : tellg inputR = ((inputR.pos : Int), inputR) := by
        have : (inputR.eofbit || inputR.failbit) = false := hd
        simp [tellg, this]
      rw [ht] at h1 h3
      obtain ⟨a, b⟩ := hloaded e1 h1
      exact Or.inl ⟨a, b, Or.inr (Or.inl ⟨fs, by rw [h2, hRfor], h4,
        ⟨inputR, h1, hRc, fun _ => h3.symm⟩⟩)⟩
  · refine Or.inr ⟨fss, fs, by rw [← hRfor, h1], h2, h3, h4, ⟨_, h5, ?_, ?_⟩⟩
    · show (seekg inputR fs.streamPos).content = content
      rw [seekg_content, hRc]
    · intro hd
      show ((seekg inputR fs.streamPos).pos : Int) = fs.streamPos
      have hd2 : (seekg inputR fs.streamPos).dead = false := hd
      unfold seekg at hd2 ⊢
      rw [if_neg (by simp [hRf])] at hd2 ⊢
      split at hd2
      · simp [Input.dead] at hd2
      · rename_i hp
        rw [if_neg hp]
        show ((fs.streamPos.toNat : Nat) : Int) = fs.streamPos
        exact Int.toNat_of_nonneg (by omega)
  · obtain ⟨a, b⟩ := hloaded e1 (by rw [h3, hRin])
    exact Or.inl ⟨a, b, Or.inr (Or.inr ⟨fs, by rw [← hRfor, h1, h2]⟩)⟩

/-- One line that is no include once it is trimmed and substituted, read from the start of
a line: what `parseLine` returns does not depend on `includeFile`; it ends the line loop,
or leaves the stream at a later line or back at the position recorded in the innermost
loop. -/
theorem parseLine_effect (sp : ShaderPreprocessor) (content : Str) (ins : List Input)
    (env : Env) (hfree : lineIncludeFree sp env = true) (hl : Loaded content ins env) :
    ∃ r, (∀ inc, parseLine sp inc env = r)
      ∧ StepResult (NextState sp content ins env) r := by
  obtain ⟨input, hin, hcont, hat⟩ := hl
  have hlast : env.inputs.getLast? = some input := by rw [hin]; simp
  cases hdead : input.dead with
  | true =>
    have hd : (input.eofbit || input.failbit) = true := hdead
    have hp : ∀ inc, parseLine sp inc env = .ok (false, { env with
        inputs := setBack env.inputs { input with failbit := true } }) := by
      intro inc
      simp [parseLine, hlast, getline, hd]
    exact ⟨_, hp, Or.inl rfl⟩
  | false =>
    have hd : (input.eofbit || input.failbit) = false := hdead
    by_cases hle : input.content.length ≤ input.pos
    · have hp : ∀ inc, parseLine sp inc env = .ok (false, { env with
          line := [],
          inputs := setBack env.inputs { input with eofbit := true, failbit := true } }) := by
        intro inc
        simp [parseLine, hlast, getline, hd, hle]
      exact ⟨_, hp, Or.inl rfl⟩
    · have hlt : input.pos < content.length := by rw [← hcont]; omega
      obtain ⟨hmem, hk, _, hnext⟩ := atLine_next content input.pos (hat hdead) hlt
      rw [← hcont] at hmem hk hnext
      obtain ⟨l, hl⟩ : ∃ l, l = (splitLine (input.content.drop input.pos)).1 := ⟨_, rfl⟩
      obtain ⟨k, hkk⟩ : ∃ k, k = (splitLine (input.content.drop input.pos)).2.1 := ⟨_, rfl⟩
      obtain ⟨hitEnd, hh⟩ : ∃ b, b = (splitLine (input.content.drop input.pos)).2.2 :=
        ⟨_, rfl⟩
      rw [← hl] at hmem
      rw [← hkk] at hk
      rw [← hkk, ← hh] at hnext
      have hg : getline input env.line
          = (true, l, { input with pos := input.pos + k, eofbit := hitEnd }) := by
        simp [getline, hd, hle, hl, hkk, hh]
      let envR : Env := env.afterRead { input with pos := input.pos + k, eofbit := hitEnd } l
      have hRin : envR.inputs = ins ++ [{ input with
          pos := input.pos + k, eofbit := hitEnd, lineNumber := input.lineNumber + 1 }] := by
        simp [envR, Env.afterRead, hin, setBack]
      have hfreeR : includeString.isPrefixOf (substituteLine sp envR).2.line = false := by
        simpa [lineIncludeFree, substitutedLine, hlast, hg, envR] using hfree
      obtain ⟨r, hr, hres⟩ := dispatchLine_effect sp input envR ins _ hRin hfreeR
      refine ⟨r, fun inc => ?_, stepResult_mono (fun e1 he1 => ?_) hres⟩
      · rw [← hr inc]
        simp [parseLine, hlast, hg, envR]
      · exact nextState_of_effect sp content ins env envR e1 input _ k hitEnd hin hcont hdead
          hlt hk (by rw [← hcont]; exact hnext) rfl hRin rfl he1

theorem includeFreeRun_step {sp : ShaderPreprocessor} {e e1 : Env}
    (h : ∀ inc, parseLine sp inc e = .ok (true, e1)) (hs : e1.success = true)
    (hc : IncludeFreeRun sp e) : IncludeFreeRun sp e1 := by
  intro n e2 h2
  apply hc (n + 1) e2
  simp only [stateAfter, h noInclude, hs, Bool.and_self, if_true]
  exact h2

theorem line_step (sp : ShaderPreprocessor) (path content : Str) (ins : List Input)
    (env : Env) (hfree : IncludeFreeRun sp env) (hl : Loaded content ins env) :
    Stops sp path env
      ∨ ∃ e1, Reaches sp path env e1 ∧ NextState sp content ins env e1
          ∧ IncludeFreeRun sp e1 := by
  obtain ⟨r, hr, hres⟩ := parseLine_effect sp content ins env (hfree 0 env rfl) hl
  cases r with
  | crash => exact Or.inl (stops_now _ hr (Or.inl rfl))
  | outOfFuel => exact absurd hres (by simp [StepResult])
  | ok x =>
    obtain ⟨b, e1⟩ := x
    rcases hres with h1 | h1 | ⟨h1, h2, h3⟩
    · exact Or.inl (stops_now _ hr (Or.inr ⟨b, e1, rfl, Or.inl h1⟩))
    · exact Or.inl (stops_now _ hr (Or.inr ⟨b, e1, rfl, Or.inr h1⟩))
    · have hb : b = true := h1
      subst hb
      exact Or.inr ⟨e1, reaches_step hr h2, h3, includeFreeRun_step hr h2 hfree⟩

theorem stops_of_dead (sp : ShaderPreprocessor) (path : Str) (ins : List Input) (e : Env)
    (x : Input) (hin : e.inputs = ins ++ [x]) (hd : x.dead = true) : Stops sp path e := by
  have hlast : e.inputs.getLast? = some x := by rw [hin]; simp
  have hd2 : (x.eofbit || x.failbit) = true := hd
  have hp : ∀ inc, parseLine sp inc e = .ok (false, { e with
      inputs := setBack e.inputs { x with failbit := true } }) := by
    intro inc
    simp [parseLine, hlast, getline, hd2]
  exact stops_now _ hp (Or.inr ⟨_, _, rfl, Or.inl rfl⟩)

/-- An open loop whose body starts at the line at `p` is closed after at most as many
passes as it has keys left, once every run from a later position gets to its `#endfor`. -/
theorem loop_closes (sp : ShaderPreprocessor) (path content : Str) (ins : List Input)
    (p m : Nat) (hp : AtLine content p) (hm : content.length + 1 - p ≤ m)
    (hq : ∀ env, IncludeFreeRun sp env → Loaded content ins env → bytesLeft env ≤ m →
      LoopExit sp path content ins env) :
    ∀ (r : Nat) (env : Env) (fss : List ForStatement) (fs : ForStatement),
      IncludeFreeRun sp env →
      env.forStatements = fss ++ [fs] → keysLeft sp fs ≤ r → -1 ≤ fs.keyIndex →
      fs.streamPos = (p : Int) → Rewound content ins fs env →
      Stops sp path env
        ∨ ∃ e1, Reaches sp path env e1 ∧ IncludeFreeRun sp e1 ∧ Loaded content ins e1
            ∧ bytesLeft e1 < content.length + 1 - p ∧ e1.forStatements = fss := by
  intro r
  induction r using Nat.strong_induction_on with
  | _ r ih =>
    intro env fss fs hclean hfs hr hk hsp hrew
    obtain ⟨input, hin, hcont, hpos⟩ := hrew
    have hload : Loaded content ins env := by
      refine ⟨input, hin, hcont, fun hd => ?_⟩
      have := hpos hd
      rw [hsp] at this
      have h2 : input.pos = p := by exact_mod_cast this
      rw [h2]; exact hp
    have hb : bytesLeft env ≤ content.length + 1 - p := by
      rw [bytesLeft_of env ins input hin]
      split
      · omega
      · rename_i hd
        have := hpos (by simpa using hd)
        rw [hsp] at this
        have h2 : input.pos = p := by exact_mod_cast this
        rw [h2, hcont]
    rcases hq env hclean hload (by omega) with hs | ⟨e1, fss1, fs1, hf1, hreach, hc1, hcase⟩
    · exact Or.inl hs
    · rw [hfs] at hf1
      obtain ⟨rfl, h6⟩ := List.append_inj' hf1 rfl
      simp only [List.cons.injEq, and_true] at h6
      subst h6
      rcases hcase with ⟨hl1, hb1, hf2⟩ | ⟨k1, k2, hf2, hrew2⟩
      · exact Or.inr ⟨e1, hreach, hc1, hl1, by omega, hf2⟩
      · have hkl : keysLeft sp { fs with keyIndex := fs.keyIndex + 1 } < r := by
          simp only [keysLeft] at hr ⊢
          omega
        rcases ih _ hkl e1 fss { fs with keyIndex := fs.keyIndex + 1 } hc1 hf2 (le_refl _)
          (by show -1 ≤ fs.keyIndex + 1; omega) hsp hrew2
          with hs | ⟨e2, hr2, hc2, hl2, hb2, hf3⟩
        · exact Or.inl (stops_of_reaches hreach hs)
        · exact Or.inr ⟨e2, reaches_trans hreach hr2, hc2, hl2, hb2, hf3⟩

/-- A run in which no line is an include returns or gets to the `#endfor` of the innermost
loop that was open at its start. -/
theorem run_exits (sp : ShaderPreprocessor) (path content : Str) :
    ∀ (m : Nat) (ins : List Input) (env : Env), IncludeFreeRun sp env →
      Loaded content ins env → bytesLeft env ≤ m → LoopExit sp path content ins env := by
  intro m
  induction m using Nat.strong_induction_on with
  | _ m ih =>
    intro ins env hclean hl hm
    -- a later state with the same loops open
    have hlater : ∀ e1, Reaches sp path env e1 → IncludeFreeRun sp e1 →
        Loaded content ins e1 →
        bytesLeft e1 < bytesLeft env → e1.forStatements = env.forStatements →
        LoopExit sp path content ins env := by
      intro e1 hreach hc1 hl1 hb1 hsame
      rcases ih (bytesLeft e1) (by omega) ins e1 hc1 hl1 (le_refl _) with hs
        | ⟨e2, fss, fs, hf, hr2, hc2, hcase⟩
      · exact Or.inl (stops_of_reaches hreach hs)
      · refine Or.inr ⟨e2, fss, fs, by rw [← hsame, hf], reaches_trans hreach hr2, hc2, ?_⟩
        rcases hcase with ⟨a, b, c⟩ | h
        · exact Or.inl ⟨a, by omega, c⟩
        · exact Or.inr h
    rcases line_step sp path content ins env hclean hl with hs | ⟨e1, hreach, hnext, hc1⟩
    · exact Or.inl hs
    · rcases hnext with ⟨hl1, hb1, hcase⟩ | ⟨fss, fs, h1, h2, h3, h4, h5⟩
      · rcases hcase with hsame | ⟨fs, hpush, hk, hrew⟩ | ⟨fs, hpop⟩
        · exact hlater e1 hreach hc1 hl1 hb1 hsame
        · obtain ⟨input1, hin1, hcont1, hpos1⟩ := hrew
          cases hd : input1.dead with
          | true => exact Or.inl (stops_of_reaches hreach
              (stops_of_dead sp path ins e1 input1 hin1 hd))
          | false =>
            obtain ⟨input2, hin2, _, hat2⟩ := hl1
            rw [hin1] at hin2
            obtain ⟨_, h6⟩ := List.append_inj' hin2 rfl
            simp only [List.cons.injEq, and_true] at h6
            subst h6
            have hb : bytesLeft e1 = content.length + 1 - input1.pos := by
              rw [bytesLeft_of e1 ins input1 hin1, hd, hcont1]; rfl
            rcases loop_closes sp path content ins input1.pos (bytesLeft e1) (hat2 hd)
              (by omega)
              (fun env2 hc2 hl2 hb2 => ih (bytesLeft e1) (by omega) ins env2 hc2 hl2 hb2)
              (keysLeft sp fs) e1 env.forStatements fs hc1 hpush (le_refl _) hk
              (hpos1 hd).symm ⟨input1, hin1, hcont1, hpos1⟩
              with hs | ⟨e2, hr2, hc2, hl2, hb2, hf2⟩
            · exact Or.inl (stops_of_reaches hreach hs)
            · exact hlater e2 (reaches_trans hreach hr2) hc2 hl2 (by omega) hf2
        · exact Or.inr ⟨e1, e1.forStatements, fs, hpop, hreach, hc1,
            Or.inl ⟨hl1, hb1, rfl⟩⟩
      · exact Or.inr ⟨e1, fss, fs, h1, hreach, hc1, Or.inr ⟨h2, h3, h4, h5⟩⟩

theorem env_line_self (e : Env) (l : Str) (h : e.line = l) : { e with line := l } = e := by
  subst h; rfl

/-- In the demo whose dictionary holds an include directive for the root file, every call
of `includeFile` for the root file runs out of fuel: the file includes itself. -/
theorem selfInclude_outOfFuel :
    ∀ (fuel : Nat) (env : Env), env.aliases "x".toList = none → env.forStatements = [] →
      includeFile demoSelfIncludePreprocessor fuel "/s/root.glsl".toList env = .outOfFuel := by
  intro fuel
  induction fuel with
  | zero => intro env _ _; rfl
  | succ F ih =>
    intro env hal hfor
    have hopen : demoSelfIncludePreprocessor.fs.openStream "/s/root.glsl".toList
        = some "#\x7bx\x7d\n".toList := by decide
    rw [includeFile_unfold _ F _ _ env hopen]
    suffices h : parseLines demoSelfIncludePreprocessor
        (parseLine demoSelfIncludePreprocessor (includeFile demoSelfIncludePreprocessor F))
        "/s/root.glsl".toList F
        (env.enter demoSelfIncludePreprocessor "/s/root.glsl".toList "#\x7bx\x7d\n".toList)
        = .outOfFuel by rw [h]
    cases F with
    | zero => rfl
    | succ f =>
      obtain ⟨input, hinput⟩ : ∃ i : Input, i = {
          path := "/s/root.glsl".toList, content := "#\x7bx\x7d\n".toList, pos := 0,
          eofbit := false, failbit := false,
          indentation := (match env.inputs.getLast? with
            | some parent => parent.indentation
            | none => []) ++ env.indentation,
          lineNumber := demoSelfIncludePreprocessor.initialLineNumber } := ⟨_, rfl⟩
      obtain ⟨e1, he1⟩ : ∃ e, e = env.enter demoSelfIncludePreprocessor
        "/s/root.glsl".toList "#\x7bx\x7d\n".toList := ⟨_, rfl⟩
      rw [← he1]
      have hin : e1.inputs = env.inputs ++ [input] := by rw [he1, hinput]; rfl
      have hat : input.At ("#\x7bx\x7d".toList ++ '\n' :: []) := by
        rw [hinput]; exact ⟨rfl, rfl, Nat.zero_le _, rfl⟩
      have hread := parseLine_read demoSelfIncludePreprocessor
        (includeFile demoSelfIncludePreprocessor (f + 1)) e1 env.inputs input _ _ hin hat
        (by decide)
      obtain ⟨envR, hR⟩ : ∃ e, e = e1.afterRead
        { input with pos := input.pos + "#\x7bx\x7d".toList.length + 1 } "#\x7bx\x7d".toList :=
        ⟨_, rfl⟩
      rw [← hR] at hread
      have hline : envR.line = "#\x7bx\x7d".toList := by rw [hR]; rfl
      have hRal : envR.aliases = env.aliases := by rw [hR, he1]; rfl
      have hRfor : envR.forStatements = [] := by rw [hR, he1]; exact hfor
      have hRin : envR.inputs.getLast?
          = some { input with pos := input.pos + "#\x7bx\x7d".toList.length + 1,
                              lineNumber := input.lineNumber + 1 } := by
        rw [hR]; simp [Env.afterRead, hin, setBack]
      have hend : endForString.isPrefixOf envR.line = false := by rw [hline]; decide
      have hemp : isInsideEmptyForStatement envR = false := by
        simp [isInsideEmptyForStatement, hRfor]
      have hres : resolveAlias demoSelfIncludePreprocessor "x".toList envR
          = (true, "x".toList) := by
        have h0 : strFind ".".toList "x".toList = none := by decide
        have h1 : demoSelfIncludePreprocessor.dictionary.hasKey "x".toList = true := by decide
        simp only [resolveAlias, h0, hRal, hal, List.append_nil, h1, Bool.or_true]
      have hsub : (substitute demoSelfIncludePreprocessor "x".toList envR).2.1
          = includeLine "root.glsl".toList := by
        rw [substitute_out, hres]
        decide
      have hstep := substituteLine_step demoSelfIncludePreprocessor envR [] "x".toList []
        (by decide) (by decide)
      have hnil : substituteLine demoSelfIncludePreprocessor { envR with line := [] }
          = (true, { envR with line := [] }) :=
        substituteLine_none _ _ (by show strFind openString [] = none; decide)
      have hself : ({ envR with line := [] ++ openString ++ "x".toList ++ [rbrace] ++ [] } : Env)
          = envR := env_line_self envR _ (by rw [hline]; decide)
      rw [hself, hnil] at hstep
      obtain ⟨hs1, hs2⟩ := hstep
      have hs2 := hs2 rfl
      rw [hsub] at hs2
      simp only [List.nil_append, List.append_nil] at hs2
      have hsf := substituteLine_frame demoSelfIncludePreprocessor envR
      have hss := substituteLine_stacks demoSelfIncludePreprocessor envR
      have hq0 : ∀ i : Input, i.path = "/s/root.glsl".toList →
          resolveQuoted demoSelfIncludePreprocessor i "root.glsl".toList
            = some "/s/root.glsl".toList := by
        intro i hi
        unfold resolveQuoted
        rw [hi]
        decide
      have hq := hq0 { input with pos := input.pos + "#\x7bx\x7d".toList.length + 1,
                                  lineNumber := input.lineNumber + 1 } (by rw [hinput])
      have hpi := parseInclude_quoted demoSelfIncludePreprocessor
        (includeFile demoSelfIncludePreprocessor (f + 1))
        (substituteLine demoSelfIncludePreprocessor envR).2 _ "root.glsl".toList
        (by rw [hs2]; rfl) (by decide) (by decide) (by rw [hsf.1]; exact hRin)
      rw [hq] at hpi
      dsimp only at hpi
      rw [ih _ (by rw [hss.2.1, hRal]; exact hal) (by rw [hss.2.2, hRfor])] at hpi
      have hdisp : dispatchLine demoSelfIncludePreprocessor
          (includeFile demoSelfIncludePreprocessor (f + 1)) input envR = .outOfFuel := by
        unfold dispatchLine
        rw [parseEndFor_not _ envR hend]
        simp [hemp, hs1, hpi, consumed]
      rw [hdisp] at hread
      simp [parseLines, hread]

theorem addLineNumber_fuel (sp : ShaderPreprocessor) (e : Env) :
    addLineNumber sp e ≠ .outOfFuel := by
  unfold addLineNumber
  split <;> simp

/-- `includeFile` returns when the line loop of the file returns. -/
theorem includeFile_returns (sp : ShaderPreprocessor) (fuel : Nat) (path content : Str)
    (env : Env) (hopen : sp.fs.openStream path = some content)
    (h : parseLines sp (parseLine sp (includeFile sp fuel)) path fuel
      (env.enter sp path content) ≠ .outOfFuel) :
    includeFile sp (fuel + 1) path env ≠ .outOfFuel := by
  rw [includeFile_unfold sp fuel path content env hopen]
  cases hr : parseLines sp (parseLine sp (includeFile sp fuel)) path fuel
      (env.enter sp path content) with
  | crash => simp
  | outOfFuel => exact absurd hr h
  | ok r =>
    dsimp only
    split
    · simp
    · split
      · split
        · split <;> simp
        · split
          · split
            · simp
            · simp
            · rename_i heq
              exact absurd heq (addLineNumber_fuel sp _)
          · simp
      · split
        · split
          · simp
          · simp
          · rename_i heq
            exact absurd heq (addLineNumber_fuel sp _)
        · simp

/-- Once the run has ended it stays ended. -/
theorem stateAfter_none (sp : ShaderPreprocessor) :
    ∀ (k : Nat) (e : Env), stateAfter sp k e = none → ∀ n, k ≤ n → stateAfter sp n e = none := by
  intro k
  induction k with
  | zero => intro e h; simp [stateAfter] at h
  | succ k ih =>
    intro e h n hn
    obtain ⟨m, rfl⟩ : ∃ m, n = m + 1 := ⟨n - 1, by omega⟩
    simp only [stateAfter] at h ⊢
    cases hp : parseLine sp noInclude e with
    | crash => rfl
    | outOfFuel => rfl
    | ok r =>
      rw [hp] at h
      dsimp only at h ⊢
      split
      · rename_i hc
        rw [if_pos hc] at h
        exact ih r.2 h m (by omega)
      · rfl

/-- A run that has ended after `k` lines is free of includes when the lines read in its
first `k` states are. -/
theorem includeFreeRun_of_check (sp : ShaderPreprocessor) (e0 : Env) (k : Nat)
    (h1 : ∀ n, n < k → (match stateAfter sp n e0 with
      | some e => lineIncludeFree sp e
      | none => true) = true)
    (h2 : (stateAfter sp k e0).isNone = true) : IncludeFreeRun sp e0 := by
  intro n e h
  by_cases hn : n < k
  · have := h1 n hn
    rw [h] at this
    exact this
  · have hnone := stateAfter_none sp k e0 (by simpa using h2) n (by omega)
    rw [hnone] at h
    cases h

/-- The loop `parseFor` opens starts at key index 0, or at -1 when the dictionary has no
keys. -/
theorem parseFor_index (sp : ShaderPreprocessor) (e e1 : Env) (b : Bool)
    (h : parseFor sp e = .ok (b, e1)) :
    e1.forStatements = e.forStatements
      ∨ ∃ fs, e1.forStatements = e.forStatements ++ [fs]
          ∧ ((fs.keyIndex = 0 ∧ 0 < (sp.dictionary.valueKeys fs.dictionaryRef).length)
            ∨ (fs.keyIndex = -1 ∧ (sp.dictionary.valueKeys fs.dictionaryRef).length = 0)) := by
  unfold parseFor at h
  cases ht : tokenizeFor e.line with
  | none => rw [ht] at h; cases h
  | some t =>
    rw [ht] at h
    cases t with
    | notFor =>
      simp only [Res.ok.injEq, Prod.mk.injEq] at h
      obtain ⟨_, rfl⟩ := h
      exact Or.inl rfl
    | expectedIn =>
      simp only [Res.ok.injEq, Prod.mk.injEq] at h
      obtain ⟨_, rfl⟩ := h
      exact Or.inl rfl
    | tokens k v d =>
      dsimp only at h
      split at h
      · simp only [Res.ok.injEq, Prod.mk.injEq] at h
        obtain ⟨_, rfl⟩ := h
        exact Or.inl rfl
      · cases hl : e.inputs.getLast? with
        | none => rw [hl] at h; cases h
        | some input =>
          rw [hl] at h
          simp only [Res.ok.injEq, Prod.mk.injEq] at h
          obtain ⟨rfl, rfl⟩ := h
          refine Or.inr ⟨_, rfl, ?_⟩
          dsimp only
          by_cases hk : (sp.dictionary.valueKeys (resolveAlias sp d e).2).length > 0
          · exact Or.inl ⟨by simp [hk], hk⟩
          · exact Or.inr ⟨by simp [hk], by omega⟩

/-- When no line of the run is an include `process` returns, given enough fuel. -/
theorem process_returns (sp : ShaderPreprocessor) (tracked : List Str)
    (hfree : ∀ content, sp.fs.openStream (sp.fs.absPath sp.shaderPath) = some content →
      IncludeFreeRun sp ((clearTrackedPaths (Env.initial tracked)).enter sp
        (sp.fs.absPath sp.shaderPath) content)) :
    ∃ n, ∀ fuel, n ≤ fuel → process sp tracked fuel ≠ .outOfFuel := by
  have hproc : ∀ fuel, includeFile sp fuel (sp.fs.absPath sp.shaderPath)
      (clearTrackedPaths (Env.initial tracked)) ≠ .outOfFuel →
      process sp tracked fuel ≠ .outOfFuel := by
    intro fuel h
    unfold process processEnv
    cases hi : includeFile sp fuel (sp.fs.absPath sp.shaderPath)
        (clearTrackedPaths (Env.initial tracked)) with
    | crash => simp
    | outOfFuel => exact absurd hi h
    | ok r => simp
  cases hopen : sp.fs.openStream (sp.fs.absPath sp.shaderPath) with
  | none =>
    refine ⟨1, fun fuel hf => hproc fuel ?_⟩
    obtain ⟨f, rfl⟩ : ∃ f, fuel = f + 1 := ⟨fuel - 1, by omega⟩
    simp [includeFile, trackPath_eq, hopen]
  | some content =>
    have hl : Loaded content [] ((clearTrackedPaths (Env.initial tracked)).enter sp
        (sp.fs.absPath sp.shaderPath) content) :=
      ⟨_, rfl, rfl, fun _ => ⟨Nat.zero_le _, [], by simp, by simp [joinLines]⟩⟩
    rcases run_exits sp (sp.fs.absPath sp.shaderPath) content _ [] _ (hfree content hopen) hl
      (le_refl _) with hs | ⟨e1, fss, fs, hf, _⟩
    · obtain ⟨n, hn⟩ := hs
      refine ⟨n + 1, fun fuel hf => hproc fuel ?_⟩
      obtain ⟨f, rfl⟩ : ∃ f, fuel = f + 1 := ⟨fuel - 1, by omega⟩
      exact includeFile_returns sp f _ content _ hopen (hn _ f (by omega))
    · exfalso
      have : ([] : List ForStatement) = fss ++ [fs] := hf
      simp at this

/-! ## Loops in general: any variable names, any body -/

theorem seekg_same (inputB inputD : Input)
    (hB : inputB.eofbit = false ∧ inputB.failbit = false) (hs : inputB.SameFile inputD)
    (hD : inputD.failbit = false) :
    { seekg inputD (inputB.pos : Int) with lineNumber := inputB.lineNumber } = inputB := by
  obtain ⟨p, c, i⟩ := hs
  have hp : ¬ ((inputB.pos : Int) < 0) := by omega
  simp only [seekg, hD, Bool.false_eq_true, if_false, hp, Int.toNat_ofNat]
  cases inputB
  cases inputD
  simp_all

theorem Input.SameFile.self (i : Input) : i.SameFile i := ⟨rfl, rfl, rfl⟩

theorem Input.SameFile.next {a b c : Input} (h1 : a.SameFile b) (h2 : b.SameFile c) :
    a.SameFile c :=
  ⟨h2.path.trans h1.path, h2.content.trans h1.content, h2.indentation.trans h1.indentation⟩

theorem Input.Moved.sameFile {a b : Input} {n k : Nat} (h : a.Moved b n k) : a.SameFile b :=
  ⟨h.path, h.content, h.indentation⟩

/-- `parseFor` on a `#for` line whose resolved reference has a first key. -/
theorem parseFor_push (sp : ShaderPreprocessor) (env : Env) (ins : List Input)
    (input : Input) (kn vn name ref key0 : Str) (keys : List Str)
    (htok : tokenizeFor env.line = some (.tokens kn vn name))
    (hin : env.inputs = ins ++ [input])
    (hat : input.eofbit = false ∧ input.failbit = false)
    (hres : resolveAlias sp name env = (true, ref))
    (hkeys : sp.dictionary.valueKeys ref = key0 :: keys) :
    parseFor sp env = .ok (true, { env with
      output := env.output ++ openMarker ref ++ keyMarker ref key0,
      aliases := (pushScopeLoop (endForTable (forStatementAt ins input kn vn ref 0) key0) []
        env.aliases).2,
      scopes := env.scopes
        ++ [(pushScopeLoop (endForTable (forStatementAt ins input kn vn ref 0) key0) []
          env.aliases).1],
      forStatements := env.forStatements ++ [forStatementAt ins input kn vn ref 0] }) := by
  unfold parseFor
  rw [htok]
  simp only [hres, hkeys, hin, getLast?_snoc, List.head?_cons, Bool.not_true,
    Bool.false_eq_true, if_false, tellg_good input hat.1 hat.2]
  simp only [pushScope, setBack_snoc, length_snoc_sub_one, forStatementAt, List.length_cons,
    gt_iff_lt, Nat.zero_lt_succ, if_true, List.append_assoc, endForTable, openMarker,
    keyMarker]

/-- `parseFor` on a `#for` line whose resolved reference has no keys. -/
theorem parseFor_push_empty (sp : ShaderPreprocessor) (env : Env) (ins : List Input)
    (input : Input) (kn vn name ref : Str)
    (htok : tokenizeFor env.line = some (.tokens kn vn name))
    (hin : env.inputs = ins ++ [input])
    (hat : input.eofbit = false ∧ input.failbit = false)
    (hres : resolveAlias sp name env = (true, ref))
    (hkeys : sp.dictionary.valueKeys ref = []) :
    parseFor sp env = .ok (true, { env with
      output := env.output ++ emptyMarker,
      scopes := env.scopes ++ [[]],
      forStatements := env.forStatements ++ [forStatementAt ins input kn vn ref (-1)] }) := by
  simp only [parseFor, htok, hres, hkeys, hin, getLast?_snoc, List.head?_nil,
    List.length_nil, Nat.lt_irrefl, if_false, Bool.not_true, Bool.false_eq_true,
    tellg_good input hat.1 hat.2, pushScope, pushScopeLoop, setBack_snoc,
    length_snoc_sub_one, forStatementAt, gt_iff_lt, emptyMarker]

/-- `parseEndFor` when another key is left, for a loop with any variable names. -/
theorem parseEndFor_advance (sp : ShaderPreprocessor) (env : Env) (ins : List Input)
    (input : Input) (fss : List ForStatement) (fs : ForStatement)
    (base : List (List Str)) (scope : List Str) (al : Aliases) (key : Str)
    (hline : env.line = endForString) (hfs : env.forStatements = fss ++ [fs])
    (hin : env.inputs = ins ++ [input]) (hidx : fs.inputIndex = ins.length)
    (hsc : env.scopes = base ++ [scope])
    (hpop : popScopeLoop scope env.aliases = (true, al))
    (hk : 0 ≤ fs.keyIndex + 1
      ∧ (fs.keyIndex + 1).toNat < (sp.dictionary.valueKeys fs.dictionaryRef).length)
    (hkey : (sp.dictionary.valueKeys fs.dictionaryRef).getD (fs.keyIndex + 1).toNat [] = key) :
    parseEndFor sp env = .ok (true, { env with
      aliases := (pushScopeLoop (endForTable fs key) [] al).2,
      scopes := base ++ [(pushScopeLoop (endForTable fs key) [] al).1],
      output := env.output ++ keyMarker fs.dictionaryRef key,
      inputs := ins ++ [{ seekg input fs.streamPos with lineNumber := fs.lineNumber }],
      forStatements := fss ++ [{ fs with keyIndex := fs.keyIndex + 1 }] }) := by
  have h1 : env.line.length > 6 ∧ substr env.line 0 endForString.length = endForString := by
    rw [hline]; decide
  unfold parseEndFor
  rw [if_pos h1]
  simp only [hfs, getLast?_snoc, hin, length_snoc_sub_one, hidx, ne_eq, not_true_eq_false,
    if_false, popScope_of_loop env base scope al hsc hpop, if_true, hk, and_self, hkey,
    endForTable, pushScope, setBack_snoc, keyMarker, List.append_assoc]

/-- A `#for` line that `parseFor` accepts, whatever its variable names. -/
theorem dispatchLine_forLine (sp : ShaderPreprocessor) (inc : Str → Env → Res (Bool × Env))
    (input : Input) (env env1 : Env) (h3 : endForString.isPrefixOf env.line = false)
    (h4 : includeString.isPrefixOf env.line = false)
    (h5 : strFind openString env.line = none) (he : isInsideEmptyForStatement env = false)
    (hfor : parseFor sp env = .ok (true, env1)) :
    dispatchLine sp inc input env = .ok (true, env1) := by
  simp [dispatchLine, parseEndFor_not sp env h3, he, substituteLine_none sp env h5,
    parseInclude_not sp inc env h4, hfor]

/-- The scope pushed for a key of a loop is popped again by `popScopeLoop`. -/
theorem popScopeLoop_endForTable (fs : ForStatement) (key : Str) (al : Aliases)
    (hal : ∀ k st, al k = some st → st ≠ []) :
    popScopeLoop (pushScopeLoop (endForTable fs key) [] al).1
      (pushScopeLoop (endForTable fs key) [] al).2 = (true, al) := by
  have hm : IsMap (endForTable fs key) := isMap_assign2 _ _ _ _
  rw [pushScopeLoop_scope _ [] al hm (by simp)]
  simpa using popScopeLoop_push _ [] al hm hal

/-- After the scope of a key is pushed no name is bound to an empty stack. -/
theorem pushScopeLoop_nonempty (m : List (Str × Str)) (al : Aliases) (hm : IsMap m)
    (hal : ∀ k st, al k = some st → st ≠ []) :
    ∀ k st, (pushScopeLoop m [] al).2 k = some st → st ≠ [] := by
  intro k st h
  obtain ⟨h1, h2⟩ := pushScopeLoop_lookup m al hm k
  by_cases hk : k ∈ m.map Prod.fst
  · obtain ⟨v, hv⟩ := h1 hk
    rw [hv] at h
    simp only [Option.some.injEq] at h
    rw [← h]
    simp
  · rw [h2 hk] at h
    exact hal k st h

/-- Reading one line that a newline follows: the line is dispatched on, and the stream is
behind the newline. -/
theorem read_line (sp : ShaderPreprocessor) (ins : List Input) (env : Env) (input : Input)
    (l rest : Str) (hin : env.inputs = ins ++ [input]) (hat : input.At (l ++ '\n' :: rest))
    (hl : '\n' ∉ l) :
    (∀ inc, parseLine sp inc env = dispatchLine sp inc input
        (env.afterRead { input with pos := input.pos + l.length + 1 } l))
      ∧ (env.afterRead { input with pos := input.pos + l.length + 1 } l).inputs
          = ins ++ [input.advance l.length]
      ∧ (input.advance l.length).At rest ∧ input.SameFile (input.advance l.length) := by
  refine ⟨fun inc => parseLine_read sp inc env ins input l rest hin hat hl, ?_, ?_,
    ⟨rfl, rfl, rfl⟩⟩
  · simp [Env.afterRead, hin, Input.advance]
  · obtain ⟨a, b, c, d⟩ := (getline_line env.line hat hl).2
    exact ⟨a, b, c, d⟩

/-- A run of plain lines outside an empty loop, whatever `includeFile` is. -/
theorem reaches_plain (sp : ShaderPreprocessor) (path : Str) (ins : List Input) :
    ∀ (seg : List Str) (rest : Str) (env : Env) (input : Input),
      (∀ l ∈ seg, '\n' ∉ l ∧ isPlainLine l = true) →
      env.inputs = ins ++ [input] → input.At (joinLines seg ++ rest) →
      isInsideEmptyForStatement env = false → env.success = true →
      ∃ env1 input1, Reaches sp path env env1
        ∧ env1.output = env.output ++ renderLines input.indentation seg
        ∧ env1.inputs = ins ++ [input1] ∧ input1.At rest ∧ input.SameFile input1
        ∧ SameStacks env env1 ∧ env1.success = true := by
  intro seg
  induction seg with
  | nil =>
    intro rest env input _ hin hat _ hs
    exact ⟨env, input, reaches_refl sp path env, by simp [renderLines], hin,
      by simpa [joinLines] using hat, Input.SameFile.self input, sameStacks_refl env, hs⟩
  | cons l ls ih =>
    intro rest env input hseg hin hat hemp hsucc
    obtain ⟨hnl, hpl⟩ := hseg l (by simp)
    obtain ⟨hdir, hsub⟩ := isPlainLine_iff hpl
    have hat1 : input.At (l ++ '\n' :: (joinLines ls ++ rest)) := by
      simpa [joinLines] using hat
    obtain ⟨hread, hRin, hat2, hsame⟩ := read_line sp ins env input l _ hin hat1 hnl
    obtain ⟨envR, hR⟩ : ∃ e, e = env.afterRead { input with pos := input.pos + l.length + 1 } l :=
      ⟨_, rfl⟩
    rw [← hR] at hread hRin
    have hdisp : ∀ inc, dispatchLine sp inc input envR
        = .ok (true, { envR with output := envR.output ++ input.indentation
            ++ envR.indentation ++ envR.line ++ "\n".toList }) := fun inc =>
      dispatchLine_plain sp inc input envR
        (by rw [hR]; simpa [Env.afterRead, trim] using hdir)
        (by rw [hR]; simpa [Env.afterRead, trim] using hsub)
        (by rw [hR]; simpa [isInsideEmptyForStatement, Env.afterRead] using hemp)
    have hstep : Reaches sp path env { envR with output := envR.output ++ input.indentation
        ++ envR.indentation ++ envR.line ++ "\n".toList } :=
      reaches_step (fun inc => by rw [hread inc, hdisp inc])
        (by rw [hR]; simpa [Env.afterRead] using hsucc)
    obtain ⟨env1, input1, h1, h2, h3, h4, h5, h6, h7⟩ := ih rest
      { envR with output := envR.output ++ input.indentation
        ++ envR.indentation ++ envR.line ++ "\n".toList } (input.advance l.length)
      (fun x hx => hseg x (by simp [hx])) hRin hat2
      (by rw [hR]; simpa [isInsideEmptyForStatement, Env.afterRead] using hemp)
      (by rw [hR]; simpa [Env.afterRead] using hsucc)
    refine ⟨env1, input1, reaches_trans hstep h1, ?_, h3, h4, hsame.next h5, ?_, h7⟩
    · rw [h2, hR]
      simp [renderLines, renderLine, Env.afterRead, Input.advance, List.append_assoc]
    · refine sameStacks_trans (b := { envR with output := envR.output ++ input.indentation
        ++ envR.indentation ++ envR.line ++ "\n".toList }) ?_ h6
      rw [hR]
      exact ⟨rfl, rfl, rfl⟩

/-- A run of lines inside an empty loop, none of them an `#endfor`, whatever `includeFile`
is: nothing is written. -/
theorem reaches_skip (sp : ShaderPreprocessor) (path : Str) (ins : List Input) :
    ∀ (seg : List Str) (rest : Str) (env : Env) (input : Input),
      (∀ l ∈ seg, '\n' ∉ l ∧ endForString.isPrefixOf (trim l) = false) →
      env.inputs = ins ++ [input] → input.At (joinLines seg ++ rest) →
      isInsideEmptyForStatement env = true → env.success = true →
      ∃ env1 input1, Reaches sp path env env1
        ∧ env1.output = env.output
        ∧ env1.inputs = ins ++ [input1] ∧ input1.At rest ∧ input.SameFile input1
        ∧ SameStacks env env1 ∧ env1.success = true := by
  intro seg
  induction seg with
  | nil =>
    intro rest env input _ hin hat _ hs
    exact ⟨env, input, reaches_refl sp path env, rfl, hin,
      by simpa [joinLines] using hat, Input.SameFile.self input, sameStacks_refl env, hs⟩
  | cons l ls ih =>
    intro rest env input hseg hin hat hemp hsucc
    obtain ⟨hnl, hpl⟩ := hseg l (by simp)
    have hat1 : input.At (l ++ '\n' :: (joinLines ls ++ rest)) := by
      simpa [joinLines] using hat
    obtain ⟨hread, hRin, hat2, hsame⟩ := read_line sp ins env input l _ hin hat1 hnl
    obtain ⟨envR, hR⟩ : ∃ e, e = env.afterRead { input with pos := input.pos + l.length + 1 } l :=
      ⟨_, rfl⟩
    rw [← hR] at hread hRin
    have hdisp : ∀ inc, dispatchLine sp inc input envR = .ok (true, envR) := fun inc =>
      dispatchLine_skip sp inc input envR
        (by rw [hR]; simpa [Env.afterRead, trim] using hpl)
        (by rw [hR]; simpa [isInsideEmptyForStatement, Env.afterRead] using hemp)
    have hstep : Reaches sp path env envR :=
      reaches_step (fun inc => by rw [hread inc, hdisp inc])
        (by rw [hR]; simpa [Env.afterRead] using hsucc)
    obtain ⟨env1, input1, h1, h2, h3, h4, h5, h6, h7⟩ := ih rest envR (input.advance l.length)
      (fun x hx => hseg x (by simp [hx])) hRin hat2
      (by rw [hR]; simpa [isInsideEmptyForStatement, Env.afterRead] using hemp)
      (by rw [hR]; simpa [Env.afterRead] using hsucc)
    refine ⟨env1, input1, reaches_trans hstep h1, ?_, h3, h4, hsame.next h5, ?_, h7⟩
    · rw [h2, hR]; rfl
    · refine sameStacks_trans (b := envR) ?_ h6
      rw [hR]
      exact ⟨rfl, rfl, rfl⟩

/-- A `#for` line over a reference with a first key, outside an empty loop: the loop is
opened at its first key, and the stream is at the start of the body. -/
theorem for_step (sp : ShaderPreprocessor) (path : Str) (ins : List Input) (env : Env)
    (input : Input) (line kn vn name ref key0 : Str) (keys : List Str) (rest : Str)
    (hin : env.inputs = ins ++ [input]) (hat : input.At (line ++ '\n' :: rest))
    (hline : trimParts line = ([], line, []) ∧ '\n' ∉ line
      ∧ endForString.isPrefixOf line = false ∧ includeString.isPrefixOf line = false
      ∧ strFind openString line = none
      ∧ tokenizeFor line = some (.tokens kn vn name))
    (hemp : isInsideEmptyForStatement env = false) (hsucc : env.success = true)
    (hres : resolveAlias sp name env = (true, ref))
    (hkeys : sp.dictionary.valueKeys ref = key0 :: keys) :
    ∃ e1, Reaches sp path env e1
      ∧ e1.output = env.output ++ openMarker ref ++ keyMarker ref key0
      ∧ IterState env ins (input.advance line.length)
          (forStatementAt ins (input.advance line.length) kn vn ref 0) 0 key0 e1
      ∧ (input.advance line.length).At rest := by
  obtain ⟨h1, h2, h3, h4, h5, h6⟩ := hline
  obtain ⟨hread, hRin, hat2, _⟩ := read_line sp ins env input line _ hin hat h2
  obtain ⟨envR, hR⟩ : ∃ e, e = env.afterRead
    { input with pos := input.pos + line.length + 1 } line := ⟨_, rfl⟩
  rw [← hR] at hread hRin
  have hRline : envR.line = line := by rw [hR]; simp [Env.afterRead, h1]
  have hfor := parseFor_push sp envR ins (input.advance line.length) kn vn name ref key0 keys
    (by rw [hRline]; exact h6) hRin ⟨hat2.1, hat2.2.1⟩
    (by rw [resolveAlias_congr sp name envR env (by rw [hR]; rfl)]; exact hres) hkeys
  obtain ⟨eN, hN⟩ : ∃ x : Env, x = { envR with
      output := envR.output ++ openMarker ref ++ keyMarker ref key0,
      aliases := (pushScopeLoop (endForTable
        (forStatementAt ins (input.advance line.length) kn vn ref 0) key0) [] envR.aliases).2,
      scopes := envR.scopes ++ [(pushScopeLoop (endForTable
        (forStatementAt ins (input.advance line.length) kn vn ref 0) key0) [] envR.aliases).1],
      forStatements := envR.forStatements
        ++ [forStatementAt ins (input.advance line.length) kn vn ref 0] } := ⟨_, rfl⟩
  rw [← hN] at hfor
  have hdisp : ∀ inc, dispatchLine sp inc input envR = .ok (true, eN) := fun inc =>
    dispatchLine_forLine sp inc input envR eN (by rw [hRline]; exact h3)
      (by rw [hRline]; exact h4) (by rw [hRline]; exact h5)
      (by rw [hR]; simpa [isInsideEmptyForStatement, Env.afterRead] using hemp) hfor
  have hRs : envR.success = true := by rw [hR]; simpa [Env.afterRead] using hsucc
  have hstep : Reaches sp path env eN :=
    reaches_step (fun inc => by rw [hread inc, hdisp inc]) (by rw [hN]; exact hRs)
  refine ⟨eN, hstep, ?_, ⟨by rw [hN]; exact hRin, ?_, ?_, ?_, by rw [hN]; exact hRs⟩, hat2⟩
  · rw [hN, hR]; simp [Env.afterRead, List.append_assoc]
  · rw [hN, hR]; simp [Env.afterRead, forStatementAt]
  · rw [hN, hR]; simp [Env.afterRead]
  · rw [hN, hR]; simp [Env.afterRead]

/-- The `#endfor` line that ends one pass of a loop: either the next key is bound and the
stream is back at the start of the body, or the loop is closed. -/
theorem endFor_step (sp : ShaderPreprocessor) (path : Str) (ins : List Input) (rest : Str)
    (env0 : Env) (inputB inputC : Input) (fs0 : ForStatement) (key : Str) (index : Nat)
    (e : Env)
    (hBgood : inputB.eofbit = false ∧ inputB.failbit = false)
    (hfs0 : fs0.inputIndex = ins.length ∧ fs0.streamPos = (inputB.pos : Int)
      ∧ fs0.lineNumber = inputB.lineNumber)
    (hC : inputC.At (endForString ++ '\n' :: rest)) (hsame : inputB.SameFile inputC)
    (hin : e.inputs = ins ++ [inputC])
    (hfs : e.forStatements = env0.forStatements ++ [{ fs0 with keyIndex := (index : Int) }])
    (hsc : e.scopes
      = env0.scopes ++ [(pushScopeLoop (endForTable fs0 key) [] env0.aliases).1])
    (hal : e.aliases = (pushScopeLoop (endForTable fs0 key) [] env0.aliases).2)
    (hsucc : e.success = true)
    (hal0 : ∀ k st, env0.aliases k = some st → st ≠ [])
    (hemp0 : isInsideEmptyForStatement env0 = false) :
    (∀ key1, index + 1 < (sp.dictionary.valueKeys fs0.dictionaryRef).length →
        (sp.dictionary.valueKeys fs0.dictionaryRef).getD (index + 1) [] = key1 →
        ∃ e1, Reaches sp path e e1
          ∧ e1.output = e.output ++ keyMarker fs0.dictionaryRef key1
          ∧ IterState env0 ins inputB fs0 (index + 1) key1 e1)
      ∧ (¬ index + 1 < (sp.dictionary.valueKeys fs0.dictionaryRef).length →
        ∃ e1 inputD, Reaches sp path e e1
          ∧ e1.output = e.output ++ closeMarker fs0.dictionaryRef
          ∧ e1.inputs = ins ++ [inputD] ∧ inputD.At rest ∧ inputB.SameFile inputD
          ∧ SameStacks env0 e1 ∧ e1.success = true) := by
  obtain ⟨he1, he2, _⟩ := endFor_facts
  obtain ⟨hread, hRin, hat2, hsame2⟩ := read_line sp ins e inputC endForString rest hin hC he2
  obtain ⟨envR, hR⟩ : ∃ x, x = e.afterRead
    { inputC with pos := inputC.pos + endForString.length + 1 } endForString := ⟨_, rfl⟩
  rw [← hR] at hread hRin
  have hRline : envR.line = endForString := by rw [hR]; simp [Env.afterRead, he1]
  have hRal : envR.aliases = (pushScopeLoop (endForTable fs0 key) [] env0.aliases).2 := by
    rw [hR]; simpa [Env.afterRead] using hal
  have hpop : popScopeLoop (pushScopeLoop (endForTable fs0 key) [] env0.aliases).1 envR.aliases
      = (true, env0.aliases) := by
    rw [hRal]
    exact popScopeLoop_endForTable fs0 key env0.aliases hal0
  have hRfs : envR.forStatements
      = env0.forStatements ++ [{ fs0 with keyIndex := (index : Int) }] := by
    rw [hR]; simpa [Env.afterRead] using hfs
  have hRsc : envR.scopes
      = env0.scopes ++ [(pushScopeLoop (endForTable fs0 key) [] env0.aliases).1] := by
    rw [hR]; simpa [Env.afterRead] using hsc
  have hRs : envR.success = true := by rw [hR]; simpa [Env.afterRead] using hsucc
  have hnat : ((index : Int) + 1).toNat = index + 1 := by omega
  constructor
  · intro key1 hlt hkey
    have hend := parseEndFor_advance sp envR ins (inputC.advance endForString.length)
      env0.forStatements { fs0 with keyIndex := (index : Int) } env0.scopes _ env0.aliases key1
      hRline hRfs hRin hfs0.1 hRsc hpop
      (by
        constructor
        · show (0 : Int) ≤ (index : Int) + 1
          omega
        · show ((index : Int) + 1).toNat < _
          rw [hnat]; exact hlt)
      (by
        show (sp.dictionary.valueKeys fs0.dictionaryRef).getD ((index : Int) + 1).toNat [] = key1
        rw [hnat]; exact hkey)
    have hback : ({ seekg (inputC.advance endForString.length) fs0.streamPos with
        lineNumber := fs0.lineNumber } : Input) = inputB := by
      rw [hfs0.2.1, hfs0.2.2]
      exact seekg_same inputB _ hBgood (hsame.next hsame2) hat2.2.1
    obtain ⟨eN, hN⟩ : ∃ x : Env, x = { envR with
        aliases := (pushScopeLoop (endForTable fs0 key1) [] env0.aliases).2,
        scopes := env0.scopes ++ [(pushScopeLoop (endForTable fs0 key1) [] env0.aliases).1],
        output := envR.output ++ keyMarker fs0.dictionaryRef key1,
        inputs := ins ++ [inputB],
        forStatements := env0.forStatements
          ++ [{ fs0 with keyIndex := (index : Int) + 1 }] } := ⟨_, rfl⟩
    have hend2 : parseEndFor sp envR = .ok (true, eN) := by
      rw [hend, hN]
      have : ({ seekg (inputC.advance endForString.length)
          ({ fs0 with keyIndex := (index : Int) } : ForStatement).streamPos with
          lineNumber := ({ fs0 with keyIndex := (index : Int) } : ForStatement).lineNumber }
          : Input) = inputB := hback
      rw [this]
      rfl
    have hdisp : ∀ inc, dispatchLine sp inc inputC envR = .ok (true, eN) := fun inc =>
      dispatchLine_endFor sp inc inputC envR eN hend2 (by rw [hN]; exact hRline)
        (by
          rw [isInsideEmpty_snoc eN env0.forStatements { fs0 with keyIndex := (index : Int) + 1 }
            (by rw [hN])]
          simp only [decide_eq_false_iff_not]
          intro h
          have : (index : Int) + 1 = -1 := h
          omega)
    have hstep : Reaches sp path e eN :=
      reaches_step (fun inc => by rw [hread inc, hdisp inc]) (by rw [hN]; exact hRs)
    refine ⟨eN, hstep, ?_, ⟨by rw [hN], ?_, by rw [hN], by rw [hN], by rw [hN]; exact hRs⟩⟩
    · rw [hN, hR]; simp [Env.afterRead]
    · rw [hN]; simp
  · intro hnlt
    have hend := parseEndFor_terminate sp envR ins (inputC.advance endForString.length)
      env0.forStatements { fs0 with keyIndex := (index : Int) } env0.scopes _ env0.aliases
      hRline hRfs hRin hfs0.1 hRsc hpop
      (by
        intro h
        have h2 : ((index : Int) + 1).toNat
            < (sp.dictionary.valueKeys fs0.dictionaryRef).length := h.2
        rw [hnat] at h2
        exact hnlt h2)
    obtain ⟨eN, hN⟩ : ∃ x : Env, x = { envR with
        aliases := env0.aliases, scopes := env0.scopes, forStatements := env0.forStatements,
        output := envR.output ++ "//# Terminated loop over ".toList
          ++ ({ fs0 with keyIndex := (index : Int) } : ForStatement).dictionaryRef
          ++ "\n".toList } := ⟨_, rfl⟩
    rw [← hN] at hend
    have hdisp : ∀ inc, dispatchLine sp inc inputC envR = .ok (true, eN) := fun inc =>
      dispatchLine_endFor sp inc inputC envR eN hend (by rw [hN]; exact hRline)
        (by rw [hN]; simpa [isInsideEmptyForStatement] using hemp0)
    have hstep : Reaches sp path e eN :=
      reaches_step (fun inc => by rw [hread inc, hdisp inc]) (by rw [hN]; exact hRs)
    refine ⟨eN, inputC.advance endForString.length, hstep, ?_, by rw [hN]; exact hRin, hat2,
      hsame.next hsame2, ⟨by rw [hN], by rw [hN], by rw [hN]⟩, by rw [hN]; exact hRs⟩
    rw [hN, hR]; simp [Env.afterRead, closeMarker, List.append_assoc]

/-- The passes of a loop from the one for `key` on, when every pass gets from the start of
the body to the `#endfor` of the loop with the stacks as they were: each pass is run,
between two passes the marker of the next key is written, and the loop is closed with the
stacks as they were before it. -/
theorem loop_iterations (sp : ShaderPreprocessor) (path : Str) (ins : List Input)
    (rest : Str) (env0 : Env) (inputB : Input) (fs0 : ForStatement) (bodyOut : Str → Str)
    (hBgood : inputB.eofbit = false ∧ inputB.failbit = false)
    (hfs0 : fs0.inputIndex = ins.length ∧ fs0.streamPos = (inputB.pos : Int)
      ∧ fs0.lineNumber = inputB.lineNumber)
    (hal0 : ∀ k st, env0.aliases k = some st → st ≠ [])
    (hemp0 : isInsideEmptyForStatement env0 = false)
    (hbody : ∀ (index : Nat) (key : Str) (e : Env),
      key ∈ sp.dictionary.valueKeys fs0.dictionaryRef →
      IterState env0 ins inputB fs0 index key e →
      ∃ e1 inputC, Reaches sp path e e1 ∧ e1.output = e.output ++ bodyOut key
        ∧ e1.inputs = ins ++ [inputC] ∧ inputC.At (endForString ++ '\n' :: rest)
        ∧ inputB.SameFile inputC ∧ SameStacks e e1 ∧ e1.success = true) :
    ∀ (todo done : List Str) (key : Str) (e : Env),
      sp.dictionary.valueKeys fs0.dictionaryRef = done ++ key :: todo →
      IterState env0 ins inputB fs0 done.length key e →
      ∃ e1 input1, Reaches sp path e e1
        ∧ e1.output = e.output ++ bodyOut key ++ iterOutput fs0.dictionaryRef bodyOut todo
            ++ closeMarker fs0.dictionaryRef
        ∧ e1.inputs = ins ++ [input1] ∧ input1.At rest ∧ inputB.SameFile input1
        ∧ SameStacks env0 e1 ∧ e1.success = true := by
  intro todo
  induction todo with
  | nil =>
    intro done key e hkeys hst
    obtain ⟨e1, inputC, a1, a2, a3, a4, a5, a6, a7⟩ := hbody done.length key e
      (by rw [hkeys]; simp) hst
    obtain ⟨e2, inputD, b1, b2, b3, b4, b5, b6, b7⟩ :=
      (endFor_step sp path ins rest env0 inputB inputC fs0 key done.length e1 hBgood hfs0 a4 a5
        a3 (a6.2.2.trans hst.forStatements) (a6.1.trans hst.scopes) (a6.2.1.trans hst.aliases)
        a7 hal0 hemp0).2 (by rw [hkeys]; simp)
    refine ⟨e2, inputD, reaches_trans a1 b1, ?_, b3, b4, b5, b6, b7⟩
    rw [b2, a2]; simp [iterOutput, List.append_assoc]
  | cons key1 todo1 ih =>
    intro done key e hkeys hst
    obtain ⟨e1, inputC, a1, a2, a3, a4, a5, a6, a7⟩ := hbody done.length key e
      (by rw [hkeys]; simp) hst
    obtain ⟨e2, b1, b2, b3⟩ :=
      (endFor_step sp path ins rest env0 inputB inputC fs0 key done.length e1 hBgood hfs0 a4 a5
        a3 (a6.2.2.trans hst.forStatements) (a6.1.trans hst.scopes) (a6.2.1.trans hst.aliases)
        a7 hal0 hemp0).1 key1 (by rw [hkeys]; simp)
        (by
          rw [hkeys]
          have : done ++ key :: key1 :: todo1 = (done ++ [key]) ++ key1 :: todo1 := by simp
          rw [this, List.getD_eq_getElem?_getD, List.getElem?_append_right (by simp)]
          simp)
    obtain ⟨e3, input3, c1, c2, c3, c4, c5, c6, c7⟩ := ih (done ++ [key]) key1 e2
      (by rw [hkeys]; simp) (by simpa using b3)
    refine ⟨e3, input3, reaches_trans a1 (reaches_trans b1 c1), ?_, c3, c4, c5, c6, c7⟩
    rw [c2, b2, a2]; simp [iterOutput, List.append_assoc]

/-- A loop over a reference without keys, outside an empty loop: the two markers are
written, the lines up to the first `#endfor` are dropped, and the stacks are as before. -/
theorem empty_loop_run (sp : ShaderPreprocessor) (path : Str) (ins : List Input) (env : Env)
    (input : Input) (line kn vn name ref : Str) (skip : List Str) (rest : Str)
    (hin : env.inputs = ins ++ [input])
    (hat : input.At (line ++ '\n' :: (joinLines skip ++ (endForString ++ '\n' :: rest))))
    (hline : trimParts line = ([], line, []) ∧ '\n' ∉ line
      ∧ endForString.isPrefixOf line = false ∧ includeString.isPrefixOf line = false
      ∧ strFind openString line = none
      ∧ tokenizeFor line = some (.tokens kn vn name))
    (hemp : isInsideEmptyForStatement env = false) (hsucc : env.success = true)
    (hres : resolveAlias sp name env = (true, ref))
    (hkeys : sp.dictionary.valueKeys ref = [])
    (hskip : ∀ l ∈ skip, '\n' ∉ l ∧ endForString.isPrefixOf (trim l) = false) :
    ∃ e1 input1, Reaches sp path env e1
      ∧ e1.output = env.output ++ emptyMarker ++ closeMarker ref
      ∧ e1.inputs = ins ++ [input1] ∧ input1.At rest ∧ input.SameFile input1
      ∧ SameStacks env e1 ∧ e1.success = true := by
  obtain ⟨h1, h2, h3, h4, h5, h6⟩ := hline
  obtain ⟨hread, hRin, hat2, hsame⟩ := read_line sp ins env input line _ hin hat h2
  obtain ⟨envR, hR⟩ : ∃ e, e = env.afterRead
    { input with pos := input.pos + line.length + 1 } line := ⟨_, rfl⟩
  rw [← hR] at hread hRin
  have hRline : envR.line = line := by rw [hR]; simp [Env.afterRead, h1]
  have hRs : envR.success = true := by rw [hR]; simpa [Env.afterRead] using hsucc
  have hfor := parseFor_push_empty sp envR ins (input.advance line.length) kn vn name ref
    (by rw [hRline]; exact h6) hRin ⟨hat2.1, hat2.2.1⟩
    (by rw [resolveAlias_congr sp name envR env (by rw [hR]; rfl)]; exact hres) hkeys
  obtain ⟨eN, hN⟩ : ∃ x : Env, x = { envR with
      output := envR.output ++ emptyMarker,
      scopes := envR.scopes ++ [[]],
      forStatements := envR.forStatements
        ++ [forStatementAt ins (input.advance line.length) kn vn ref (-1)] } := ⟨_, rfl⟩
  rw [← hN] at hfor
  have hdisp : ∀ inc, dispatchLine sp inc input envR = .ok (true, eN) := fun inc =>
    dispatchLine_forLine sp inc input envR eN (by rw [hRline]; exact h3)
      (by rw [hRline]; exact h4) (by rw [hRline]; exact h5)
      (by rw [hR]; simpa [isInsideEmptyForStatement, Env.afterRead] using hemp) hfor
  have hstep : Reaches sp path env eN :=
    reaches_step (fun inc => by rw [hread inc, hdisp inc]) (by rw [hN]; exact hRs)
  have hNfs : eN.forStatements = env.forStatements
      ++ [forStatementAt ins (input.advance line.length) kn vn ref (-1)] := by
    rw [hN, hR]; rfl
  -- the lines that are dropped
  obtain ⟨e2, input2, a1, a2, a3, a4, a5, a6, a7⟩ := reaches_skip sp path ins skip _ eN
    (input.advance line.length) hskip (by rw [hN]; exact hRin) hat2
    (by rw [isInsideEmpty_snoc eN _ _ hNfs]; simp [forStatementAt])
    (by rw [hN]; exact hRs)
  -- the `#endfor` line
  obtain ⟨he1, he2, _⟩ := endFor_facts
  obtain ⟨hread3, hRin3, hat3, hsame3⟩ :=
    read_line sp ins e2 input2 endForString rest a3 a4 he2
  obtain ⟨envS, hS⟩ : ∃ x, x = e2.afterRead
    { input2 with pos := input2.pos + endForString.length + 1 } endForString := ⟨_, rfl⟩
  rw [← hS] at hread3 hRin3
  have hSline : envS.line = endForString := by rw [hS]; simp [Env.afterRead, he1]
  have hSs : envS.success = true := by rw [hS]; simpa [Env.afterRead] using a7
  have hSfs : envS.forStatements = env.forStatements
      ++ [forStatementAt ins (input.advance line.length) kn vn ref (-1)] := by
    rw [hS]; show e2.forStatements = _; rw [a6.2.2, hNfs]
  have hSsc : envS.scopes = env.scopes ++ [[]] := by
    rw [hS]; show e2.scopes = _; rw [a6.1, hN, hR]; rfl
  have hSal : envS.aliases = env.aliases := by
    rw [hS]; show e2.aliases = _; rw [a6.2.1, hN, hR]; rfl
  have hend := parseEndFor_terminate sp envS ins (input2.advance endForString.length)
    env.forStatements (forStatementAt ins (input.advance line.length) kn vn ref (-1))
    env.scopes [] env.aliases hSline hSfs hRin3 rfl hSsc
    (by rw [hSal]; simp [popScopeLoop])
    (by
      intro h
      have h2 := h.2
      simp only [forStatementAt, hkeys, List.length_nil] at h2
      omega)
  obtain ⟨eT, hT⟩ : ∃ x : Env, x = { envS with
      aliases := env.aliases, scopes := env.scopes, forStatements := env.forStatements,
      output := envS.output ++ "//# Terminated loop over ".toList
        ++ (forStatementAt ins (input.advance line.length) kn vn ref (-1)).dictionaryRef
        ++ "\n".toList } := ⟨_, rfl⟩
  rw [← hT] at hend
  have hdisp3 : ∀ inc, dispatchLine sp inc input2 envS = .ok (true, eT) := fun inc =>
    dispatchLine_endFor sp inc input2 envS eT hend (by rw [hT]; exact hSline)
      (by rw [hT]; simpa [isInsideEmptyForStatement] using hemp)
  have hstep3 : Reaches sp path e2 eT :=
    reaches_step (fun inc => by rw [hread3 inc, hdisp3 inc]) (by rw [hT]; exact hSs)
  refine ⟨eT, input2.advance endForString.length, reaches_trans hstep (reaches_trans a1 hstep3),
    ?_, by rw [hT]; exact hRin3, hat3, hsame.next (a5.next hsame3),
    ⟨by rw [hT], by rw [hT], by rw [hT]⟩, by rw [hT]; exact hSs⟩
  rw [hT, hS]
  show e2.output ++ _ ++ _ ++ _ = _
  rw [a2, hN, hR]
  simp [Env.afterRead, closeMarker, forStatementAt, List.append_assoc]

/-- A loop whose body is plain lines, outside an empty loop: the text of the loop is
written, with the body once for each key, and the stacks are as before. -/
theorem plain_loop_run (sp : ShaderPreprocessor) (path : Str) (ins : List Input) (env : Env)
    (input : Input) (line kn vn name ref : Str) (body : List Str) (rest : Str)
    (hin : env.inputs = ins ++ [input])
    (hat : input.At (line ++ '\n' :: (joinLines body ++ (endForString ++ '\n' :: rest))))
    (hline : trimParts line = ([], line, []) ∧ '\n' ∉ line
      ∧ endForString.isPrefixOf line = false ∧ includeString.isPrefixOf line = false
      ∧ strFind openString line = none
      ∧ tokenizeFor line = some (.tokens kn vn name))
    (hemp : isInsideEmptyForStatement env = false) (hsucc : env.success = true)
    (hal : ∀ k st, env.aliases k = some st → st ≠ [])
    (hres : resolveAlias sp name env = (true, ref))
    (hbody : ∀ l ∈ body, '\n' ∉ l ∧ isPlainLine l = true) :
    ∃ e1 input1, Reaches sp path env e1
      ∧ e1.output = env.output
          ++ loopText ref (fun _ => renderLines input.indentation body)
              (sp.dictionary.valueKeys ref)
      ∧ e1.inputs = ins ++ [input1] ∧ input1.At rest ∧ input.SameFile input1
      ∧ SameStacks env e1 ∧ e1.success = true := by
  cases hkeys : sp.dictionary.valueKeys ref with
  | nil =>
    obtain ⟨e1, input1, a1, a2, a3, a4, a5, a6, a7⟩ := empty_loop_run sp path ins env input
      line kn vn name ref body rest hin hat hline hemp hsucc hres hkeys
      (fun l hl => ⟨(hbody l hl).1, (isDirective_false (isPlainLine_iff (hbody l hl).2).1).1⟩)
    exact ⟨e1, input1, a1, by rw [a2]; simp [loopText, List.append_assoc], a3, a4, a5, a6, a7⟩
  | cons key0 keys =>
    obtain ⟨e1, a1, a2, a3, a4⟩ := for_step sp path ins env input line kn vn name ref key0 keys
      _ hin hat hline hemp hsucc hres hkeys
    have hiter := loop_iterations sp path ins rest env (input.advance line.length)
      (forStatementAt ins (input.advance line.length) kn vn ref 0)
      (fun _ => renderLines input.indentation body) ⟨a4.1, a4.2.1⟩ ⟨rfl, rfl, rfl⟩ hal hemp
      (by
        intro index key e _ hst
        obtain ⟨e2, input2, b1, b2, b3, b4, b5, b6, b7⟩ := reaches_plain sp path ins body _ e
          (input.advance line.length) hbody hst.inputs a4
          (by
            rw [isInsideEmpty_snoc e _ _ hst.forStatements]
            simp only [decide_eq_false_iff_not]
            intro h
            have : (index : Int) = -1 := h
            omega)
          hst.success
        exact ⟨e2, input2, b1, b2, b3, b4, b5, b6, b7⟩)
      keys [] key0 e1 (by simpa [forStatementAt] using hkeys) a3
    obtain ⟨e2, input2, b1, b2, b3, b4, b5, b6, b7⟩ := hiter
    refine ⟨e2, input2, reaches_trans a1 b1, ?_, b3, b4,
      (Input.SameFile.next (b := input.advance line.length) ⟨rfl, rfl, rfl⟩ b5), b6, b7⟩
    rw [b2, a2]
    simp [loopText, forStatementAt, List.append_assoc]

theorem innerForLine_facts :
    trimParts innerForLine = ([], innerForLine, []) ∧ '\n' ∉ innerForLine
      ∧ endForString.isPrefixOf innerForLine = false
      ∧ includeString.isPrefixOf innerForLine = false
      ∧ strFind openString innerForLine = none
      ∧ tokenizeFor innerForLine = some (.tokens "k2".toList "v2".toList "v".toList) := by
  decide

/-- In a pass of a loop with the value variable `v`, the name `v` resolves to the path of
the current key when that path is a key of the dictionary. -/
theorem resolveAlias_value (sp : ShaderPreprocessor) (env0 e : Env) (fs0 : ForStatement)
    (key : Str) (hv : fs0.valueName = "v".toList)
    (hal : e.aliases = (pushScopeLoop (endForTable fs0 key) [] env0.aliases).2)
    (hkey : sp.dictionary.hasKey (fs0.dictionaryRef ++ ".".toList ++ key) = true) :
    resolveAlias sp "v".toList e = (true, fs0.dictionaryRef ++ ".".toList ++ key) := by
  have hm : IsMap (endForTable fs0 key) := isMap_assign2 _ _ _ _
  have hb := pushScopeLoop_binding (endForTable fs0 key) [] env0.aliases fs0.valueName _ hm
    (mem_endForTable_value fs0 key)
  rw [hv] at hb
  rw [resolveAlias_eq_spec]
  have h1 : List.takeWhile (fun c => c != '.') "v".toList = "v".toList := by decide
  have h2 : List.dropWhile (fun c => c != '.') "v".toList = [] := by decide
  simp only [resolveAliasSpec, h1, h2, topBinding, hal, hb, getLast?_snoc, Option.getD_some,
    List.append_nil, hkey, or_true, decide_True]

/-- An outer loop `#for k, v in <name>` over a reference with at least one key, every key
of which leads to a dictionary, with the inner loop `#for k2, v2 in v` over plain lines as
its body, outside an empty loop. -/
theorem nested_run (sp : ShaderPreprocessor) (path : Str) (ins : List Input) (env : Env)
    (input : Input) (name ref : Str) (body : List Str) (rest : Str)
    (hin : env.inputs = ins ++ [input])
    (hat : input.At (forLine name ++ '\n' :: (innerForLine ++ '\n' :: (joinLines body
      ++ (endForString ++ '\n' :: (endForString ++ '\n' :: rest))))))
    (hemp : isInsideEmptyForStatement env = false) (hsucc : env.success = true)
    (hal : ∀ k st, env.aliases k = some st → st ≠ [])
    (hname : isReference name = true) (hres : resolveAlias sp name env = (true, ref))
    (hne : sp.dictionary.valueKeys ref ≠ [])
    (hdict : ∀ ki ∈ sp.dictionary.valueKeys ref,
      sp.dictionary.hasKey (ref ++ ".".toList ++ ki) = true)
    (hbody : ∀ l ∈ body, '\n' ∉ l ∧ isPlainLine l = true) :
    ∃ e1 input1, Reaches sp path env e1
      ∧ e1.output = env.output ++ nestedOutput sp input.indentation ref body
      ∧ e1.inputs = ins ++ [input1] ∧ input1.At rest ∧ input.SameFile input1
      ∧ SameStacks env e1 ∧ e1.success = true := by
  obtain ⟨key0, keys, hkeys⟩ : ∃ key0 keys, sp.dictionary.valueKeys ref = key0 :: keys := by
    cases h : sp.dictionary.valueKeys ref with
    | nil => exact absurd h hne
    | cons a b => exact ⟨a, b, rfl⟩
  obtain ⟨e1, a1, a2, a3, a4⟩ := for_step sp path ins env input (forLine name) "k".toList
    "v".toList name ref key0 keys _ hin hat (forLine_facts name hname) hemp hsucc hres hkeys
  have hiter := loop_iterations sp path ins rest env (input.advance (forLine name).length)
    (forStatementAt ins (input.advance (forLine name).length) "k".toList "v".toList ref 0)
    (fun ki => loopText (ref ++ ".".toList ++ ki)
      (fun _ => renderLines input.indentation body)
      (sp.dictionary.valueKeys (ref ++ ".".toList ++ ki)))
    ⟨a4.1, a4.2.1⟩ ⟨rfl, rfl, rfl⟩ hal hemp
    (by
      intro index key e hk hst
      have hm : IsMap (endForTable (forStatementAt ins (input.advance (forLine name).length)
          "k".toList "v".toList ref 0) key) := isMap_assign2 _ _ _ _
      obtain ⟨e2, input2, b1, b2, b3, b4, b5, b6, b7⟩ := plain_loop_run sp path ins e
        (input.advance (forLine name).length) innerForLine "k2".toList "v2".toList "v".toList
        (ref ++ ".".toList ++ key) body (endForString ++ '\n' :: rest) hst.inputs a4
        innerForLine_facts
        (by
          rw [isInsideEmpty_snoc e _ _ hst.forStatements]
          simp only [decide_eq_false_iff_not]
          intro h
          have : (index : Int) = -1 := h
          omega)
        hst.success
        (by
          rw [hst.aliases]
          exact pushScopeLoop_nonempty _ env.aliases hm hal)
        (resolveAlias_value sp env e _ key rfl hst.aliases
          (hdict key (by simpa [forStatementAt] using hk)))
        hbody
      exact ⟨e2, input2, b1, b2, b3, b4, b5, b6, b7⟩)
    keys [] key0 e1 (by simpa [forStatementAt] using hkeys) a3
  obtain ⟨e2, input2, b1, b2, b3, b4, b5, b6, b7⟩ := hiter
  refine ⟨e2, input2, reaches_trans a1 b1, ?_, b3, b4,
    (Input.SameFile.next (b := input.advance (forLine name).length) ⟨rfl, rfl, rfl⟩ b5),
    b6, b7⟩
  rw [b2, a2]
  simp [nestedOutput, loopText, hkeys, forStatementAt, List.append_assoc]

/-- A root file that consists of the two nested loops: `process` gets to its end, the text
of the nested loops is written behind the marker of the root file, and no scope, binding or
loop is left. When the outer reference has no keys the inner `#for` is dropped with the
body, the first `#endfor` closes the outer loop and the second one is refused. -/
theorem processEnv_nested (sp : ShaderPreprocessor) (tracked : List Str) (name : Str)
    (body : List Str)
    (hopen : sp.fs.openStream (sp.fs.absPath sp.shaderPath)
      = some (forLine name ++ '\n' :: (innerForLine ++ '\n' :: (joinLines body
          ++ (endForString ++ '\n' :: (endForString ++ '\n' :: []))))))
    (hname : isReference name = true) (hkey : sp.dictionary.hasKey name = true)
    (hdict : ∀ ki ∈ sp.dictionary.valueKeys name,
      sp.dictionary.hasKey (name ++ ".".toList ++ ki) = true)
    (hbody : ∀ l ∈ body, '\n' ∉ l ∧ isPlainLine l = true) :
    ∃ n, ∀ fuel, n ≤ fuel → ∃ env, processEnv sp tracked fuel = .ok env
      ∧ env.output = lineMarker sp sp.initialLineNumber (sp.fs.absPath sp.shaderPath)
          ++ nestedOutput sp [] name body
      ∧ env.scopes = [] ∧ env.forStatements = [] ∧ env.aliases = (Env.initial tracked).aliases
      ∧ (env.success = true ↔ sp.dictionary.valueKeys name ≠ []) := by
  obtain ⟨i0, o0, fr0⟩ := enter_initial sp (sp.fs.absPath sp.shaderPath)
    (forLine name ++ '\n' :: (innerForLine ++ '\n' :: (joinLines body
      ++ (endForString ++ '\n' :: (endForString ++ '\n' :: [])))))
  obtain ⟨env0, h0⟩ : ∃ e, e = (Env.initial []).enter sp (sp.fs.absPath sp.shaderPath)
    (forLine name ++ '\n' :: (innerForLine ++ '\n' :: (joinLines body
      ++ (endForString ++ '\n' :: (endForString ++ '\n' :: []))))) := ⟨_, rfl⟩
  rw [← h0] at i0 o0 fr0
  have hal0 : env0.aliases = fun _ => none := fr0.aliases
  have hres : resolveAlias sp name env0 = (true, name) :=
    resolveAlias_unbound sp name env0 (by rw [hal0]) hkey
  have hemp : isInsideEmptyForStatement env0 = false := by
    simp [isInsideEmptyForStatement, fr0.forStatements, Env.initial]
  have hsucc : env0.success = true := fr0.success
  by_cases hks : sp.dictionary.valueKeys name = []
  · obtain ⟨e1, input1, a1, a2, a3, a4, a5, a6, a7⟩ := empty_loop_run sp
      (sp.fs.absPath sp.shaderPath) [] env0 _ (forLine name) "k".toList "v".toList name name
      (innerForLine :: body) (endForString ++ '\n' :: []) i0
      (by
        refine ⟨rfl, rfl, Nat.zero_le _, ?_⟩
        simp [joinLines])
      (forLine_facts name hname) hemp hsucc hres hks
      (by
        intro l hl
        rcases List.mem_cons.mp hl with rfl | h
        · exact ⟨by decide, by decide⟩
        · exact ⟨(hbody l h).1, (isDirective_false (isPlainLine_iff (hbody l h).2).1).1⟩)
    obtain ⟨he1, he2, he3⟩ := endFor_facts
    obtain ⟨hread, hRin, _, _⟩ := read_line sp [] e1 input1 endForString [] a3 a4 he2
    obtain ⟨envR, hR⟩ : ∃ x, x = e1.afterRead
      { input1 with pos := input1.pos + endForString.length + 1 } endForString := ⟨_, rfl⟩
    rw [← hR] at hread hRin
    have hRline : envR.line = endForString := by rw [hR]; simp [Env.afterRead, he1]
    have hRfor : envR.forStatements = [] := by
      rw [hR]; show e1.forStatements = []
      rw [a6.2.2, fr0.forStatements]; rfl
    obtain ⟨failed, hfailed⟩ : ∃ e : Env, e = { logError envR
        ("Parse error. Unexpected #endfor. No corresponing #for was found.".toList
          ++ debugString sp envR) with success := false } := ⟨_, rfl⟩
    have hpe : parseEndFor sp envR = .ok (true, failed) := by
      rw [hfailed]
      exact parseEndFor_unexpected sp envR (by rw [hRline]; decide) hRfor
    have f1 : failed.forStatements = [] := by rw [hfailed]; exact hRfor
    have hd : ∀ inc, parseLine sp inc e1 = .ok (true, failed) := by
      intro inc
      rw [hread inc, dispatchLine_special sp inc input1 envR failed hpe
        (by simp [isInsideEmptyForStatement, f1]),
        substituteLine_none sp failed (by rw [hfailed]; show strFind openString envR.line = none
                                          rw [hRline]; exact he3)]
    obtain ⟨n, hn⟩ := a1
    refine ⟨n + 2, fun fuel hf => ?_⟩
    obtain ⟨f, rfl⟩ : ∃ f, fuel = (f + 1 + n) + 1 := ⟨fuel - n - 2, by omega⟩
    have hl := parseLines_fail sp (parseLine sp (includeFile sp (f + 1 + n)))
      (sp.fs.absPath sp.shaderPath) f e1 failed [] (input1.advance endForString.length)
      (hd _) (by rw [hfailed]) (by rw [hfailed]; exact hRin)
    rw [← hn] at hl
    rw [h0] at hl
    have hi := includeFile_fail sp (f + 1 + n) (sp.fs.absPath sp.shaderPath) _
      (Env.initial []) _ hopen hl
    have hp := processEnv_of_includeFile sp tracked _ false _ hi
      (by show failed.forStatements = []; exact f1)
      (by
        show failed.scopes = []
        rw [hfailed]; show envR.scopes = []
        rw [hR]; show e1.scopes = []
        rw [a6.1, fr0.scopes]; rfl)
    refine ⟨_, hp, ?_, ?_, f1, ?_, ?_⟩
    · show failed.output = _
      rw [hfailed]; show envR.output = _
      rw [hR]; show e1.output = _
      rw [a2, o0]
      simp [nestedOutput, loopText, hks, List.append_assoc]
    · show failed.scopes = []
      rw [hfailed]; show envR.scopes = []
      rw [hR]; show e1.scopes = []
      rw [a6.1, fr0.scopes]; rfl
    · show failed.aliases = _
      rw [hfailed]; show envR.aliases = _
      rw [hR]; show e1.aliases = _
      rw [a6.2.1, hal0]; rfl
    · show failed.success = true ↔ _
      rw [hfailed]
      simp [hks]
  · obtain ⟨e1, input1, a1, a2, a3, a4, a5, a6, a7⟩ := nested_run sp
      (sp.fs.absPath sp.shaderPath) [] env0 _ name name body [] i0
      ⟨rfl, rfl, Nat.zero_le _, rfl⟩ hemp hsucc (by rw [hal0]; intro k st h; cases h)
      hname hres hks hdict hbody
    obtain ⟨n, hn⟩ := a1
    refine ⟨n + 2, fun fuel hf => ?_⟩
    obtain ⟨f, rfl⟩ : ∃ f, fuel = (f + 1 + n) + 1 := ⟨fuel - n - 2, by omega⟩
    have hend := parseLine_end sp (includeFile sp (f + 1 + n)) e1 [] input1 a3 a4
    have hl := parseLines_stop sp (parseLine sp (includeFile sp (f + 1 + n)))
      (sp.fs.absPath sp.shaderPath) f e1 _ hend
    rw [← hn] at hl
    rw [h0] at hl
    have hi := includeFile_root sp (f + 1 + n) (sp.fs.absPath sp.shaderPath) _
      (Env.initial []) _ { input1 with eofbit := true, failbit := true } hopen hl
      (by show e1.forStatements = []; rw [a6.2.2, fr0.forStatements]; rfl) (by simp)
    have hp := processEnv_of_includeFile sp tracked _ true _ hi
      (by show e1.forStatements = []; rw [a6.2.2, fr0.forStatements]; rfl)
      (by show e1.scopes = []; rw [a6.1, fr0.scopes]; rfl)
    refine ⟨_, hp, ?_, ?_, ?_, ?_, ?_⟩
    · show e1.output = _
      rw [a2, o0]
    · show e1.scopes = []; rw [a6.1, fr0.scopes]; rfl
    · show e1.forStatements = []; rw [a6.2.2, fr0.forStatements]; rfl
    · show e1.aliases = _; rw [a6.2.1, hal0]; rfl
    · show e1.success = true ↔ _
      simp [a7, hks]

/-! ## Texture units -/

theorem countP_set {α : Type} (p : α → Bool) (a : α) :
    ∀ (l : List α) (i : Nat) (x : α), l.get? i = some x →
      (l.set i a).countP p + (if p x then 1 else 0) = l.countP p + (if p a then 1 else 0)
  | [], i, x, h => by simp at h
  | y :: ys, 0, x, h => by
    simp only [List.get?_cons_zero, Option.some.injEq] at h
    subst h
    simp only [List.set_cons_zero, List.countP_cons]
    omega
  | y :: ys, i + 1, x, h => by
    simp only [List.get?_cons_succ] at h
    have := countP_set p a ys i x h
    simp only [List.set_cons_succ, List.countP_cons]
    omega

theorem get?_set_same {α : Type} (l : List α) (i : Nat) (a x : α) (h : l.get? i = some x) :
    (l.set i a).get? i = some a := by
  have hi : i < l.length := by
    rw [List.get?_eq_getElem?] at h
    exact (List.getElem?_eq_some_iff.mp h).1
  rw [List.get?_eq_getElem?, List.getElem?_set_self hi]

theorem get?_set_other {α : Type} (l : List α) (i j : Nat) (a : α) (h : i ≠ j) :
    (l.set i a).get? j = l.get? j := by
  rw [List.get?_eq_getElem?, List.get?_eq_getElem?, List.getElem?_set_ne h]

/-- The loop of `assignUnit` over a vector that reaches up to `i + n`: it takes the first
unit from `i` on that is not busy, or finds all of them busy. -/
theorem assignLoop_spec (texture0 : Nat) (c : Context) (u : TextureUnit) :
    ∀ (n i : Nat), i + n ≤ c.busyUnits.length →
      (∃ k, i ≤ k ∧ k < i + n ∧ c.busyUnits.get? k = some false
          ∧ (∀ j, i ≤ j → j < k → c.busyUnits.get? j = some true)
          ∧ assignLoop texture0 c u i n
              = .ok ({ c with busyUnits := c.busyUnits.set k true,
                              totalActive := c.totalActive + 1 },
                  { u with number := k, glEnum := texture0 + k }))
        ∨ ((∀ j, i ≤ j → j < i + n → c.busyUnits.get? j = some true)
          ∧ assignLoop texture0 c u i n = .ok (c, u))
  | 0, i, _ => Or.inr ⟨fun j h1 h2 => by omega, rfl⟩
  | n + 1, i, h => by
    have hi : i < c.busyUnits.length := by omega
    have hget : c.busyUnits.get? i = some (c.busyUnits.get ⟨i, hi⟩) := List.get?_eq_get hi
    cases hb : c.busyUnits.get ⟨i, hi⟩ with
    | false =>
      rw [hb] at hget
      refine Or.inl ⟨i, Nat.le_refl _, by omega, hget, fun j h1 h2 => by omega, ?_⟩
      simp only [assignLoop, hget]
    | true =>
      rw [hb] at hget
      rcases assignLoop_spec texture0 c u n (i + 1) (by omega) with
        ⟨k, k1, k2, k3, k4, k5⟩ | ⟨a1, a2⟩
      · refine Or.inl ⟨k, by omega, by omega, k3, fun j h1 h2 => ?_, ?_⟩
        · by_cases hj : j = i
          · rw [hj]; exact hget
          · exact k4 j (by omega) h2
        · simp only [assignLoop, hget, k5]
      · refine Or.inr ⟨fun j h1 h2 => ?_, ?_⟩
        · by_cases hj : j = i
          · rw [hj]; exact hget
          · exact a1 j (by omega) (by omega)
        · simp only [assignLoop, hget, a2]

theorem countP_lt_of_get_false (l : List Bool) (k : Nat) (h : l.get? k = some false) :
    l.countP (fun b => b) < l.length := by
  have hle := List.countP_le_length (fun b : Bool => b) (l := l)
  rcases Nat.lt_or_ge (l.countP (fun b => b)) l.length with h1 | h1
  · exact h1
  · exfalso
    have heq : l.countP (fun b => b) = l.length := by omega
    have hall := List.countP_eq_length.mp heq
    have hk : k < l.length := by
      rw [List.get?_eq_getElem?] at h
      exact (List.getElem?_eq_some_iff.mp h).1
    have hm : l.get ⟨k, hk⟩ ∈ l := List.get_mem _ _ _
    have := hall _ hm
    rw [List.get?_eq_get hk] at h
    simp only [Option.some.injEq] at h
    rw [h] at this
    cases this

theorem countP_eq_length_of_all (l : List Bool)
    (h : ∀ j, j < l.length → l.get? j = some true) : l.countP (fun b => b) = l.length := by
  rw [List.countP_eq_length]
  intro a ha
  obtain ⟨n, hn⟩ := List.get_of_mem ha
  have := h n.1 n.2
  rw [List.get?_eq_get n.2, hn] at this
  simpa using this

/-- What `assignUnit` does under the invariant for an object without a unit: it throws
exactly when every unit is busy, and otherwise takes the lowest unit that is not busy. -/
theorem assignUnit_spec (texture0 : Nat) (w : Units) (hinv : UnitsInv w) (u : TextureUnit) :
    ((∀ j, j < w.ctx.maxTexUnits → w.ctx.busyUnits.get? j = some true)
        ∧ assignUnit texture0 w.ctx u = .thrown (w.ctx, u))
      ∨ (∃ k, k < w.ctx.maxTexUnits ∧ w.ctx.busyUnits.get? k = some false
          ∧ (∀ j, j < k → w.ctx.busyUnits.get? j = some true)
          ∧ assignUnit texture0 w.ctx u
              = .ok ({ w.ctx with busyUnits := w.ctx.busyUnits.set k true,
                                  totalActive := w.ctx.totalActive + 1 },
                  { u with assigned := true, number := k, glEnum := texture0 + k })) := by
  have hsize := hinv.size
  have hbusy := hinv.busy
  rcases assignLoop_spec texture0 w.ctx { u with assigned := true } w.ctx.maxTexUnits 0
      (by omega) with ⟨k, _, k2, k3, k4, k5⟩ | ⟨a1, _⟩
  · right
    have hlt := countP_lt_of_get_false _ k k3
    have hng : ¬ w.ctx.totalActive ≥ (w.ctx.maxTexUnits : Int) := by
      rw [hbusy, ← hsize]; omega
    refine ⟨k, by omega, k3, fun j hj => k4 j (Nat.zero_le _) hj, ?_⟩
    simp only [assignUnit, hng, if_false, k5]
  · left
    have hall : ∀ j, j < w.ctx.maxTexUnits → w.ctx.busyUnits.get? j = some true :=
      fun j hj => a1 j (Nat.zero_le _) (by omega)
    have heq := countP_eq_length_of_all w.ctx.busyUnits (fun j hj => hall j (by omega))
    have hge : w.ctx.totalActive ≥ (w.ctx.maxTexUnits : Int) := by
      rw [hbusy, heq, hsize]
    exact ⟨hall, by simp only [assignUnit, hge, if_true]⟩

theorem set_same {α : Type} : ∀ (l : List α) (i : Nat) (x : α), l.get? i = some x →
    l.set i x = l
  | [], _, _, _ => rfl
  | y :: ys, 0, x, h => by
    simp only [List.get?_cons_zero, Option.some.injEq] at h
    rw [h]; rfl
  | y :: ys, i + 1, x, h => by
    simp only [List.get?_cons_succ] at h
    simp only [List.set_cons_succ, set_same ys i x h]

theorem get?_set_cases {α : Type} (l : List α) (i j : Nat) (a x y : α)
    (hi : l.get? i = some x) (hj : (l.set i a).get? j = some y) :
    (j = i ∧ y = a) ∨ (j ≠ i ∧ l.get? j = some y) := by
  by_cases h : i = j
  · subst h
    rw [get?_set_same l i a x hi] at hj
    simp only [Option.some.injEq] at hj
    exact Or.inl ⟨rfl, hj.symm⟩
  · rw [get?_set_other l i j a h] at hj
    exact Or.inr ⟨fun e => h e.symm, hj⟩

/-- A call of `unitNumber` keeps the invariant. -/
theorem unitsInv_assign (texture0 : Nat) (w : Units) (hinv : UnitsInv w) (i : Nat) :
    ∃ w1, w.call texture0 (.assign i) = some w1 ∧ UnitsInv w1 := by
  cases hget : w.units.get? i with
  | none => exact ⟨w, by simp only [Units.call, hget], hinv⟩
  | some u =>
    have hsame : ({ ctx := w.ctx, units := w.units.set i u } : Units) = w := by
      rw [set_same w.units i u hget]
    cases ha : u.assigned with
    | true =>
      refine ⟨w, ?_, hinv⟩
      simp only [Units.call, hget, unitNumber, ha, Bool.not_true, Bool.false_eq_true, if_false,
        hsame]
    | false =>
      rcases assignUnit_spec texture0 w hinv u with ⟨_, ht⟩ | ⟨k, k1, k2, k3, k4⟩
      · refine ⟨w, ?_, hinv⟩
        simp only [Units.call, hget, unitNumber, ha, Bool.not_false, if_true, ht, hsame]
      · refine ⟨{ ctx := { w.ctx with busyUnits := w.ctx.busyUnits.set k true,
                                      totalActive := w.ctx.totalActive + 1 },
                  units := w.units.set i
                    { u with assigned := true, number := k, glEnum := texture0 + k } }, ?_, ?_⟩
        · simp only [Units.call, hget, unitNumber, ha, Bool.not_false, if_true, k4]
        · have c1 := countP_set (fun b : Bool => b) true w.ctx.busyUnits k false k2
          have c2 := countP_set (fun x : TextureUnit => x.assigned)
            { u with assigned := true, number := k, glEnum := texture0 + k } w.units i u hget
          simp only [ha, Bool.false_eq_true, if_false, if_true, Nat.add_zero] at c1 c2
          have hb := hinv.busy
          have hs := hinv.assigned
          have hsz := hinv.size
          have hle := List.countP_le_length (fun b : Bool => b)
            (l := w.ctx.busyUnits.set k true)
          refine ⟨?_, ?_, ?_, ?_, ?_, ?_⟩
          · show (w.ctx.busyUnits.set k true).length = w.ctx.maxTexUnits
            rw [List.length_set]; exact hsz
          · show w.ctx.totalActive + 1 = ((w.ctx.busyUnits.set k true).countP (fun b => b) : Int)
            rw [c1, hb]; push_cast; rfl
          · show w.ctx.totalActive + 1 = ((w.units.set i _).countP (fun u => u.assigned) : Int)
            rw [c2, hs]; push_cast; rfl
          · show w.ctx.totalActive + 1 ≤ (w.ctx.maxTexUnits : Int)
            rw [List.length_set] at hle
            rw [hb]
            omega
          · intro j uj hj haj
            show (w.ctx.busyUnits.set k true).get? uj.number = some true
            rcases get?_set_cases w.units i j _ u uj hget hj with ⟨_, rfl⟩ | ⟨_, hold⟩
            · exact get?_set_same _ k true false k2
            · have := hinv.held j uj hold haj
              by_cases hn : k = uj.number
              · rw [← hn]; exact get?_set_same _ k true false k2
              · rw [get?_set_other _ k _ true hn]; exact this
          · intro a b ua ub hua hub haa hab hnum
            rcases get?_set_cases w.units i a _ u ua hget hua with ⟨ea, rfl⟩ | ⟨na, holda⟩
            · rcases get?_set_cases w.units i b _ u ub hget hub with ⟨eb, _⟩ | ⟨_, holdb⟩
              · rw [ea, eb]
              · exfalso
                have := hinv.held b ub holdb hab
                rw [← hnum] at this
                rw [k2] at this
                cases this
            · rcases get?_set_cases w.units i b _ u ub hget hub with ⟨_, rfl⟩ | ⟨_, holdb⟩
              · exfalso
                have := hinv.held a ua holda haa
                rw [hnum] at this
                rw [k2] at this
                cases this
              · exact hinv.distinct a b ua ub holda holdb haa hab hnum

/-- A call of `deactivate` keeps the invariant. -/
theorem unitsInv_deactivate (texture0 : Nat) (w : Units) (hinv : UnitsInv w) (i : Nat) :
    ∃ w1, w.call texture0 (.deactivate i) = some w1 ∧ UnitsInv w1 := by
  cases hget : w.units.get? i with
  | none => exact ⟨w, by simp only [Units.call, hget], hinv⟩
  | some u =>
    have hsame : ({ ctx := w.ctx, units := w.units.set i u } : Units) = w := by
      rw [set_same w.units i u hget]
    cases ha : u.assigned with
    | false =>
      refine ⟨w, ?_, hinv⟩
      simp only [Units.call, hget, deactivate, ha, Bool.false_eq_true, if_false, hsame]
    | true =>
      have hheld := hinv.held i u hget ha
      have hlt : u.number < w.ctx.busyUnits.length := by
        rw [List.get?_eq_getElem?] at hheld
        exact (List.getElem?_eq_some_iff.mp hheld).1
      refine ⟨{ ctx := { w.ctx with busyUnits := w.ctx.busyUnits.set u.number false,
                                    totalActive := w.ctx.totalActive - 1 },
                units := w.units.set i { u with assigned := false } }, ?_, ?_⟩
      · simp only [Units.call, hget, deactivate, ha, if_true, hlt]
      · have c1 := countP_set (fun b : Bool => b) false w.ctx.busyUnits u.number true hheld
        have c2 := countP_set (fun x : TextureUnit => x.assigned)
          { u with assigned := false } w.units i u hget
        simp only [ha, Bool.false_eq_true, if_false, if_true, Nat.add_zero] at c1 c2
        have hb := hinv.busy
        have hs := hinv.assigned
        have hsz := hinv.size
        have hbd := hinv.bound
        refine ⟨?_, ?_, ?_, ?_, ?_, ?_⟩
        · show (w.ctx.busyUnits.set u.number false).length = w.ctx.maxTexUnits
          rw [List.length_set]; exact hsz
        · show w.ctx.totalActive - 1
            = ((w.ctx.busyUnits.set u.number false).countP (fun b => b) : Int)
          rw [hb]; omega
        · show w.ctx.totalActive - 1 = ((w.units.set i _).countP (fun u => u.assigned) : Int)
          rw [hs]; omega
        · show w.ctx.totalActive - 1 ≤ (w.ctx.maxTexUnits : Int)
          omega
        · intro j uj hj haj
          show (w.ctx.busyUnits.set u.number false).get? uj.number = some true
          rcases get?_set_cases w.units i j _ u uj hget hj with ⟨_, rfl⟩ | ⟨hne, hold⟩
          · cases haj
          · have hnum : u.number ≠ uj.number := fun e =>
              hne (hinv.distinct j i uj u hold hget haj ha e.symm)
            rw [get?_set_other _ _ _ false hnum]
            exact hinv.held j uj hold haj
        · intro a b ua ub hua hub haa hab hnum
          rcases get?_set_cases w.units i a _ u ua hget hua with ⟨_, rfl⟩ | ⟨_, holda⟩
          · cases haa
          · rcases get?_set_cases w.units i b _ u ub hget hub with ⟨_, rfl⟩ | ⟨_, holdb⟩
            · cases hab
            · exact hinv.distinct a b ua ub holda holdb haa hab hnum

theorem unitsInv_start (c : Context) (cap : Option Nat) (n : Nat) (h : c.totalActive = 0) :
    UnitsInv (Units.start c cap n) := by
  have hb : ∀ m, (List.replicate m false).countP (fun b => b) = 0 := by
    intro m
    rw [List.countP_eq_zero]
    intro a ha
    rw [List.eq_of_mem_replicate ha]
    simp
  have hu : (List.replicate n TextureUnit.new).countP (fun u => u.assigned) = 0 := by
    rw [List.countP_eq_zero]
    intro a ha
    rw [List.eq_of_mem_replicate ha]
    simp [TextureUnit.new]
  have hnew : ∀ i u, (List.replicate n TextureUnit.new).get? i = some u →
      u.assigned = false := by
    intro i u hi
    have : u ∈ List.replicate n TextureUnit.new := by
      rw [List.get?_eq_getElem?] at hi
      obtain ⟨hlt, he⟩ := List.getElem?_eq_some_iff.mp hi
      rw [← he]
      exact List.getElem_mem hlt
    rw [List.eq_of_mem_replicate this]
    rfl
  refine ⟨?_, ?_, ?_, ?_, ?_, ?_⟩
  · simp [Units.start, initContext]
  · simp [Units.start, initContext, hb, h]
  · simp only [Units.start, initContext, hu, h]; rfl
  · simp only [Units.start, initContext, h]; omega
  · intro i u hi ha
    rw [hnew i u hi] at ha
    cases ha
  · intro i j ui uj hi _ ha
    rw [hnew i ui hi] at ha
    cases ha

/-- Every sequence of calls keeps the invariant. -/
theorem unitsInv_run (texture0 : Nat) : ∀ (calls : List UnitCall) (w : Units), UnitsInv w →
    ∃ w1, w.run texture0 calls = some w1 ∧ UnitsInv w1
  | [], w, h => ⟨w, rfl, h⟩
  | c :: cs, w, h => by
    have hstep : ∃ w1, w.call texture0 c = some w1 ∧ UnitsInv w1 := by
      cases c with
      | assign i => exact unitsInv_assign texture0 w h i
      | deactivate i => exact unitsInv_deactivate texture0 w h i
    obtain ⟨w1, h1, h2⟩ := hstep
    obtain ⟨w2, h3, h4⟩ := unitsInv_run texture0 cs w1 h2
    exact ⟨w2, by simp only [Units.run, h1, h3], h4⟩

/-! ## Claims on substitution, alias resolution and scopes -/

/-- C2: `substituteLine` replaces occurrences left to right. For a line
`pre ++ "#{" ++ name ++ "}" ++ post` where `pre` has no `#{` and `name` has no `}`, the call
succeeds exactly when it succeeds on `post`, and then the result is
`pre ++ value ++ (result for post)`, where `value` is what `substitute` yields for `name`:
the unquoted contents when `name` resolves to a quoted literal, and otherwise the
dictionary string stored at the resolved path. The value is inserted as it is. -/
theorem substituteLine_left_to_right (sp : ShaderPreprocessor) (env : Env)
    (pre name post : Str) (hpre : strFind openString pre = none) (hname : rbrace ∉ name) :
    (substituteLine sp { env with line := pre ++ openString ++ name ++ [rbrace] ++ post }).1
        = (substituteLine sp { env with line := post }).1
      ∧ ((substituteLine sp { env with line := post }).1 = true →
          (substituteLine sp
              { env with line := pre ++ openString ++ name ++ [rbrace] ++ post }).2.line
            = pre ++ (substitute sp name env).2.1
                ++ (substituteLine sp { env with line := post }).2.line)
      ∧ ((resolveAlias sp name env).1 = true → isString (resolveAlias sp name env).2 = true →
          (resolveAlias sp name env).2 = [dquote] ++ (substitute sp name env).2.1 ++ [dquote])
      ∧ ((resolveAlias sp name env).1 = true → isString (resolveAlias sp name env).2 = false →
          sp.dictionary.hasValueString (resolveAlias sp name env).2 = true →
          (substitute sp name env).2.1
            = sp.dictionary.getValueString (resolveAlias sp name env).2) := by
  refine ⟨(substituteLine_step sp env pre name post hpre hname).1,
    (substituteLine_step sp env pre name post hpre hname).2, ?_, ?_⟩
  · intro h1 h2
    rw [substitute_out, h1, h2]
    simpa using isString_unquote _ h2
  · intro h1 h2 h3
    rw [substitute_out, h1, h2, h3]
    simp

/-- C2 at the line `c = #{color};`. -/
theorem substituteLine_left_to_right_witness :
    strFind openString "c = ".toList = none ∧ rbrace ∉ "color".toList
      ∧ (substituteLine (demoPreprocessor [] demoColorDictionary)
          { demoAliasEnv with line := "c = ".toList ++ openString ++ "color".toList
              ++ [rbrace] ++ ";".toList }).2.line
        = "c = ".toList ++ "red".toList ++ ";".toList := by
  refine ⟨by decide, by decide, ?_⟩
  have h := (substituteLine_left_to_right (demoPreprocessor [] demoColorDictionary)
    demoAliasEnv "c = ".toList "color".toList ";".toList (by decide) (by decide)).2.1 (by decide)
  rw [h]
  decide

/-- C7: `resolveAlias` is alias resolution as specified: the name is split at the first
dot into head and rest, the head is replaced by its top binding when it is a bound alias,
the output is the new head followed by the unchanged rest, and the returned flag is true
exactly when the rest is empty and the new head is a quoted literal, or the dictionary has
a key at the output path. -/
theorem resolveAlias_refines_spec (sp : ShaderPreprocessor) (name : Str) (env : Env) :
    resolveAlias sp name env = resolveAliasSpec sp name env :=
  resolveAlias_eq_spec sp name env

/-- C8: shadowing is undone by popping. In an environment whose alias stacks are all
non-empty, and for every binding map `m`, `popScope` after `pushScope m` succeeds and
restores the environment, alias table and scope stack included; while the scope is open
each name of `m` resolves to its value in `m`, and afterwards every name resolves as it did
before (to its outer binding, or to itself when it was unbound). -/
theorem popScope_pushScope (m : List (Str × Str)) (env : Env) (hm : IsMap m)
    (hal : ∀ k st, env.aliases k = some st → st ≠ []) :
    popScope (pushScope m env) = (true, env)
      ∧ (∀ k v, (k, v) ∈ m → topBinding (pushScope m env) k = v)
      ∧ (∀ k, topBinding (popScope (pushScope m env)).2 k = topBinding env k) := by
  have hs : (pushScopeLoop m [] env.aliases).1 = m.map Prod.fst := by
    simpa using pushScopeLoop_scope m [] env.aliases hm (by simp)
  have hp : popScope (pushScope m env) = (true, env) := by
    simp only [popScope, pushScope, getLast?_snoc, hs,
      popScopeLoop_push m [] env.aliases hm hal, if_true, List.dropLast_concat]
  refine ⟨hp, ?_, ?_⟩
  · intro k v hkv
    simp [topBinding, pushScope, pushScopeLoop_binding m [] env.aliases k v hm hkv]
  · intro k
    rw [hp]

/-- C8 at a map that shadows `k` and introduces `v`. -/
theorem popScope_pushScope_witness :
    IsMap [("k".toList, "inner".toList), ("v".toList, "D.a".toList)]
      ∧ popScope (pushScope [("k".toList, "inner".toList), ("v".toList, "D.a".toList)]
          demoOuterEnv) = (true, demoOuterEnv) := by
  refine ⟨by decide, ?_⟩
  exact (popScope_pushScope _ demoOuterEnv (by decide) (by
    intro k st h
    simp only [demoOuterEnv, aliasesSet, Env.initial] at h
    split at h
    · cases h; simp
    · cases h)).1

/-! ## Resolution of quoted includes -/

/-- C6: for a quoted include `#include "rel"`, the file passed to `includeFile` is
`<directory of the including file>/rel` when that file exists; otherwise it is `p/rel` for
the first include path `p`, in configured order, for which `p/rel` exists, whatever paths
come later in the list. -/
theorem parseInclude_quoted_resolution (sp : ShaderPreprocessor)
    (inc : Str → Env → Res (Bool × Env)) (env : Env) (input : Input) (rel : Str)
    (hline : env.line = includeString ++ " ".toList ++ [dquote] ++ rel ++ [dquote])
    (hrel : rel ≠ []) (hq : dquote ∉ rel) (hin : env.inputs.getLast? = some input) :
    (sp.fs.fileExists (sp.fs.directoryName input.path ++ [sp.fs.pathSeparator] ++ rel) = true →
        parseInclude sp inc env
          = consumed (inc (sp.fs.directoryName input.path ++ [sp.fs.pathSeparator] ++ rel) env))
      ∧ (sp.fs.fileExists (sp.fs.directoryName input.path ++ [sp.fs.pathSeparator] ++ rel)
            = false →
          ∀ (before : List Str) (p : Str) (after : List Str),
            sp.includePaths = before ++ p :: after →
            (∀ q ∈ before, sp.fs.fileExists (q ++ [sp.fs.pathSeparator] ++ rel) = false) →
            sp.fs.fileExists (p ++ [sp.fs.pathSeparator] ++ rel) = true →
            parseInclude sp inc env = consumed (inc (p ++ [sp.fs.pathSeparator] ++ rel) env)) := by
  rw [parseInclude_quoted sp inc env input rel hline hrel hq hin]
  constructor
  · intro h
    simp only [resolveQuoted, h, if_true]
  · intro h before p after hp hb hpe
    simp only [resolveQuoted, h, hp, searchIncludePaths_first sp rel p before after hb hpe,
      Bool.false_eq_true, if_false]

/-- C6 at `#include "common.glsl"` in `/s/root.glsl` when only `/inc/common.glsl` exists. -/
theorem parseInclude_quoted_resolution_witness :
    demoIncludeEnv.line
        = includeString ++ " ".toList ++ [dquote] ++ "common.glsl".toList ++ [dquote]
      ∧ parseInclude (demoPreprocessor [("/inc/common.glsl", "x")] emptyDictionary)
          recordInclude demoIncludeEnv
        = consumed (recordInclude "/inc/common.glsl".toList demoIncludeEnv) := by
  refine ⟨rfl, ?_⟩
  exact (parseInclude_quoted_resolution (demoPreprocessor [("/inc/common.glsl", "x")] emptyDictionary)
    recordInclude demoIncludeEnv
    { path := "/s/root.glsl".toList, content := [], pos := 0, eofbit := false,
      failbit := false, indentation := [], lineNumber := 2 }
    "common.glsl".toList rfl (by decide) (by decide) rfl).2 (by decide)
    [] "/inc".toList [] rfl (by simp) (by decide)

/-! ## Failures of substitution that `process` does not report -/

/-- C9 (the code at the failing inputs): the root file `a #{nope} b` over the empty
dictionary, and the root file `a #{mat} b` over a dictionary where `mat` is a nested
dictionary, not a string. In both runs `substitute` logs the error and returns false, and
yet `process` returns true, with the occurrence replaced by nothing. -/
theorem process_unresolved_variable :
    process (demoPreprocessor [("/s/root.glsl", "a #\x7bnope\x7d b\n")] emptyDictionary) [] 3
        = .ok (true, "#line 1 root.glsl\na  b\n".toList)
      ∧ process (demoPreprocessor [("/s/root.glsl", "a #\x7bmat\x7d b\n")]
          demoColorDictionary) [] 3
        = .ok (true, "#line 1 root.glsl\na  b\n".toList) := by
  constructor <;> decide

/-- C10 (the code at the failing input): the root file with the lines `a #{oops b` and
`next`. `substituteLine` logs the parse error and returns false, `parseLine` returns false,
which `includeFile` takes for the end of the file: `process` returns true and the rest of
the file is dropped. -/
theorem process_unterminated_substitution :
    process (demoPreprocessor [("/s/root.glsl", "a #\x7boops b\nnext\n")] emptyDictionary) [] 3
      = .ok (true, "#line 1 root.glsl\n".toList) := by
  decide

/-! ## Claims on files without directives -/

/-- C3 (counterexample): the root file `a` with a final newline has no directive and no
substitution, and the output is not the input: it starts with the line marker of the root
file, so neither text is a prefix of the other. -/
theorem process_plain_not_verbatim :
    process (demoPreprocessor [("/s/root.glsl", "a\n")] emptyDictionary) [] 3
        = .ok (true, "#line 1 root.glsl\na\n".toList)
      ∧ "a\n".toList.isPrefixOf "#line 1 root.glsl\na\n".toList = false
      ∧ "#line 1 root.glsl\na\n".toList.isPrefixOf "a\n".toList = false := by
  decide

/-- C3 (amended): for every root file whose lines, once trimmed, start with none of
`#endfor`, `#include`, `#for` and hold no `#{`, `process` succeeds and the output is the
line marker of the root file followed by the lines of the file in order, each without its
trailing whitespace (a line of whitespace only is kept whole) and followed by a
newline. -/
theorem process_plain_file (sp : ShaderPreprocessor) (tracked : List Str) (content : Str)
    (fuel : Nat) (hopen : sp.fs.openStream (sp.fs.absPath sp.shaderPath) = some content)
    (hplain : ∀ l ∈ fileLines content, isPlainLine l = true)
    (hfuel : (fileLines content).length + 2 ≤ fuel) :
    process sp tracked fuel
        = .ok (true, lineMarker sp sp.initialLineNumber (sp.fs.absPath sp.shaderPath)
            ++ renderLines [] (fileLines content))
      ∧ ∀ l : Str, ∃ kept trailing, l = kept ++ trailing ∧ (∀ c ∈ trailing, c ∈ ws)
          ∧ renderLine [] l = kept ++ ['\n'] := by
  refine ⟨process_plain sp tracked content fuel hopen hplain hfuel, ?_⟩
  intro l
  obtain ⟨h1, h2, _⟩ := trimParts_spec l
  exact ⟨(trimParts l).1 ++ (trimParts l).2.1, (trimParts l).2.2, h1.symm, h2,
    by simp [renderLine]⟩

/-- C3 (amended) at a root file of three lines, the last one without a newline. -/
theorem process_plain_file_witness :
    (∀ l ∈ fileLines "  x = 1; \n\ny".toList, isPlainLine l = true)
      ∧ process (demoPreprocessor [("/s/root.glsl", "  x = 1; \n\ny")] emptyDictionary) [] 9
        = .ok (true, "#line 1 root.glsl\n  x = 1;\n\ny\n".toList) := by
  refine ⟨by decide, ?_⟩
  have h := (process_plain_file (demoPreprocessor [("/s/root.glsl", "  x = 1; \n\ny")]
    emptyDictionary) [] "  x = 1; \n\ny".toList 9 (by decide) (by decide) (by decide)).1
  rw [h]
  decide

/-! ## Claims on loops -/

/-- A root file with one loop over keys that lead to strings, between plain lines. -/
theorem process_loop_run (sp : ShaderPreprocessor) (tracked : List Str)
    (pre : List Str) (post ref : Str) (fuel : Nat)
    (hopen : sp.fs.openStream (sp.fs.absPath sp.shaderPath)
      = some (joinLines pre ++ (forLine ref ++ '\n'
          :: (bodyLine ++ '\n' :: (endForString ++ '\n' :: post)))))
    (hpre : ∀ l ∈ pre, '\n' ∉ l ∧ isPlainLine l = true)
    (href : isReference ref = true) (hkey : sp.dictionary.hasKey ref = true)
    (hne : sp.dictionary.valueKeys ref ≠ [])
    (hstr : HoldsStrings sp ref (sp.dictionary.valueKeys ref))
    (hpost : ∀ l ∈ fileLines post, isPlainLine l = true)
    (hfuel : pre.length + 2 * (sp.dictionary.valueKeys ref).length
      + (fileLines post).length + 3 ≤ fuel) :
    process sp tracked fuel = .ok (true,
      lineMarker sp sp.initialLineNumber (sp.fs.absPath sp.shaderPath)
        ++ renderLines [] pre
        ++ "//# For loop over ".toList ++ ref ++ "\n".toList
        ++ loopOutput sp [] ref (sp.dictionary.valueKeys ref)
        ++ "//# Terminated loop over ".toList ++ ref ++ "\n".toList
        ++ renderLines [] (fileLines post)) := by
  obtain ⟨f, rfl⟩ : ∃ f, fuel = f + (fileLines post).length + 1
      + 2 * (sp.dictionary.valueKeys ref).length + 1 + pre.length + 1 :=
    ⟨fuel - (pre.length + 2 * (sp.dictionary.valueKeys ref).length
      + (fileLines post).length + 3), by omega⟩
  let path := sp.fs.absPath sp.shaderPath
  let content := joinLines pre ++ (forLine ref ++ '\n'
    :: (bodyLine ++ '\n' :: (endForString ++ '\n' :: post)))
  let inc := includeFile sp (f + (fileLines post).length + 1
    + 2 * (sp.dictionary.valueKeys ref).length + 1 + pre.length)
  let env0 : Env := (Env.initial []).enter sp path content
  let input0 : Input :=
    { path := path, content := content, pos := 0, eofbit := false,
      failbit := false, indentation := [], lineNumber := sp.initialLineNumber }
  obtain ⟨env1, input1, a1, a2, a3, a4, a5, a6⟩ := run_plain sp inc path [] pre _ env0 input0
    (f + (fileLines post).length + 1 + 2 * (sp.dictionary.valueKeys ref).length + 1) hpre rfl
    ⟨rfl, rfl, Nat.zero_le _, rfl⟩ rfl rfl
  obtain ⟨env2, input2, b1, b2, b3, b4, b5, b6⟩ := run_loop sp inc path [] post
    env1 input1 (f + (fileLines post).length + 1) ref ref a3 a4
    (by rw [isInsideEmpty_congr a6.forStatements]; rfl)
    (by rw [a6.success]; rfl)
    (by rw [a6.aliases]; intro k st h; cases h) href
    (resolveAlias_unbound sp ref env1 (by rw [a6.aliases]; rfl) hkey) hne hstr
  obtain ⟨env3, input3, c1, c2, c3, _, _, _, c7⟩ := run_plain_end sp inc path [] post env2
    input2 f hpost b3 b4
    (by rw [isInsideEmpty_congr b6.forStatements, isInsideEmpty_congr a6.forStatements]; rfl)
    (by rw [b6.success, a6.success]; rfl)
  have hrun : parseLines sp (parseLine sp inc) path
      (f + (fileLines post).length + 1 + 2 * (sp.dictionary.valueKeys ref).length + 1
        + pre.length) env0 = .ok (true, env3) := by
    rw [a1, b1, c1]
  have hfs : env3.forStatements = [] := by
    rw [c7.forStatements, b6.forStatements, a6.forStatements]; rfl
  have hsc : env3.scopes = [] := by rw [c7.scopes, b6.scopes, a6.scopes]; rfl
  have hsu : env3.success = true := by rw [c7.success, b6.success, a6.success]; rfl
  have hinc := includeFile_root sp _ path content (Env.initial []) env3 input3 hopen hrun hfs
    (by simpa using c3)
  have hp := processEnv_of_includeFile sp tracked _ true _ hinc hfs hsc
  simp only [process, hp]
  simp only [hsu, c2, b2, a2, a5.indentation, b5.indentation, env0, input0, Env.enter,
    Env.initial, lineMarker, path, List.nil_append, List.append_assoc]

/-- C11: an `#endfor` line read while no `#for` is open makes `process` return failure.
Take a root file whose first lines `pre` are plain, followed by a line whose trimmed text
starts with `#endfor` (ended by a newline and any further text, or by the end of the
file). `process` returns false; the output is the marker of the root file and the lines
before the `#endfor`, and nothing that follows the line is read. -/
theorem process_unexpected_endfor (sp : ShaderPreprocessor) (tracked : List Str)
    (pre : List Str) (line tail : Str) (fuel : Nat)
    (hopen : sp.fs.openStream (sp.fs.absPath sp.shaderPath)
      = some (joinLines pre ++ (line ++ tail)))
    (hpre : ∀ l ∈ pre, '\n' ∉ l ∧ isPlainLine l = true)
    (hline : '\n' ∉ line) (hend : endForString.isPrefixOf (trim line) = true)
    (htail : tail = [] ∨ ∃ rest, tail = '\n' :: rest)
    (hfuel : pre.length + 2 ≤ fuel) :
    process sp tracked fuel
      = .ok (false, lineMarker sp sp.initialLineNumber (sp.fs.absPath sp.shaderPath)
          ++ renderLines [] pre) := by
  obtain ⟨f, rfl⟩ : ∃ f, fuel = (f + 1 + pre.length) + 1 := ⟨fuel - pre.length - 2, by omega⟩
  obtain ⟨i0, o0, fr0⟩ := enter_initial sp (sp.fs.absPath sp.shaderPath)
    (joinLines pre ++ (line ++ tail))
  obtain ⟨env1, input1, r1, r2, r3, r4, _, r6⟩ := run_plain sp
    (includeFile sp (f + 1 + pre.length)) (sp.fs.absPath sp.shaderPath) [] pre (line ++ tail)
    _ _ (f + 1) hpre i0 ⟨rfl, rfl, Nat.zero_le _, rfl⟩ rfl rfl
  have hne : line ≠ [] := by
    intro e
    subst e
    simp [trim, trimParts, substr, endForString, findFirstNotOf, findLastNotOf] at hend
  obtain ⟨input2, p1, p2, p3, p4, p5⟩ := parseLine_read_any sp
    (includeFile sp (f + 1 + pre.length)) env1 [] input1 line tail r3 r4 hline hne htail
  have hfr : (Env.initial []).Frame env1 := fr0.comp r6
  have hfor : (env1.afterRead input2 line).forStatements = [] := by
    show env1.forStatements = []
    rw [hfr.forStatements]; rfl
  have hout : env1.output
      = lineMarker sp sp.initialLineNumber (sp.fs.absPath sp.shaderPath)
          ++ renderLines [] pre := by rw [r2, o0]
  have hin2 := afterRead_inputs env1 [] input1 input2 line r3
  obtain ⟨failed, hfailed⟩ : ∃ e : Env, e = { logError (env1.afterRead input2 line)
      ("Parse error. Unexpected #endfor. No corresponing #for was found.".toList
        ++ debugString sp (env1.afterRead input2 line)) with success := false } := ⟨_, rfl⟩
  have hpe : parseEndFor sp (env1.afterRead input2 line) = .ok (true, failed) := by
    rw [hfailed]
    exact parseEndFor_unexpected sp (env1.afterRead input2 line) hend hfor
  have f1 : failed.forStatements = [] := by rw [hfailed]; exact hfor
  have f2 : failed.success = false := by rw [hfailed]
  have f3 : failed.inputs = [] ++ [{ input2 with lineNumber := input2.lineNumber + 1 }] := by
    rw [hfailed]; exact hin2
  have f4 : failed.output = env1.output := by rw [hfailed]; rfl
  have hemp : isInsideEmptyForStatement failed = false := by
    simp [isInsideEmptyForStatement, f1]
  obtain ⟨si, so, sf, ss⟩ := substituteLine_frame sp failed
  have hd : parseLine sp (includeFile sp (f + 1 + pre.length)) env1
      = .ok ((substituteLine sp failed).1, (substituteLine sp failed).2) := by
    rw [p1]
    exact dispatchLine_special sp _ input1 _ failed hpe hemp
  cases hs : (substituteLine sp failed).1 with
  | true =>
    rw [hs] at hd
    have hl := parseLines_fail sp (parseLine sp (includeFile sp (f + 1 + pre.length)))
      (sp.fs.absPath sp.shaderPath) f env1 _ []
      { input2 with lineNumber := input2.lineNumber + 1 } hd (ss.trans f2) (si.trans f3)
    rw [← r1] at hl
    have hi := includeFile_fail sp (f + 1 + pre.length) (sp.fs.absPath sp.shaderPath) _
      (Env.initial []) _ hopen hl
    rw [process_of_includeFile sp tracked _ false _ hi]
    simp [logError, ss, f2, so, f4, hout]
  | false =>
    rw [hs] at hd
    have hl := parseLines_stop sp (parseLine sp (includeFile sp (f + 1 + pre.length)))
      (sp.fs.absPath sp.shaderPath) f env1 _ hd
    rw [← r1] at hl
    have hi := includeFile_root sp (f + 1 + pre.length) (sp.fs.absPath sp.shaderPath) _
      (Env.initial []) _ { input2 with lineNumber := input2.lineNumber + 1 } hopen hl
      (sf.trans f1) (by rw [si, f3]; rfl)
    rw [process_of_includeFile sp tracked _ true _ hi]
    simp [ss, f2, so, f4, hout]

/-- C11 at the root file with the lines `a`, `#endfor`, `b`. -/
theorem process_unexpected_endfor_witness :
    process (demoPreprocessor [("/s/root.glsl", "a\n#endfor\nb\n")] emptyDictionary) [] 3
      = .ok (false, "#line 1 root.glsl\na\n".toList) :=
  process_unexpected_endfor
    (demoPreprocessor [("/s/root.glsl", "a\n#endfor\nb\n")] emptyDictionary) []
    ["a".toList] "#endfor".toList "\nb\n".toList 3 rfl (by decide) (by decide) (by decide)
    (Or.inr ⟨"b\n".toList, rfl⟩) (by decide)

/-- C12: a quoted include that resolves nowhere makes `process` return failure, and the
message names the path as written. Take a root file whose first lines `pre` are plain,
followed by the line `#include "rel"`, where `rel` exists neither next to the root file nor
under any include path. `process` returns false with the output written so far, and the
log holds exactly `Could not resolve file path for include file 'rel'`, with `rel` as it
stands in the directive, and the message of the line loop for that line. -/
theorem process_unresolved_include (sp : ShaderPreprocessor) (tracked : List Str)
    (pre : List Str) (rel tail : Str) (fuel : Nat)
    (hopen : sp.fs.openStream (sp.fs.absPath sp.shaderPath)
      = some (joinLines pre ++ (includeLine rel ++ tail)))
    (hpre : ∀ l ∈ pre, '\n' ∉ l ∧ isPlainLine l = true)
    (hrel : rel ≠ []) (hq : dquote ∉ rel) (hnl : '\n' ∉ rel) (hb : lbrace ∉ rel)
    (hdir : sp.fs.fileExists (sp.fs.directoryName (sp.fs.absPath sp.shaderPath)
      ++ [sp.fs.pathSeparator] ++ rel) = false)
    (hpaths : ∀ p ∈ sp.includePaths, sp.fs.fileExists (p ++ [sp.fs.pathSeparator] ++ rel) = false)
    (htail : tail = [] ∨ ∃ rest, tail = '\n' :: rest)
    (hfuel : pre.length + 2 ≤ fuel) :
    process sp tracked fuel
        = .ok (false, lineMarker sp sp.initialLineNumber (sp.fs.absPath sp.shaderPath)
            ++ renderLines [] pre)
      ∧ ∃ env, processEnv sp tracked fuel = .ok env
          ∧ env.log = ["Could not resolve file path for include file \x27".toList ++ rel
                ++ "\x27".toList,
              "Parse error. Could not parse line. ".toList ++ sp.fs.absPath sp.shaderPath
                ++ ":".toList ++ natStr (sp.initialLineNumber + pre.length + 1)] := by
  obtain ⟨f, rfl⟩ : ∃ f, fuel = (f + 1 + pre.length) + 1 := ⟨fuel - pre.length - 2, by omega⟩
  obtain ⟨i0, o0, fr0⟩ := enter_initial sp (sp.fs.absPath sp.shaderPath)
    (joinLines pre ++ (includeLine rel ++ tail))
  obtain ⟨env1, input1, r1, r2, r3, r4, r5, r6⟩ := run_plain sp
    (includeFile sp (f + 1 + pre.length)) (sp.fs.absPath sp.shaderPath) [] pre
    (includeLine rel ++ tail) _ _ (f + 1) hpre i0 ⟨rfl, rfl, Nat.zero_le _, rfl⟩ rfl rfl
  obtain ⟨t1, t2, t3, t4, t5⟩ := includeLine_facts rel hnl hb
  obtain ⟨input2, p1, p2, p3, p4, p5⟩ := parseLine_read_any sp
    (includeFile sp (f + 1 + pre.length)) env1 [] input1 (includeLine rel) tail r3 r4 t2 t5
    htail
  have hfr : (Env.initial []).Frame env1 := fr0.comp r6
  have hin2 := afterRead_inputs env1 [] input1 input2 (includeLine rel) r3
  obtain ⟨e, he⟩ : ∃ e : Env, e = env1.afterRead input2 (includeLine rel) := ⟨_, rfl⟩
  have e1 : e.line = includeLine rel := by rw [he]; simp [Env.afterRead, t1]
  have e2 : e.forStatements = [] := by
    rw [he]; show env1.forStatements = []; rw [hfr.forStatements]; rfl
  have e3 : e.inputs = [] ++ [{ input2 with lineNumber := input2.lineNumber + 1 }] := by
    rw [he]; exact hin2
  have e4 : e.output = lineMarker sp sp.initialLineNumber (sp.fs.absPath sp.shaderPath)
      ++ renderLines [] pre := by
    rw [he]; show env1.output = _; rw [r2, o0]
  have e5 : e.log = [] := by rw [he]; show env1.log = []; rw [hfr.log]; rfl
  have e6 : e.scopes = [] := by rw [he]; show env1.scopes = []; rw [hfr.scopes]; rfl
  have hpath : input2.path = sp.fs.absPath sp.shaderPath := by rw [p2, r5.path]
  have hnum : input2.lineNumber = sp.initialLineNumber + pre.length := by
    rw [p5, r5.lineNumber]
  have hres : resolveQuoted sp { input2 with lineNumber := input2.lineNumber + 1 } rel
      = none := by
    simp only [resolveQuoted, hpath, hdir, Bool.false_eq_true, if_false]
    exact searchIncludePaths_none sp rel _ hpaths
  have hpi := parseInclude_quoted sp (includeFile sp (f + 1 + pre.length)) e
    { input2 with lineNumber := input2.lineNumber + 1 } rel e1 hrel hq (by rw [e3]; simp)
  rw [hres] at hpi
  have hd : parseLine sp (includeFile sp (f + 1 + pre.length)) env1
      = .ok (true, failWith e ("Could not resolve file path for include file \x27".toList
          ++ rel ++ "\x27".toList)) := by
    rw [p1, ← he]
    exact dispatchLine_include sp _ input1 e _ (by rw [e1]; exact t3)
      (by simp [isInsideEmptyForStatement, e2]) (by rw [e1]; exact t4) hpi
  have hl := parseLines_fail sp (parseLine sp (includeFile sp (f + 1 + pre.length)))
    (sp.fs.absPath sp.shaderPath) f env1 _ []
    { input2 with lineNumber := input2.lineNumber + 1 } hd rfl e3
  rw [← r1] at hl
  have hi := includeFile_fail sp (f + 1 + pre.length) (sp.fs.absPath sp.shaderPath) _
    (Env.initial []) _ hopen hl
  refine ⟨?_, _, processEnv_of_includeFile sp tracked _ false _ hi e2 e6, ?_⟩
  · rw [process_of_includeFile sp tracked _ false _ hi]
    simp [logError, failWith, e4]
  · simp [logError, failWith, e5, hnum]

/-- C12 at the root file with the lines `a`, `#include "missing.glsl"`, `b`, when no file
`missing.glsl` exists. -/
theorem process_unresolved_include_witness :
    process (demoPreprocessor
        [("/s/root.glsl", "a\n#include \x22missing.glsl\x22\nb\n")] emptyDictionary) [] 3
        = .ok (false, "#line 1 root.glsl\na\n".toList)
      ∧ ∃ env, processEnv (demoPreprocessor
          [("/s/root.glsl", "a\n#include \x22missing.glsl\x22\nb\n")] emptyDictionary) [] 3
            = .ok env
          ∧ env.log = ["Could not resolve file path for include file \x27missing.glsl\x27".toList,
              "Parse error. Could not parse line. /s/root.glsl:3".toList] :=
  process_unresolved_include
    (demoPreprocessor [("/s/root.glsl", "a\n#include \x22missing.glsl\x22\nb\n")]
      emptyDictionary) []
    ["a".toList] "missing.glsl".toList "\nb\n".toList 3 rfl (by decide) (by decide) (by decide)
    (by decide) (by decide) (by decide) (by decide) (Or.inr ⟨"b\n".toList, rfl⟩) (by decide)

/-! ## Failures that `process` does not report -/

/-- C13 (the code at the failing inputs): a root file that cannot be opened, and an
`#include <...>` of a file that does not exist. `includeFile` logs `Could not open file.`
and returns false without touching `success`, and neither `process` nor `parseInclude`
looks at what it returns: `process` returns true, with no output for the missing root, and
with the include line dropped and the next line written in the second run. -/
theorem process_unopened_file :
    process (demoPreprocessor [] emptyDictionary) [] 1 = .ok (true, [])
      ∧ process (demoPreprocessor
          [("/s/root.glsl", "#include </s/missing.glsl>\nnext\n")] emptyDictionary) [] 4
        = .ok (true, "#line 1 root.glsl\nnext\n".toList) := by
  constructor <;> decide

/-- C17 (the code at the failing input): the root file with the lines `#for k, v of D` and
`next`. `tokenizeFor` logs `Expected 'in'` and returns false, which `parseFor` passes on as
"not a `#for` line": the line is copied to the output and `process` returns true. -/
theorem process_for_without_in :
    process (demoPreprocessor [("/s/root.glsl", "#for k, v of D\nnext\n")]
        demoLoopDictionary) [] 4
      = .ok (true, "#line 1 root.glsl\n#for k, v of D\nnext\n".toList) := by
  decide

/-- C18 (the code at the failing input): the root file with the lines `#for k in D`, `x`,
`#endfor`. The search for the comma fails, the offsets wrap around, and `tokenizeFor`
returns the key name `k in D`, the value name `k` and the reference `D`: the loop runs over
the two keys of `D` and `process` returns true. -/
theorem process_for_without_comma :
    tokenizeFor "#for k in D".toList
        = some (.tokens "k in D".toList "k".toList "D".toList)
      ∧ process (demoPreprocessor [("/s/root.glsl", "#for k in D\nx\n#endfor\n")]
          demoLoopDictionary) [] 8
        = .ok (true, ("#line 1 root.glsl\n//# For loop over D\n//# Key a in D\nx\n"
            ++ "//# Key b in D\nx\n//# Terminated loop over D\n").toList) := by
  constructor <;> decide

/-- C19 (the code at the failing input): the root file with the lines `#include "abc.glsl`
(no closing quote) and `next`. `parseInclude` finds no second quote, does nothing and
returns true: the line is dropped, `process` returns true. -/
theorem process_unterminated_include :
    process (demoPreprocessor [("/s/root.glsl", "#include \x22abc.glsl\nnext\n")]
        emptyDictionary) [] 4
      = .ok (true, "#line 1 root.glsl\nnext\n".toList) := by
  decide

/-- C20 (the code at the failing input): the root file with the lines
`#for k, v in mat.diffuse`, `x`, `#endfor`, where the dictionary holds the string `red` at
`mat.diffuse`. `resolveAlias` succeeds because the key exists, and `parseFor` never asks
whether the value is a dictionary: whatever keys `value<Dictionary>` returns for the path,
a loop is opened and `success` stays set. With no keys returned the loop is an empty loop
and `process` returns true. -/
theorem process_for_over_string :
    demoLoopDictionary.hasValueString "mat.diffuse".toList = true
      ∧ process (demoPreprocessor
          [("/s/root.glsl", "#for k, v in mat.diffuse\nx\n#endfor\n")] demoLoopDictionary) [] 5
        = .ok (true, ("#line 1 root.glsl\n//# Empty for loop\n"
            ++ "//# Terminated loop over mat.diffuse\n").toList)
      ∧ ∀ keys : List Str, ∃ e1,
          parseFor (demoPreprocessor [] (demoKeysDictionary keys)) demoForEnv = .ok (true, e1)
            ∧ e1.success = true ∧ e1.forStatements.length = 1 := by
  refine ⟨by decide, by decide, ?_⟩
  intro keys
  exact parseFor_opens (demoPreprocessor [] (demoKeysDictionary keys)) demoForEnv
    "k".toList "v".toList "mat.diffuse".toList
    { path := "/s/root.glsl".toList, content := "#for k, v in mat.diffuse\n".toList,
      pos := 25, eofbit := false, failbit := false, indentation := [], lineNumber := 2 }
    (by decide) (by simp [resolveAlias, demoPreprocessor, demoKeysDictionary]; decide) rfl

/-! ## Loops across files -/

/-- C14: a `#for` opened in file A whose `#endfor` stands in a file B included from A makes
`process` return failure. Take a root file A with plain lines, the line `#for k, v in ref`
over a reference with at least one key, plain lines, and `#include "rel"`, where `rel`
lies next to A and holds plain lines followed by a line that starts with `#endfor`.
`process` returns false, and the `#endfor` read from B is not accepted: the loop of A is
still open in the final environment. -/
theorem process_endfor_in_include (sp : ShaderPreprocessor) (tracked : List Str)
    (pre mid preB : List Str) (ref rel lineE tailA tailB key0 : Str) (keys : List Str)
    (fuel : Nat)
    (hopenA : sp.fs.openStream (sp.fs.absPath sp.shaderPath)
      = some (joinLines pre ++ (forLine ref ++ '\n' :: (joinLines mid
          ++ (includeLine rel ++ tailA)))))
    (hexists : sp.fs.fileExists (sp.fs.directoryName (sp.fs.absPath sp.shaderPath)
      ++ [sp.fs.pathSeparator] ++ rel) = true)
    (hopenB : sp.fs.openStream (sp.fs.directoryName (sp.fs.absPath sp.shaderPath)
      ++ [sp.fs.pathSeparator] ++ rel) = some (joinLines preB ++ (lineE ++ tailB)))
    (hpre : ∀ l ∈ pre, '\n' ∉ l ∧ isPlainLine l = true)
    (hmid : ∀ l ∈ mid, '\n' ∉ l ∧ isPlainLine l = true)
    (hpreB : ∀ l ∈ preB, '\n' ∉ l ∧ isPlainLine l = true)
    (href : isReference ref = true) (hkey : sp.dictionary.hasKey ref = true)
    (hkeys : sp.dictionary.valueKeys ref = key0 :: keys)
    (hrel : rel ≠ []) (hq : dquote ∉ rel) (hnl : '\n' ∉ rel) (hb : lbrace ∉ rel)
    (hl : '\n' ∉ lineE) (hend : endForString.isPrefixOf (trim lineE) = true)
    (hsub : strFind openString (trim lineE) = none)
    (htailA : tailA = [] ∨ ∃ rest, tailA = '\n' :: rest)
    (htailB : tailB = [] ∨ ∃ rest, tailB = '\n' :: rest)
    (hfuel : pre.length + mid.length + 3 ≤ fuel ∧ preB.length + 3 ≤ fuel) :
    ∃ env, processEnv sp tracked fuel = .ok env ∧ env.success = false
      ∧ env.forStatements.length = 1
      ∧ process sp tracked fuel = .ok (false, env.output) := by
  obtain ⟨e, h1, h2, h3, _⟩ := include_endfor_run sp pre mid preB ref rel lineE tailA tailB
    key0 keys fuel hopenA hexists hopenB hpre hmid hpreB href hkey hkeys hrel hq hnl hb hl
    hend hsub htailA htailB hfuel
  obtain ⟨env1, g1, g2, g3, g4, _, _⟩ := processEnv_fields sp tracked fuel false e h1
  have hs : env1.success = false := by rw [g2, h2]; rfl
  refine ⟨env1, g1, hs, by rw [g4]; exact h3, ?_⟩
  simp only [process, g1, hs]

/-- C14 at the root file `#for k, v in D`, `#include "b.glsl"`, `tail` and the file
`b.glsl` with the lines `x`, `#endfor`, `y`. -/
theorem process_endfor_in_include_witness :
    ∃ env, processEnv (demoPreprocessor
        [("/s/root.glsl", "#for k, v in D\n#include \x22b.glsl\x22\ntail\n"),
          ("/s/b.glsl", "x\n#endfor\ny\n")] demoLoopDictionary) [] 4 = .ok env
      ∧ env.success = false ∧ env.forStatements.length = 1
      ∧ process (demoPreprocessor
          [("/s/root.glsl", "#for k, v in D\n#include \x22b.glsl\x22\ntail\n"),
            ("/s/b.glsl", "x\n#endfor\ny\n")] demoLoopDictionary) [] 4
        = .ok (false, env.output) :=
  process_endfor_in_include
    (demoPreprocessor [("/s/root.glsl", "#for k, v in D\n#include \x22b.glsl\x22\ntail\n"),
      ("/s/b.glsl", "x\n#endfor\ny\n")] demoLoopDictionary) []
    [] [] ["x".toList] "D".toList "b.glsl".toList "#endfor".toList "\ntail\n".toList
    "\ny\n".toList "a".toList ["b".toList] 4 rfl (by decide) rfl (by decide) (by decide)
    (by decide) (by decide) (by decide) (by decide) (by decide) (by decide) (by decide)
    (by decide) (by decide) (by decide) (by decide) (Or.inr ⟨"tail\n".toList, rfl⟩)
    (Or.inr ⟨"y\n".toList, rfl⟩) (by decide)

/-- C15 (counterexample): the root file `#for k, v in D`, `#include "b.glsl"`, `tail` and
the file `b.glsl` with the lines `x`, `#endfor`, `y`. The call fails, and the output it
returns holds the line marker of `b.glsl` and its line `x`, which was written before the
`#endfor` was read. -/
theorem process_endfor_in_include_partial :
    process (demoPreprocessor
        [("/s/root.glsl", "#for k, v in D\n#include \x22b.glsl\x22\ntail\n"),
          ("/s/b.glsl", "x\n#endfor\ny\n")] demoLoopDictionary) [] 4
      = .ok (false, ("#line 1 root.glsl\n//# For loop over D\n//# Key a in D\n"
          ++ "#line 1 b.glsl\nx\n").toList) := by
  decide

/-- C15 (amended): when a `#for` over a reference with at least one key, opened in the
root file A, has its `#endfor` in a file B included from the body of the loop, the failing
call returns the text written before the `#endfor` line was read: the lines of A up to the
`#include` with the markers of the loop, the line marker of B, and the lines of B before
the `#endfor`. Nothing that follows the `#endfor` line in B or the `#include` line in A is
written. -/
theorem process_endfor_in_include_output (sp : ShaderPreprocessor) (tracked : List Str)
    (pre mid preB : List Str) (ref rel lineE tailA tailB key0 : Str) (keys : List Str)
    (fuel : Nat)
    (hopenA : sp.fs.openStream (sp.fs.absPath sp.shaderPath)
      = some (joinLines pre ++ (forLine ref ++ '\n' :: (joinLines mid
          ++ (includeLine rel ++ tailA)))))
    (hexists : sp.fs.fileExists (sp.fs.directoryName (sp.fs.absPath sp.shaderPath)
      ++ [sp.fs.pathSeparator] ++ rel) = true)
    (hopenB : sp.fs.openStream (sp.fs.directoryName (sp.fs.absPath sp.shaderPath)
      ++ [sp.fs.pathSeparator] ++ rel) = some (joinLines preB ++ (lineE ++ tailB)))
    (hpre : ∀ l ∈ pre, '\n' ∉ l ∧ isPlainLine l = true)
    (hmid : ∀ l ∈ mid, '\n' ∉ l ∧ isPlainLine l = true)
    (hpreB : ∀ l ∈ preB, '\n' ∉ l ∧ isPlainLine l = true)
    (href : isReference ref = true) (hkey : sp.dictionary.hasKey ref = true)
    (hkeys : sp.dictionary.valueKeys ref = key0 :: keys)
    (hrel : rel ≠ []) (hq : dquote ∉ rel) (hnl : '\n' ∉ rel) (hb : lbrace ∉ rel)
    (hl : '\n' ∉ lineE) (hend : endForString.isPrefixOf (trim lineE) = true)
    (hsub : strFind openString (trim lineE) = none)
    (htailA : tailA = [] ∨ ∃ rest, tailA = '\n' :: rest)
    (htailB : tailB = [] ∨ ∃ rest, tailB = '\n' :: rest)
    (hfuel : pre.length + mid.length + 3 ≤ fuel ∧ preB.length + 3 ≤ fuel) :
    process sp tracked fuel
      = .ok (false, lineMarker sp sp.initialLineNumber (sp.fs.absPath sp.shaderPath)
          ++ renderLines [] pre ++ "//# For loop over ".toList ++ ref ++ "\n".toList
          ++ keyMarker ref key0 ++ renderLines [] mid
          ++ lineMarker sp sp.initialLineNumber (sp.fs.directoryName
              (sp.fs.absPath sp.shaderPath) ++ [sp.fs.pathSeparator] ++ rel)
          ++ renderLines [] preB) := by
  obtain ⟨e, h1, h2, _, h4⟩ := include_endfor_run sp pre mid preB ref rel lineE tailA tailB
    key0 keys fuel hopenA hexists hopenB hpre hmid hpreB href hkey hkeys hrel hq hnl hb hl
    hend hsub htailA htailB hfuel
  rw [process_of_includeFile sp tracked fuel false e h1, h2, h4]
  rfl

/-- C15 (amended) at the root file `a`, `#for k, v in D`, `m`, `#include "b.glsl"`, `tail`
and the file `b.glsl` with the lines `x`, `#endfor`, `y`. -/
theorem process_endfor_in_include_output_witness :
    process (demoPreprocessor
        [("/s/root.glsl", "a\n#for k, v in D\nm\n#include \x22b.glsl\x22\ntail\n"),
          ("/s/b.glsl", "x\n#endfor\ny\n")] demoLoopDictionary) [] 6
      = .ok (false, ("#line 1 root.glsl\na\n//# For loop over D\n//# Key a in D\nm\n"
          ++ "#line 1 b.glsl\nx\n").toList) :=
  process_endfor_in_include_output
    (demoPreprocessor
      [("/s/root.glsl", "a\n#for k, v in D\nm\n#include \x22b.glsl\x22\ntail\n"),
        ("/s/b.glsl", "x\n#endfor\ny\n")] demoLoopDictionary) []
    ["a".toList] ["m".toList] ["x".toList] "D".toList "b.glsl".toList "#endfor".toList
    "\ntail\n".toList "\ny\n".toList "a".toList ["b".toList] 6 rfl (by decide) rfl
    (by decide) (by decide) (by decide) (by decide) (by decide) (by decide) (by decide)
    (by decide) (by decide) (by decide) (by decide) (by decide) (by decide)
    (Or.inr ⟨"tail\n".toList, rfl⟩) (Or.inr ⟨"y\n".toList, rfl⟩) (by decide)

/-! ## Loops left open at the end of a file -/

/-- C16: the end of a file reached while a `#for` opened in that file is not closed makes
`process` return failure. The file holds plain lines, the line `#for k, v in ref` for a
key `ref` of the dictionary, and plain lines up to its end, without `#endfor`. It is the
root file, or it is included by `#include "rel"` from a root file that starts with plain
lines. In both cases `process` returns false, and the loop is still open in the final
environment. -/
theorem process_unclosed_for (sp : ShaderPreprocessor) (tracked : List Str)
    (preR pre body : List Str) (ref rel tailR : Str) (fuel : Nat)
    (hpre : ∀ l ∈ pre, '\n' ∉ l ∧ isPlainLine l = true)
    (hbody : ∀ l ∈ body, '\n' ∉ l ∧ isPlainLine l = true)
    (href : isReference ref = true) (hkey : sp.dictionary.hasKey ref = true)
    (hfile : sp.fs.openStream (sp.fs.absPath sp.shaderPath)
        = some (joinLines pre ++ (forLine ref ++ '\n' :: joinLines body))
      ∨ (sp.fs.openStream (sp.fs.absPath sp.shaderPath)
            = some (joinLines preR ++ (includeLine rel ++ tailR))
          ∧ (∀ l ∈ preR, '\n' ∉ l ∧ isPlainLine l = true)
          ∧ rel ≠ [] ∧ dquote ∉ rel ∧ '\n' ∉ rel ∧ lbrace ∉ rel
          ∧ (tailR = [] ∨ ∃ rest, tailR = '\n' :: rest)
          ∧ sp.fs.fileExists (sp.fs.directoryName (sp.fs.absPath sp.shaderPath)
              ++ [sp.fs.pathSeparator] ++ rel) = true
          ∧ sp.fs.openStream (sp.fs.directoryName (sp.fs.absPath sp.shaderPath)
              ++ [sp.fs.pathSeparator] ++ rel)
            = some (joinLines pre ++ (forLine ref ++ '\n' :: joinLines body))
          ∧ preR.length + 3 ≤ fuel))
    (hfuel : pre.length + body.length + 4 ≤ fuel) :
    ∃ env, processEnv sp tracked fuel = .ok env ∧ env.success = false
      ∧ env.forStatements ≠ [] ∧ process sp tracked fuel = .ok (false, env.output) := by
  have fin : ∀ e : Env,
      includeFile sp fuel (sp.fs.absPath sp.shaderPath) (Env.initial []) = .ok (false, e) →
      e.forStatements ≠ [] →
      ∃ env, processEnv sp tracked fuel = .ok env ∧ env.success = false
        ∧ env.forStatements ≠ [] ∧ process sp tracked fuel = .ok (false, env.output) := by
    intro e h1 h2
    obtain ⟨env1, g1, g2, _, g4, _, _⟩ := processEnv_fields sp tracked fuel false e h1
    have hs : env1.success = false := by
      rw [g2]
      cases hf : e.forStatements with
      | nil => exact absurd hf h2
      | cons a b => simp
    refine ⟨env1, g1, hs, by rw [g4]; exact h2, ?_⟩
    simp only [process, g1, hs]
  obtain ⟨F, rfl⟩ : ∃ F, fuel = F + 1 := ⟨fuel - 1, by omega⟩
  rcases hfile with hopen | ⟨hopenR, hpreR, hrel, hq, hnl, hb, htail, hexists, hopen, hfuelR⟩
  · obtain ⟨e, c, fs, h1, _, _, h4, _, _⟩ := includeFile_unclosed_for sp F
      (sp.fs.absPath sp.shaderPath) (Env.initial []) pre body ref ref hopen hpre hbody rfl rfl
      href (resolveAlias_unbound sp ref (Env.initial []) rfl hkey) (by omega)
    exact fin e h1 (by rw [h4]; simp)
  · obtain ⟨f, hF1⟩ : ∃ f, F = f + 1 + 1 + preR.length := ⟨F - preR.length - 2, by omega⟩
    obtain ⟨F1, hF2⟩ : ∃ F1, F = F1 + 1 := ⟨F - 1, by omega⟩
    obtain ⟨i0, _, fr0⟩ := enter_initial sp (sp.fs.absPath sp.shaderPath)
      (joinLines preR ++ (includeLine rel ++ tailR))
    obtain ⟨env1, input1, r1, _, r3, r4, r5, r6⟩ := run_plain sp
      (includeFile sp F) (sp.fs.absPath sp.shaderPath) [] preR _ _ _ (f + 1 + 1)
      hpreR i0 ⟨rfl, rfl, Nat.zero_le _, rfl⟩ rfl rfl
    rw [← hF1] at r1
    have hfr1 : (Env.initial []).Frame env1 := fr0.comp r6
    obtain ⟨u1, u2, u3, u4, u5⟩ := includeLine_facts rel hnl hb
    obtain ⟨input2, p1, p2, _, _, _⟩ := parseLine_read_any sp
      (includeFile sp F) env1 [] input1 (includeLine rel) tailR r3 r4 u2 u5 htail
    have hin2 := afterRead_inputs env1 [] input1 input2 (includeLine rel) r3
    obtain ⟨e, he⟩ : ∃ e : Env, e = env1.afterRead input2 (includeLine rel) := ⟨_, rfl⟩
    have e1 : e.line = includeLine rel := by rw [he]; simp [Env.afterRead, u1]
    have e2 : e.forStatements = [] := by
      rw [he]; show env1.forStatements = _; rw [hfr1.forStatements]; rfl
    have e3 : e.inputs = [] ++ [{ input2 with lineNumber := input2.lineNumber + 1 }] := by
      rw [he]; exact hin2
    have e5 : e.success = true := by
      rw [he]; show env1.success = true; rw [hfr1.success]; rfl
    have e7 : e.aliases = (Env.initial []).aliases := by
      rw [he]; show env1.aliases = _; rw [hfr1.aliases]
    have hempe : isInsideEmptyForStatement e = false := by
      simp [isInsideEmptyForStatement, e2]
    have hpath : input2.path = sp.fs.absPath sp.shaderPath := by rw [p2, r5.path]
    have hpi := parseInclude_quoted sp (includeFile sp F) e
      { input2 with lineNumber := input2.lineNumber + 1 } rel e1 hrel hq (by rw [e3]; simp)
    have hres : resolveQuoted sp { input2 with lineNumber := input2.lineNumber + 1 } rel
        = some (sp.fs.directoryName (sp.fs.absPath sp.shaderPath)
            ++ [sp.fs.pathSeparator] ++ rel) := by
      simp only [resolveQuoted, hpath, hexists, if_true]
    rw [hres] at hpi
    obtain ⟨eC, c, fs, c1, c2, c3, c4, c5, c6⟩ := includeFile_unclosed_for sp F1
      (sp.fs.directoryName (sp.fs.absPath sp.shaderPath) ++ [sp.fs.pathSeparator] ++ rel)
      e pre body ref ref hopen hpre hbody hempe e5 href
      (resolveAlias_unbound sp ref e (by rw [e7]; rfl) hkey) (by omega)
    rw [← hF2] at c1
    have hpi2 : parseInclude sp (includeFile sp F) e = .ok (true, eC) := by
      rw [hpi]
      show consumed (includeFile sp F _ e) = _
      rw [c1]; rfl
    have hd : parseLine sp (includeFile sp F) env1 = .ok (true, eC) := by
      rw [p1, ← he]
      exact dispatchLine_include sp _ input1 e eC (by rw [e1]; exact u3) hempe
        (by rw [e1]; exact u4) hpi2
    have hstep := parseLines_step sp (parseLine sp (includeFile sp F))
      (sp.fs.absPath sp.shaderPath) (f + 1) env1 eC hd c6
    have hdead := parseLine_eofbit sp (includeFile sp F) eC e.inputs c c2 c3
    have hstop := parseLines_stop sp (parseLine sp (includeFile sp F))
      (sp.fs.absPath sp.shaderPath) f eC _ hdead
    rw [← hstep, ← r1] at hstop
    have hi := includeFile_unclosed sp F (sp.fs.absPath sp.shaderPath) _ (Env.initial []) _
      fs { c with failbit := true } hopenR hstop (by simp [c4])
      (by simp [c5, e3]) (by simp [c5, e3])
    exact fin _ hi (by simp [logError, c4])

/-- C16 at the root file `a`, `#for k, v in D`, `x`, and at the root file `a`,
`#include "c.glsl"`, `tail` where `c.glsl` holds the lines `#for k, v in D`, `x`. -/
theorem process_unclosed_for_witness :
    (∃ env, processEnv (demoPreprocessor [("/s/root.glsl", "a\n#for k, v in D\nx\n")]
          demoLoopDictionary) [] 6 = .ok env
        ∧ env.success = false ∧ env.forStatements ≠ []
        ∧ process (demoPreprocessor [("/s/root.glsl", "a\n#for k, v in D\nx\n")]
            demoLoopDictionary) [] 6 = .ok (false, env.output))
      ∧ ∃ env, processEnv (demoPreprocessor
            [("/s/root.glsl", "a\n#include \x22c.glsl\x22\ntail\n"),
              ("/s/c.glsl", "#for k, v in D\nx\n")] demoLoopDictionary) [] 5 = .ok env
          ∧ env.success = false ∧ env.forStatements ≠ []
          ∧ process (demoPreprocessor
              [("/s/root.glsl", "a\n#include \x22c.glsl\x22\ntail\n"),
                ("/s/c.glsl", "#for k, v in D\nx\n")] demoLoopDictionary) [] 5
            = .ok (false, env.output) :=
  ⟨process_unclosed_for (demoPreprocessor [("/s/root.glsl", "a\n#for k, v in D\nx\n")]
      demoLoopDictionary) [] [] ["a".toList] ["x".toList] "D".toList [] [] 6
      (by decide) (by decide) (by decide) (by decide) (Or.inl rfl) (by decide),
    process_unclosed_for (demoPreprocessor
      [("/s/root.glsl", "a\n#include \x22c.glsl\x22\ntail\n"),
        ("/s/c.glsl", "#for k, v in D\nx\n")] demoLoopDictionary) []
      ["a".toList] [] ["x".toList] "D".toList "c.glsl".toList "\ntail\n".toList 5
      (by decide) (by decide) (by decide) (by decide)
      (Or.inr ⟨rfl, by decide, by decide, by decide, by decide, by decide,
        Or.inr ⟨"tail\n".toList, rfl⟩, by decide, rfl, by decide⟩) (by decide)⟩

/-! ## Loops without keys, tracked paths, and runs after a failure -/

/-- C21 (the code at the failing input): the root file `#for k, v in E`, `#for k2, v2 in D`,
`x`, `#endfor`, `y`, `#endfor`, `z`, where `E` has no keys. Inside the empty loop the
nested `#for` line is skipped like any other line, so the first `#endfor` closes the outer
loop: the line `y` is written, the second `#endfor` finds no open loop, and `process`
returns false. -/
theorem process_nested_in_empty_loop :
    process (demoPreprocessor
        [("/s/root.glsl", "#for k, v in E\n#for k2, v2 in D\nx\n#endfor\ny\n#endfor\nz\n")]
        demoLoopDictionary) [] 8
      = .ok (false, ("#line 1 root.glsl\n//# Empty for loop\n"
          ++ "//# Terminated loop over E\ny\n").toList) := by
  decide

/-- C24: `process` does not depend on the tracked paths an earlier call left behind: for
the same preprocessor (root path, files, include paths, dictionary) and the same fuel, the
flag, the output and the tracked paths afterwards are the same whatever `_trackedFiles`
held before the call, because `process` first clears it. -/
theorem process_independent_of_tracked (sp : ShaderPreprocessor) (tracked1 tracked2 : List Str)
    (fuel : Nat) :
    process sp tracked1 fuel = process sp tracked2 fuel
      ∧ trackedAfter sp tracked1 fuel = trackedAfter sp tracked2 fuel := by
  have h : processEnv sp tracked1 fuel = processEnv sp tracked2 fuel := rfl
  simp only [process, trackedAfter, h, and_self]

/-- C28 (the code at the failing input): the root file `a`, `#include "c.glsl"`, `b`, where
`c.glsl` starts with the line `#endfor #{x`. `parseEndFor` unsets `success` for the
unexpected `#endfor`; the unterminated `#{` then makes `parseLine` return false, which
`includeFile` takes for the end of `c.glsl`: it pops the `Input` and writes the marker
`#line 3 root.glsl` after the failure. -/
theorem process_writes_after_failure :
    process (demoPreprocessor
        [("/s/root.glsl", "a\n#include \x22c.glsl\x22\nb\n"),
          ("/s/c.glsl", "#endfor #\x7bx\nq\n")] emptyDictionary) [] 5
      = .ok (false, "#line 1 root.glsl\na\n#line 1 c.glsl\n#line 3 root.glsl\n".toList) := by
  decide

/-- C23 (the code on every input): once `process` has returned, no path is tracked,
whatever was tracked before and whichever files were opened. `clearTrackedPaths` empties
`_trackedFiles`, and `trackPath` enters a path only when `find` already finds it there, so
the root file and the included files are never registered. -/
theorem process_tracks_nothing (sp : ShaderPreprocessor) (tracked : List Str) (fuel : Nat)
    (paths : List Str) (h : trackedAfter sp tracked fuel = .ok paths) : paths = [] := by
  unfold trackedAfter at h
  cases hp : processEnv sp tracked fuel with
  | crash => rw [hp] at h; cases h
  | outOfFuel => rw [hp] at h; cases h
  | ok env =>
    rw [hp] at h
    simp only [Res.ok.injEq] at h
    rw [← h]
    exact processEnv_tracked sp tracked fuel env hp

/-- C23 at the root file `a`, `#include "c.glsl"`, `b` with `c.glsl` next to it, when
`/old.glsl` was tracked before: the run succeeds, two files are opened, none is tracked. -/
theorem process_tracks_nothing_witness :
    process demoIncludePreprocessor ["/old.glsl".toList] 5
        = .ok (true, "#line 1 root.glsl\na\n#line 1 c.glsl\nx\n#line 3 root.glsl\nb\n".toList)
      ∧ ∃ paths, trackedAfter demoIncludePreprocessor ["/old.glsl".toList] 5 = .ok paths
          ∧ paths = [] :=
  ⟨by decide, [], by decide,
    process_tracks_nothing demoIncludePreprocessor ["/old.glsl".toList] 5 [] (by decide)⟩

/-- C29: for every line without an occurrence of `#{`, `substituteLine` returns true and
leaves the line, and the rest of the environment, as it is, whatever the dictionary and
the alias table hold. -/
theorem substituteLine_without_occurrence (sp : ShaderPreprocessor) (env : Env)
    (h : ¬ openString <:+: env.line) : substituteLine sp env = (true, env) :=
  substituteLine_none sp env ((strFind_eq_none_iff openString env.line).mpr h)

/-- C29 at the line `color = mat.diffuse;` in an environment where `color` is an alias. -/
theorem substituteLine_without_occurrence_witness :
    ¬ openString <:+: "color = mat.diffuse;".toList
      ∧ substituteLine (demoPreprocessor [] demoColorDictionary)
          { demoAliasEnv with line := "color = mat.diffuse;".toList }
        = (true, { demoAliasEnv with line := "color = mat.diffuse;".toList }) :=
  ⟨by decide, substituteLine_without_occurrence (demoPreprocessor [] demoColorDictionary)
    { demoAliasEnv with line := "color = mat.diffuse;".toList } (by decide)⟩

/-- C30 (the code at the failing input): for the line that is one space, `trim` returns
the space, so the text the handlers see begins and ends with whitespace, and the captured
indentation is empty although the leading whitespace of the line is the space. -/
theorem trim_blank_line :
    trim " ".toList = " ".toList ∧ (trimParts " ".toList).1 = []
      ∧ " ".toList.takeWhile (fun c => decide (c ∈ ws)) = " ".toList := by
  decide

/-- What `trim` does for every line. For a line with at least one character that is not
whitespace, the captured indentation is exactly the leading whitespace of the line, and
the text `trim` returns begins and ends with a character that is not whitespace; what
follows it in the line is whitespace. A line without such a character, the empty line
included, comes back whole, with empty indentation. -/
theorem trim_line (l : Str) :
    ((∃ c ∈ l, c ∉ ws) →
        (trimParts l).1 = l.takeWhile (fun c => decide (c ∈ ws))
          ∧ (∃ a, (trim l).head? = some a ∧ a ∉ ws)
          ∧ (∃ z, (trim l).getLast? = some z ∧ z ∉ ws)
          ∧ (trimParts l).1 ++ trim l ++ (trimParts l).2.2 = l
          ∧ (∀ c ∈ (trimParts l).2.2, c ∈ ws))
      ∧ ((∀ c ∈ l, c ∈ ws) → trim l = l ∧ (trimParts l).1 = []) := by
  obtain ⟨h1, h2⟩ := trimParts_cases l
  refine ⟨h1, fun h => ?_⟩
  have := h2 h
  simp [trim, this]

/-! ## The invariant of the alias table -/

/-- C25: the invariant of the alias table (`AliasInv`: every name bound to a non-empty
stack that has one binding for each open scope containing the name, and no other name
bound) holds in the initial environment, is preserved by `pushScope` for every map and by
`popScope`, hence by `parseFor` and `parseEndFor`; and under it a name is a key of the
alias table exactly when some open scope contains it. -/
theorem aliasInv_preserved (sp : ShaderPreprocessor) :
    (∀ tracked, AliasInv (Env.initial tracked))
      ∧ (∀ env m, AliasInv env → IsMap m → AliasInv (pushScope m env))
      ∧ (∀ env, AliasInv env → AliasInv (popScope env).2)
      ∧ (∀ env b env1, AliasInv env → parseFor sp env = .ok (b, env1) → AliasInv env1)
      ∧ (∀ env b env1, AliasInv env → parseEndFor sp env = .ok (b, env1) → AliasInv env1)
      ∧ (∀ env, AliasInv env → ∀ name,
          ((env.aliases name).isSome = true ↔ ∃ s ∈ env.scopes, name ∈ s)
            ∧ ∀ st, env.aliases name = some st →
                st ≠ [] ∧ st.length = env.scopes.countP (fun s => decide (name ∈ s))) := by
  refine ⟨aliasInv_initial, fun env m h hm => aliasInv_pushScope m env h hm,
    aliasInv_popScope, fun env b env1 h hp => aliasInv_parseFor sp env env1 b h hp,
    fun env b env1 h hp => aliasInv_parseEndFor sp env env1 b h hp, ?_⟩
  intro env h name
  refine ⟨aliasInv_key_iff h name, fun st hst => ?_⟩
  obtain ⟨h1, h2⟩ := h.2 name
  rw [hst] at h1 h2
  exact ⟨fun e => h1 (by rw [e]), by simpa using h2⟩

/-- C25 at the scope that binds `k` and `v`, pushed on the initial environment and popped
again, and at the name `k` while the scope is open. -/
theorem aliasInv_preserved_witness :
    IsMap [("k".toList, "inner".toList), ("v".toList, "D.a".toList)]
      ∧ AliasInv (pushScope [("k".toList, "inner".toList), ("v".toList, "D.a".toList)]
          (Env.initial []))
      ∧ AliasInv (popScope (pushScope
          [("k".toList, "inner".toList), ("v".toList, "D.a".toList)] (Env.initial []))).2
      ∧ (((pushScope [("k".toList, "inner".toList), ("v".toList, "D.a".toList)]
            (Env.initial [])).aliases "k".toList).isSome = true
          ↔ ∃ s ∈ (pushScope [("k".toList, "inner".toList), ("v".toList, "D.a".toList)]
              (Env.initial [])).scopes, "k".toList ∈ s) := by
  have hm : IsMap [("k".toList, "inner".toList), ("v".toList, "D.a".toList)] := by decide
  have h1 := (aliasInv_preserved (demoPreprocessor [] emptyDictionary)).2.1 (Env.initial [])
    [("k".toList, "inner".toList), ("v".toList, "D.a".toList)]
    ((aliasInv_preserved (demoPreprocessor [] emptyDictionary)).1 []) hm
  exact ⟨hm, h1,
    (aliasInv_preserved (demoPreprocessor [] emptyDictionary)).2.2.1 _ h1,
    ((aliasInv_preserved (demoPreprocessor [] emptyDictionary)).2.2.2.2.2 _ h1
      "k".toList).1⟩

/-! ## Indentation of included files -/

/-- C26: a plain line of an included file is written behind the accumulated indentation of
the including `Input`, then the leading whitespace of the `#include` line, then its own
leading whitespace; across nested includes the prefixes accumulate outermost first. Take a
root file A with plain lines `pre`, the line `#include "rel1"` behind the whitespace `w1`,
and plain lines `post`; the file B that `rel1` names next to A, with plain lines `preB`,
the line `#include "rel2"` behind the whitespace `w2`, and plain lines `postB`; and the
file C of plain lines that `rel2` names next to B. `process` succeeds; the lines of A are
written with their own whitespace only (`renderLines []`), the lines of B behind `w1`, the
lines of C behind `w1 ++ w2`, each followed by its own leading whitespace and its trimmed
text. -/
theorem process_include_indentation (sp : ShaderPreprocessor) (tracked : List Str)
    (pre preB : List Str) (w1 rel1 w2 rel2 post postB contentC : Str) (fuel : Nat)
    (hopenA : sp.fs.openStream (sp.fs.absPath sp.shaderPath)
      = some (joinLines pre ++ ((w1 ++ includeLine rel1) ++ '\n' :: post)))
    (hexistsB : sp.fs.fileExists (siblingPath sp (sp.fs.absPath sp.shaderPath) rel1) = true)
    (hopenB : sp.fs.openStream (siblingPath sp (sp.fs.absPath sp.shaderPath) rel1)
      = some (joinLines preB ++ ((w2 ++ includeLine rel2) ++ '\n' :: postB)))
    (hexistsC : sp.fs.fileExists
      (siblingPath sp (siblingPath sp (sp.fs.absPath sp.shaderPath) rel1) rel2) = true)
    (hopenC : sp.fs.openStream
      (siblingPath sp (siblingPath sp (sp.fs.absPath sp.shaderPath) rel1) rel2)
        = some contentC)
    (hw1 : ∀ x ∈ w1, x ∈ ws) (hwn1 : '\n' ∉ w1)
    (hw2 : ∀ x ∈ w2, x ∈ ws) (hwn2 : '\n' ∉ w2)
    (hrel1 : rel1 ≠ []) (hq1 : dquote ∉ rel1) (hnl1 : '\n' ∉ rel1) (hb1 : lbrace ∉ rel1)
    (hrel2 : rel2 ≠ []) (hq2 : dquote ∉ rel2) (hnl2 : '\n' ∉ rel2) (hb2 : lbrace ∉ rel2)
    (hpre : ∀ l ∈ pre, '\n' ∉ l ∧ isPlainLine l = true)
    (hpost : ∀ l ∈ fileLines post, isPlainLine l = true)
    (hpreB : ∀ l ∈ preB, '\n' ∉ l ∧ isPlainLine l = true)
    (hpostB : ∀ l ∈ fileLines postB, isPlainLine l = true)
    (hplainC : ∀ l ∈ fileLines contentC, isPlainLine l = true)
    (hfuel : pre.length + (fileLines post).length + 3 ≤ fuel
      ∧ preB.length + (fileLines postB).length + 4 ≤ fuel
      ∧ (fileLines contentC).length + 4 ≤ fuel) :
    process sp tracked fuel
      = .ok (true, lineMarker sp sp.initialLineNumber (sp.fs.absPath sp.shaderPath)
          ++ renderLines [] pre
          ++ lineMarker sp sp.initialLineNumber
              (siblingPath sp (sp.fs.absPath sp.shaderPath) rel1)
          ++ renderLines w1 preB
          ++ lineMarker sp sp.initialLineNumber
              (siblingPath sp (siblingPath sp (sp.fs.absPath sp.shaderPath) rel1) rel2)
          ++ renderLines (w1 ++ w2) (fileLines contentC)
          ++ lineMarker sp (sp.initialLineNumber + preB.length + 1)
              (siblingPath sp (sp.fs.absPath sp.shaderPath) rel1)
          ++ renderLines w1 (fileLines postB)
          ++ lineMarker sp (sp.initialLineNumber + pre.length + 1)
              (sp.fs.absPath sp.shaderPath)
          ++ renderLines [] (fileLines post)) := by
  obtain ⟨H, rfl⟩ : ∃ H, fuel = H + 1 + 1 + 1 := ⟨fuel - 3, by omega⟩
  obtain ⟨f, hF⟩ : ∃ f, H + 1 + 1 = f + (fileLines post).length + 1 + 1 + pre.length :=
    ⟨H - pre.length - (fileLines post).length, by omega⟩
  obtain ⟨i0, o0, fr0⟩ := enter_initial sp (sp.fs.absPath sp.shaderPath)
    (joinLines pre ++ ((w1 ++ includeLine rel1) ++ '\n' :: post))
  -- the lines of A before the include
  obtain ⟨e1, c1, r1, r2, r3, r4, r5, r6⟩ := run_plain sp (includeFile sp (H + 1 + 1))
    (sp.fs.absPath sp.shaderPath) [] pre ((w1 ++ includeLine rel1) ++ '\n' :: post) _ _
    (f + (fileLines post).length + 1 + 1) hpre i0 ⟨rfl, rfl, Nat.zero_le _, rfl⟩ rfl rfl
  rw [← hF] at r1
  have hfr1 := fr0.comp r6
  have hemp1 : isInsideEmptyForStatement e1 = false := by
    simp [isInsideEmptyForStatement, hfr1.forStatements, Env.initial]
  have hsucc1 : e1.success = true := by rw [hfr1.success]; rfl
  have hp1 : c1.path = sp.fs.absPath sp.shaderPath := r5.path
  have hi1 : c1.indentation = [] := r5.indentation
  have hl1 : c1.lineNumber = sp.initialLineNumber + pre.length := r5.lineNumber
  -- the include of B, which includes C
  obtain ⟨e2, c2, s1, s2, s3, s4, s5, s6⟩ := run_include_nested sp H
    (sp.fs.absPath sp.shaderPath) [] post e1 c1 (f + (fileLines post).length + 1)
    w1 rel1 w2 rel2 postB contentC preB r3 r4 hw1 hwn1 hw2 hwn2 hemp1 hsucc1
    hrel1 hq1 hnl1 hb1 hrel2 hq2 hnl2 hb2 (by rw [hp1]; exact hexistsB)
    (by rw [hp1]; exact hopenB) (by rw [hp1]; exact hexistsC) (by rw [hp1]; exact hopenC)
    hpreB hpostB hplainC
    (fun fs hfs => by
      rw [hfr1.forStatements] at hfs
      simp [Env.initial] at hfs)
    ⟨by omega, by omega⟩
  have hfr2 := hfr1.comp s6
  -- the lines of A behind the include
  obtain ⟨e3, c3, t1, t2, t3, _, _, _, t7⟩ := run_plain_end sp (includeFile sp (H + 1 + 1))
    (sp.fs.absPath sp.shaderPath) [] post e2 c2 f hpost s3 s4
    (by simp [isInsideEmptyForStatement, hfr2.forStatements, Env.initial])
    (by rw [hfr2.success]; rfl)
  have hfr3 := hfr2.comp t7
  have hrun : parseLines sp (parseLine sp (includeFile sp (H + 1 + 1)))
      (sp.fs.absPath sp.shaderPath) (H + 1 + 1)
      ((Env.initial []).enter sp (sp.fs.absPath sp.shaderPath)
        (joinLines pre ++ ((w1 ++ includeLine rel1) ++ '\n' :: post))) = .ok (true, e3) := by
    rw [r1, s1, t1]
  have hinc := includeFile_root sp (H + 1 + 1) (sp.fs.absPath sp.shaderPath) _
    (Env.initial []) e3 c3 hopenA hrun (by rw [hfr3.forStatements]; rfl) (by simpa using t3)
  have hp := processEnv_of_includeFile sp tracked _ true _ hinc
    (by show e3.forStatements = []; rw [hfr3.forStatements]; rfl)
    (by show e3.scopes = []; rw [hfr3.scopes]; rfl)
  have hs : e3.success = true := by rw [hfr3.success]; rfl
  simp only [process, hp, hs]
  rw [t2, s2, r2, o0, s5.indentation, hi1, hl1, hp1]
  simp only [List.nil_append, List.append_assoc]

/-- C26 at the root file `a`, `  #include "c.glsl"`, `b`, the file `c.glsl` with the lines
`x`, a tab and `#include "d.glsl"`, ` y`, and the file `d.glsl` with the lines `p` and
`  q`: the lines of `d.glsl` are written behind two spaces and a tab, then their own
whitespace. -/
theorem process_include_indentation_witness :
    process (demoPreprocessor demoNestedFiles emptyDictionary) [] 6
      = .ok (true, ("#line 1 root.glsl\na\n#line 1 c.glsl\n  x\n#line 1 d.glsl\n"
          ++ "  \tp\n  \t  q\n#line 3 c.glsl\n   y\n#line 3 root.glsl\nb\n").toList) :=
  (process_include_indentation (demoPreprocessor demoNestedFiles emptyDictionary) []
    ["a".toList] ["x".toList] "  ".toList "c.glsl".toList "\t".toList "d.glsl".toList
    "b\n".toList " y\n".toList "p\n  q\n".toList 6 rfl (by decide) rfl (by decide) rfl
    (by decide) (by decide) (by decide) (by decide) (by decide) (by decide) (by decide)
    (by decide) (by decide) (by decide) (by decide) (by decide) (by decide) (by decide)
    (by decide) (by decide) (by decide) (by decide)).trans (by decide)

/-! ## Which lines are copied -/

/-- C27 (counterexample): the root file with the lines `#include x`, `#for` and `#{k}`,
where the dictionary holds the string `#endfor` for `k`. All three lines stand outside a
loop, and the text of each, after trimming and substitution, begins with one of the
prefixes `#include`, `#for`, `#endfor`; all three are copied to the output, and the call
succeeds. -/
theorem process_copies_short_directives :
    process (demoPreprocessor [("/s/root.glsl", "#include x\n#for\n#\x7bk\x7d\n")]
        demoEndForDictionary) [] 5
      = .ok (true, "#line 1 root.glsl\n#include x\n#for\n#endfor\n".toList) := by
  decide

/-- C27 (amended): which lines `parseLine` copies, for the line held in `env.line` after
trimming. A line that begins with `#endfor` before the substitutions is consumed by
`parseEndFor`: what `parseLine` returns holds the output `parseEndFor` left. Otherwise,
outside an empty loop and when the substitutions succeed with the line `env2.line`: a line
that begins with `#include` and is longer than 11 characters is consumed by
`parseInclude`, whose result is the result; a line from which `tokenizeFor` extracts the
three names is consumed by `parseFor`, whose result is the result; and a line that neither
begins with `#include` and is longer than 11 characters, nor begins with `#for` and is at
least 6 characters long, is copied to the output behind the indentation. -/
theorem dispatchLine_directives (sp : ShaderPreprocessor)
    (inc : Str → Env → Res (Bool × Env)) (input : Input) (env : Env) :
    (endForString.isPrefixOf env.line = true →
        ∀ r, parseEndFor sp env = .ok r →
          r.1 = true ∧ ∃ b e1, dispatchLine sp inc input env = .ok (b, e1)
            ∧ e1.output = r.2.output)
      ∧ (endForString.isPrefixOf env.line = false →
          isInsideEmptyForStatement env = false →
          ∀ env2, substituteLine sp env = (true, env2) →
            (includeString.isPrefixOf env2.line = true → env2.line.length > 11 →
                dispatchLine sp inc input env = parseInclude sp inc env2
                  ∧ ∀ r, parseInclude sp inc env2 = .ok r → r.1 = true)
              ∧ ((∃ k v d, tokenizeFor env2.line = some (.tokens k v d)) →
                  dispatchLine sp inc input env = parseFor sp env2
                    ∧ ∀ r, parseFor sp env2 = .ok r → r.1 = true)
              ∧ ((includeString.isPrefixOf env2.line = false ∨ env2.line.length ≤ 11) →
                  (forString.isPrefixOf env2.line = false ∨ env2.line.length < 6) →
                  dispatchLine sp inc input env
                    = .ok (true, { env2 with
                        output := env2.output ++ input.indentation ++ env2.indentation
                          ++ env2.line ++ "\n".toList }))) := by
  refine ⟨fun hend r hr => ?_, fun hend hemp env2 hs => ⟨fun hi hlen => ?_, fun ht => ?_,
    fun hi hf => ?_⟩⟩
  · have hflag := parseEndFor_flag sp env hend r hr
    refine ⟨hflag, ?_⟩
    obtain ⟨rb, re⟩ := r
    simp only at hflag
    subst hflag
    unfold dispatchLine
    rw [hr]
    dsimp only
    by_cases he : isInsideEmptyForStatement re = true
    · rw [if_pos he]; exact ⟨true, re, rfl, rfl⟩
    · rw [if_neg he]
      cases hsl : (substituteLine sp re).1 with
      | false =>
        exact ⟨false, (substituteLine sp re).2, by simp, (substituteLine_frame sp re).2.1⟩
      | true =>
        exact ⟨true, (substituteLine sp re).2, by simp, (substituteLine_frame sp re).2.1⟩
  · have hflag := parseInclude_flag sp inc env2 hi hlen
    refine ⟨?_, hflag⟩
    unfold dispatchLine
    rw [parseEndFor_not sp env hend]
    dsimp only
    rw [hemp, hs]
    cases hp : parseInclude sp inc env2 with
    | crash => simp
    | outOfFuel => simp
    | ok i =>
      have := hflag i hp
      obtain ⟨ib, ie⟩ := i
      simp only at this
      subst this
      simp
  · obtain ⟨k, v, d, ht⟩ := ht
    have hflag := parseFor_flag sp env2 k v d ht
    refine ⟨?_, hflag⟩
    have hni := not_include_of_for (isPrefixOf_of_tokens ht)
    unfold dispatchLine
    rw [parseEndFor_not sp env hend]
    dsimp only
    rw [hemp, hs, parseInclude_not sp inc env2 hni]
    cases hp : parseFor sp env2 with
    | crash => simp [hp]
    | outOfFuel => simp [hp]
    | ok f =>
      have := hflag f hp
      obtain ⟨fb, fe⟩ := f
      simp only at this
      subst this
      simp [hp]
  · have h1 : parseInclude sp inc env2 = .ok (false, env2) := by
      rcases hi with h | h
      · exact parseInclude_not sp inc env2 h
      · exact parseInclude_short sp inc env2 h
    have h2 : parseFor sp env2 = .ok (false, env2) := by
      rcases hf with h | h
      · exact parseFor_not sp env2 h
      · exact parseFor_short sp env2 h
    unfold dispatchLine
    rw [parseEndFor_not sp env hend]
    dsimp only
    rw [hemp, hs, h1]
    simp [h2]

/-- C27 (amended) at the lines `#include x`, which is copied, `#for k, v in D`, which
`parseFor` consumes, and `#endfor` outside a loop, which `parseEndFor` consumes. -/
theorem dispatchLine_directives_witness :
    dispatchLine (demoPreprocessor [] emptyDictionary) (fun _ _ => .crash)
        (demoLineInput "#include x") (demoLineEnv "#include x")
        = .ok (true, { demoLineEnv "#include x" with output := "#include x\n".toList })
      ∧ (dispatchLine (demoPreprocessor [] demoLoopDictionary) (fun _ _ => .crash)
          (demoLineInput "#for k, v in D") (demoLineEnv "#for k, v in D")
          = parseFor (demoPreprocessor [] demoLoopDictionary) (demoLineEnv "#for k, v in D")
        ∧ ∀ r, parseFor (demoPreprocessor [] demoLoopDictionary)
            (demoLineEnv "#for k, v in D") = .ok r → r.1 = true)
      ∧ ∀ r, parseEndFor (demoPreprocessor [] emptyDictionary) (demoLineEnv "#endfor")
          = .ok r →
        r.1 = true ∧ ∃ b e1, dispatchLine (demoPreprocessor [] emptyDictionary)
          (fun _ _ => .crash) (demoLineInput "#endfor") (demoLineEnv "#endfor") = .ok (b, e1)
          ∧ e1.output = r.2.output :=
  ⟨((dispatchLine_directives (demoPreprocessor [] emptyDictionary) (fun _ _ => .crash)
      (demoLineInput "#include x") (demoLineEnv "#include x")).2 (by decide) (by decide)
      (demoLineEnv "#include x") (substituteLine_none _ _ (by decide))).2.2 (Or.inr (by decide)) (Or.inl (by decide)),
    ((dispatchLine_directives (demoPreprocessor [] demoLoopDictionary) (fun _ _ => .crash)
      (demoLineInput "#for k, v in D") (demoLineEnv "#for k, v in D")).2 (by decide)
      (by decide) (demoLineEnv "#for k, v in D") (substituteLine_none _ _ (by decide))).2.1
      ⟨"k".toList, "v".toList, "D".toList, by decide⟩,
    (dispatchLine_directives (demoPreprocessor [] emptyDictionary) (fun _ _ => .crash)
      (demoLineInput "#endfor") (demoLineEnv "#endfor")).1 (by decide)⟩

/-! ## The tokens of a `#for` line -/

/-- C22 (counterexample): the line `#for k, v in a b`. The text that remains after `in`,
trimmed, is `a b`; `tokenizeFor` returns the reference `a`. And the line
`#for k, v w in D`, where the text between the comma and `in` is `v w`: `tokenizeFor`
fails with the error of a missing `in`. -/
theorem tokenizeFor_reference_token :
    tokenizeFor "#for k, v in a b".toList
        = some (.tokens "k".toList "v".toList "a".toList)
      ∧ trim " a b".toList = "a b".toList
      ∧ tokenizeFor "#for k, v w in D".toList = some .expectedIn := by
  decide

/-- C22 (amended): for every line that consists of `#for`, a text `b` without a comma
that holds a character other than whitespace, a comma, whitespace `w1`, a value `v` that
is not empty and holds no whitespace, whitespace `w2` that is not empty, `in`, whitespace
`w3`, a reference `ref` that is not empty and holds no whitespace, and a tail that is
empty or begins with whitespace, `tokenizeFor` succeeds (the line being shorter than
`2 ^ 64` characters, as every `std::string` is). The key is the trimmed text between
`#for` and the first comma, the value is the trimmed text between that comma and `in`,
and the reference is the first token after `in`, up to the next whitespace: the tail is
not part of it. -/
theorem tokenizeFor_tokens (b w1 v w2 w3 ref tail : Str)
    (hb : ',' ∉ b) (hbn : ∃ c ∈ b, c ∉ ws)
    (hw1 : ∀ c ∈ w1, c ∈ ws)
    (hv : v ≠ []) (hvw : ∀ c ∈ v, c ∉ ws)
    (hw2 : w2 ≠ []) (hw2w : ∀ c ∈ w2, c ∈ ws)
    (hw3 : ∀ c ∈ w3, c ∈ ws)
    (href : ref ≠ []) (hrefw : ∀ c ∈ ref, c ∉ ws)
    (htail : tail = [] ∨ ∃ c cs, tail = c :: cs ∧ c ∈ ws)
    (hlen : (forString ++ b ++ [','] ++ w1 ++ v ++ w2 ++ inString ++ w3 ++ ref
      ++ tail).length < 2 ^ 64) :
    tokenizeFor (forString ++ b ++ [','] ++ w1 ++ v ++ w2 ++ inString ++ w3 ++ ref ++ tail)
        = some (.tokens (trim b) v ref)
      ∧ trim (w1 ++ v ++ w2) = v := by
  obtain ⟨h1, ⟨a, ha, haw⟩, hz, hdec, hafter⟩ := (trimParts_cases b).1 hbn
  have hw0 : ∀ c ∈ (trimParts b).1, c ∈ ws := by
    intro c hc
    rw [h1] at hc
    simpa using (List.mem_takeWhile_imp hc)
  obtain ⟨ks, hks⟩ : ∃ ks, trim b = a :: ks := by
    show ∃ ks, (trimParts b).2.1 = a :: ks
    cases ht : (trimParts b).2.1 with
    | nil => rw [ht] at ha; cases ha
    | cons x xs =>
      rw [ht] at ha
      simp only [List.head?_cons, Option.some.injEq] at ha
      exact ⟨xs, by rw [ha]⟩
  have hklast : ∀ x, (trim b).getLast? = some x → x ∉ ws := by
    intro x hx
    obtain ⟨z, hz1, hz2⟩ := hz
    have : (trimParts b).2.1.getLast? = some x := hx
    rw [hz1] at this
    cases this
    exact hz2
  have hkc : ',' ∉ trim b := by
    intro hc
    apply hb
    rw [← hdec]
    simp only [List.mem_append]
    exact Or.inl (Or.inr hc)
  have hbeq : b = (trimParts b).1 ++ (trim b ++ (trimParts b).2.2) := by
    conv_lhs => rw [← hdec]
    simp only [trim, List.append_assoc]
  obtain ⟨v0, vs, hv0⟩ : ∃ v0 vs, v = v0 :: vs := by
    cases v with
    | nil => exact absurd rfl hv
    | cons x xs => exact ⟨x, xs, rfl⟩
  refine ⟨?_, trim_between w1 v w2 v0 vs hw1 hw2w hv0 (hvw v0 (by rw [hv0]; simp))
    (fun x hx => hvw x (List.mem_of_mem_getLast? hx))⟩
  have hform : forString ++ b ++ [','] ++ w1 ++ v ++ w2 ++ inString ++ w3 ++ ref ++ tail
      = forString ++ ((trimParts b).1 ++ (trim b ++ ((trimParts b).2.2 ++ ([','] ++ (w1
          ++ (v ++ (w2 ++ (inString ++ (w3 ++ (ref ++ tail)))))))))) := by
    conv_lhs => rw [hbeq]
    simp only [List.append_assoc]
  rw [hform] at hlen ⊢
  exact tokenizeFor_parts (trimParts b).1 (trim b) (trimParts b).2.2 w1 v w2 w3 ref tail a ks
    hw0 hks haw hklast hkc hafter hw1 hv hvw hw2 hw2w hw3 href hrefw htail hlen

/-- C22 (amended) at the line `#for k, v in a b`. -/
theorem tokenizeFor_tokens_witness :
    tokenizeFor ("#for".toList ++ " k".toList ++ [','] ++ " ".toList ++ "v".toList
        ++ " ".toList ++ "in".toList ++ " ".toList ++ "a".toList ++ " b".toList)
        = some (.tokens (trim " k".toList) "v".toList "a".toList)
      ∧ trim (" ".toList ++ "v".toList ++ " ".toList) = "v".toList :=
  tokenizeFor_tokens " k".toList " ".toList "v".toList " ".toList " ".toList "a".toList
    " b".toList (by decide) ⟨'k', by decide, by decide⟩ (by decide) (by decide) (by decide)
    (by decide) (by decide) (by decide) (by decide) (by decide)
    (Or.inr ⟨' ', "b".toList, rfl, by decide⟩) (by decide)

/-! ## A valid `#endfor` -/

/-- C33: for every root file without the character `#`, `process` succeeds and the output
is the line marker `#line <initial line number> <root filename>` followed, for each line
of the file in order, by the line without its trailing whitespace, its leading whitespace
preserved (a line that holds only whitespace is kept as it is), and a newline. -/
theorem process_hash_free_file (sp : ShaderPreprocessor) (tracked : List Str)
    (content : Str) (fuel : Nat)
    (hopen : sp.fs.openStream (sp.fs.absPath sp.shaderPath) = some content)
    (hhash : hashChar ∉ content) (hfuel : (fileLines content).length + 2 ≤ fuel) :
    process sp tracked fuel
      = .ok (true, "#line ".toList ++ natStr sp.initialLineNumber ++ " ".toList
          ++ sp.fs.filename (sp.fs.absPath sp.shaderPath) ++ "\n".toList
          ++ keptLines (fileLines content)) := by
  have hplain : ∀ l ∈ fileLines content, isPlainLine l = true := fun l hl =>
    isPlainLine_of_no_hash l (fun hx => hhash (fileLines_subset content l hl _ hx))
  rw [process_plain sp tracked content fuel hopen hplain hfuel, renderLines_kept]
  rfl

/-- C33 at the root file with the lines `  a \t`, two spaces, and `b`. -/
theorem process_hash_free_file_witness :
    process (demoPreprocessor [("/s/root.glsl", "  a \t\n  \nb\n")] emptyDictionary) [] 5
      = .ok (true, "#line 1 root.glsl\n  a\n  \nb\n".toList) :=
  process_hash_free_file (demoPreprocessor [("/s/root.glsl", "  a \t\n  \nb\n")]
    emptyDictionary) [] "  a \t\n  \nb\n".toList 5 rfl (by decide) (by decide)

/-! ## The scope stack and the ForStatement stack -/

/-- C34: the scope stack and the ForStatement stack have the same length after every
processed line. The invariant `StackInv` (the invariant of the alias table, and as many
scopes as loops) holds in the initial environment and after every `parseLine` and every
`includeFile` that returns. Under it `parseFor` either leaves the stacks alone or pushes
one scope and one ForStatement; `parseEndFor` either leaves them alone, or replaces the
innermost scope and keeps the ForStatement with its key index incremented, or pops one of
each; whenever one of the two changes `success`, the stacks are as before. At the end of a
run the two checks of `process`, on `forStatements.size()` and on `scopes.size()`, hold
together or not at all. -/
theorem stacks_same_length (sp : ShaderPreprocessor) :
    (∀ tracked, StackInv (Env.initial tracked))
      ∧ (∀ fuel env b env1, StackInv env →
          parseLine sp (includeFile sp fuel) env = .ok (b, env1) → StackInv env1)
      ∧ (∀ fuel path env b env1, StackInv env →
          includeFile sp fuel path env = .ok (b, env1) → StackInv env1)
      ∧ (∀ env b env1, parseFor sp env = .ok (b, env1) →
          (SameStacks env env1
            ∨ ∃ sc fs, env1.scopes = env.scopes ++ [sc]
                ∧ env1.forStatements = env.forStatements ++ [fs])
          ∧ (env1.success ≠ env.success → SameStacks env env1))
      ∧ (∀ env b env1, StackInv env → parseEndFor sp env = .ok (b, env1) →
          (SameStacks env env1
            ∨ (∃ base sc sc1 fss fs, env.scopes = base ++ [sc] ∧ env1.scopes = base ++ [sc1]
                ∧ env.forStatements = fss ++ [fs]
                ∧ env1.forStatements = fss ++ [{ fs with keyIndex := fs.keyIndex + 1 }])
            ∨ (∃ sc fs, env.scopes = env1.scopes ++ [sc]
                ∧ env.forStatements = env1.forStatements ++ [fs]))
          ∧ (env1.success ≠ env.success → SameStacks env env1))
      ∧ (∀ tracked fuel b env,
          includeFile sp fuel (sp.fs.absPath sp.shaderPath)
            (clearTrackedPaths (Env.initial tracked)) = .ok (b, env) →
          (env.forStatements.length > 0 ↔ env.scopes.length > 0)) := by
  refine ⟨stackInv_initial, fun fuel env b env1 => stackInv_parseLine sp fuel env b env1,
    fun fuel path env b env1 => stackInv_includeFile sp fuel path env b env1, ?_, ?_, ?_⟩
  · intro env b env1 h
    rcases parseFor_stacks sp env env1 b h with hs | ⟨sc, fs, a1, a2, a3, _⟩
    · exact ⟨Or.inl hs, fun _ => hs⟩
    · exact ⟨Or.inr ⟨sc, fs, a1, a2⟩, fun hne => absurd a3 hne⟩
  · intro env b env1 hinv h
    rcases parseEndFor_stacks sp env env1 b hinv h with hs
      | ⟨base, sc, sc1, fss, fs, a1, a2, a3, a4, a5⟩ | ⟨sc, fs, a1, a2, a3⟩
    · exact ⟨Or.inl hs, fun _ => hs⟩
    · exact ⟨Or.inr (Or.inl ⟨base, sc, sc1, fss, fs, a1, a2, a3, a4⟩),
        fun hne => absurd a5 hne⟩
    · exact ⟨Or.inr (Or.inr ⟨sc, fs, a1, a2⟩), fun hne => absurd a3 hne⟩
  · intro tracked fuel b env h
    have hinv := stackInv_includeFile sp fuel _ _ b env (stackInv_initial []) h
    rw [hinv.2]

/-- C34 at the root file `#for k, v in D`, `x`, whose loop is left open: `includeFile`
returns with one ForStatement and one scope, and both checks of `process` fail. -/
theorem stacks_same_length_witness :
    ∃ b env, includeFile (demoPreprocessor [("/s/root.glsl", "#for k, v in D\nx\n")]
          demoLoopDictionary) 5 "/s/root.glsl".toList (clearTrackedPaths (Env.initial []))
        = .ok (b, env)
      ∧ env.forStatements.length = 1
      ∧ (env.forStatements.length > 0 ↔ env.scopes.length > 0) := by
  have hlen : (match includeFile (demoPreprocessor [("/s/root.glsl", "#for k, v in D\nx\n")]
        demoLoopDictionary) 5 "/s/root.glsl".toList (clearTrackedPaths (Env.initial [])) with
      | .ok r => r.2.forStatements.length
      | _ => 0) = 1 := by decide
  cases hi : includeFile (demoPreprocessor [("/s/root.glsl", "#for k, v in D\nx\n")]
      demoLoopDictionary) 5 "/s/root.glsl".toList (clearTrackedPaths (Env.initial [])) with
  | ok r =>
    rw [hi] at hlen
    exact ⟨r.1, r.2, rfl, hlen,
      (stacks_same_length (demoPreprocessor [("/s/root.glsl", "#for k, v in D\nx\n")]
        demoLoopDictionary)).2.2.2.2.2 [] 5 r.1 r.2 hi⟩
  | crash => rw [hi] at hlen; cases hlen
  | outOfFuel => rw [hi] at hlen; cases hlen

/-! ## C35: termination without includes -/

/-- C35 (as stated, refuted): a root file whose only line is `#\x7bx\x7d` contains no
`#include`, and the dictionary holds one string; the string is an include directive for
the root file, so the file includes itself and `process` never returns, whatever the
fuel. -/
theorem process_self_include_diverges :
    demoSelfIncludePreprocessor.fs.openStream
        (demoSelfIncludePreprocessor.fs.absPath demoSelfIncludePreprocessor.shaderPath)
      = some "#\x7bx\x7d\n".toList
    ∧ strFind includeString "#\x7bx\x7d\n".toList = none
    ∧ ∀ fuel, process demoSelfIncludePreprocessor [] fuel = .outOfFuel := by
  refine ⟨by decide, by decide, fun fuel => ?_⟩
  have h := selfInclude_outOfFuel fuel (clearTrackedPaths (Env.initial [])) rfl rfl
  have hp : demoSelfIncludePreprocessor.fs.absPath demoSelfIncludePreprocessor.shaderPath
      = "/s/root.glsl".toList := rfl
  simp only [process, processEnv, hp, h]

/-- C35 (amended): when no line that the line loop of the root file reads starts with
`#include` once it is trimmed and substituted in the state in which it is read, `process`
returns, given enough fuel. Every `#endfor` line either unsets `success`, which ends the
run, or starts the next key of the innermost open loop, its key index one higher and below
the number of keys, or closes that loop; and `#for` opens a loop at key index 0 (at -1 when
there are no keys), so a loop over n keys starts at most n passes per entry. -/
theorem process_terminates_without_include (sp : ShaderPreprocessor) (tracked : List Str)
    (hfree : ∀ content, sp.fs.openStream (sp.fs.absPath sp.shaderPath) = some content →
      IncludeFreeRun sp ((clearTrackedPaths (Env.initial tracked)).enter sp
        (sp.fs.absPath sp.shaderPath) content)) :
    (∃ n, ∀ fuel, n ≤ fuel → process sp tracked fuel ≠ .outOfFuel)
    ∧ (∀ (env env1 : Env) (b : Bool), parseEndFor sp env = .ok (b, env1) →
        endForString.isPrefixOf env.line = true →
        env1.success = false
          ∨ ∃ fss fs, env.forStatements = fss ++ [fs]
              ∧ ((0 ≤ fs.keyIndex + 1
                  ∧ (fs.keyIndex + 1).toNat < (sp.dictionary.valueKeys fs.dictionaryRef).length
                  ∧ env1.forStatements = fss ++ [{ fs with keyIndex := fs.keyIndex + 1 }])
                ∨ env1.forStatements = fss))
    ∧ (∀ (env env1 : Env) (b : Bool), parseFor sp env = .ok (b, env1) →
        env1.forStatements = env.forStatements
          ∨ ∃ fs, env1.forStatements = env.forStatements ++ [fs]
              ∧ ((fs.keyIndex = 0 ∧ 0 < (sp.dictionary.valueKeys fs.dictionaryRef).length)
                ∨ (fs.keyIndex = -1
                    ∧ (sp.dictionary.valueKeys fs.dictionaryRef).length = 0))) := by
  refine ⟨process_returns sp tracked hfree, ?_, fun env env1 b h => parseFor_index sp env env1 b h⟩
  intro env env1 b h hpre
  rcases parseEndFor_effect sp env env1 b h with ⟨_, _, hn⟩ | ⟨_, hs⟩
    | ⟨_, fss, fs, ins, input, hfss, _, hv⟩
  · rw [hpre] at hn; cases hn
  · exact Or.inl hs
  · refine Or.inr ⟨fss, fs, hfss, ?_⟩
    rcases hv with ⟨k1, k2, k3, _⟩ | ⟨k1, _⟩
    · exact Or.inl ⟨k1, k2, k3⟩
    · exact Or.inr k1

/-- C35 (amended) at the root file `#for k, v in D`, `#\x7bk\x7d: #\x7bv\x7d`, `#endfor`,
where `D` has the keys `a` and `b`: the run reads five lines, none of which is an include
after substitution, and `process` returns. -/
theorem process_terminates_without_include_witness :
    (∀ content, (demoPreprocessor demoLoopFiles demoLoopDictionary).fs.openStream
        ((demoPreprocessor demoLoopFiles demoLoopDictionary).fs.absPath
          (demoPreprocessor demoLoopFiles demoLoopDictionary).shaderPath) = some content →
      IncludeFreeRun (demoPreprocessor demoLoopFiles demoLoopDictionary)
        ((clearTrackedPaths (Env.initial [])).enter
          (demoPreprocessor demoLoopFiles demoLoopDictionary)
          ((demoPreprocessor demoLoopFiles demoLoopDictionary).fs.absPath
            (demoPreprocessor demoLoopFiles demoLoopDictionary).shaderPath) content))
    ∧ ∃ n, ∀ fuel, n ≤ fuel →
        process (demoPreprocessor demoLoopFiles demoLoopDictionary) [] fuel ≠ .outOfFuel :=
  have hfree : ∀ content, (demoPreprocessor demoLoopFiles demoLoopDictionary).fs.openStream
        ((demoPreprocessor demoLoopFiles demoLoopDictionary).fs.absPath
          (demoPreprocessor demoLoopFiles demoLoopDictionary).shaderPath) = some content →
      IncludeFreeRun (demoPreprocessor demoLoopFiles demoLoopDictionary)
        ((clearTrackedPaths (Env.initial [])).enter
          (demoPreprocessor demoLoopFiles demoLoopDictionary)
          ((demoPreprocessor demoLoopFiles demoLoopDictionary).fs.absPath
            (demoPreprocessor demoLoopFiles demoLoopDictionary).shaderPath) content) := by
    intro content hopen
    have h0 : (demoPreprocessor demoLoopFiles demoLoopDictionary).fs.openStream
        ((demoPreprocessor demoLoopFiles demoLoopDictionary).fs.absPath
          (demoPreprocessor demoLoopFiles demoLoopDictionary).shaderPath)
        = some "#for k, v in D\n#\x7bk\x7d: #\x7bv\x7d\n#endfor\n".toList := by decide
    rw [h0] at hopen
    cases hopen
    exact includeFreeRun_of_check _ _ 6 (by decide) (by decide)
  ⟨hfree, (process_terminates_without_include _ [] hfree).1⟩

/-! ## OpenGL versions -/

/-- C36: for all versions with `0 <= major < 256` and `0 <= minor, release < 1000`, the
operators `<`, `<=`, `>`, `>=`, computed through `packVersion`, agree with the
lexicographic order on `(major, minor, release)`, and `a <= b` together with `a >= b`
holds exactly when `a == b`. -/
theorem version_order (a b : Version) (ha : a.InRange) (hb : b.InRange) :
    (a.lt b = true ↔ a.lexLt b) ∧ (a.le b = true ↔ a.lexLe b)
      ∧ (a.gt b = true ↔ b.lexLt a) ∧ (a.ge b = true ↔ b.lexLe a)
      ∧ ((a.le b = true ∧ a.ge b = true) ↔ a.eq b = true) := by
  obtain ⟨a1, a2, a3⟩ := a
  obtain ⟨b1, b2, b3⟩ := b
  simp only [Version.InRange] at ha hb
  have pa : (packVersion a1 a2 a3 : Int) = a1 * 1000000 + a2 * 1000 + a3 := by
    simp only [packVersion]
    have h0 : (0 : Int) ≤ (a1 * 1000 * 1000 + a2 * 1000 + a3) % 2 ^ 32 :=
      Int.emod_nonneg _ (by norm_num)
    rw [Int.toNat_of_nonneg h0]
    norm_num
    omega
  have pb : (packVersion b1 b2 b3 : Int) = b1 * 1000000 + b2 * 1000 + b3 := by
    simp only [packVersion]
    have h0 : (0 : Int) ≤ (b1 * 1000 * 1000 + b2 * 1000 + b3) % 2 ^ 32 :=
      Int.emod_nonneg _ (by norm_num)
    rw [Int.toNat_of_nonneg h0]
    norm_num
    omega
  simp only [Version.lt, Version.le, Version.gt, Version.ge, Version.eq, Version.lexLt,
    Version.lexLe, decide_eq_true_eq, Bool.and_eq_true, Version.mk.injEq, gt_iff_lt, ge_iff_le]
  refine ⟨?_, ?_, ?_, ?_, ?_⟩ <;> constructor <;> intro h <;> omega

/-- C36 at the versions 3.3.0 and 4.1.0. -/
theorem version_order_witness :
    ((Version.mk 3 3 0).lt (Version.mk 4 1 0) = true
        ↔ (Version.mk 3 3 0).lexLt (Version.mk 4 1 0))
      ∧ ((Version.mk 3 3 0).le (Version.mk 4 1 0) = true
        ↔ (Version.mk 3 3 0).lexLe (Version.mk 4 1 0))
      ∧ ((Version.mk 3 3 0).gt (Version.mk 4 1 0) = true
        ↔ (Version.mk 4 1 0).lexLt (Version.mk 3 3 0))
      ∧ ((Version.mk 3 3 0).ge (Version.mk 4 1 0) = true
        ↔ (Version.mk 4 1 0).lexLe (Version.mk 3 3 0))
      ∧ (((Version.mk 3 3 0).le (Version.mk 4 1 0) = true
          ∧ (Version.mk 3 3 0).ge (Version.mk 4 1 0) = true)
        ↔ (Version.mk 3 3 0).eq (Version.mk 4 1 0) = true) :=
  version_order (Version.mk 3 3 0) (Version.mk 4 1 0) (by simp [Version.InRange])
    (by simp [Version.InRange])

/-! ## Texture units -/

/-- C37: within one context, start from an initialized context without an active unit in
which `n` objects have been constructed, and make any sequence of assignments (calls of
`unitNumber`, `glEnum` or `activate`) and `deactivate` calls on the objects. The sequence
runs without undefined behaviour, and afterwards the invariant `UnitsInv` holds:
`totalActive` is the number of busy entries of `busyUnits` and the number of assigned
objects, it does not exceed `maxTexUnits`, and no two assigned objects hold the same unit.
In that state `assignUnit` throws exactly when every unit is busy, and a unit it assigns
is the lowest one that is not busy. -/
theorem textureUnits_invariant (texture0 : Nat) (c : Context) (cap : Option Nat) (n : Nat)
    (h0 : c.totalActive = 0) (calls : List UnitCall) :
    ∃ w, (Units.start c cap n).run texture0 calls = some w ∧ UnitsInv w
      ∧ ∀ u : TextureUnit,
          ((∃ r, assignUnit texture0 w.ctx u = .thrown r)
            ↔ ∀ j, j < w.ctx.maxTexUnits → w.ctx.busyUnits.get? j = some true)
          ∧ ∀ c1 u1, assignUnit texture0 w.ctx u = .ok (c1, u1) →
              u1.assigned = true ∧ w.ctx.busyUnits.get? u1.number = some false
                ∧ (∀ j, j < u1.number → w.ctx.busyUnits.get? j = some true)
                ∧ c1.busyUnits = w.ctx.busyUnits.set u1.number true
                ∧ c1.totalActive = w.ctx.totalActive + 1 := by
  obtain ⟨w, h1, h2⟩ := unitsInv_run texture0 calls _ (unitsInv_start c cap n h0)
  refine ⟨w, h1, h2, fun u => ?_⟩
  rcases assignUnit_spec texture0 w h2 u with ⟨a1, a2⟩ | ⟨k, k1, k2, k3, k4⟩
  · refine ⟨⟨fun _ => a1, fun _ => ⟨_, a2⟩⟩, fun c1 u1 h => ?_⟩
    rw [a2] at h
    cases h
  · refine ⟨⟨fun ⟨r, hr⟩ => ?_, fun hall => ?_⟩, fun c1 u1 h => ?_⟩
    · rw [k4] at hr
      cases hr
    · have := hall k k1
      rw [k2] at this
      cases this
    · rw [k4] at h
      simp only [Outcome.ok.injEq, Prod.mk.injEq] at h
      obtain ⟨rfl, rfl⟩ := h
      exact ⟨rfl, k2, k3, rfl, rfl⟩

/-- C37 at a context with two units and three objects, after the calls: assign object 0,
assign object 1, assign object 2 (which throws), deactivate object 0, assign object 2
(which takes unit 0). -/
theorem textureUnits_invariant_witness :
    ∃ w, (Units.start { totalActive := 0, maxTexUnits := 0, busyUnits := [] } (some 2) 3).run
        33984 [.assign 0, .assign 1, .assign 2, .deactivate 0, .assign 2] = some w
      ∧ UnitsInv w
      ∧ ∀ u : TextureUnit,
          ((∃ r, assignUnit 33984 w.ctx u = .thrown r)
            ↔ ∀ j, j < w.ctx.maxTexUnits → w.ctx.busyUnits.get? j = some true)
          ∧ ∀ c1 u1, assignUnit 33984 w.ctx u = .ok (c1, u1) →
              u1.assigned = true ∧ w.ctx.busyUnits.get? u1.number = some false
                ∧ (∀ j, j < u1.number → w.ctx.busyUnits.get? j = some true)
                ∧ c1.busyUnits = w.ctx.busyUnits.set u1.number true
                ∧ c1.totalActive = w.ctx.totalActive + 1 :=
  textureUnits_invariant 33984 { totalActive := 0, maxTexUnits := 0, busyUnits := [] }
    (some 2) 3 rfl [.assign 0, .assign 1, .assign 2, .deactivate 0, .assign 2]

/-! ## Fonts -/

/-- C38 (the code at the failing input): a font as the constructor leaves it, with height
`0`, compared with itself, and compared with a font that differs from it in the height
alone. The operand `(_height = rhs._height)` is an assignment: for the height `0` its
value is false, so the font is not equal to itself; for the height `2` it writes `2` into
the left operand, and the comparison returns true for two fonts of different height. -/
theorem font_equality_assigns :
    demoFont.opEq demoFont = (false, demoFont)
      ∧ demoFont.opEq { demoFont with height := 2 } = (true, { demoFont with height := 2 }) := by
  constructor
  · simp [Font.opEq, demoFont]
  · simp [Font.opEq, demoFont]

end Ghoul
